import Mathlib

/-!
# Early-boot page-table builder (arch/arm64/mm/mmu.c)

A shallow embedding of the hierarchy builder of `arch/arm64/mm/mmu.c` for the
configuration the file itself selects with `#ifndef CONFIG_ARM64_64K_PAGES`:
4 KiB pages, a 39-bit kernel address space and three levels of tables, the
upper directory (pud) being folded into the top one (pgd).

* `unsigned long` and `phys_addr_t` values are natural numbers below `2^64`;
  every arithmetic step that can overflow is reduced modulo `2^64`.
* Physical memory is a map from the byte address of a 64-bit word to its value.
  A pointer into a table is the physical address of the entry; `__va` and
  `__pa` on table pointers are therefore the identity.
* Halting paths (`BUG_ON`, the allocator's panic) and a loop that never reaches
  its exit test are results of type `Halt`.
* The constants and accessors of the architecture headers, which are not part
  of the sources studied here, are written out as definitions with the names the
  headers give them.
-/

namespace Mmu

/-! ## Machine words -/

/-- The modulus of 64-bit arithmetic. -/
def U64 : Nat := 18446744073709551616

/-- Truncation of a natural number to an `unsigned long`. -/
def wrap (x : Nat) : Nat := x % U64

/-- Unsigned 64-bit subtraction. -/
def usub (a b : Nat) : Nat := (a + U64 - b) % U64

/-- Bitwise complement of an `unsigned long`. -/
def not64 (x : Nat) : Nat := U64 - 1 - x

/-! ## Constants of the architecture headers (4 KiB pages, three levels) -/

def PAGE_SHIFT : Nat := 12
def PAGE_SIZE : Nat := 4096
def PAGE_MASK : Nat := not64 (PAGE_SIZE - 1)
def PMD_SHIFT : Nat := 21
def PMD_SIZE : Nat := 2097152
def PMD_MASK : Nat := not64 (PMD_SIZE - 1)
def PGDIR_SHIFT : Nat := 30
def PGDIR_SIZE : Nat := 1073741824
def PGDIR_MASK : Nat := not64 (PGDIR_SIZE - 1)
def SECTION_SHIFT : Nat := 21
def SECTION_SIZE : Nat := 2097152
def SECTION_MASK : Nat := not64 (SECTION_SIZE - 1)
def PTRS_PER_PTE : Nat := 512
def PTRS_PER_PMD : Nat := 512
def PTRS_PER_PGD : Nat := 512
def VA_BITS : Nat := 39
def PAGE_OFFSET : Nat := 0xffffffc000000000
def VMALLOC_START : Nat := 0xffffff8000000000
def PHYS_MASK : Nat := 0xffffffffff
def MEMBLOCK_ALLOC_ANYWHERE : Nat := 0xffffffffffffffff

def PMD_TYPE_TABLE : Nat := 3
def PMD_TYPE_SECT : Nat := 1
def PMD_SECT_S : Nat := 0x300
def PMD_SECT_AF : Nat := 0x400
def PMD_SECT_RDONLY : Nat := 0x80
def PMD_SECT_PXN : Nat := 0x20000000000000
def PTE_TYPE_PAGE : Nat := 3
def PTE_RDONLY : Nat := 0x80
def PTE_SHARED : Nat := 0x300
def PTE_AF : Nat := 0x400
def PTE_PXN : Nat := 0x20000000000000
def PTE_UXN : Nat := 0x40000000000000
def PTE_DIRTY : Nat := 0x80000000000000
def MT_NORMAL : Nat := 4
def MT_DEVICE_nGnRE : Nat := 1
def PMD_ATTRINDX (t : Nat) : Nat := t <<< 2
def PTE_ATTRINDX (t : Nat) : Nat := t <<< 2
def PROT_DEFAULT : Nat := PTE_TYPE_PAGE ||| PTE_AF ||| PTE_DIRTY
def PROT_SECT_DEFAULT : Nat := PMD_TYPE_SECT ||| PMD_SECT_AF
def PROT_DEVICE_nGnRE : Nat :=
  PROT_DEFAULT ||| PTE_PXN ||| PTE_UXN ||| PTE_ATTRINDX MT_DEVICE_nGnRE
def PROT_SECT_DEVICE_nGnRE : Nat :=
  PROT_SECT_DEFAULT ||| PTE_PXN ||| PTE_UXN ||| PMD_ATTRINDX MT_DEVICE_nGnRE

/-! ## State -/

/-- Ways in which the boot code stops instead of returning. -/
inductive Halt where
  | bug
  | oom
  | hang
  deriving DecidableEq, Repr

/-- Build-time and link-time parameters. -/
structure Config where
  /-- physical address of `swapper_pg_dir`, the top directory of `init_mm` -/
  swapper_pg_dir : Nat
  /-- physical address of the start of RAM (`memstart_addr`) -/
  PHYS_OFFSET : Nat
  /-- `CONFIG_STRICT_MEMORY_RWX` -/
  strict_rwx : Bool
  /-- `CONFIG_SMP` -/
  smp : Bool
  /-- `CONFIG_FORCE_PAGES` -/
  force_pages : Bool
  /-- image layout symbols of `asm/sections.h` -/
  stext : Nat
  start_rodata : Nat
  init_begin : Nat
  init_data_begin : Nat
  /-- `pfn_valid` of the memory model -/
  pfn_valid : Nat → Bool

/-- The mutable state the builder works on. The last three fields only count
events; no code reads them. -/
structure State where
  /-- physical memory, one 64-bit word per byte address of the word -/
  mem : Nat → Nat
  /-- lowest byte of the bootstrap pool not handed out yet -/
  brk : Nat
  /-- first byte after the bootstrap pool -/
  pool_end : Nat
  /-- `memblock.current_limit` -/
  limit : Nat
  /-- the static `prot_sect_kernel` -/
  prot_sect_kernel : Nat
  /-- the global `pgprot_default` -/
  pgprot_default : Nat
  /-- number of leaf tables `alloc_init_pte` has allocated -/
  pte_tables : Nat
  /-- number of calls of `alloc_init_pte` -/
  pte_calls : Nat
  /-- number of calls of `flush_tlb_all` -/
  tlb_flushes : Nat

/-! ## Accessors of the architecture headers -/

def __phys_to_virt (c : Config) (x : Nat) : Nat := wrap (usub x c.PHYS_OFFSET + PAGE_OFFSET)
def __phys_to_pfn (paddr : Nat) : Nat := paddr >>> PAGE_SHIFT
def ALIGN (x a : Nat) : Nat := wrap (x + a - 1) &&& not64 (a - 1)
def PAGE_ALIGN (addr : Nat) : Nat := ALIGN addr PAGE_SIZE

def pgd_index (addr : Nat) : Nat := (addr >>> PGDIR_SHIFT) &&& (PTRS_PER_PGD - 1)
def pmd_index (addr : Nat) : Nat := (addr >>> PMD_SHIFT) &&& (PTRS_PER_PMD - 1)
def pte_index (addr : Nat) : Nat := (addr >>> PAGE_SHIFT) &&& (PTRS_PER_PTE - 1)

def pgd_addr_end (addr end_ : Nat) : Nat :=
  let boundary := wrap (addr + PGDIR_SIZE) &&& PGDIR_MASK
  if usub boundary 1 < usub end_ 1 then boundary else end_

/-- With the upper directory folded (`asm-generic/pgtable-nopud.h`). -/
def pud_addr_end (_addr end_ : Nat) : Nat := end_

def pmd_addr_end (addr end_ : Nat) : Nat :=
  let boundary := wrap (addr + PMD_SIZE) &&& PMD_MASK
  if usub boundary 1 < usub end_ 1 then boundary else end_

def pud_none (pud : Nat) : Bool := pud == 0
def pud_bad (pud : Nat) : Bool := pud &&& 2 == 0
def pmd_none (pmd : Nat) : Bool := pmd == 0
def pmd_bad (pmd : Nat) : Bool := pmd &&& 2 == 0
def pte_none (pte : Nat) : Bool := pte == 0

/-- The table a pud entry refers to (`__va` dropped, see the header). -/
def pud_page_vaddr (pud : Nat) : Nat := pud &&& PHYS_MASK &&& PAGE_MASK
def pmd_page_vaddr (pmd : Nat) : Nat := pmd &&& PHYS_MASK &&& PAGE_MASK

def pgd_offset_k (c : Config) (addr : Nat) : Nat := c.swapper_pg_dir + 8 * pgd_index addr
/-- With the upper directory folded, the pud entry is the pgd entry. -/
def pud_offset (pgd : Nat) (_addr : Nat) : Nat := pgd
/-- Takes the value of the pud entry, read by the caller. -/
def pmd_offset (pud_val : Nat) (addr : Nat) : Nat := pud_page_vaddr pud_val + 8 * pmd_index addr
/-- Takes the value of the pmd entry, read by the caller. -/
def pte_offset_kernel (pmd_val : Nat) (addr : Nat) : Nat :=
  pmd_page_vaddr pmd_val + 8 * pte_index addr

def pfn_pte (pfn prot : Nat) : Nat := wrap (pfn <<< PAGE_SHIFT) ||| prot
def pte_pfn (pte : Nat) : Nat := (pte &&& PHYS_MASK) >>> PAGE_SHIFT
def PAGE_KERNEL_EXEC (s : State) : Nat := s.pgprot_default ||| (PTE_UXN ||| PTE_DIRTY)

/-- Store of one 64-bit word. -/
def store (s : State) (p v : Nat) : State :=
  { s with mem := fun q => if q = p then v else s.mem q }

def set_pte (s : State) (ptep pte : Nat) : State := store s ptep pte
def set_pmd (s : State) (pmdp pmd : Nat) : State := store s pmdp pmd
def set_pud (s : State) (pudp pud : Nat) : State := store s pudp pud
def pmd_clear (s : State) (pmdp : Nat) : State := set_pmd s pmdp 0
def __pmd_populate (s : State) (pmdp pte prot : Nat) : State := set_pmd s pmdp (pte ||| prot)
def pud_populate (s : State) (pudp pmd : Nat) : State := set_pud s pudp (pmd ||| PMD_TYPE_TABLE)
def flush_tlb_all (s : State) : State := { s with tlb_flushes := s.tlb_flushes + 1 }
def memblock_set_current_limit (s : State) (limit : Nat) : State := { s with limit := limit }

/-- The words of `[p, p + n)` set to `v`. -/
def memset (s : State) (p v n : Nat) : State :=
  { s with mem := fun q => if p ≤ q ∧ q < p + n then v else s.mem q }

/-! ## The attribute words -/

/-- The loop over `protection_map`, the table of user protections, is left out:
no code of the builder reads that table. -/
def init_mem_pgprot (c : Config) (s : State) : State :=
  let default_pgprot := PTE_ATTRINDX MT_NORMAL
  let prot_sect_kernel := PMD_TYPE_SECT ||| PMD_SECT_AF ||| PMD_ATTRINDX MT_NORMAL
  let default_pgprot := if c.smp then default_pgprot ||| PTE_SHARED else default_pgprot
  let prot_sect_kernel := if c.smp then prot_sect_kernel ||| PMD_SECT_S else prot_sect_kernel
  { s with prot_sect_kernel := prot_sect_kernel,
           pgprot_default := PTE_TYPE_PAGE ||| PTE_AF ||| default_pgprot }

/-! ## The bootstrap allocator -/

/-- Modelled from the spec: `memblock_alloc` (mm/memblock.c is not among the
sources). The spec's Bootstrap Allocator hands out naturally aligned memory from
a pre-reserved pool, has no free operation and halts when the pool is exhausted;
here the pool is `[brk, pool_end)`, cut at the current limit, handed out upwards. -/
def memblock_alloc (s : State) (size align : Nat) : Except Halt (Nat × State) :=
  let p := (s.brk + align - 1) / align * align
  if p + size ≤ s.pool_end ∧ p + size ≤ s.limit then
    .ok (p, { s with brk := p + size })
  else .error Halt.oom

def early_alloc (s : State) (sz : Nat) : Except Halt (Nat × State) :=
  match memblock_alloc s sz sz with
  | .error e => .error e
  | .ok (ptr, s1) => .ok (ptr, memset s1 ptr 0 sz)

/-! ## The builder -/

/-- Bound on the iterations of any loop below: each strictly advances a 64-bit
address, so a run that needs more never reaches its exit test. -/
def FUEL : Nat := U64

/-- The `do { ... } while (pte++, addr += PAGE_SIZE, addr != end)` of
`alloc_init_pte`. -/
def alloc_init_pte_loop : Nat → State → Nat → Nat → Nat → Nat → Except Halt State
  | 0, _, _, _, _, _ => .error Halt.hang
  | fuel + 1, s, pte, addr, end_, pfn =>
    let s1 := set_pte s pte (pfn_pte pfn (PAGE_KERNEL_EXEC s))
    let pfn1 := wrap (pfn + 1)
    let addr1 := wrap (addr + PAGE_SIZE)
    if addr1 ≠ end_ then alloc_init_pte_loop fuel s1 (pte + 8) addr1 end_ pfn1
    else .ok s1

/-- The part of `alloc_init_pte` before the loop: allocate the leaf table when
the pmd entry is empty. -/
def alloc_init_pte_table (s : State) (pmd : Nat) : Except Halt State :=
  if pmd_none (s.mem pmd) then
    match early_alloc s (PTRS_PER_PTE * 8) with
    | .error e => .error e
    | .ok (pte, s1) =>
      .ok (__pmd_populate { s1 with pte_tables := s1.pte_tables + 1 } pmd pte PMD_TYPE_TABLE)
  else .ok s

def alloc_init_pte (s : State) (pmd addr end_ pfn : Nat) : Except Halt State :=
  match alloc_init_pte_table { s with pte_calls := s.pte_calls + 1 } pmd with
  | .error e => .error e
  | .ok s1 =>
    if pmd_bad (s1.mem pmd) then .error Halt.bug
    else alloc_init_pte_loop FUEL s1 (pte_offset_kernel (s1.mem pmd) addr) addr end_ pfn

def get_pmd_prot_sect_kernel (c : Config) (s : State) (addr : Nat) : Nat :=
  if c.strict_rwx then
    if addr ≥ c.init_data_begin then s.prot_sect_kernel ||| PMD_SECT_PXN
    else if addr ≥ c.init_begin then s.prot_sect_kernel ||| PMD_SECT_RDONLY
    else if addr ≥ c.start_rodata then s.prot_sect_kernel ||| PMD_SECT_RDONLY ||| PMD_SECT_PXN
    else if addr ≥ c.stext then s.prot_sect_kernel ||| PMD_SECT_RDONLY
    else s.prot_sect_kernel ||| PMD_SECT_PXN
  else s.prot_sect_kernel

/-- One pass through the body of the loop of `alloc_init_pmd`, up to the update
of `phys`. -/
def alloc_init_pmd_body (c : Config) (s : State) (pmd addr next phys : Nat) (pages : Bool) :
    Except Halt State :=
  if !pages && ((addr ||| next ||| phys) &&& not64 SECTION_MASK) == 0 then
    let old_pmd := s.mem pmd
    let s1 := set_pmd s pmd (phys ||| get_pmd_prot_sect_kernel c s addr)
    if !pmd_none old_pmd then .ok (flush_tlb_all s1) else .ok s1
  else alloc_init_pte s pmd addr next (__phys_to_pfn phys)

/-- The `do { ... } while (pmd++, addr = next, addr != end)` of `alloc_init_pmd`.
The source closes the `else` branch one brace short; `phys += next - addr` is
read where its indentation and the sibling loops put it, in the loop body after
the `if`. -/
def alloc_init_pmd_loop (c : Config) :
    Nat → State → Nat → Nat → Nat → Nat → Bool → Except Halt State
  | 0, _, _, _, _, _, _ => .error Halt.hang
  | fuel + 1, s, pmd, addr, end_, phys, pages =>
    let next := pmd_addr_end addr end_
    match alloc_init_pmd_body c s pmd addr next phys pages with
    | .error e => .error e
    | .ok s1 =>
      let phys1 := wrap (phys + usub next addr)
      if next ≠ end_ then alloc_init_pmd_loop c fuel s1 (pmd + 8) next end_ phys1 pages
      else .ok s1

/-- The part of `alloc_init_pmd` before the loop: replace an empty or malformed
pud entry by a fresh table. -/
def alloc_init_pmd_table (s : State) (pud : Nat) : Except Halt State :=
  if pud_none (s.mem pud) || pud_bad (s.mem pud) then
    match early_alloc s (PTRS_PER_PMD * 8) with
    | .error e => .error e
    | .ok (pmd, s1) => .ok (pud_populate s1 pud pmd)
  else .ok s

def alloc_init_pmd (c : Config) (s : State) (pud addr end_ phys : Nat) (pages : Bool) :
    Except Halt State :=
  match alloc_init_pmd_table s pud with
  | .error e => .error e
  | .ok s1 => alloc_init_pmd_loop c FUEL s1 (pmd_offset (s1.mem pud) addr) addr end_ phys pages

/-- The `do { ... } while (pud++, addr = next, addr != end)` of `alloc_init_pud`. -/
def alloc_init_pud_loop (c : Config) :
    Nat → State → Nat → Nat → Nat → Nat → Bool → Except Halt State
  | 0, _, _, _, _, _, _ => .error Halt.hang
  | fuel + 1, s, pud, addr, end_, phys, force_pages =>
    let next := pud_addr_end addr end_
    match alloc_init_pmd c s pud addr next phys force_pages with
    | .error e => .error e
    | .ok s1 =>
      let phys1 := wrap (phys + usub next addr)
      if next ≠ end_ then alloc_init_pud_loop c fuel s1 (pud + 8) next end_ phys1 force_pages
      else .ok s1

def alloc_init_pud (c : Config) (s : State) (pgd addr end_ phys : Nat) (force_pages : Bool) :
    Except Halt State :=
  alloc_init_pud_loop c FUEL s (pud_offset pgd addr) addr end_ phys force_pages

/-- The `do { ... } while (pgd++, addr = next, addr != end)` of `create_mapping`. -/
def create_mapping_loop (c : Config) :
    Nat → State → Nat → Nat → Nat → Nat → Bool → Except Halt State
  | 0, _, _, _, _, _, _ => .error Halt.hang
  | fuel + 1, s, pgd, addr, end_, phys, force_pages =>
    let next := pgd_addr_end addr end_
    match alloc_init_pud c s pgd addr next phys force_pages with
    | .error e => .error e
    | .ok s1 =>
      let phys1 := wrap (phys + usub next addr)
      if next ≠ end_ then create_mapping_loop c fuel s1 (pgd + 8) next end_ phys1 force_pages
      else .ok s1

/-- The warning printed for a rejected request leaves the state alone. -/
def create_mapping (c : Config) (s : State) (phys virt size : Nat) (force_pages : Bool) :
    Except Halt State :=
  if virt < VMALLOC_START then .ok s
  else
    let addr := virt &&& PAGE_MASK
    let length := PAGE_ALIGN (wrap (size + (virt &&& not64 PAGE_MASK)))
    let pgd := pgd_offset_k c addr
    let end_ := wrap (addr + length)
    create_mapping_loop c FUEL s pgd addr end_ phys force_pages

def pmd_off_k (c : Config) (s : State) (virt : Nat) : Nat :=
  pmd_offset (s.mem (pud_offset (pgd_offset_k c virt) virt)) virt

/-! ## Remapping with page granularity -/

/-- The clearing loop of `remap_as_pages`:
`for (addr = ...; addr < __phys_to_virt(end); addr += PMD_SIZE) pmd_clear(pmd_off_k(addr))`. -/
def remap_as_pages_clear (c : Config) : Nat → State → Nat → Nat → Except Halt State
  | 0, _, _, _ => .error Halt.hang
  | fuel + 1, s, addr, vend =>
    if addr < vend then
      remap_as_pages_clear c fuel (pmd_clear s (pmd_off_k c s addr)) (wrap (addr + PMD_SIZE)) vend
    else .ok s

def remap_as_pages (c : Config) (s : State) (start size : Nat) : Except Halt State :=
  let end_ := wrap (start + size)
  (remap_as_pages_clear c FUEL s (__phys_to_virt c start) (__phys_to_virt c end_)).bind
    (fun s1 => create_mapping c s1 start (__phys_to_virt c start) size true)

/-! ## The early I/O window -/

/-- The result is the returned pointer (`none` for `NULL`) and the state.
`page64k` is `IS_ENABLED(CONFIG_ARM64_64K_PAGES)`; the accessors are those of the
4 KiB configuration of this development, so with `page64k` true the function is
the source text read over them. -/
def early_io_map (c : Config) (s : State) (page64k : Bool) (phys virt : Nat) :
    Option Nat × State :=
  let size := if page64k then PAGE_SIZE else SECTION_SIZE
  let mask := not64 (size - 1)
  let pgd := pgd_offset_k c virt
  let pud := pud_offset pgd virt
  if pud_none (s.mem pud) then (none, s)
  else
    let pmd := pmd_offset (s.mem pud) virt
    if page64k then
      if pmd_none (s.mem pmd) then (none, s)
      else
        let pte := pte_offset_kernel (s.mem pmd) virt
        (some (wrap ((virt &&& mask) + (phys &&& not64 mask))),
          set_pte s pte ((phys &&& mask) ||| PROT_DEVICE_nGnRE))
    else
      (some (wrap ((virt &&& mask) + (phys &&& not64 mask))),
        set_pmd s pmd ((phys &&& mask) ||| PROT_SECT_DEVICE_nGnRE))

/-! ## Mapping the memory banks -/

/-- The `for_each_memblock(memory, reg)` loop of `map_mem`; `limit` is the local
variable of that name.  A halt of `create_mapping` is passed on by `Except.bind`. -/
def map_mem_loop (c : Config) : List (Nat × Nat) → State → Nat → Except Halt State
  | [], s, _ => .ok s
  | reg :: regs, s, limit =>
    let start := reg.1
    let end_ := wrap (start + reg.2)
    if start ≥ end_ then .ok s
    else
      let start1 := if start < limit then ALIGN start PMD_SIZE else start
      let limit1 := if end_ < limit then end_ &&& PMD_MASK else limit
      let s1 := if end_ < limit then memblock_set_current_limit s limit1 else s
      (create_mapping c s1 start1 (__phys_to_virt c start1) (usub end_ start1) false).bind
        (fun s2 => map_mem_loop c regs s2 limit1)

/-- The list of memory banks (`memblock.memory`) is an argument. -/
def map_mem (c : Config) (s : State) (regs : List (Nat × Nat)) : Except Halt State :=
  let limit := wrap (c.PHYS_OFFSET + PGDIR_SIZE)
  match map_mem_loop c regs (memblock_set_current_limit s limit) limit with
  | .error e => .error e
  | .ok s1 => .ok (memblock_set_current_limit s1 MEMBLOCK_ALLOC_ANYWHERE)

/-! ## Splitting block mappings (`CONFIG_FORCE_PAGES`) -/

/-- The `do { ... } while (pte++, addr += PAGE_SIZE, addr != end)` of `split_pmd`. -/
def split_pmd_loop : Nat → State → Nat → Nat → Nat → Nat → Except Halt State
  | 0, _, _, _, _, _ => .error Halt.hang
  | fuel + 1, s, pte, addr, end_, pfn =>
    let s1 := set_pte s pte (pfn_pte pfn (PAGE_KERNEL_EXEC s))
    let pfn1 := wrap (pfn + 1)
    let addr1 := wrap (addr + PAGE_SIZE)
    if addr1 ≠ end_ then split_pmd_loop fuel s1 (pte + 8) addr1 end_ pfn1
    else .ok s1

def split_pmd (s : State) (pmd addr end_ pfn : Nat) : Except Halt State :=
  match early_alloc s (PTRS_PER_PTE * 8) with
  | .error e => .error e
  | .ok (start_pte, s1) =>
    match split_pmd_loop FUEL s1 start_pte addr end_ pfn with
    | .error e => .error e
    | .ok s2 => .ok (set_pmd s2 pmd (start_pte ||| PMD_TYPE_TABLE))

/-- The innermost `do { ... } while (addr_pmd = next_pmd, addr_pmd < next_pud)` of
`remap_pages`. -/
def remap_pages_pmd_loop : Nat → State → Nat → Nat → Nat → Nat → Except Halt State
  | 0, _, _, _, _, _ => .error Halt.hang
  | fuel + 1, s, pmd, addr_pmd, next_pud, phys_pmd =>
    let next_pmd := pmd_addr_end addr_pmd next_pud
    match (if pmd_none (s.mem pmd) || pmd_bad (s.mem pmd) then
        split_pmd s pmd addr_pmd next_pmd (__phys_to_pfn phys_pmd) else .ok s) with
    | .error e => .error e
    | .ok s1 =>
      let phys1 := wrap (phys_pmd + usub next_pmd addr_pmd)
      if next_pmd < next_pud then remap_pages_pmd_loop fuel s1 (pmd + 8) next_pmd next_pud phys1
      else .ok s1

/-- The middle `do { ... } while (pud++, addr_pud = next_pud, addr_pud < next_pgd)`. -/
def remap_pages_pud_loop : Nat → State → Nat → Nat → Nat → Nat → Except Halt State
  | 0, _, _, _, _, _ => .error Halt.hang
  | fuel + 1, s, pud, addr_pud, next_pgd, phys_pud =>
    let next_pud := pud_addr_end addr_pud next_pgd
    let pmd := pmd_offset (s.mem pud) addr_pud
    match remap_pages_pmd_loop FUEL s pmd addr_pud next_pud phys_pud with
    | .error e => .error e
    | .ok s1 =>
      let phys1 := wrap (phys_pud + usub next_pud addr_pud)
      if next_pud < next_pgd then remap_pages_pud_loop fuel s1 (pud + 8) next_pud next_pgd phys1
      else .ok s1

/-- The outer `do { ... } while (pgd++, addr_pgd = next_pgd, addr_pgd < end)`. -/
def remap_pages_pgd_loop : Nat → State → Nat → Nat → Nat → Nat → Except Halt State
  | 0, _, _, _, _, _ => .error Halt.hang
  | fuel + 1, s, pgd, addr_pgd, end_, phys_pgd =>
    let next_pgd := pgd_addr_end addr_pgd end_
    let pud := pud_offset pgd addr_pgd
    match remap_pages_pud_loop FUEL s pud addr_pgd next_pgd phys_pgd with
    | .error e => .error e
    | .ok s1 =>
      let phys1 := wrap (phys_pgd + usub next_pgd addr_pgd)
      if next_pgd < end_ then remap_pages_pgd_loop fuel s1 (pgd + 8) next_pgd end_ phys1
      else .ok s1

/-- The `for_each_memblock(memory, reg)` loop of `remap_pages`. -/
def remap_pages_regions (c : Config) : List (Nat × Nat) → State → Except Halt State
  | [], s => .ok s
  | reg :: regs, s =>
    let phys_pgd := reg.1
    let phys_end := wrap (reg.1 + reg.2)
    let addr_pgd := __phys_to_virt c phys_pgd
    let end_ := __phys_to_virt c phys_end
    if phys_pgd ≥ phys_end then .ok s
    else
      match remap_pages_pgd_loop FUEL s (pgd_offset_k c addr_pgd) addr_pgd end_ phys_pgd with
      | .error e => .error e
      | .ok s1 => remap_pages_regions c regs s1

/-- Empty without `CONFIG_FORCE_PAGES`. -/
def remap_pages (c : Config) (s : State) (regs : List (Nat × Nat)) : Except Halt State :=
  if c.force_pages then remap_pages_regions c regs s else .ok s

/-! ## The address validator -/

/-- Arithmetic shift right of a 64-bit value read as signed. -/
def sar64 (x n : Nat) : Nat :=
  if x < 9223372036854775808 then x >>> n else U64 - 1 - ((U64 - 1 - x) >>> n)

/-- With the upper directory folded the top entry always counts as present. -/
def pgd_none (_pgd : Nat) : Bool := false

def kern_addr_valid (c : Config) (s : State) (addr : Nat) : Nat :=
  if sar64 addr VA_BITS ≠ U64 - 1 then 0
  else
    let pgd := pgd_offset_k c addr
    if pgd_none (s.mem pgd) then 0
    else
      let pud := pud_offset pgd addr
      if pud_none (s.mem pud) then 0
      else
        let pmd := pmd_offset (s.mem pud) addr
        if pmd_none (s.mem pmd) then 0
        else
          let pte := pte_offset_kernel (s.mem pmd) addr
          if pte_none (s.mem pte) then 0
          else if c.pfn_valid (pte_pfn (s.mem pte)) then 1 else 0

/-! ## Reading the hierarchy -/

/-- An entry the accessors treat as a reference to a next-level table: it is
not `pmd_bad` (respectively `pud_bad`). -/
def is_table (e : Nat) : Prop := e &&& 2 ≠ 0

instance (e : Nat) : Decidable (is_table e) := by
  unfold is_table
  exact inferInstance

/-- Addresses the builder accepts. -/
def InWindow (a : Nat) : Prop := VMALLOC_START ≤ a ∧ a < U64

/-- Entry `i` of the top directory. -/
def pgd_entry (c : Config) (s : State) (i : Nat) : Nat := s.mem (c.swapper_pg_dir + 8 * i)
/-- The middle table entry `i` of the top directory refers to. -/
def pmd_table (c : Config) (s : State) (i : Nat) : Nat := pud_page_vaddr (pgd_entry c s i)
/-- Entry `j` of that middle table. -/
def pmd_entry (c : Config) (s : State) (i j : Nat) : Nat := s.mem (pmd_table c s i + 8 * j)
/-- The leaf table that entry refers to. -/
def pte_table (c : Config) (s : State) (i j : Nat) : Nat := pmd_page_vaddr (pmd_entry c s i j)
/-- Entry `k` of that leaf table. -/
def pte_entry (c : Config) (s : State) (i j k : Nat) : Nat := s.mem (pte_table c s i j + 8 * k)

/-- What a walk from the top directory finds. -/
inductive Read where
  /-- the top entry is not a table reference -/
  | nopud
  /-- the middle entry `e` is not a table reference (empty, or a block mapping) -/
  | pmd (e : Nat)
  /-- the middle entry `e` is a table reference and the leaf entry is `v` -/
  | pte (e v : Nat)
  deriving DecidableEq, Repr

/-- The walk for the slot with indices `i`, `j`, `k`. -/
def readI (c : Config) (s : State) (i j k : Nat) : Read :=
  if is_table (pgd_entry c s i) then
    if is_table (pmd_entry c s i j) then Read.pte (pmd_entry c s i j) (pte_entry c s i j k)
    else Read.pmd (pmd_entry c s i j)
  else Read.nopud

/-- The walk for a virtual address. -/
def read (c : Config) (s : State) (a : Nat) : Read :=
  readI c s (pgd_index a) (pmd_index a) (pte_index a)

/-- A table page the allocator will not hand out: it lies below the part of the
pool still free, or after the pool. -/
def Safe (s : State) (T : Nat) : Prop := T + 4096 ≤ s.brk ∨ s.pool_end ≤ T

/-- Well-formedness of the hierarchy (the invariants of the data model): the
tables reachable through table references are pairwise distinct pages, none of
them in the free part of the pool. -/
structure Inv (c : Config) (s : State) : Prop where
  pgd_al : c.swapper_pg_dir % 4096 = 0
  brk_al : s.brk % 4096 = 0
  pool_le : s.pool_end ≤ 1099511627776
  pgd_safe : Safe s c.swapper_pg_dir
  pmd_safe : ∀ i, i < 512 → is_table (pgd_entry c s i) →
    Safe s (pmd_table c s i) ∧ pmd_table c s i ≠ c.swapper_pg_dir
  pmd_inj : ∀ i i2, i < 512 → i2 < 512 → is_table (pgd_entry c s i) →
    is_table (pgd_entry c s i2) → pmd_table c s i = pmd_table c s i2 → i = i2
  pte_safe : ∀ i j, i < 512 → j < 512 → is_table (pgd_entry c s i) →
    is_table (pmd_entry c s i j) →
    Safe s (pte_table c s i j) ∧ pte_table c s i j ≠ c.swapper_pg_dir
  pte_pmd : ∀ i j i2, i < 512 → j < 512 → i2 < 512 → is_table (pgd_entry c s i) →
    is_table (pmd_entry c s i j) → is_table (pgd_entry c s i2) →
    pte_table c s i j ≠ pmd_table c s i2
  pte_inj : ∀ i j i2 j2, i < 512 → j < 512 → i2 < 512 → j2 < 512 →
    is_table (pgd_entry c s i) → is_table (pmd_entry c s i j) →
    is_table (pgd_entry c s i2) → is_table (pmd_entry c s i2 j2) →
    pte_table c s i j = pte_table c s i2 j2 → i = i2 ∧ j = j2

/-- Base of the block-sized chunk of an address. -/
def cb (a : Nat) : Nat := a / 2097152 * 2097152

/-- Base of the page of an address. -/
def pb (a : Nat) : Nat := a / 4096 * 4096

/-- A walk result without a mapping. -/
def Unmapped : Read → Prop
  | Read.nopud => True
  | Read.pmd e => e = 0
  | Read.pte _ v => v = 0

/-- Modelled from the spec: the translation a hierarchy defines (data model,
section 3), in the reading of the kernel's own accessors. An empty entry maps
nothing; a middle entry that is not a table reference is a Block Mapping whose
base is its output address; a leaf entry is a Page Mapping. -/
def translate (c : Config) (s : State) (a : Nat) : Option Nat :=
  match read c s a with
  | Read.nopud => none
  | Read.pmd e =>
    if e = 0 then none else some ((e &&& PHYS_MASK &&& SECTION_MASK) + (a &&& not64 SECTION_MASK))
  | Read.pte _ v =>
    if v = 0 then none else some ((v &&& PHYS_MASK &&& PAGE_MASK) + (a &&& not64 PAGE_MASK))

/-- The static attribute word is a section descriptor (type bits `01`), as
`init_mem_pgprot` makes it. -/
def ProtOk (s : State) : Prop := s.prot_sect_kernel &&& 3 = 1

/-- The chunk of `a` takes the block path in a request for `[addr, endR)` at
`phys`: it lies in the range as a whole and its physical image is aligned. -/
def Elig (pages : Bool) (phys addr endR a : Nat) : Prop :=
  pages = false ∧ addr ≤ cb a ∧ cb a + 2097152 ≤ endR ∧ (phys + (cb a - addr)) % 2097152 = 0

/-- The block entry the builder writes for the chunk of `a`. -/
def blk (c : Config) (s : State) (phys addr a : Nat) : Nat :=
  (phys + (cb a - addr)) ||| get_pmd_prot_sect_kernel c s (cb a)

/-- The leaf entry the builder writes for the page of `a`. -/
def val (s : State) (phys addr a : Nat) : Nat :=
  pfn_pte ((phys + (pb a - addr)) / 4096) (PAGE_KERNEL_EXEC s)

/-- Number of chunks of `[addr, endR)` that hold a misaligned edge. -/
def nPartial (addr endR : Nat) : Nat :=
  (if addr % 2097152 ≠ 0 then 1 else 0) +
  (if endR % 2097152 ≠ 0 ∧ (endR / 2097152 ≠ addr / 2097152 ∨ addr % 2097152 = 0) then 1 else 0)

/-- Number of chunks `[addr, endR)` meets. -/
def nChunks (addr endR : Nat) : Nat := (endR + 2097151) / 2097152 - addr / 2097152

/-- Number of top-level slots `[addr, endR)` meets. -/
def nSlots (addr endR : Nat) : Nat := (endR + 1073741823) / 1073741824 - addr / 1073741824

/-- The fields no builder step changes. -/
def Same (s s2 : State) : Prop :=
  s2.pool_end = s.pool_end ∧ s2.limit = s.limit ∧ s2.prot_sect_kernel = s.prot_sect_kernel ∧
  s2.pgprot_default = s.pgprot_default

/-- The state `s2` differs from `s` in memory only. -/
def MemOnly (s s2 : State) : Prop := s2 = { s with mem := s2.mem }

/-- No chunk of the request that takes the page path holds a block mapping. -/
def NB (c : Config) (s : State) (pages : Bool) (phys addr endR : Nat) : Prop :=
  ∀ a, addr ≤ a → a < endR → ¬ Elig pages phys addr endR a →
    ∀ b, read c s a = Read.pmd b → b = 0

/-- The pool, cut at the current limit, still holds `n` pages. -/
def Room (s : State) (n : Nat) : Prop :=
  s.brk + 4096 * n ≤ s.pool_end ∧ s.brk + 4096 * n ≤ s.limit

/-- A run either returns a state satisfying `P`, or halts: never by exhausting
its iterations, by `BUG_ON` only if `nb` fails, by the allocator only if `room`
fails. -/
def Good (r : Except Halt State) (nb room : Prop) (P : State → Prop) : Prop :=
  match r with
  | .ok s2 => P s2
  | .error e => e ≠ Halt.hang ∧ (nb → e ≠ Halt.bug) ∧ (room → e ≠ Halt.oom)

/-- What building `[addr, endR)` at `phys` turns the state `s` into. -/
structure Post (c : Config) (s s2 : State) (pages : Bool) (phys addr endR n : Nat) : Prop where
  inv : Inv c s2
  same : Same s s2
  brk_le : s.brk ≤ s2.brk
  brk_ub : s2.brk ≤ s.brk + 4096 * n
  pgd_keep : ∀ i, i < 512 → is_table (pgd_entry c s i) → pgd_entry c s2 i = pgd_entry c s i
  in_blk : ∀ a, addr ≤ a → a < endR → Elig pages phys addr endR a →
    read c s2 a = Read.pmd (blk c s phys addr a)
  in_pte : ∀ a, addr ≤ a → a < endR → ¬ Elig pages phys addr endR a →
    ∃ e, read c s2 a = Read.pte e (val s phys addr a)
  f1 : ∀ a, InWindow a → (cb a + 2097152 ≤ addr ∨ endR ≤ cb a) →
    read c s2 a = read c s a ∨ (read c s a = Read.nopud ∧ read c s2 a = Read.pmd 0)
  f2 : ∀ a, InWindow a → (a < addr ∨ endR ≤ a) →
    read c s2 a = read c s a ∨ (Unmapped (read c s a) ∧ Unmapped (read c s2 a))
  orig : ∀ a e v, InWindow a → read c s2 a = Read.pte e v →
    (∃ v0, read c s a = Read.pte e v0) ∨
      (s.brk ≤ pmd_page_vaddr e ∧ pmd_page_vaddr e + 4096 ≤ s2.brk)
  cnt : pages = false → phys % 2097152 = addr % 2097152 →
    (∀ a, addr ≤ a → a < endR → ¬ (addr ≤ cb a ∧ cb a + 2097152 ≤ endR) →
      read c s a = Read.nopud ∨ read c s a = Read.pmd 0) →
    s2.pte_tables = s.pte_tables + nPartial addr endR ∧
      s2.pte_calls = s.pte_calls + nPartial addr endR

/-! ## A concrete machine -/

/-- A configuration with RAM at 2 GiB, strict protection on, and a kernel image
whose zones each take one block. -/
def demo_config : Config where
  swapper_pg_dir := 0x80000000
  PHYS_OFFSET := 0x80000000
  strict_rwx := true
  smp := true
  force_pages := true
  stext := 0xffffffc000200000
  start_rodata := 0xffffffc000400000
  init_begin := 0xffffffc000600000
  init_data_begin := 0xffffffc000800000
  pfn_valid := fun _ => true

/-- An empty hierarchy: all memory zero, a pool of 255 pages after the top
directory, the attribute words as `init_mem_pgprot` leaves them on SMP. -/
def demo_state : State where
  mem := fun _ => 0
  brk := 0x80001000
  pool_end := 0x80100000
  limit := MEMBLOCK_ALLOC_ANYWHERE
  prot_sect_kernel := 0x711
  pgprot_default := 0x713
  pte_tables := 0
  pte_calls := 0
  tlb_flushes := 0

instance (s : State) : Decidable (ProtOk s) := by
  unfold ProtOk
  exact inferInstance

instance (s : State) (n : Nat) : Decidable (Room s n) := by
  unfold Room
  exact inferInstance

/-- Neither attribute word has a bit in the output-address field of an entry
(bits 12 to 39). -/
def AttrOk (s : State) : Prop :=
  s.prot_sect_kernel &&& 0xfffffff000 = 0 ∧ s.pgprot_default &&& 0xfffffff000 = 0

instance (s : State) : Decidable (AttrOk s) := by
  unfold AttrOk
  exact inferInstance

/-- The physical address the linear map assigns to a kernel virtual address
(the inverse of `__phys_to_virt`). -/
def __virt_to_phys (c : Config) (x : Nat) : Nat := wrap (usub x PAGE_OFFSET + c.PHYS_OFFSET)

/-- A memory bank `map_mem` can map: page-aligned, inside the part of physical
memory the linear map covers, below the 40-bit limit of the output address, and
reaching past the first block boundary after its base. -/
def RegionOk (c : Config) (reg : Nat × Nat) : Prop :=
  reg.1 % 4096 = 0 ∧ reg.2 % 4096 = 0 ∧ c.PHYS_OFFSET ≤ reg.1 ∧
  (reg.1 + 2097151) / 2097152 * 2097152 < reg.1 + reg.2 ∧
  reg.1 + reg.2 ≤ c.PHYS_OFFSET + 274877906944 ∧ reg.1 + reg.2 ≤ 1099511627776

instance (c : Config) (reg : Nat × Nat) : Decidable (RegionOk c reg) := by
  unfold RegionOk
  exact inferInstance

/-- The run `r` returns, and the state it returns satisfies `P`. -/
def Returns (r : Except Halt State) (P : State → Prop) : Prop := ∃ s, r = .ok s ∧ P s

instance (r : Except Halt State) (P : State → Prop) [DecidablePred P] :
    Decidable (Returns r P) :=
  match r with
  | .ok s =>
    if h : P s then isTrue ⟨s, rfl, h⟩
    else isFalse (fun ⟨_, e, h2⟩ => by
      cases e
      exact h h2)
  | .error _ => isFalse (fun ⟨_, e, _⟩ => by cases e)

/-- The run `r` halts, in the way `e`. -/
def Halts (r : Except Halt State) (e : Halt) : Prop := r = .error e

instance (r : Except Halt State) (e : Halt) : Decidable (Halts r e) :=
  match r with
  | .ok _ => isFalse (fun h => by cases h)
  | .error e2 =>
    if h : e2 = e then isTrue (by rw [h]; rfl)
    else isFalse (fun h2 => by
      cases h2
      exact h rfl)

/-! ## Running `remap_pages` twice -/

/-- The page at `T` lies outside the pool `[B, E)`. -/
def Out (B E T : Nat) : Prop := T + 4096 ≤ B ∨ E ≤ T

/-- The middle table that top entry `i` designates lies outside the pool `[B, E)`
and is not the top directory. -/
def TopOk (c : Config) (B E : Nat) (s : State) (i : Nat) : Prop :=
  Out B E (pmd_table c s i) ∧ pmd_table c s i ≠ c.swapper_pg_dir

/-- The state `s2` has the top directory of `s` and, outside the pool `[B, E)`, a
table reference in every word in which `s` has one. -/
def Ext (c : Config) (B E : Nat) (s s2 : State) : Prop :=
  (∀ i, i < 512 → pgd_entry c s2 i = pgd_entry c s i) ∧
  (∀ q, q < B ∨ E ≤ q → is_table (s.mem q) → is_table (s2.mem q))

/-- A memory bank `remap_pages` can walk: page-aligned, inside the part of
physical memory the linear map covers, and with a populated top-level entry for
every address of its virtual alias. -/
def RemapOk (c : Config) (s : State) (reg : Nat × Nat) : Prop :=
  reg.1 % 4096 = 0 ∧ reg.2 % 4096 = 0 ∧ c.PHYS_OFFSET ≤ reg.1 ∧
  reg.1 + reg.2 < c.PHYS_OFFSET + 274877906944 ∧ reg.1 + reg.2 ≤ 1099511627776 ∧
  ∀ a, __phys_to_virt c reg.1 ≤ a → a < __phys_to_virt c (reg.1 + reg.2) →
    is_table (pgd_entry c s (pgd_index a))

/-- A hierarchy with one middle table, at `0x80001000`, whose entry 1 is the Block
Mapping of `0x80200000`; the pool starts after the middle table. -/
def demo_blocks : State where
  mem := fun q => if q = 0x80000800 then 0x80001003 else if q = 0x80001008 then 0x80200711 else 0
  brk := 0x80002000
  pool_end := 0x80100000
  limit := MEMBLOCK_ALLOC_ANYWHERE
  prot_sect_kernel := 0x711
  pgprot_default := 0x713
  pte_tables := 0
  pte_calls := 0
  tlb_flushes := 0

/-! ## Successive allocations -/

/-- Successive calls of `early_alloc`, one for each size of the list; the result
lists the buffers returned, as pairs of address and size, in the order of the
calls. -/
def early_allocs : List Nat → State → Except Halt (List (Nat × Nat) × State)
  | [], s => .ok ([], s)
  | sz :: szs, s =>
    match early_alloc s sz with
    | .error e => .error e
    | .ok (p, s1) =>
      match early_allocs szs s1 with
      | .error e => .error e
      | .ok (bs, s2) => .ok ((p, sz) :: bs, s2)

/-- The request for `sz` bytes fits the pool, cut at the current limit. -/
def Fits (s : State) (sz : Nat) : Prop :=
  (s.brk + sz - 1) / sz * sz + sz ≤ s.pool_end ∧ (s.brk + sz - 1) / sz * sz + sz ≤ s.limit

instance (s : State) (sz : Nat) : Decidable (Fits s sz) := by
  unfold Fits
  exact inferInstance

/-- The synthetic image of the protection-zoning example: code in `[0, 100)`,
read-only data in `[100, 150)`, initialization code and data in `[150, 200)`,
data from `200` on. -/
def zones_config : Config where
  swapper_pg_dir := 0x80000000
  PHYS_OFFSET := 0x80000000
  strict_rwx := true
  smp := true
  force_pages := false
  stext := 0
  start_rodata := 100
  init_begin := 150
  init_data_begin := 200
  pfn_valid := fun _ => true

/-! ## The order of the steps of the block path -/

/-- The calls one pass through the body of the loop of `alloc_init_pmd` makes on the
hierarchy and on the TLB. -/
inductive Step where
  | set_pmd (pmdp pmd : Nat)
  | flush_tlb_all
  | alloc_init_pte (pmd addr end_ pfn : Nat)
  deriving DecidableEq, Repr

/-- The calls of `alloc_init_pmd_body`, in program order: the body read as the list
of what it calls instead of as the state it leaves. -/
def alloc_init_pmd_body_steps (c : Config) (s : State) (pmd addr next phys : Nat)
    (pages : Bool) : List Step :=
  if !pages && ((addr ||| next ||| phys) &&& not64 SECTION_MASK) == 0 then
    let old_pmd := s.mem pmd
    Step.set_pmd pmd (phys ||| get_pmd_prot_sect_kernel c s addr) ::
      (if !pmd_none old_pmd then [Step.flush_tlb_all] else [])
  else [Step.alloc_init_pte pmd addr next (__phys_to_pfn phys)]

/-! ## The allocator limit while the banks are mapped -/

/-- What follows a run: the list `f` gives for the state returned, nothing after a
halt. -/
def after (r : Except Halt State) (f : State → List Nat) : List Nat :=
  match r with
  | .ok s => f s
  | .error _ => []

/-- The value of `memblock.current_limit` at each call of `create_mapping` the loop
of `map_mem` makes, in the order of the calls: `map_mem_loop` read as the list of
the limits in force instead of as the state it leaves. -/
def map_mem_limits (c : Config) : List (Nat × Nat) → State → Nat → List Nat
  | [], _, _ => []
  | reg :: regs, s, limit =>
    let start := reg.1
    let end_ := wrap (start + reg.2)
    if start ≥ end_ then []
    else
      let start1 := if start < limit then ALIGN start PMD_SIZE else start
      let limit1 := if end_ < limit then end_ &&& PMD_MASK else limit
      let s1 := if end_ < limit then memblock_set_current_limit s limit1 else s
      s1.limit ::
        after (create_mapping c s1 start1 (__phys_to_virt c start1) (usub end_ start1) false)
          (fun s2 => map_mem_limits c regs s2 limit1)

/-- The step from `s` to `s2` leaves the allocator limit alone and moves the break
of the pool upwards only, for memory handed out below that limit. -/
def Below (s s2 : State) : Prop :=
  s2.limit = s.limit ∧ s.brk ≤ s2.brk ∧ (s2.brk = s.brk ∨ s2.brk ≤ s.limit)

/-! ## The sparse-metadata mapper -/

/-- The error code of `linux/errno.h`. -/
def ENOMEM : Int := 12

/-- With the upper directory folded there is nothing to install in a top entry
(`asm-generic/pgtable-nopud.h`). -/
def pgd_populate (s : State) (_pgd _pud : Nat) : State := s

/-- Modelled from the spec: `vmemmap_alloc_block` (mm/sparse-vmemmap.c is not among
the sources). The Sparse-Metadata Mapper allocates on demand as the builder does,
zero-filled memory from the pool, but an allocation that fails is reported to the
caller (the out-of-memory signal), not fatal: the result is `none`, for `NULL`,
where `early_alloc` halts, and the state is left alone. -/
def vmemmap_alloc_block (s : State) (size : Nat) : Option Nat × State :=
  match early_alloc s size with
  | .ok (p, s1) => (some p, s1)
  | .error _ => (none, s)

/-- Modelled from the spec: `vmemmap_alloc_block_buf` (mm/sparse-vmemmap.c), the
allocation of the block-sized buffer; the same allocation as for the directories. -/
def vmemmap_alloc_block_buf (s : State) (size : Nat) : Option Nat × State :=
  vmemmap_alloc_block s size

/-- Modelled from the spec: `vmemmap_pgd_populate` (mm/sparse-vmemmap.c), which makes
sure the top entry of `addr` is present, allocating on demand, and returns a
pointer to it, `none` for `NULL`. -/
def vmemmap_pgd_populate (c : Config) (s : State) (addr : Nat) : Option Nat × State :=
  let pgd := pgd_offset_k c addr
  if pgd_none (s.mem pgd) then
    match vmemmap_alloc_block s PAGE_SIZE with
    | (none, s1) => (none, s1)
    | (some p, s1) => (some pgd, pgd_populate s1 pgd p)
  else (some pgd, s)

/-- Modelled from the spec: `vmemmap_pud_populate` (mm/sparse-vmemmap.c), which makes
sure the upper entry of `addr` refers to a middle table, allocating a zeroed one
on demand, and returns a pointer to the entry, `none` for `NULL`. -/
def vmemmap_pud_populate (s : State) (pgd addr : Nat) : Option Nat × State :=
  let pud := pud_offset pgd addr
  if pud_none (s.mem pud) then
    match vmemmap_alloc_block s PAGE_SIZE with
    | (none, s1) => (none, s1)
    | (some p, s1) => (some pud, pud_populate s1 pud p)
  else (some pud, s)

/-- Modelled from the spec: `vmemmap_verify` (mm/sparse-vmemmap.c), a consistency
check of an entry that exists, not a rebuild: it changes nothing, and a mismatch it
reports is fatal. The check itself is the parameter `check`, applied to the entry,
the node and the range. -/
def vmemmap_verify (check : Nat → Int → Nat → Nat → Bool) (s : State) (pte : Nat) (node : Int)
    (start end_ : Nat) : Except Halt State :=
  if check (s.mem pte) node start end_ then .ok s else .error Halt.bug

/-- The second half of a pass through the body of the loop of `vmemmap_populate`,
from `pmd = pmd_offset(pud, addr)` on: the buffer and the Block Mapping for an
empty entry, the check for any other. -/
def vmemmap_populate_pmd (check : Nat → Int → Nat → Nat → Bool) (node : Int) (s : State)
    (pud addr next : Nat) : Except Halt (Bool × State) :=
  let pmd := pmd_offset (s.mem pud) addr
  if pmd_none (s.mem pmd) then
    match vmemmap_alloc_block_buf s PMD_SIZE with
    | (none, s1) => .ok (false, s1)
    | (some p, s1) => .ok (true, set_pmd s1 pmd (p ||| s1.prot_sect_kernel))
  else
    match vmemmap_verify check s pmd node addr next with
    | .error e => .error e
    | .ok s1 => .ok (true, s1)

/-- One pass through the body of the loop of `vmemmap_populate`, after `next` has
been computed. The result `(false, s)` stands for `return -ENOMEM` in state `s`,
`(true, s)` for reaching the loop test. -/
def vmemmap_populate_body (c : Config) (check : Nat → Int → Nat → Nat → Bool) (node : Int)
    (s : State) (addr next : Nat) : Except Halt (Bool × State) :=
  match vmemmap_pgd_populate c s addr with
  | (none, s1) => .ok (false, s1)
  | (some pgd, s1) =>
    match vmemmap_pud_populate s1 pgd addr with
    | (none, s2) => .ok (false, s2)
    | (some pud, s2) => vmemmap_populate_pmd check node s2 pud addr next

/-- The `do { ... } while (addr = next, addr != end)` of `vmemmap_populate`; the
result is the value returned and the state. -/
def vmemmap_populate_loop (c : Config) (check : Nat → Int → Nat → Nat → Bool) (node : Int) :
    Nat → State → Nat → Nat → Except Halt (Int × State)
  | 0, _, _, _ => .error Halt.hang
  | fuel + 1, s, addr, end_ =>
    let next := pmd_addr_end addr end_
    match vmemmap_populate_body c check node s addr next with
    | .error e => .error e
    | .ok (false, s1) => .ok (-ENOMEM, s1)
    | .ok (true, s1) =>
      if next ≠ end_ then vmemmap_populate_loop c check node fuel s1 next end_
      else .ok (0, s1)

/-- The variant for 4 KiB pages (`!CONFIG_ARM64_64K_PAGES`). -/
def vmemmap_populate (c : Config) (check : Nat → Int → Nat → Nat → Bool) (s : State)
    (start end_ : Nat) (node : Int) : Except Halt (Int × State) :=
  vmemmap_populate_loop c check node FUEL s start end_

/-- What `vmemmap_populate` has done once the chunks with numbers in `[lo, hi)` are
behind it: a chunk whose entry was missing or empty has a Block Mapping of a
buffer taken from the pool during the run, a chunk whose entry was there has kept
it, and outside these chunks nothing has changed but for empty middle tables
installed in empty top entries. -/
structure VPost (c : Config) (s s2 : State) (lo hi : Nat) : Prop where
  inv : Inv c s2
  same : Same s s2
  brk_le : s.brk ≤ s2.brk
  fresh : ∀ a, InWindow a → lo ≤ a / 2097152 → a / 2097152 < hi →
    (read c s a = Read.nopud ∨ read c s a = Read.pmd 0) →
    ∃ p, p % 2097152 = 0 ∧ s.brk ≤ p ∧ p + 2097152 ≤ s2.brk ∧
      read c s2 a = Read.pmd (p ||| s.prot_sect_kernel)
  kept : ∀ a, InWindow a → lo ≤ a / 2097152 → a / 2097152 < hi →
    ¬ (read c s a = Read.nopud ∨ read c s a = Read.pmd 0) → read c s2 a = read c s a
  out : ∀ a, InWindow a → (a / 2097152 < lo ∨ hi ≤ a / 2097152) →
    read c s2 a = read c s a ∨ (read c s a = Read.nopud ∧ read c s2 a = Read.pmd 0)

/-- Every top entry is empty or a reference to a middle table. -/
def TopClean (c : Config) (s : State) : Prop :=
  ∀ i, i < 512 → pgd_entry c s i = 0 ∨ is_table (pgd_entry c s i)

/-- The attribute bits of an entry: the entry without its output-address field
(bits 12 to 39). -/
def attr_bits (e : Nat) : Nat := e &&& not64 0xfffffff000

/-- The run `r` returns the value `v`, in a state that satisfies `P`. -/
def ReturnsV (r : Except Halt (Int × State)) (v : Int) (P : State → Prop) : Prop :=
  ∃ s, r = .ok (v, s) ∧ P s

instance (r : Except Halt (Int × State)) (v : Int) (P : State → Prop) [DecidablePred P] :
    Decidable (ReturnsV r v P) :=
  match r with
  | .ok (w, s) =>
    if h : w = v ∧ P s then isTrue ⟨s, by rw [h.1], h.2⟩
    else isFalse (fun ⟨_, e, h2⟩ => by
      cases e
      exact h ⟨rfl, h2⟩)
  | .error _ => isFalse (fun ⟨_, e, _⟩ => by cases e)

/-! ## Bit operations as arithmetic -/

theorem land_himask (a k : Nat) (hk : k ≤ 64) (ha : a < 2 ^ 64) :
    a &&& (2 ^ 64 - 2 ^ k) = a / 2 ^ k * 2 ^ k := by
  have h1 : 2 ^ 64 - 2 ^ k = 2 ^ k * (2 ^ (64 - k) - 1) := by
    rw [Nat.mul_sub, ← Nat.pow_add, Nat.mul_one]
    congr 2
    omega
  rw [h1]
  apply Nat.eq_of_testBit_eq
  intro i
  rw [Nat.testBit_and, Nat.testBit_mul_pow_two, Nat.testBit_two_pow_sub_one,
    ← Nat.shiftRight_eq_div_pow, ← Nat.shiftLeft_eq, Nat.testBit_shiftLeft, Nat.testBit_shiftRight]
  by_cases hik : i ≥ k
  · have e : k + (i - k) = i := by omega
    simp only [hik, decide_True, Bool.true_and, e]
    by_cases hi : i < 64
    · have : i - k < 64 - k := by omega
      simp [this]
    · have : a < 2 ^ i := lt_of_lt_of_le ha (Nat.pow_le_pow_right (by decide) (by omega))
      simp [Nat.testBit_lt_two_pow this]
  · simp [hik]

theorem land_PAGE_MASK (a : Nat) (ha : a < U64) : a &&& PAGE_MASK = a / 4096 * 4096 := by
  have := land_himask a 12 (by decide) ha
  simpa [PAGE_MASK, not64, U64, PAGE_SIZE] using this

theorem land_PMD_MASK (a : Nat) (ha : a < U64) : a &&& PMD_MASK = a / 2097152 * 2097152 := by
  have := land_himask a 21 (by decide) ha
  simpa [PMD_MASK, not64, U64, PMD_SIZE] using this

theorem land_PGDIR_MASK (a : Nat) (ha : a < U64) :
    a &&& PGDIR_MASK = a / 1073741824 * 1073741824 := by
  have := land_himask a 30 (by decide) ha
  simpa [PGDIR_MASK, not64, U64, PGDIR_SIZE] using this

theorem land_not_SECTION_MASK (a : Nat) : a &&& not64 SECTION_MASK = a % 2097152 := by
  have := Nat.and_pow_two_sub_one_eq_mod a 21
  simpa [SECTION_MASK, not64, U64, SECTION_SIZE] using this

theorem land_not_PAGE_MASK (a : Nat) : a &&& not64 PAGE_MASK = a % 4096 := by
  have := Nat.and_pow_two_sub_one_eq_mod a 12
  simpa [PAGE_MASK, not64, U64, PAGE_SIZE] using this

theorem pgd_index_eq (a : Nat) : pgd_index a = a / 1073741824 % 512 := by
  have := Nat.and_pow_two_sub_one_eq_mod (a >>> 30) 9
  simpa [pgd_index, PGDIR_SHIFT, PTRS_PER_PGD, Nat.shiftRight_eq_div_pow] using this

theorem pmd_index_eq (a : Nat) : pmd_index a = a / 2097152 % 512 := by
  have := Nat.and_pow_two_sub_one_eq_mod (a >>> 21) 9
  simpa [pmd_index, PMD_SHIFT, PTRS_PER_PMD, Nat.shiftRight_eq_div_pow] using this

theorem pte_index_eq (a : Nat) : pte_index a = a / 4096 % 512 := by
  have := Nat.and_pow_two_sub_one_eq_mod (a >>> 12) 9
  simpa [pte_index, PAGE_SHIFT, PTRS_PER_PTE, Nat.shiftRight_eq_div_pow] using this

/-- The table address held by an entry, in arithmetic form. -/
theorem page_vaddr_eq (e : Nat) : pmd_page_vaddr e = e % 1099511627776 / 4096 * 4096 := by
  have h1 := Nat.and_pow_two_sub_one_eq_mod e 40
  have h2 : e % 2 ^ 40 < 2 ^ 64 := lt_of_lt_of_le (Nat.mod_lt _ (by decide)) (by decide)
  have h3 := land_himask (e % 2 ^ 40) 12 (by decide) h2
  simp only [pmd_page_vaddr, PHYS_MASK, PAGE_MASK, not64, U64, PAGE_SIZE] at *
  norm_num at h1 h3 ⊢
  rw [h1, h3]

theorem pud_page_vaddr_eq (e : Nat) : pud_page_vaddr e = e % 1099511627776 / 4096 * 4096 :=
  page_vaddr_eq e

theorem or_three (T : Nat) (h : T % 4096 = 0) : T ||| 3 = T + 3 := by
  have := Nat.mul_add_lt_is_or (i := 12) (b := 3) (by decide) (T / 4096)
  have e : 2 ^ 12 * (T / 4096) = T := by omega
  rw [e] at this
  exact this.symm

theorem land_two (e : Nat) : e &&& 2 = e / 2 % 2 * 2 := by
  apply Nat.eq_of_testBit_eq
  intro i
  have h2 : (2 : Nat) = 2 ^ 1 := rfl
  rw [Nat.testBit_and]
  conv_lhs => rw [h2, Nat.testBit_two_pow]
  have : e / 2 % 2 * 2 = 2 ^ 1 * (e / 2 ^ 1 % 2 ^ 1) := by omega
  rw [this, Nat.testBit_mul_pow_two, Nat.testBit_mod_two_pow, ← Nat.shiftRight_eq_div_pow,
    Nat.testBit_shiftRight]
  by_cases h : 1 = i
  · subst h; simp
  · by_cases h1 : i ≥ 1
    · have : ¬ (i - 1 < 1) := by omega
      simp [h, h1, this]
    · simp [h, h1]

theorem is_table_iff (e : Nat) : is_table e ↔ e / 2 % 2 = 1 := by
  unfold is_table
  rw [land_two]
  omega

theorem is_table_or_three (T : Nat) (h : T % 4096 = 0) : is_table (T ||| 3) := by
  rw [is_table_iff, or_three T h]
  omega

theorem page_vaddr_or_three (T : Nat) (h : T % 4096 = 0) (hT : T < 1099511627776) :
    pmd_page_vaddr (T ||| 3) = T := by
  rw [page_vaddr_eq, or_three T h]
  omega

theorem not_is_table_zero : ¬ is_table 0 := by
  rw [is_table_iff]
  omega

theorem page_vaddr_aligned (e : Nat) : pmd_page_vaddr e % 4096 = 0 := by
  rw [page_vaddr_eq]
  omega

theorem page_vaddr_lt (e : Nat) : pmd_page_vaddr e < 1099511627776 := by
  rw [page_vaddr_eq]
  omega

/-! ## Stores and the well-formedness invariant -/

@[simp] theorem store_mem (s : State) (p v q : Nat) :
    (store s p v).mem q = if q = p then v else s.mem q := rfl

@[simp] theorem store_brk (s : State) (p v : Nat) : (store s p v).brk = s.brk := rfl

@[simp] theorem store_pool_end (s : State) (p v : Nat) : (store s p v).pool_end = s.pool_end := rfl

theorem slot_ne {T T2 k k2 : Nat} (h : T % 4096 = 0) (h2 : T2 % 4096 = 0) (hne : T ≠ T2)
    (hk : k < 512) (hk2 : k2 < 512) : T + 8 * k ≠ T2 + 8 * k2 := by
  omega

theorem pmd_table_aligned (c : Config) (s : State) (i : Nat) : pmd_table c s i % 4096 = 0 :=
  page_vaddr_aligned _

theorem pte_table_aligned (c : Config) (s : State) (i j : Nat) : pte_table c s i j % 4096 = 0 :=
  page_vaddr_aligned _

/-- The invariant carries over to a state whose table references are among the
old ones. -/
theorem Inv.transfer {c : Config} {s s2 : State} (h : Inv c s) (hbrk : s2.brk = s.brk)
    (hpool : s2.pool_end = s.pool_end)
    (hpgd : ∀ i, i < 512 → is_table (pgd_entry c s2 i) → pgd_entry c s2 i = pgd_entry c s i)
    (hpmd : ∀ i j, i < 512 → j < 512 → is_table (pgd_entry c s2 i) →
      is_table (pmd_entry c s2 i j) → pmd_entry c s2 i j = pmd_entry c s i j) :
    Inv c s2 := by
  have safe : ∀ T, Safe s T → Safe s2 T := by
    intro T hT
    unfold Safe at *
    rw [hbrk, hpool]
    exact hT
  have v1 : ∀ i, i < 512 → is_table (pgd_entry c s2 i) → is_table (pgd_entry c s i) := by
    intro i hi hv
    rw [← hpgd i hi hv]
    exact hv
  have t1 : ∀ i, i < 512 → is_table (pgd_entry c s2 i) → pmd_table c s2 i = pmd_table c s i := by
    intro i hi hv
    unfold pmd_table
    rw [hpgd i hi hv]
  have v2 : ∀ i j, i < 512 → j < 512 → is_table (pgd_entry c s2 i) →
      is_table (pmd_entry c s2 i j) → is_table (pmd_entry c s i j) := by
    intro i j hi hj hv hw
    rw [← hpmd i j hi hj hv hw]
    exact hw
  have t2 : ∀ i j, i < 512 → j < 512 → is_table (pgd_entry c s2 i) →
      is_table (pmd_entry c s2 i j) → pte_table c s2 i j = pte_table c s i j := by
    intro i j hi hj hv hw
    unfold pte_table
    rw [hpmd i j hi hj hv hw]
  refine ⟨h.pgd_al, by rw [hbrk]; exact h.brk_al, by rw [hpool]; exact h.pool_le,
    safe _ h.pgd_safe, ?_, ?_, ?_, ?_, ?_⟩
  · intro i hi hv
    rw [t1 i hi hv]
    exact ⟨safe _ (h.pmd_safe i hi (v1 i hi hv)).1, (h.pmd_safe i hi (v1 i hi hv)).2⟩
  · intro i i2 hi hi2 hv hv2 e
    rw [t1 i hi hv, t1 i2 hi2 hv2] at e
    exact h.pmd_inj i i2 hi hi2 (v1 i hi hv) (v1 i2 hi2 hv2) e
  · intro i j hi hj hv hw
    rw [t2 i j hi hj hv hw]
    have := h.pte_safe i j hi hj (v1 i hi hv) (v2 i j hi hj hv hw)
    exact ⟨safe _ this.1, this.2⟩
  · intro i j i2 hi hj hi2 hv hw hv2
    rw [t2 i j hi hj hv hw, t1 i2 hi2 hv2]
    exact h.pte_pmd i j i2 hi hj hi2 (v1 i hi hv) (v2 i j hi hj hv hw) (v1 i2 hi2 hv2)
  · intro i j i2 j2 hi hj hi2 hj2 hv hw hv2 hw2 e
    rw [t2 i j hi hj hv hw, t2 i2 j2 hi2 hj2 hv2 hw2] at e
    exact h.pte_inj i j i2 j2 hi hj hi2 hj2 (v1 i hi hv) (v2 i j hi hj hv hw) (v1 i2 hi2 hv2)
      (v2 i2 j2 hi2 hj2 hv2 hw2) e

/-- A state that differs from `s` only in memory words outside the top directory. -/
theorem pgd_entry_of_mem {c : Config} {s s2 : State} {i : Nat}
    (h : s2.mem (c.swapper_pg_dir + 8 * i) = s.mem (c.swapper_pg_dir + 8 * i)) :
    pgd_entry c s2 i = pgd_entry c s i := h

/-- Writing a leaf entry. -/
theorem store_pte_spec {c : Config} {s : State} (h : Inv c s) {i j k : Nat} (hi : i < 512)
    (hj : j < 512) (hk : k < 512) (h1 : is_table (pgd_entry c s i))
    (h2 : is_table (pmd_entry c s i j)) (v : Nat) {s2 : State}
    (hm : ∀ q, s2.mem q = if q = pte_table c s i j + 8 * k then v else s.mem q)
    (hbrk : s2.brk = s.brk) (hpool : s2.pool_end = s.pool_end) :
    Inv c s2 ∧ (∀ i2, i2 < 512 → is_table (pgd_entry c s i2) → pgd_entry c s2 i2 = pgd_entry c s i2) ∧
    ∀ i2 j2 k2, i2 < 512 → j2 < 512 → k2 < 512 →
      readI c s2 i2 j2 k2 =
        if i2 = i ∧ j2 = j ∧ k2 = k then Read.pte (pmd_entry c s i j) v else readI c s i2 j2 k2 := by
  have hL := pte_table_aligned c s i j
  have hs := h.pte_safe i j hi hj h1 h2
  have A : ∀ i2, i2 < 512 →
      pgd_entry c s2 i2 = pgd_entry c s i2 := by
    intro i2 hi2
    unfold pgd_entry
    rw [hm, if_neg]
    exact (slot_ne hL h.pgd_al hs.2 hk hi2).symm
  have A2 : ∀ i2, i2 < 512 →
      pmd_table c s2 i2 = pmd_table c s i2 := by
    intro i2 hi2
    unfold pmd_table
    rw [A i2 hi2]
  have B : ∀ i2 j2, i2 < 512 → j2 < 512 → is_table (pgd_entry c s i2) →
      pmd_entry c s2 i2 j2 = pmd_entry c s i2 j2 := by
    intro i2 j2 hi2 hj2 hv
    unfold pmd_entry
    rw [A2 i2 hi2, hm, if_neg]
    exact (slot_ne hL (pmd_table_aligned c s i2) (h.pte_pmd i j i2 hi hj hi2 h1 h2 hv) hk hj2).symm
  have B2 : ∀ i2 j2, i2 < 512 → j2 < 512 → is_table (pgd_entry c s i2) →
      pte_table c s2 i2 j2 = pte_table c s i2 j2 := by
    intro i2 j2 hi2 hj2 hv
    unfold pte_table
    rw [B i2 j2 hi2 hj2 hv]
  refine ⟨?_, fun i2 hi2 _ => A i2 hi2, ?_⟩
  · refine h.transfer hbrk hpool ?_ ?_
    · intro i2 hi2 _
      exact A i2 hi2
    · intro i2 j2 hi2 hj2 hv _
      rw [A i2 hi2] at hv
      exact B i2 j2 hi2 hj2 hv
  · intro i2 j2 k2 hi2 hj2 hk2
    unfold readI
    rw [A i2 hi2]
    by_cases hv : is_table (pgd_entry c s i2)
    · rw [if_pos hv, if_pos hv, B i2 j2 hi2 hj2 hv]
      by_cases hw : is_table (pmd_entry c s i2 j2)
      · rw [if_pos hw, if_pos hw]
        unfold pte_entry
        rw [B2 i2 j2 hi2 hj2 hv, hm]
        by_cases e : i2 = i ∧ j2 = j ∧ k2 = k
        · obtain ⟨e1, e2, e3⟩ := e
          subst e1 e2 e3
          simp
        · rw [if_neg e, if_neg]
          intro e2
          apply e
          have hL2 := pte_table_aligned c s i2 j2
          have : pte_table c s i2 j2 = pte_table c s i j := by omega
          have := h.pte_inj i2 j2 i j hi2 hj2 hi hj hv hw h1 h2 this
          refine ⟨this.1, this.2, ?_⟩
          omega
      · rw [if_neg hw, if_neg hw, if_neg]
        rintro ⟨e1, e2, _⟩
        subst e1 e2
        exact hw h2
    · rw [if_neg hv, if_neg hv, if_neg]
      rintro ⟨e1, _, _⟩
      subst e1
      exact hv h1

/-- Writing a middle entry that is not a table reference. -/
theorem store_pmd_spec {c : Config} {s : State} (h : Inv c s) {i j : Nat} (hi : i < 512)
    (hj : j < 512) (h1 : is_table (pgd_entry c s i)) (v : Nat) (hv : ¬ is_table v) {s2 : State}
    (hm : ∀ q, s2.mem q = if q = pmd_table c s i + 8 * j then v else s.mem q)
    (hbrk : s2.brk = s.brk) (hpool : s2.pool_end = s.pool_end) :
    Inv c s2 ∧ (∀ i2, i2 < 512 → is_table (pgd_entry c s i2) → pgd_entry c s2 i2 = pgd_entry c s i2) ∧
    ∀ i2 j2 k2, i2 < 512 → j2 < 512 → k2 < 512 →
      readI c s2 i2 j2 k2 =
        if i2 = i ∧ j2 = j then Read.pmd v else readI c s i2 j2 k2 := by
  have hT := pmd_table_aligned c s i
  have hs := h.pmd_safe i hi h1
  have A : ∀ i2, i2 < 512 →
      pgd_entry c s2 i2 = pgd_entry c s i2 := by
    intro i2 hi2
    unfold pgd_entry
    rw [hm, if_neg]
    exact (slot_ne hT h.pgd_al hs.2 hj hi2).symm
  have A2 : ∀ i2, i2 < 512 →
      pmd_table c s2 i2 = pmd_table c s i2 := by
    intro i2 hi2
    unfold pmd_table
    rw [A i2 hi2]
  have B : ∀ i2 j2, i2 < 512 → j2 < 512 → is_table (pgd_entry c s i2) →
      pmd_entry c s2 i2 j2 =
        if i2 = i ∧ j2 = j then v else pmd_entry c s i2 j2 := by
    intro i2 j2 hi2 hj2 hv2
    unfold pmd_entry
    rw [A2 i2 hi2, hm]
    by_cases e : i2 = i ∧ j2 = j
    · obtain ⟨e1, e2⟩ := e
      subst e1 e2
      simp
    · rw [if_neg e, if_neg]
      intro e2
      apply e
      have hT2 := pmd_table_aligned c s i2
      have : pmd_table c s i2 = pmd_table c s i := by omega
      have := h.pmd_inj i2 i hi2 hi hv2 h1 this
      refine ⟨this, ?_⟩
      omega
  have C : ∀ i2 j2 k2, i2 < 512 → j2 < 512 → k2 < 512 → is_table (pgd_entry c s i2) →
      is_table (pmd_entry c s i2 j2) → ¬ (i2 = i ∧ j2 = j) →
      pte_entry c s2 i2 j2 k2 = pte_entry c s i2 j2 k2 := by
    intro i2 j2 k2 hi2 hj2 hk2 hv2 hw2 e
    unfold pte_entry pte_table
    rw [B i2 j2 hi2 hj2 hv2, if_neg e, hm, if_neg]
    exact slot_ne (pte_table_aligned c s i2 j2) hT
      (h.pte_pmd i2 j2 i hi2 hj2 hi hv2 hw2 h1) hk2 hj
  refine ⟨?_, fun i2 hi2 _ => A i2 hi2, ?_⟩
  · refine h.transfer hbrk hpool ?_ ?_
    · intro i2 hi2 _
      exact A i2 hi2
    · intro i2 j2 hi2 hj2 hv2 hw2
      rw [A i2 hi2] at hv2
      rw [B i2 j2 hi2 hj2 hv2] at hw2 ⊢
      by_cases e : i2 = i ∧ j2 = j
      · rw [if_pos e] at hw2
        exact absurd hw2 hv
      · rw [if_neg e]
  · intro i2 j2 k2 hi2 hj2 hk2
    unfold readI
    rw [A i2 hi2]
    by_cases hv2 : is_table (pgd_entry c s i2)
    · rw [if_pos hv2, if_pos hv2, B i2 j2 hi2 hj2 hv2]
      by_cases e : i2 = i ∧ j2 = j
      · rw [if_pos e, if_neg hv, if_pos e]
      · rw [if_neg e, if_neg e]
        by_cases hw : is_table (pmd_entry c s i2 j2)
        · rw [if_pos hw, if_pos hw, C i2 j2 k2 hi2 hj2 hk2 hv2 hw e]
        · rw [if_neg hw, if_neg hw]
    · rw [if_neg hv2, if_neg hv2, if_neg]
      rintro ⟨e1, _⟩
      subst e1
      exact hv2 h1

/-! ## Installing a freshly allocated table -/

theorem Safe.not_fresh {s : State} {P : Nat} (hP : Safe s P) (hroom : s.brk + 4096 ≤ s.pool_end)
    {k : Nat} (hk : k < 512) : ¬ (s.brk ≤ P + 8 * k ∧ P + 8 * k < s.brk + 4096) := by
  unfold Safe at hP
  omega

theorem Safe.ne_brk {s : State} {P : Nat} (hP : Safe s P) (hroom : s.brk + 4096 ≤ s.pool_end) :
    s.brk ≠ P := by
  unfold Safe at hP
  omega

theorem Safe.grow {s s2 : State} {P : Nat} (hP : Safe s P) (hbrk : s2.brk = s.brk + 4096)
    (hpool : s2.pool_end = s.pool_end) : Safe s2 P := by
  unfold Safe at *
  omega

/-- Pointing an empty middle entry at a fresh, zeroed leaf table. -/
theorem populate_pmd_spec {c : Config} {s : State} (h : Inv c s) {i j : Nat} (hi : i < 512)
    (hj : j < 512) (h1 : is_table (pgd_entry c s i)) (hz : ¬ is_table (pmd_entry c s i j))
    (hroom : s.brk + 4096 ≤ s.pool_end) {s2 : State}
    (hm : ∀ q, s2.mem q = if q = pmd_table c s i + 8 * j then s.brk ||| 3
      else if s.brk ≤ q ∧ q < s.brk + 4096 then 0 else s.mem q)
    (hbrk : s2.brk = s.brk + 4096) (hpool : s2.pool_end = s.pool_end) :
    Inv c s2 ∧ (∀ i2, i2 < 512 → is_table (pgd_entry c s i2) → pgd_entry c s2 i2 = pgd_entry c s i2) ∧
    ∀ i2 j2 k2, i2 < 512 → j2 < 512 → k2 < 512 →
      readI c s2 i2 j2 k2 =
        if i2 = i ∧ j2 = j then Read.pte (s.brk ||| 3) 0 else readI c s i2 j2 k2 := by
  have hT := pmd_table_aligned c s i
  have hs := h.pmd_safe i hi h1
  have hLlt : s.brk < 1099511627776 := by
    have := h.pool_le
    omega
  have A : ∀ i2, i2 < 512 → pgd_entry c s2 i2 = pgd_entry c s i2 := by
    intro i2 hi2
    unfold pgd_entry
    rw [hm, if_neg (slot_ne hT h.pgd_al hs.2 hj hi2).symm, if_neg (h.pgd_safe.not_fresh hroom hi2)]
  have A2 : ∀ i2, i2 < 512 → pmd_table c s2 i2 = pmd_table c s i2 := by
    intro i2 hi2
    unfold pmd_table
    rw [A i2 hi2]
  have B : ∀ i2 j2, i2 < 512 → j2 < 512 → is_table (pgd_entry c s i2) →
      pmd_entry c s2 i2 j2 = if i2 = i ∧ j2 = j then s.brk ||| 3 else pmd_entry c s i2 j2 := by
    intro i2 j2 hi2 hj2 hv2
    unfold pmd_entry
    rw [A2 i2 hi2, hm]
    by_cases e : i2 = i ∧ j2 = j
    · obtain ⟨e1, e2⟩ := e
      subst e1 e2
      simp
    · rw [if_neg e, if_neg, if_neg ((h.pmd_safe i2 hi2 hv2).1.not_fresh hroom hj2)]
      intro e2
      apply e
      have hT2 := pmd_table_aligned c s i2
      have : pmd_table c s i2 = pmd_table c s i := by omega
      have := h.pmd_inj i2 i hi2 hi hv2 h1 this
      refine ⟨this, ?_⟩
      omega
  have Bnew : pmd_entry c s2 i j = s.brk ||| 3 := by
    rw [B i j hi hj h1, if_pos ⟨rfl, rfl⟩]
  have Tnew : pte_table c s2 i j = s.brk := by
    unfold pte_table
    rw [Bnew]
    exact page_vaddr_or_three _ h.brk_al hLlt
  have Bold : ∀ i2 j2, i2 < 512 → j2 < 512 → is_table (pgd_entry c s i2) → ¬ (i2 = i ∧ j2 = j) →
      pmd_entry c s2 i2 j2 = pmd_entry c s i2 j2 := by
    intro i2 j2 hi2 hj2 hv2 e
    rw [B i2 j2 hi2 hj2 hv2, if_neg e]
  have Told : ∀ i2 j2, i2 < 512 → j2 < 512 → is_table (pgd_entry c s i2) → ¬ (i2 = i ∧ j2 = j) →
      pte_table c s2 i2 j2 = pte_table c s i2 j2 := by
    intro i2 j2 hi2 hj2 hv2 e
    unfold pte_table
    rw [Bold i2 j2 hi2 hj2 hv2 e]
  have C : ∀ i2 j2 k2, i2 < 512 → j2 < 512 → k2 < 512 → is_table (pgd_entry c s i2) →
      is_table (pmd_entry c s i2 j2) → ¬ (i2 = i ∧ j2 = j) →
      pte_entry c s2 i2 j2 k2 = pte_entry c s i2 j2 k2 := by
    intro i2 j2 k2 hi2 hj2 hk2 hv2 hw2 e
    unfold pte_entry
    rw [Told i2 j2 hi2 hj2 hv2 e, hm, if_neg, if_neg ((h.pte_safe i2 j2 hi2 hj2 hv2 hw2).1.not_fresh hroom hk2)]
    exact slot_ne (pte_table_aligned c s i2 j2) hT (h.pte_pmd i2 j2 i hi2 hj2 hi hv2 hw2 h1) hk2 hj
  have D : ∀ k2, k2 < 512 → pte_entry c s2 i j k2 = 0 := by
    intro k2 hk2
    unfold pte_entry
    rw [Tnew, hm, if_neg, if_pos]
    · omega
    · have := hs.1.not_fresh hroom hj
      have := h.brk_al
      omega
  have sg : ∀ P, Safe s P → Safe s2 P := fun P hP => hP.grow hbrk hpool
  have Snew : Safe s2 s.brk := by
    unfold Safe
    omega
  refine ⟨⟨h.pgd_al, by have := h.brk_al; omega, by rw [hpool]; exact h.pool_le,
    sg _ h.pgd_safe, ?_, ?_, ?_, ?_, ?_⟩, fun i2 hi2 _ => A i2 hi2, ?_⟩
  · intro i2 hi2 hv
    rw [A i2 hi2] at hv
    rw [A2 i2 hi2]
    exact ⟨sg _ (h.pmd_safe i2 hi2 hv).1, (h.pmd_safe i2 hi2 hv).2⟩
  · intro i2 i3 hi2 hi3 hv2 hv3 e
    rw [A i2 hi2] at hv2
    rw [A i3 hi3] at hv3
    rw [A2 i2 hi2, A2 i3 hi3] at e
    exact h.pmd_inj i2 i3 hi2 hi3 hv2 hv3 e
  · intro i2 j2 hi2 hj2 hv2 hw2
    rw [A i2 hi2] at hv2
    by_cases e : i2 = i ∧ j2 = j
    · obtain ⟨e1, e2⟩ := e
      subst e1 e2
      rw [Tnew]
      exact ⟨Snew, h.pgd_safe.ne_brk hroom⟩
    · rw [Bold i2 j2 hi2 hj2 hv2 e] at hw2
      rw [Told i2 j2 hi2 hj2 hv2 e]
      exact ⟨sg _ (h.pte_safe i2 j2 hi2 hj2 hv2 hw2).1, (h.pte_safe i2 j2 hi2 hj2 hv2 hw2).2⟩
  · intro i2 j2 i3 hi2 hj2 hi3 hv2 hw2 hv3
    rw [A i2 hi2] at hv2
    rw [A i3 hi3] at hv3
    rw [A2 i3 hi3]
    by_cases e : i2 = i ∧ j2 = j
    · obtain ⟨e1, e2⟩ := e
      subst e1 e2
      rw [Tnew]
      exact (h.pmd_safe i3 hi3 hv3).1.ne_brk hroom
    · rw [Bold i2 j2 hi2 hj2 hv2 e] at hw2
      rw [Told i2 j2 hi2 hj2 hv2 e]
      exact h.pte_pmd i2 j2 i3 hi2 hj2 hi3 hv2 hw2 hv3
  · intro i2 j2 i3 j3 hi2 hj2 hi3 hj3 hv2 hw2 hv3 hw3 e
    rw [A i2 hi2] at hv2
    rw [A i3 hi3] at hv3
    by_cases e2 : i2 = i ∧ j2 = j
    · by_cases e3 : i3 = i ∧ j3 = j
      · exact ⟨e2.1.trans e3.1.symm, e2.2.trans e3.2.symm⟩
      · exfalso
        obtain ⟨e21, e22⟩ := e2
        subst e21 e22
        rw [Bold i3 j3 hi3 hj3 hv3 e3] at hw3
        rw [Tnew, Told i3 j3 hi3 hj3 hv3 e3] at e
        exact (h.pte_safe i3 j3 hi3 hj3 hv3 hw3).1.ne_brk hroom e
    · rw [Bold i2 j2 hi2 hj2 hv2 e2] at hw2
      by_cases e3 : i3 = i ∧ j3 = j
      · exfalso
        obtain ⟨e31, e32⟩ := e3
        subst e31 e32
        rw [Tnew, Told i2 j2 hi2 hj2 hv2 e2] at e
        exact (h.pte_safe i2 j2 hi2 hj2 hv2 hw2).1.ne_brk hroom e.symm
      · rw [Bold i3 j3 hi3 hj3 hv3 e3] at hw3
        rw [Told i2 j2 hi2 hj2 hv2 e2, Told i3 j3 hi3 hj3 hv3 e3] at e
        exact h.pte_inj i2 j2 i3 j3 hi2 hj2 hi3 hj3 hv2 hw2 hv3 hw3 e
  · intro i2 j2 k2 hi2 hj2 hk2
    unfold readI
    rw [A i2 hi2]
    by_cases hv2 : is_table (pgd_entry c s i2)
    · rw [if_pos hv2, if_pos hv2]
      by_cases e : i2 = i ∧ j2 = j
      · rw [if_pos e]
        obtain ⟨e1, e2⟩ := e
        subst e1 e2
        rw [Bnew, if_pos (is_table_or_three _ h.brk_al), D k2 hk2]
      · rw [if_neg e, Bold i2 j2 hi2 hj2 hv2 e]
        by_cases hw : is_table (pmd_entry c s i2 j2)
        · rw [if_pos hw, if_pos hw, C i2 j2 k2 hi2 hj2 hk2 hv2 hw e]
        · rw [if_neg hw, if_neg hw]
    · rw [if_neg hv2, if_neg hv2, if_neg]
      rintro ⟨e1, _⟩
      subst e1
      exact hv2 h1

/-- Pointing a top entry that is not a table reference at a fresh, zeroed middle
table. -/
theorem populate_pud_spec {c : Config} {s : State} (h : Inv c s) {i : Nat} (hi : i < 512)
    (hz : ¬ is_table (pgd_entry c s i))
    (hroom : s.brk + 4096 ≤ s.pool_end) {s2 : State}
    (hm : ∀ q, s2.mem q = if q = c.swapper_pg_dir + 8 * i then s.brk ||| 3
      else if s.brk ≤ q ∧ q < s.brk + 4096 then 0 else s.mem q)
    (hbrk : s2.brk = s.brk + 4096) (hpool : s2.pool_end = s.pool_end) :
    Inv c s2 ∧ (∀ i2, i2 < 512 → is_table (pgd_entry c s i2) → pgd_entry c s2 i2 = pgd_entry c s i2) ∧
    ∀ i2 j2 k2, i2 < 512 → j2 < 512 → k2 < 512 →
      readI c s2 i2 j2 k2 = if i2 = i then Read.pmd 0 else readI c s i2 j2 k2 := by
  have hLlt : s.brk < 1099511627776 := by
    have := h.pool_le
    omega
  have A : ∀ i2, i2 < 512 →
      pgd_entry c s2 i2 = if i2 = i then s.brk ||| 3 else pgd_entry c s i2 := by
    intro i2 hi2
    unfold pgd_entry
    rw [hm]
    by_cases e : i2 = i
    · subst e
      simp
    · rw [if_neg e, if_neg (by omega), if_neg (h.pgd_safe.not_fresh hroom hi2)]
  have Anew : pgd_entry c s2 i = s.brk ||| 3 := by rw [A i hi, if_pos rfl]
  have Aold : ∀ i2, i2 < 512 → i2 ≠ i → pgd_entry c s2 i2 = pgd_entry c s i2 := by
    intro i2 hi2 e
    rw [A i2 hi2, if_neg e]
  have Tnew : pmd_table c s2 i = s.brk := by
    unfold pmd_table
    rw [Anew]
    exact page_vaddr_or_three _ h.brk_al hLlt
  have Told : ∀ i2, i2 < 512 → i2 ≠ i → pmd_table c s2 i2 = pmd_table c s i2 := by
    intro i2 hi2 e
    unfold pmd_table
    rw [Aold i2 hi2 e]
  have Bnew : ∀ j2, j2 < 512 → pmd_entry c s2 i j2 = 0 := by
    intro j2 hj2
    unfold pmd_entry
    rw [Tnew, hm, if_neg, if_pos]
    · omega
    · have := h.pgd_safe.not_fresh hroom hi
      have := h.brk_al
      have := h.pgd_al
      omega
  have Bold : ∀ i2 j2, i2 < 512 → j2 < 512 → is_table (pgd_entry c s i2) →
      pmd_entry c s2 i2 j2 = pmd_entry c s i2 j2 := by
    intro i2 j2 hi2 hj2 hv2
    have e : i2 ≠ i := by
      intro e
      subst e
      exact hz hv2
    unfold pmd_entry
    rw [Told i2 hi2 e, hm, if_neg, if_neg ((h.pmd_safe i2 hi2 hv2).1.not_fresh hroom hj2)]
    exact slot_ne (pmd_table_aligned c s i2) h.pgd_al (h.pmd_safe i2 hi2 hv2).2 hj2 hi
  have T2old : ∀ i2 j2, i2 < 512 → j2 < 512 → is_table (pgd_entry c s i2) →
      pte_table c s2 i2 j2 = pte_table c s i2 j2 := by
    intro i2 j2 hi2 hj2 hv2
    unfold pte_table
    rw [Bold i2 j2 hi2 hj2 hv2]
  have C : ∀ i2 j2 k2, i2 < 512 → j2 < 512 → k2 < 512 → is_table (pgd_entry c s i2) →
      is_table (pmd_entry c s i2 j2) →
      pte_entry c s2 i2 j2 k2 = pte_entry c s i2 j2 k2 := by
    intro i2 j2 k2 hi2 hj2 hk2 hv2 hw2
    unfold pte_entry
    rw [T2old i2 j2 hi2 hj2 hv2, hm, if_neg,
      if_neg ((h.pte_safe i2 j2 hi2 hj2 hv2 hw2).1.not_fresh hroom hk2)]
    exact slot_ne (pte_table_aligned c s i2 j2) h.pgd_al (h.pte_safe i2 j2 hi2 hj2 hv2 hw2).2 hk2 hi
  have sg : ∀ P, Safe s P → Safe s2 P := fun P hP => hP.grow hbrk hpool
  have Snew : Safe s2 s.brk := by
    unfold Safe
    omega
  have old : ∀ i2, i2 < 512 → is_table (pgd_entry c s2 i2) → i2 ≠ i →
      is_table (pgd_entry c s i2) := by
    intro i2 hi2 hv e
    rw [Aold i2 hi2 e] at hv
    exact hv
  have nov : ∀ j2, j2 < 512 → ¬ is_table (pmd_entry c s2 i j2) := by
    intro j2 hj2
    rw [Bnew j2 hj2]
    exact not_is_table_zero
  refine ⟨⟨h.pgd_al, by have := h.brk_al; omega, by rw [hpool]; exact h.pool_le,
    sg _ h.pgd_safe, ?_, ?_, ?_, ?_, ?_⟩, ?_, ?_⟩
  · intro i2 hi2 hv
    by_cases e : i2 = i
    · subst e
      rw [Tnew]
      exact ⟨Snew, h.pgd_safe.ne_brk hroom⟩
    · have hv2 := old i2 hi2 hv e
      rw [Told i2 hi2 e]
      exact ⟨sg _ (h.pmd_safe i2 hi2 hv2).1, (h.pmd_safe i2 hi2 hv2).2⟩
  · intro i2 i3 hi2 hi3 hv2 hv3 e
    by_cases e2 : i2 = i
    · by_cases e3 : i3 = i
      · exact e2.trans e3.symm
      · exfalso
        subst e2
        rw [Tnew, Told i3 hi3 e3] at e
        exact (h.pmd_safe i3 hi3 (old i3 hi3 hv3 e3)).1.ne_brk hroom e
    · by_cases e3 : i3 = i
      · exfalso
        subst e3
        rw [Tnew, Told i2 hi2 e2] at e
        exact (h.pmd_safe i2 hi2 (old i2 hi2 hv2 e2)).1.ne_brk hroom e.symm
      · rw [Told i2 hi2 e2, Told i3 hi3 e3] at e
        exact h.pmd_inj i2 i3 hi2 hi3 (old i2 hi2 hv2 e2) (old i3 hi3 hv3 e3) e
  · intro i2 j2 hi2 hj2 hv2 hw2
    by_cases e : i2 = i
    · subst e
      exact absurd hw2 (nov j2 hj2)
    · have hv := old i2 hi2 hv2 e
      rw [Bold i2 j2 hi2 hj2 hv] at hw2
      rw [T2old i2 j2 hi2 hj2 hv]
      exact ⟨sg _ (h.pte_safe i2 j2 hi2 hj2 hv hw2).1, (h.pte_safe i2 j2 hi2 hj2 hv hw2).2⟩
  · intro i2 j2 i3 hi2 hj2 hi3 hv2 hw2 hv3
    by_cases e : i2 = i
    · subst e
      exact absurd hw2 (nov j2 hj2)
    · have hv := old i2 hi2 hv2 e
      rw [Bold i2 j2 hi2 hj2 hv] at hw2
      rw [T2old i2 j2 hi2 hj2 hv]
      by_cases e3 : i3 = i
      · subst e3
        rw [Tnew]
        exact fun e4 => (h.pte_safe i2 j2 hi2 hj2 hv hw2).1.ne_brk hroom e4.symm
      · rw [Told i3 hi3 e3]
        exact h.pte_pmd i2 j2 i3 hi2 hj2 hi3 hv hw2 (old i3 hi3 hv3 e3)
  · intro i2 j2 i3 j3 hi2 hj2 hi3 hj3 hv2 hw2 hv3 hw3 e
    by_cases e2 : i2 = i
    · subst e2
      exact absurd hw2 (nov j2 hj2)
    · by_cases e3 : i3 = i
      · subst e3
        exact absurd hw3 (nov j3 hj3)
      · have hvv2 := old i2 hi2 hv2 e2
        have hvv3 := old i3 hi3 hv3 e3
        rw [Bold i2 j2 hi2 hj2 hvv2] at hw2
        rw [Bold i3 j3 hi3 hj3 hvv3] at hw3
        rw [T2old i2 j2 hi2 hj2 hvv2, T2old i3 j3 hi3 hj3 hvv3] at e
        exact h.pte_inj i2 j2 i3 j3 hi2 hj2 hi3 hj3 hvv2 hw2 hvv3 hw3 e
  · intro i2 hi2 hv
    refine Aold i2 hi2 ?_
    intro e
    subst e
    exact hz hv
  · intro i2 j2 k2 hi2 hj2 hk2
    unfold readI
    by_cases e : i2 = i
    · rw [if_pos e]
      subst e
      rw [Anew, if_pos (is_table_or_three _ h.brk_al), if_neg (nov j2 hj2), Bnew j2 hj2]
    · rw [if_neg e, Aold i2 hi2 e]
      by_cases hv2 : is_table (pgd_entry c s i2)
      · rw [if_pos hv2, if_pos hv2, Bold i2 j2 hi2 hj2 hv2]
        by_cases hw : is_table (pmd_entry c s i2 j2)
        · rw [if_pos hw, if_pos hw, C i2 j2 k2 hi2 hj2 hk2 hv2 hw]
        · rw [if_neg hw, if_neg hw]
      · rw [if_neg hv2, if_neg hv2]

/-! ## The same steps, by virtual address -/

theorem pgd_index_lt (a : Nat) : pgd_index a < 512 := by
  rw [pgd_index_eq]
  omega

theorem pmd_index_lt (a : Nat) : pmd_index a < 512 := by
  rw [pmd_index_eq]
  omega

theorem pte_index_lt (a : Nat) : pte_index a < 512 := by
  rw [pte_index_eq]
  omega

theorem pmd_off_k_eq (c : Config) (s : State) (a : Nat) :
    pmd_off_k c s a = pmd_table c s (pgd_index a) + 8 * pmd_index a := rfl

theorem pte_offset_kernel_eq (c : Config) (s : State) (a : Nat) :
    pte_offset_kernel (pmd_entry c s (pgd_index a) (pmd_index a)) a =
      pte_table c s (pgd_index a) (pmd_index a) + 8 * pte_index a := rfl

theorem read_nopud {c : Config} {s : State} {a : Nat} :
    read c s a = Read.nopud ↔ ¬ is_table (pgd_entry c s (pgd_index a)) := by
  unfold read readI
  by_cases h1 : is_table (pgd_entry c s (pgd_index a))
  · by_cases h2 : is_table (pmd_entry c s (pgd_index a) (pmd_index a)) <;> simp [h1, h2]
  · simp [h1]

theorem read_pmd {c : Config} {s : State} {a e : Nat} :
    read c s a = Read.pmd e ↔ is_table (pgd_entry c s (pgd_index a)) ∧
      pmd_entry c s (pgd_index a) (pmd_index a) = e ∧ ¬ is_table e := by
  unfold read readI
  by_cases h1 : is_table (pgd_entry c s (pgd_index a))
  · by_cases h2 : is_table (pmd_entry c s (pgd_index a) (pmd_index a))
    · simp only [h1, h2, if_true, true_and]
      constructor
      · intro h
        cases h
      · rintro ⟨e1, e2⟩
        subst e1
        exact absurd h2 e2
    · simp only [h1, h2, if_true, if_false, true_and, Read.pmd.injEq]
      constructor
      · intro h
        subst h
        exact ⟨rfl, h2⟩
      · exact fun h => h.1
  · simp [h1]

theorem read_pte {c : Config} {s : State} {a e v : Nat} :
    read c s a = Read.pte e v ↔ is_table (pgd_entry c s (pgd_index a)) ∧
      pmd_entry c s (pgd_index a) (pmd_index a) = e ∧ is_table e ∧
      pte_entry c s (pgd_index a) (pmd_index a) (pte_index a) = v := by
  unfold read readI
  by_cases h1 : is_table (pgd_entry c s (pgd_index a))
  · by_cases h2 : is_table (pmd_entry c s (pgd_index a) (pmd_index a))
    · simp only [h1, h2, if_true, true_and, Read.pte.injEq]
      constructor
      · rintro ⟨e1, e2⟩
        subst e1
        exact ⟨rfl, h2, e2⟩
      · exact fun h => ⟨h.1, h.2.2⟩
    · simp only [h1, h2, if_true, if_false, true_and]
      constructor
      · intro h
        cases h
      · rintro ⟨e1, e2, _⟩
        subst e1
        exact absurd e2 h2
  · simp [h1]

/-- In the window the three indices determine the page. -/
theorem idx_page {a b : Nat} (ha : InWindow a) (hb : InWindow b) :
    (pgd_index a = pgd_index b ∧ pmd_index a = pmd_index b ∧ pte_index a = pte_index b) ↔
      a / 4096 = b / 4096 := by
  unfold InWindow VMALLOC_START U64 at *
  rw [pgd_index_eq, pgd_index_eq, pmd_index_eq, pmd_index_eq, pte_index_eq, pte_index_eq]
  omega

theorem idx_chunk {a b : Nat} (ha : InWindow a) (hb : InWindow b) :
    (pgd_index a = pgd_index b ∧ pmd_index a = pmd_index b) ↔ a / 2097152 = b / 2097152 := by
  unfold InWindow VMALLOC_START U64 at *
  rw [pgd_index_eq, pgd_index_eq, pmd_index_eq, pmd_index_eq]
  omega

theorem idx_slot {a b : Nat} (ha : InWindow a) (hb : InWindow b) :
    pgd_index a = pgd_index b ↔ a / 1073741824 = b / 1073741824 := by
  unfold InWindow VMALLOC_START U64 at *
  rw [pgd_index_eq, pgd_index_eq]
  omega

/-- Writing the leaf entry of `a0`. -/
theorem set_pte_read {c : Config} {s : State} (h : Inv c s) {a0 e v0 : Nat} (ha0 : InWindow a0)
    (hr : read c s a0 = Read.pte e v0) (v : Nat) {s2 : State}
    (hm : ∀ q, s2.mem q = if q = pte_offset_kernel e a0 then v else s.mem q)
    (hbrk : s2.brk = s.brk) (hpool : s2.pool_end = s.pool_end) :
    Inv c s2 ∧ (∀ i2, i2 < 512 → is_table (pgd_entry c s i2) → pgd_entry c s2 i2 = pgd_entry c s i2) ∧
    ∀ a, InWindow a →
      read c s2 a = if a / 4096 = a0 / 4096 then Read.pte e v else read c s a := by
  obtain ⟨h1, h2, h3, _⟩ := read_pte.1 hr
  subst h2
  have := store_pte_spec h (pgd_index_lt a0) (pmd_index_lt a0) (pte_index_lt a0) h1 h3 v
    hm hbrk hpool
  refine ⟨this.1, this.2.1, ?_⟩
  intro a ha
  unfold read
  rw [this.2.2 _ _ _ (pgd_index_lt a) (pmd_index_lt a) (pte_index_lt a)]
  simp only [idx_page ha ha0]

/-- Writing a value that is not a table reference into the middle entry of `a0`. -/
theorem set_pmd_read {c : Config} {s : State} (h : Inv c s) {a0 : Nat} (ha0 : InWindow a0)
    (hr : read c s a0 ≠ Read.nopud) (v : Nat) (hv : ¬ is_table v) {s2 : State}
    (hm : ∀ q, s2.mem q = if q = pmd_off_k c s a0 then v else s.mem q)
    (hbrk : s2.brk = s.brk) (hpool : s2.pool_end = s.pool_end) :
    Inv c s2 ∧ (∀ i2, i2 < 512 → is_table (pgd_entry c s i2) → pgd_entry c s2 i2 = pgd_entry c s i2) ∧
    ∀ a, InWindow a →
      read c s2 a = if a / 2097152 = a0 / 2097152 then Read.pmd v else read c s a := by
  have h1 : is_table (pgd_entry c s (pgd_index a0)) := by
    by_contra hc
    exact hr (read_nopud.2 hc)
  have := store_pmd_spec h (pgd_index_lt a0) (pmd_index_lt a0) h1 v hv hm hbrk hpool
  refine ⟨this.1, this.2.1, ?_⟩
  intro a ha
  unfold read
  rw [this.2.2 _ _ _ (pgd_index_lt a) (pmd_index_lt a) (pte_index_lt a)]
  simp only [idx_chunk ha ha0]

/-- Installing a fresh leaf table at the middle entry of `a0`. -/
theorem populate_pmd_read {c : Config} {s : State} (h : Inv c s) {a0 e0 : Nat}
    (ha0 : InWindow a0) (hr : read c s a0 = Read.pmd e0)
    (hroom : s.brk + 4096 ≤ s.pool_end) {s2 : State}
    (hm : ∀ q, s2.mem q = if q = pmd_off_k c s a0 then s.brk ||| 3
      else if s.brk ≤ q ∧ q < s.brk + 4096 then 0 else s.mem q)
    (hbrk : s2.brk = s.brk + 4096) (hpool : s2.pool_end = s.pool_end) :
    Inv c s2 ∧ (∀ i2, i2 < 512 → is_table (pgd_entry c s i2) → pgd_entry c s2 i2 = pgd_entry c s i2) ∧
    ∀ a, InWindow a →
      read c s2 a = if a / 2097152 = a0 / 2097152 then Read.pte (s.brk ||| 3) 0
        else read c s a := by
  obtain ⟨h1, h2, h3⟩ := read_pmd.1 hr
  subst h2
  have := populate_pmd_spec h (pgd_index_lt a0) (pmd_index_lt a0) h1 h3 hroom hm hbrk
    hpool
  refine ⟨this.1, this.2.1, ?_⟩
  intro a ha
  unfold read
  rw [this.2.2 _ _ _ (pgd_index_lt a) (pmd_index_lt a) (pte_index_lt a)]
  simp only [idx_chunk ha ha0]

/-- Installing a fresh middle table at the top entry of `a0`. -/
theorem populate_pud_read {c : Config} {s : State} (h : Inv c s) {a0 : Nat}
    (ha0 : InWindow a0) (hr : read c s a0 = Read.nopud)
    (hroom : s.brk + 4096 ≤ s.pool_end) {s2 : State}
    (hm : ∀ q, s2.mem q = if q = pgd_offset_k c a0 then s.brk ||| 3
      else if s.brk ≤ q ∧ q < s.brk + 4096 then 0 else s.mem q)
    (hbrk : s2.brk = s.brk + 4096) (hpool : s2.pool_end = s.pool_end) :
    Inv c s2 ∧ (∀ i2, i2 < 512 → is_table (pgd_entry c s i2) → pgd_entry c s2 i2 = pgd_entry c s i2) ∧
    ∀ a, InWindow a →
      read c s2 a = if a / 1073741824 = a0 / 1073741824 then Read.pmd 0 else read c s a := by
  have h1 := read_nopud.1 hr
  have := populate_pud_spec h (pgd_index_lt a0) h1 hroom hm hbrk hpool
  refine ⟨this.1, this.2.1, ?_⟩
  intro a ha
  unfold read
  rw [this.2.2 _ _ _ (pgd_index_lt a) (pmd_index_lt a) (pte_index_lt a)]
  simp only [idx_slot ha ha0]

/-! ## The page loop -/

theorem MemOnly.mo_refl (s : State) : MemOnly s s := rfl

theorem MemOnly.store (s : State) (p v : Nat) : MemOnly s (store s p v) := rfl

theorem MemOnly.mo_trans {s s1 s2 : State} (h1 : MemOnly s s1) (h2 : MemOnly s1 s2) :
    MemOnly s s2 := by
  unfold MemOnly at *
  rw [h2, h1]

theorem MemOnly.brk {s s2 : State} (h : MemOnly s s2) : s2.brk = s.brk := by
  rw [h]

theorem MemOnly.pool_end {s s2 : State} (h : MemOnly s s2) : s2.pool_end = s.pool_end := by
  rw [h]

theorem MemOnly.mo_pke {s s2 : State} (h : MemOnly s s2) :
    PAGE_KERNEL_EXEC s2 = PAGE_KERNEL_EXEC s := by
  unfold PAGE_KERNEL_EXEC
  rw [h]

theorem read_same_chunk {c : Config} {s : State} {a b e v : Nat} (ha : InWindow a)
    (hb : InWindow b) (hab : a / 2097152 = b / 2097152) (hr : read c s a = Read.pte e v) :
    ∃ w, read c s b = Read.pte e w := by
  obtain ⟨h1, h2, h3, _⟩ := read_pte.1 hr
  obtain ⟨e1, e2⟩ := (idx_chunk ha hb).2 hab
  refine ⟨_, read_pte.2 ⟨?_, ?_, h3, rfl⟩⟩
  · rw [← e1]
    exact h1
  · rw [← e1, ← e2]
    exact h2

/-- The loop of `alloc_init_pte` writes the entries of the pages of `[addr, endR)`
and nothing else. -/
theorem pte_loop_read {c : Config} {e endR : Nat} :
    ∀ (fuel : Nat) (s : State) (addr pfn v0 : Nat), Inv c s → InWindow addr →
      addr % 4096 = 0 → endR % 4096 = 0 → addr < endR → endR ≤ cb addr + 2097152 →
      (endR - addr) / 4096 ≤ fuel → pfn < U64 → read c s addr = Read.pte e v0 →
      ∃ s2, alloc_init_pte_loop fuel s (pte_offset_kernel e addr) addr (endR % U64) pfn = .ok s2 ∧
        Inv c s2 ∧ MemOnly s s2 ∧
        (∀ i2, i2 < 512 → is_table (pgd_entry c s i2) → pgd_entry c s2 i2 = pgd_entry c s i2) ∧
        ∀ a, InWindow a → read c s2 a =
          if addr ≤ a ∧ a < endR then
            Read.pte e (pfn_pte (wrap (pfn + (a - addr) / 4096)) (PAGE_KERNEL_EXEC s))
          else read c s a := by
  intro fuel
  induction fuel with
  | zero =>
    intro s addr pfn v0 _ _ h1 h2 h3 _ h5 _ _
    omega
  | succ fuel ih =>
    intro s addr pfn v0 hinv hw h1 h2 h3 h4 h5 hpfn hr
    have hw2 := hw
    unfold InWindow VMALLOC_START U64 at hw2
    unfold cb at h4
    have hm0 : ∀ q, (set_pte s (pte_offset_kernel e addr)
        (pfn_pte pfn (PAGE_KERNEL_EXEC s))).mem q =
        if q = pte_offset_kernel e addr then pfn_pte pfn (PAGE_KERNEL_EXEC s) else s.mem q :=
      fun q => rfl
    obtain ⟨hinv1, hkeep1, hread1⟩ := set_pte_read hinv hw hr (pfn_pte pfn (PAGE_KERNEL_EXEC s))
      hm0 rfl rfl
    have hmo : MemOnly s (set_pte s (pte_offset_kernel e addr) (pfn_pte pfn (PAGE_KERNEL_EXEC s))) :=
      MemOnly.store _ _ _
    rw [alloc_init_pte_loop]
    by_cases hlast : addr + 4096 = endR
    · have e1 : wrap (addr + PAGE_SIZE) = endR % U64 := by
        unfold wrap PAGE_SIZE
        rw [hlast]
      simp only [e1, ne_eq, not_true_eq_false, if_false]
      refine ⟨_, rfl, hinv1, hmo, hkeep1, ?_⟩
      intro a ha
      rw [hread1 a ha]
      have hc : (a / 4096 = addr / 4096) ↔ (addr ≤ a ∧ a < endR) := by omega
      by_cases hin : addr ≤ a ∧ a < endR
      · rw [if_pos (hc.2 hin), if_pos hin]
        have : (a - addr) / 4096 = 0 := by omega
        rw [this]
        unfold wrap
        rw [Nat.add_zero, Nat.mod_eq_of_lt hpfn]
      · rw [if_neg (fun h => hin (hc.1 h)), if_neg hin]
    · have hlt : addr + 4096 < endR := by omega
      have e1 : wrap (addr + PAGE_SIZE) = addr + 4096 := by
        unfold wrap PAGE_SIZE U64
        omega
      have e2 : addr + 4096 ≠ endR % U64 := by
        unfold U64
        omega
      simp only [e1, ne_eq, e2, not_false_eq_true, if_true]
      have hw1 : InWindow (addr + 4096) := by
        unfold InWindow VMALLOC_START U64
        omega
      obtain ⟨w, hrw⟩ := read_same_chunk hw hw1 (by omega) hr
      have hr1 : read c (set_pte s (pte_offset_kernel e addr) (pfn_pte pfn (PAGE_KERNEL_EXEC s)))
          (addr + 4096) = Read.pte e w := by
        rw [hread1 _ hw1, if_neg (by omega), hrw]
      have eptr : pte_offset_kernel e addr + 8 = pte_offset_kernel e (addr + 4096) := by
        unfold pte_offset_kernel
        rw [pte_index_eq, pte_index_eq]
        omega
      have hpfn1 : wrap (pfn + 1) < U64 := by
        unfold wrap U64
        omega
      obtain ⟨s2, hrun, hinv2, hmo2, hkeep2, hread2⟩ := ih _ (addr + 4096) (wrap (pfn + 1)) w hinv1 hw1
        (by omega) h2 hlt (by unfold cb; omega) (by omega) hpfn1 hr1
      rw [eptr]
      refine ⟨s2, hrun, hinv2, hmo.mo_trans hmo2, ?_, ?_⟩
      · intro i2 hi2 hv
        rw [hkeep2 i2 hi2 (by rw [hkeep1 i2 hi2 hv]; exact hv), hkeep1 i2 hi2 hv]
      · intro a ha
        rw [hread2 a ha, hread1 a ha, hmo.mo_pke]
        by_cases hin1 : addr + 4096 ≤ a ∧ a < endR
        · rw [if_pos hin1, if_pos (by omega)]
          have : wrap (wrap (pfn + 1) + (a - (addr + 4096)) / 4096) =
              wrap (pfn + (a - addr) / 4096) := by
            unfold wrap U64
            omega
          rw [this]
        · rw [if_neg hin1]
          by_cases hin0 : a / 4096 = addr / 4096
          · rw [if_pos hin0, if_pos (by omega)]
            have : (a - addr) / 4096 = 0 := by omega
            rw [this]
            unfold wrap
            rw [Nat.add_zero, Nat.mod_eq_of_lt hpfn]
          · rw [if_neg hin0, if_neg (by omega)]

theorem or_eq_zero_iff (x y : Nat) : x ||| y = 0 ↔ x = 0 ∧ y = 0 := by
  constructor
  · intro h
    have hb : ∀ i, (x.testBit i || y.testBit i) = false := by
      intro i
      rw [← Nat.testBit_or, h, Nat.zero_testBit]
    constructor
    · apply Nat.eq_of_testBit_eq
      intro i
      have := hb i
      rw [Nat.zero_testBit]
      cases hx : x.testBit i
      · rfl
      · rw [hx] at this
        simp at this
    · apply Nat.eq_of_testBit_eq
      intro i
      have := hb i
      rw [Nat.zero_testBit]
      cases hy : y.testBit i
      · rfl
      · rw [hy] at this
        simp at this
  · rintro ⟨rfl, rfl⟩
    rfl

theorem or_mod_eq_zero (x y k : Nat) : (x ||| y) % 2 ^ k = 0 ↔ x % 2 ^ k = 0 ∧ y % 2 ^ k = 0 := by
  rw [← Nat.and_pow_two_sub_one_eq_mod, ← Nat.and_pow_two_sub_one_eq_mod,
    ← Nat.and_pow_two_sub_one_eq_mod, Nat.and_distrib_right, or_eq_zero_iff]

theorem sect_cond (addr next phys : Nat) :
    ((addr ||| next ||| phys) &&& not64 SECTION_MASK) = 0 ↔
      addr % 2097152 = 0 ∧ next % 2097152 = 0 ∧ phys % 2097152 = 0 := by
  rw [land_not_SECTION_MASK]
  have h1 := or_mod_eq_zero (addr ||| next) phys 21
  have h2 := or_mod_eq_zero addr next 21
  norm_num at h1 h2
  rw [h1, h2, and_assoc]

theorem is_table_or (x y : Nat) : is_table (x ||| y) ↔ is_table x ∨ is_table y := by
  unfold is_table
  rw [Nat.and_distrib_right, Ne, or_eq_zero_iff]
  tauto

theorem land_three (x : Nat) : x &&& 3 = x % 4 := Nat.and_pow_two_sub_one_eq_mod x 2

theorem ProtOk.not_table {s : State} (h : ProtOk s) : ¬ is_table s.prot_sect_kernel := by
  unfold ProtOk at h
  rw [land_three] at h
  rw [is_table_iff]
  omega

theorem not_is_table_prot (c : Config) {s : State} (h : ProtOk s) (x : Nat) :
    ¬ is_table (get_pmd_prot_sect_kernel c s x) := by
  have h0 := h.not_table
  have h1 : ¬ is_table PMD_SECT_PXN := by decide
  have h2 : ¬ is_table PMD_SECT_RDONLY := by decide
  unfold get_pmd_prot_sect_kernel
  split_ifs
  all_goals (try simp only [is_table_or])
  all_goals tauto

theorem not_is_table_blk (c : Config) {s : State} (h : ProtOk s) (x : Nat) {phys : Nat}
    (hp : phys % 2097152 = 0) : ¬ is_table (phys ||| get_pmd_prot_sect_kernel c s x) := by
  rw [is_table_or]
  have := not_is_table_prot c h x
  have : ¬ is_table phys := by
    rw [is_table_iff]
    omega
  tauto

theorem pmd_addr_end_eq {addr endR : Nat} (ha : addr < U64) (h1 : addr < endR)
    (h2 : endR ≤ U64) :
    pmd_addr_end addr (endR % U64) = (min (cb addr + 2097152) endR) % U64 := by
  unfold pmd_addr_end
  have hw : wrap (addr + PMD_SIZE) < U64 := Nat.mod_lt _ (by decide)
  simp only [land_PMD_MASK _ hw]
  unfold wrap usub PMD_SIZE cb U64 at *
  split_ifs <;> omega

theorem pgd_addr_end_eq {addr endR : Nat} (ha : addr < U64) (h1 : addr < endR)
    (h2 : endR ≤ U64) :
    pgd_addr_end addr (endR % U64) =
      (min (addr / 1073741824 * 1073741824 + 1073741824) endR) % U64 := by
  unfold pgd_addr_end
  have hw : wrap (addr + PGDIR_SIZE) < U64 := Nat.mod_lt _ (by decide)
  simp only [land_PGDIR_MASK _ hw]
  unfold wrap usub PGDIR_SIZE U64 at *
  split_ifs <;> omega

/-! ## The allocator on an aligned break -/

theorem early_alloc_ok {s : State} (hal : s.brk % 4096 = 0) (hroom : Room s 1) :
    early_alloc s 4096 =
      .ok (s.brk, memset { s with brk := s.brk + 4096 } s.brk 0 4096) := by
  unfold Room at hroom
  have e : (s.brk + 4096 - 1) / 4096 * 4096 = s.brk := by omega
  unfold early_alloc memblock_alloc
  simp only [e]
  rw [if_pos (by omega)]

theorem early_alloc_oom {s : State} (hal : s.brk % 4096 = 0) (hroom : ¬ Room s 1) :
    early_alloc s 4096 = .error Halt.oom := by
  unfold Room at hroom
  have e : (s.brk + 4096 - 1) / 4096 * 4096 = s.brk := by omega
  unfold early_alloc memblock_alloc
  simp only [e]
  rw [if_neg (by omega)]

theorem read_same_chunk_pmd {c : Config} {s : State} {a b e : Nat} (ha : InWindow a)
    (hb : InWindow b) (hab : a / 2097152 = b / 2097152) (hr : read c s a = Read.pmd e) :
    read c s b = Read.pmd e := by
  obtain ⟨h1, h2, h3⟩ := read_pmd.1 hr
  obtain ⟨e1, e2⟩ := (idx_chunk ha hb).2 hab
  refine read_pmd.2 ⟨?_, ?_, h3⟩
  · rw [← e1]
    exact h1
  · rw [← e1, ← e2]
    exact h2

theorem Same.same_refl (s : State) : Same s s := ⟨rfl, rfl, rfl, rfl⟩

theorem Same.same_trans {s s1 s2 : State} (h1 : Same s s1) (h2 : Same s1 s2) : Same s s2 := by
  unfold Same at *
  obtain ⟨a1, a2, a3, a4⟩ := h1
  obtain ⟨b1, b2, b3, b4⟩ := h2
  exact ⟨b1.trans a1, b2.trans a2, b3.trans a3, b4.trans a4⟩

theorem MemOnly.same {s s2 : State} (h : MemOnly s s2) : Same s s2 := by
  unfold Same
  rw [h]
  exact ⟨rfl, rfl, rfl, rfl⟩

theorem Same.same_pke {s s2 : State} (h : Same s s2) : PAGE_KERNEL_EXEC s2 = PAGE_KERNEL_EXEC s := by
  unfold PAGE_KERNEL_EXEC
  rw [h.2.2.2]

theorem Same.prot {s s2 : State} (h : Same s s2) (c : Config) (x : Nat) :
    get_pmd_prot_sect_kernel c s2 x = get_pmd_prot_sect_kernel c s x := by
  unfold get_pmd_prot_sect_kernel
  rw [h.2.2.1]

theorem Same.protOk {s s2 : State} (h : Same s s2) (hp : ProtOk s) : ProtOk s2 := by
  unfold ProtOk at *
  rw [h.2.2.1]
  exact hp

/-- The value the page loop writes for the page of `a`. -/
theorem val_eq {s : State} {phys addr a : Nat} (h1 : addr ≤ a) (ha : addr % 4096 = 0)
    (hp : phys % 4096 = 0) (hpu : phys < U64) (hau : a < U64) :
    pfn_pte (wrap (__phys_to_pfn phys + (a - addr) / 4096)) (PAGE_KERNEL_EXEC s) =
      val s phys addr a := by
  unfold val pb __phys_to_pfn PAGE_SHIFT wrap
  rw [Nat.shiftRight_eq_div_pow]
  unfold U64 at *
  congr 1
  have : phys / 2 ^ 12 + (a - addr) / 4096 = (phys + (a / 4096 * 4096 - addr)) / 4096 := by
    norm_num
    omega
  rw [this]
  apply Nat.mod_eq_of_lt
  omega

/-! ## `alloc_init_pte` -/

/-- On a chunk that already has a leaf table. -/
theorem alloc_init_pte_old {c : Config} {s : State} (hinv : Inv c s) {addr next pfn e v0 : Nat}
    (hw : InWindow addr) (ha : addr % 4096 = 0) (hn : next % 4096 = 0) (h1 : addr < next)
    (h2 : next ≤ cb addr + 2097152) (hpfn : pfn < U64) (hr : read c s addr = Read.pte e v0) :
    ∃ s2, alloc_init_pte s (pmd_off_k c s addr) addr (next % U64) pfn = .ok s2 ∧
      Inv c s2 ∧ Same s s2 ∧ s2.brk = s.brk ∧ s2.pte_tables = s.pte_tables ∧
      s2.pte_calls = s.pte_calls + 1 ∧
      (∀ i2, i2 < 512 → is_table (pgd_entry c s i2) → pgd_entry c s2 i2 = pgd_entry c s i2) ∧
      ∀ a, InWindow a → read c s2 a =
        if addr ≤ a ∧ a < next then
          Read.pte e (pfn_pte (wrap (pfn + (a - addr) / 4096)) (PAGE_KERNEL_EXEC s))
        else read c s a := by
  obtain ⟨g1, g2, g3, _⟩ := read_pte.1 hr
  have hmem : s.mem (pmd_off_k c s addr) = e := g2
  have hne : pmd_none e = false := by
    unfold pmd_none
    have : e ≠ 0 := by
      intro h0
      rw [h0] at g3
      exact not_is_table_zero g3
    simpa using this
  have hnb : pmd_bad e = false := by
    unfold pmd_bad
    unfold is_table at g3
    simpa using g3
  have hinv1 : Inv c { s with pte_calls := s.pte_calls + 1 } :=
    hinv.transfer rfl rfl (fun _ _ _ => rfl) (fun _ _ _ _ _ _ => rfl)
  have hr1 : read c { s with pte_calls := s.pte_calls + 1 } addr = Read.pte e v0 := hr
  have hfuel : (next - addr) / 4096 ≤ FUEL := by
    unfold cb at h2
    unfold FUEL U64
    omega
  obtain ⟨s2, hrun, hinv2, hmo, hkeep, hread⟩ :=
    pte_loop_read FUEL _ addr pfn v0 hinv1 hw ha hn h1 h2 hfuel hpfn hr1
  refine ⟨s2, ?_, hinv2, ?_, ?_, ?_, ?_, hkeep, hread⟩
  · unfold alloc_init_pte alloc_init_pte_table
    simp only [hmem, hne, hnb, Bool.false_eq_true, if_false]
    exact hrun
  · have := hmo.same
    unfold Same at *
    exact this
  · rw [hmo.brk]
  · rw [hmo]
  · rw [hmo]

theorem Inv.calls {c : Config} {s : State} (h : Inv c s) (n : Nat) :
    Inv c { s with pte_calls := n } :=
  h.transfer rfl rfl (fun _ _ _ => rfl) (fun _ _ _ _ _ _ => rfl)

/-- The table part of `alloc_init_pte` on an empty middle entry. -/
theorem alloc_init_pte_table_new {s : State} {p : Nat} (hal : s.brk % 4096 = 0)
    (hmem : s.mem p = 0) (hroom : Room s 1) :
    ∃ s1, alloc_init_pte_table s p = .ok s1 ∧
      (∀ q, s1.mem q = if q = p then s.brk ||| 3
        else if s.brk ≤ q ∧ q < s.brk + 4096 then 0 else s.mem q) ∧
      s1.brk = s.brk + 4096 ∧ Same s s1 ∧ s1.pte_tables = s.pte_tables + 1 ∧
      s1.pte_calls = s.pte_calls := by
  have hsz : PTRS_PER_PTE * 8 = 4096 := rfl
  have hpn : pmd_none 0 = true := rfl
  unfold alloc_init_pte_table
  simp only [hmem, hpn, if_true, hsz, early_alloc_ok hal hroom]
  exact ⟨_, rfl, fun q => rfl, rfl, ⟨rfl, rfl, rfl, rfl⟩, rfl, rfl⟩

/-- On a chunk whose middle entry is empty, with room for a leaf table. -/
theorem alloc_init_pte_new {c : Config} {s : State} (hinv : Inv c s) {addr next pfn : Nat}
    (hw : InWindow addr) (ha : addr % 4096 = 0) (hn : next % 4096 = 0) (h1 : addr < next)
    (h2 : next ≤ cb addr + 2097152) (hpfn : pfn < U64) (hr : read c s addr = Read.pmd 0)
    (hroom : Room s 1) :
    ∃ s2, alloc_init_pte s (pmd_off_k c s addr) addr (next % U64) pfn = .ok s2 ∧
      Inv c s2 ∧ Same s s2 ∧ s2.brk = s.brk + 4096 ∧ s2.pte_tables = s.pte_tables + 1 ∧
      s2.pte_calls = s.pte_calls + 1 ∧
      (∀ i2, i2 < 512 → is_table (pgd_entry c s i2) → pgd_entry c s2 i2 = pgd_entry c s i2) ∧
      ∀ a, InWindow a → read c s2 a =
        if addr ≤ a ∧ a < next then
          Read.pte (s.brk ||| 3) (pfn_pte (wrap (pfn + (a - addr) / 4096)) (PAGE_KERNEL_EXEC s))
        else if a / 2097152 = addr / 2097152 then Read.pte (s.brk ||| 3) 0
        else read c s a := by
  obtain ⟨g1, g2, _⟩ := read_pmd.1 hr
  have hmem : s.mem (pmd_off_k c s addr) = 0 := g2
  have hroom1 : s.brk + 4096 ≤ s.pool_end := by
    unfold Room at hroom
    omega
  obtain ⟨s1, hs1, hm1, hbrk1, hsame1, htab1, hcall1⟩ :=
    alloc_init_pte_table_new (s := { s with pte_calls := s.pte_calls + 1 })
      (p := pmd_off_k c s addr) hinv.brk_al hmem hroom
  obtain ⟨hinv1, hkeep1, hread1⟩ := populate_pmd_read hinv hw hr hroom1 hm1 hbrk1
    hsame1.1
  have hmem1 : s1.mem (pmd_off_k c s addr) = s.brk ||| 3 := by
    rw [hm1, if_pos rfl]
  have hnb : pmd_bad (s.brk ||| 3) = false := by
    have := is_table_or_three _ hinv.brk_al
    unfold pmd_bad
    unfold is_table at this
    simpa using this
  have hr1 := hread1 addr hw
  rw [if_pos rfl] at hr1
  have hfuel : (next - addr) / 4096 ≤ FUEL := by
    unfold cb at h2
    unfold FUEL U64
    omega
  obtain ⟨s2, hrun, hinv2, hmo, hkeep2, hread2⟩ :=
    pte_loop_read FUEL _ addr pfn 0 hinv1 hw ha hn h1 h2 hfuel hpfn hr1
  have hpke : PAGE_KERNEL_EXEC s1 = PAGE_KERNEL_EXEC s := Same.same_pke (s := s) hsame1
  refine ⟨s2, ?_, hinv2, ?_, ?_, ?_, ?_, ?_, ?_⟩
  · unfold alloc_init_pte
    simp only [hs1, hmem1, hnb, Bool.false_eq_true, if_false]
    exact hrun
  · exact Same.same_trans (s := s) hsame1 hmo.same
  · rw [hmo.brk, hbrk1]
  · rw [hmo]
    exact htab1
  · rw [hmo]
    exact hcall1
  · intro i2 hi2 hv
    rw [hkeep2 i2 hi2 (by rw [hkeep1 i2 hi2 hv]; exact hv), hkeep1 i2 hi2 hv]
  · intro a haw
    rw [hread2 a haw, hread1 a haw, hpke]

/-- On a chunk whose middle entry is empty, without room for a leaf table. -/
theorem alloc_init_pte_oom {c : Config} {s : State} (hinv : Inv c s) {addr end_ pfn : Nat}
    (hr : read c s addr = Read.pmd 0) (hroom : ¬ Room s 1) :
    alloc_init_pte s (pmd_off_k c s addr) addr end_ pfn = .error Halt.oom := by
  obtain ⟨g1, g2, _⟩ := read_pmd.1 hr
  have hmem : s.mem (pmd_off_k c s addr) = 0 := g2
  have hsz : PTRS_PER_PTE * 8 = 4096 := rfl
  have hea : early_alloc { s with pte_calls := s.pte_calls + 1 } 4096 = .error Halt.oom :=
    early_alloc_oom hinv.brk_al hroom
  unfold alloc_init_pte alloc_init_pte_table
  have hpn : pmd_none 0 = true := rfl
  simp only [hmem, hpn, if_true, hsz, hea]

/-- On a chunk that holds a block mapping. -/
theorem alloc_init_pte_bug {c : Config} {s : State} {addr end_ pfn e : Nat}
    (hr : read c s addr = Read.pmd e) (he : e ≠ 0) :
    alloc_init_pte s (pmd_off_k c s addr) addr end_ pfn = .error Halt.bug := by
  obtain ⟨g1, g2, g3⟩ := read_pmd.1 hr
  have hmem : s.mem (pmd_off_k c s addr) = e := g2
  have hpn : pmd_none e = false := by
    unfold pmd_none
    simpa using he
  have hpb : pmd_bad e = true := by
    unfold pmd_bad
    unfold is_table at g3
    simpa using g3
  unfold alloc_init_pte alloc_init_pte_table
  simp only [hmem, hpn, hpb, Bool.false_eq_true, if_false, if_true]

/-! ## One chunk -/

theorem Good.ok {s2 : State} {nb room : Prop} {P : State → Prop} (h : P s2) :
    Good (.ok s2) nb room P := h

theorem Good.oom {nb room : Prop} {P : State → Prop} (h : ¬ room) :
    Good (.error Halt.oom) nb room P :=
  ⟨by decide, fun _ => by decide, fun hr => absurd hr h⟩

theorem Good.bug {nb room : Prop} {P : State → Prop} (h : ¬ nb) :
    Good (.error Halt.bug) nb room P :=
  ⟨by decide, fun hn => absurd hn h, fun _ => by decide⟩

/-- The state after the block path on the chunk `[addr, next)`. -/
theorem blk_post {c : Config} {s s2 : State} {addr next phys : Nat} {pages : Bool}
    (hinv : Inv c s) (hprot : ProtOk s) (hw : InWindow addr)
    (h1 : addr < next) (h2 : next ≤ cb addr + 2097152)
    (hE : pages = false ∧ addr % 2097152 = 0 ∧ next % 2097152 = 0 ∧ phys % 2097152 = 0)
    (hr : read c s addr ≠ Read.nopud)
    (hm : ∀ q, s2.mem q = if q = pmd_off_k c s addr
      then phys ||| get_pmd_prot_sect_kernel c s addr else s.mem q)
    (hbrk : s2.brk = s.brk) (hsame : Same s s2) (htab : s2.pte_tables = s.pte_tables)
    (hcalls : s2.pte_calls = s.pte_calls) :
    Post c s s2 pages phys addr next 1 := by
  obtain ⟨hinv2, hkeep, hread⟩ := set_pmd_read hinv hw hr _
    (not_is_table_blk c hprot addr hE.2.2.2) hm hbrk hsame.1
  have hw2 := hw
  unfold InWindow VMALLOC_START U64 at hw2
  unfold cb at h2
  have hin : ∀ a, addr ≤ a → a < next → InWindow a := by
    intro a h3 h4
    unfold InWindow VMALLOC_START U64
    omega
  refine ⟨hinv2, hsame, by omega, by omega, hkeep, ?_, ?_, ?_, ?_, ?_, ?_⟩
  · intro a h3 h4 _
    rw [hread a (hin a h3 h4), if_pos (by omega)]
    have e1 : cb a = addr := by
      unfold cb
      omega
    unfold blk
    rw [e1, Nat.sub_self, Nat.add_zero]
  · intro a h3 h4 hne
    exfalso
    apply hne
    unfold Elig cb
    refine ⟨hE.1, by omega, by omega, ?_⟩
    have : a / 2097152 * 2097152 - addr = 0 := by omega
    rw [this]
    exact hE.2.2.2
  · intro a haw hd
    left
    unfold cb at hd
    rw [hread a haw, if_neg (by omega)]
  · intro a haw hd
    left
    rw [hread a haw, if_neg (by omega)]
  · intro a e v haw hrd
    left
    rw [hread a haw] at hrd
    by_cases hc : a / 2097152 = addr / 2097152
    · rw [if_pos hc] at hrd
      cases hrd
    · rw [if_neg hc] at hrd
      exact ⟨v, hrd⟩
  · intro _ _ _
    have : nPartial addr next = 0 := by
      unfold nPartial
      rw [if_neg (by omega), if_neg (by omega)]
    rw [this, htab, hcalls]
    exact ⟨rfl, rfl⟩

/-- The state after the page path on the chunk `[addr, next)`. -/
theorem page_post {c : Config} {s s2 : State} {addr next phys : Nat} {pages : Bool}
    (hw : InWindow addr) (ha : addr % 4096 = 0)
    (h1 : addr < next) (h2 : next ≤ cb addr + 2097152) (hp : phys % 4096 = 0)
    (hpu : phys + (next - addr) ≤ U64)
    (hE : ¬ (pages = false ∧ addr % 2097152 = 0 ∧ next % 2097152 = 0 ∧ phys % 2097152 = 0))
    (hinv2 : Inv c s2) (hsame : Same s s2)
    (hkeep : ∀ i2, i2 < 512 → is_table (pgd_entry c s i2) → pgd_entry c s2 i2 = pgd_entry c s i2)
    (e : Nat) (new : Bool)
    (hreads : ∀ a, InWindow a → read c s2 a =
      if addr ≤ a ∧ a < next then
        Read.pte e (pfn_pte (wrap (__phys_to_pfn phys + (a - addr) / 4096)) (PAGE_KERNEL_EXEC s))
      else if a / 2097152 = addr / 2097152 ∧ new = true then Read.pte e 0
      else read c s a)
    (hold : new = false → s2.brk = s.brk ∧ s2.pte_tables = s.pte_tables ∧
      ∃ v0, read c s addr = Read.pte e v0)
    (hnew : new = true → s2.brk = s.brk + 4096 ∧ s2.pte_tables = s.pte_tables + 1 ∧
      read c s addr = Read.pmd 0 ∧ pmd_page_vaddr e = s.brk)
    (hcalls : s2.pte_calls = s.pte_calls + 1) :
    Post c s s2 pages phys addr next 1 := by
  have hw2 := hw
  unfold InWindow VMALLOC_START U64 at hw2
  unfold cb at h2
  have hin : ∀ a, addr ≤ a → a < next → InWindow a := by
    intro a h3 h4
    unfold InWindow VMALLOC_START U64
    omega
  have hb : s.brk ≤ s2.brk ∧ s2.brk ≤ s.brk + 4096 * 1 := by
    cases new
    · have := (hold rfl).1
      omega
    · have := (hnew rfl).1
      omega
  refine ⟨hinv2, hsame, hb.1, hb.2, hkeep, ?_, ?_, ?_, ?_, ?_, ?_⟩
  · intro a h3 h4 hel
    exfalso
    apply hE
    unfold Elig cb at hel
    obtain ⟨g1, g2, g3, g4⟩ := hel
    have : a / 2097152 * 2097152 - addr = 0 := by omega
    rw [this] at g4
    exact ⟨g1, by omega, by omega, g4⟩
  · intro a h3 h4 _
    refine ⟨e, ?_⟩
    rw [hreads a (hin a h3 h4), if_pos ⟨h3, h4⟩,
      val_eq h3 ha hp (by unfold U64 at *; omega) (by unfold U64; omega)]
  · intro a haw hd
    left
    unfold cb at hd
    rw [hreads a haw, if_neg (by omega), if_neg (by omega)]
  · intro a haw hd
    rw [hreads a haw, if_neg (by omega)]
    by_cases hc : a / 2097152 = addr / 2097152 ∧ new = true
    · right
      rw [if_pos hc]
      have := read_same_chunk_pmd hw haw hc.1.symm (hnew hc.2).2.2.1
      rw [this]
      exact ⟨rfl, rfl⟩
    · left
      rw [if_neg hc]
  · intro a e2 v haw hrd
    rw [hreads a haw] at hrd
    have key : a / 2097152 = addr / 2097152 → e2 = e →
        (∃ v0, read c s a = Read.pte e2 v0) ∨
          (s.brk ≤ pmd_page_vaddr e2 ∧ pmd_page_vaddr e2 + 4096 ≤ s2.brk) := by
      intro hc he
      subst he
      cases new
      · left
        obtain ⟨v0, hv0⟩ := (hold rfl).2.2
        exact read_same_chunk hw haw hc.symm hv0
      · right
        obtain ⟨g1, _, _, g4⟩ := hnew rfl
        omega
    by_cases hc1 : addr ≤ a ∧ a < next
    · rw [if_pos hc1] at hrd
      injection hrd with he _
      exact key (by omega) he.symm
    · rw [if_neg hc1] at hrd
      by_cases hc : a / 2097152 = addr / 2097152 ∧ new = true
      · rw [if_pos hc] at hrd
        injection hrd with he _
        exact key hc.1 he.symm
      · rw [if_neg hc] at hrd
        exact Or.inl ⟨v, hrd⟩
  · intro hpg hcong h0
    have hpart : ¬ (addr ≤ cb addr ∧ cb addr + 2097152 ≤ next) := by
      unfold cb
      intro hh
      apply hE
      exact ⟨hpg, by omega, by omega, by omega⟩
    have hr0 := h0 addr (le_refl _) h1 hpart
    have hn1 : nPartial addr next = 1 := by
      unfold cb at hpart
      unfold nPartial
      split_ifs <;> omega
    cases new
    · obtain ⟨v0, hv0⟩ := (hold rfl).2.2
      rw [hv0] at hr0
      rcases hr0 with h | h <;> cases h
    · rw [hn1, (hnew rfl).2.1, hcalls]
      exact ⟨rfl, rfl⟩

theorem body_cond (pages : Bool) (addr next phys : Nat) :
    (!pages && ((addr ||| next % U64 ||| phys) &&& not64 SECTION_MASK) == 0) = true ↔
      (pages = false ∧ addr % 2097152 = 0 ∧ next % 2097152 = 0 ∧ phys % 2097152 = 0) := by
  have h := sect_cond addr (next % U64) phys
  have e : next % U64 % 2097152 = next % 2097152 := by
    unfold U64 at *
    omega
  rw [e] at h
  cases pages
  · simp only [Bool.not_false, Bool.true_and, beq_iff_eq, true_and]
    exact h
  · simp

/-- One pass through the body of the loop of `alloc_init_pmd`. -/
theorem pmd_body_spec {c : Config} {s : State} (hinv : Inv c s) (hprot : ProtOk s)
    {addr next phys : Nat} (pages : Bool) (hw : InWindow addr) (ha : addr % 4096 = 0)
    (hn : next % 4096 = 0) (h1 : addr < next) (h2 : next ≤ cb addr + 2097152)
    (hp : phys % 4096 = 0) (hpu : phys + (next - addr) ≤ U64)
    (hr : read c s addr ≠ Read.nopud) :
    Good (alloc_init_pmd_body c s (pmd_off_k c s addr) addr (next % U64) phys pages)
      (NB c s pages phys addr next) (Room s 1)
      (fun s2 => Post c s s2 pages phys addr next 1) := by
  have hw2 := hw
  unfold InWindow VMALLOC_START U64 at hw2
  have hnU : next ≤ U64 := by
    unfold cb at h2
    unfold U64
    omega
  have hpfn : __phys_to_pfn phys < U64 := by
    unfold __phys_to_pfn PAGE_SHIFT
    rw [Nat.shiftRight_eq_div_pow]
    unfold U64 at *
    have : phys / 2 ^ 12 ≤ phys := Nat.div_le_self _ _
    omega
  unfold alloc_init_pmd_body
  by_cases hE : pages = false ∧ addr % 2097152 = 0 ∧ next % 2097152 = 0 ∧ phys % 2097152 = 0
  · rw [if_pos ((body_cond pages addr next phys).2 hE)]
    simp only []
    split_ifs
    · exact Good.ok (blk_post hinv hprot hw h1 h2 hE hr (fun q => rfl) rfl ⟨rfl, rfl, rfl, rfl⟩
        rfl rfl)
    · exact Good.ok (blk_post hinv hprot hw h1 h2 hE hr (fun q => rfl) rfl ⟨rfl, rfl, rfl, rfl⟩
        rfl rfl)
  · rw [if_neg (fun h => hE ((body_cond pages addr next phys).1 h))]
    cases hrd : read c s addr with
    | nopud => exact absurd hrd hr
    | pmd e =>
      by_cases he : e = 0
      · subst he
        by_cases hroom : Room s 1
        · obtain ⟨s2, hrun, hinv2, hsame, hbrk, htab, hcalls, hkeep, hreads⟩ :=
            alloc_init_pte_new hinv hw ha hn h1 h2 hpfn hrd hroom
          rw [hrun]
          refine Good.ok (page_post hw ha h1 h2 hp hpu hE hinv2 hsame hkeep (s.brk ||| 3) true
            ?_ ?_ ?_ hcalls)
          · intro a haw
            rw [hreads a haw]
            simp
          · intro h
            cases h
          · intro _
            refine ⟨hbrk, htab, hrd, ?_⟩
            exact page_vaddr_or_three _ hinv.brk_al (by
              have := hinv.pool_le
              unfold Room at hroom
              omega)
        · rw [alloc_init_pte_oom hinv hrd hroom]
          exact Good.oom hroom
      · rw [alloc_init_pte_bug hrd he]
        refine Good.bug ?_
        intro hnb
        apply he
        refine hnb addr (le_refl _) h1 ?_ e hrd
        intro hel
        apply hE
        unfold Elig cb at hel
        unfold cb at h2
        obtain ⟨g1, g2, g3, g4⟩ := hel
        have : addr / 2097152 * 2097152 - addr = 0 := by omega
        rw [this] at g4
        exact ⟨g1, by omega, by omega, g4⟩
    | pte e v0 =>
      obtain ⟨s2, hrun, hinv2, hsame, hbrk, htab, hcalls, hkeep, hreads⟩ :=
        alloc_init_pte_old hinv hw ha hn h1 h2 hpfn hrd
      rw [hrun]
      refine Good.ok (page_post hw ha h1 h2 hp hpu hE hinv2 hsame hkeep e false ?_ ?_ ?_ hcalls)
      · intro a haw
        rw [hreads a haw]
        simp
      · intro _
        exact ⟨hbrk, htab, v0, hrd⟩
      · intro h
        cases h

/-! ## Joining two adjacent ranges -/

theorem Good.good_mono {r : Except Halt State} {nb room nb2 room2 : Prop} {P P2 : State → Prop}
    (h : Good r nb room P) (h1 : nb2 → nb) (h2 : room2 → room) (h3 : ∀ s2, P s2 → P2 s2) :
    Good r nb2 room2 P2 := by
  cases r with
  | ok s2 => exact h3 s2 h
  | error e => exact ⟨h.1, fun x => h.2.1 (h1 x), fun x => h.2.2 (h2 x)⟩

theorem elig_left {pages : Bool} {phys addr mid endR a : Nat} (h2 : mid < endR)
    (hmid : mid % 2097152 = 0) (ha : a < mid) :
    Elig pages phys addr endR a ↔ Elig pages phys addr mid a := by
  unfold Elig cb
  constructor
  · rintro ⟨g1, g2, g3, g4⟩
    exact ⟨g1, g2, by omega, g4⟩
  · rintro ⟨g1, g2, g3, g4⟩
    exact ⟨g1, g2, by omega, g4⟩

theorem elig_right {pages : Bool} {phys addr mid endR a : Nat} (h1 : addr < mid)
    (hmid : mid % 2097152 = 0) (ha : mid ≤ a) :
    Elig pages phys addr endR a ↔ Elig pages (phys + (mid - addr)) mid endR a := by
  unfold Elig cb
  have e : phys + (mid - addr) + (a / 2097152 * 2097152 - mid) =
      phys + (a / 2097152 * 2097152 - addr) := by omega
  rw [e]
  constructor
  · rintro ⟨g1, g2, g3, g4⟩
    exact ⟨g1, by omega, g3, g4⟩
  · rintro ⟨g1, g2, g3, g4⟩
    exact ⟨g1, by omega, g3, g4⟩

theorem NB.nb_left {c : Config} {s : State} {pages : Bool} {phys addr mid endR : Nat}
    (h : NB c s pages phys addr endR) (h2 : mid < endR) (hmid : mid % 2097152 = 0) :
    NB c s pages phys addr mid := by
  intro a g1 g2 g3 b hb
  exact h a g1 (by omega) (fun hel => g3 ((elig_left h2 hmid g2).1 hel)) b hb

theorem nChunks_split {addr mid endR : Nat} (h1 : addr < mid) (h2 : mid < endR)
    (hmid : mid % 2097152 = 0) : nChunks addr endR = nChunks addr mid + nChunks mid endR := by
  unfold nChunks
  omega

theorem nPartial_split {addr mid endR : Nat} (h1 : addr < mid) (h2 : mid < endR)
    (hmid : mid % 2097152 = 0) :
    nPartial addr endR = nPartial addr mid + nPartial mid endR := by
  unfold nPartial
  split_ifs <;> omega

/-- Building `[addr, mid)` and then `[mid, endR)`, with `mid` on a chunk boundary,
builds `[addr, endR)`. -/
theorem Post.append {c : Config} {s s1 s2 : State} {pages : Bool}
    {phys addr mid endR n1 n2 : Nat} (hw : InWindow addr) (h1 : addr < mid) (h2 : mid < endR)
    (hU : endR ≤ U64) (hmid : mid % 2097152 = 0)
    (P1 : Post c s s1 pages phys addr mid n1)
    (P2 : Post c s1 s2 pages (phys + (mid - addr)) mid endR n2) :
    Post c s s2 pages phys addr endR (n1 + n2) := by
  have hw2 := hw
  unfold InWindow VMALLOC_START U64 at hw2
  have hin : ∀ a, addr ≤ a → a < endR → InWindow a := by
    intro a h3 h4
    unfold InWindow VMALLOC_START U64 at *
    omega
  have lo : ∀ a, a < mid → cb a + 2097152 ≤ mid := by
    intro a h
    unfold cb
    omega
  have hi : ∀ a, mid ≤ a → mid ≤ cb a := by
    intro a h
    unfold cb
    omega
  have hs1 := P1.same
  have hs2 := P2.same
  refine ⟨P2.inv, hs1.same_trans hs2, ?_, ?_, ?_, ?_, ?_, ?_, ?_, ?_, ?_⟩
  · have := P1.brk_le
    have := P2.brk_le
    omega
  · have := P1.brk_ub
    have := P2.brk_ub
    omega
  · intro i hi2 hv
    rw [P2.pgd_keep i hi2 (by rw [P1.pgd_keep i hi2 hv]; exact hv), P1.pgd_keep i hi2 hv]
  · intro a g1 g2 hel
    by_cases hlt : a < mid
    · have r1 := P1.in_blk a g1 hlt ((elig_left h2 hmid hlt).1 hel)
      rcases P2.f1 a (hin a g1 g2) (Or.inl (lo a hlt)) with h | h
      · rw [h, r1]
      · rw [r1] at h
        cases h.1
    · have hge : mid ≤ a := by omega
      have r2 := P2.in_blk a hge g2 ((elig_right h1 hmid hge).1 hel)
      rw [r2]
      have := hi a hge
      unfold blk
      rw [hs1.prot]
      congr 2
      omega
  · intro a g1 g2 hel
    by_cases hlt : a < mid
    · obtain ⟨e, r1⟩ := P1.in_pte a g1 hlt (fun h => hel ((elig_left h2 hmid hlt).2 h))
      refine ⟨e, ?_⟩
      rcases P2.f1 a (hin a g1 g2) (Or.inl (lo a hlt)) with h | h
      · rw [h, r1]
      · rw [r1] at h
        cases h.1
    · have hge : mid ≤ a := by omega
      obtain ⟨e, r2⟩ := P2.in_pte a hge g2 (fun h => hel ((elig_right h1 hmid hge).2 h))
      refine ⟨e, ?_⟩
      rw [r2]
      unfold val
      rw [hs1.same_pke]
      have : mid ≤ pb a := by
        unfold pb
        omega
      congr 3
      omega
  · intro a haw hd
    have d1 : cb a + 2097152 ≤ addr ∨ mid ≤ cb a := by
      unfold cb at *
      omega
    have d2 : cb a + 2097152 ≤ mid ∨ endR ≤ cb a := by
      unfold cb at *
      omega
    rcases P1.f1 a haw d1 with h | h <;> rcases P2.f1 a haw d2 with k | k
    · left
      rw [k, h]
    · right
      rw [h] at k
      exact k
    · right
      rw [k]
      exact h
    · rw [h.2] at k
      cases k.1
  · intro a haw hd
    rcases hd with hd | hd
    · have d2 : cb a + 2097152 ≤ mid ∨ endR ≤ cb a := Or.inl (lo a (by omega))
      rcases P1.f2 a haw (Or.inl hd) with h | h <;> rcases P2.f1 a haw d2 with k | k
      · left
        rw [k, h]
      · right
        rw [h] at k
        rw [k.1, k.2]
        exact ⟨trivial, rfl⟩
      · right
        rw [k]
        exact h
      · right
        rw [k.2]
        exact ⟨h.1, rfl⟩
    · have d1 : cb a + 2097152 ≤ addr ∨ mid ≤ cb a := Or.inr (hi a (by omega))
      rcases P1.f1 a haw d1 with h | h <;> rcases P2.f2 a haw (Or.inr hd) with k | k
      · left
        rw [k, h]
      · right
        rw [h] at k
        exact k
      · right
        rw [k, h.1, h.2]
        exact ⟨trivial, rfl⟩
      · right
        rw [h.1]
        exact ⟨trivial, k.2⟩
  · intro a e v haw hrd
    have := P1.brk_le
    have := P2.brk_le
    rcases P2.orig a e v haw hrd with ⟨v0, h⟩ | h
    · rcases P1.orig a e v0 haw h with k | k
      · exact Or.inl k
      · right
        omega
    · right
      omega
  · intro hpg hcong h0
    have c1 := P1.cnt hpg hcong (by
      intro a g1 g2 g3
      refine h0 a g1 (by omega) ?_
      have := lo a g2
      intro hh
      exact g3 ⟨hh.1, this⟩)
    have c2 := P2.cnt hpg (by omega) (by
      intro a g1 g2 g3
      have hr0 := h0 a (by omega) g2 (by
        intro hh
        exact g3 ⟨hi a g1, hh.2⟩)
      rcases P1.f1 a (hin a (by omega) g2) (Or.inr (hi a g1)) with h | h
      · rw [h]
        exact hr0
      · right
        exact h.2)
    rw [nPartial_split h1 h2 hmid, c2.1, c2.2, c1.1, c1.2]
    omega

/-! ## The loop over the chunks of one top-level slot -/

theorem NB.nb_right {c : Config} {s s1 : State} {pages : Bool} {phys addr mid endR n1 : Nat}
    (h : NB c s pages phys addr endR) (hw : InWindow addr) (h1 : addr < mid) (hU : endR ≤ U64)
    (hmid : mid % 2097152 = 0) (P1 : Post c s s1 pages phys addr mid n1) :
    NB c s1 pages (phys + (mid - addr)) mid endR := by
  intro a g1 g2 g3 b hb
  have haw : InWindow a := by
    unfold InWindow VMALLOC_START U64 at *
    omega
  have hcb : mid ≤ cb a := by
    unfold cb
    omega
  have hne : ¬ Elig pages phys addr endR a := fun hel => g3 ((elig_right h1 hmid g1).1 hel)
  rcases P1.f1 a haw (Or.inr hcb) with k | k
  · rw [k] at hb
    exact h a (by omega) g2 hne b hb
  · rw [k.2] at hb
    injection hb with hb
    exact hb.symm

theorem Room.room_left {s : State} {n1 n2 : Nat} (h : Room s (n1 + n2)) : Room s n1 := by
  unfold Room at *
  omega

theorem Room.room_right {c : Config} {s s1 : State} {pages : Bool} {phys addr mid n1 n2 : Nat}
    (h : Room s (n1 + n2)) (P1 : Post c s s1 pages phys addr mid n1) : Room s1 n2 := by
  have := P1.brk_ub
  have hs := P1.same
  unfold Room Same at *
  omega

theorem pmd_loop_spec {c : Config} {pages : Bool} {endR : Nat} :
    ∀ (fuel : Nat) (s : State) (addr phys : Nat), Inv c s → ProtOk s → InWindow addr →
      addr % 4096 = 0 → endR % 4096 = 0 → addr < endR →
      endR ≤ addr / 1073741824 * 1073741824 + 1073741824 → phys % 4096 = 0 →
      phys + (endR - addr) ≤ U64 → nChunks addr endR ≤ fuel → read c s addr ≠ Read.nopud →
      Good (alloc_init_pmd_loop c fuel s (pmd_off_k c s addr) addr (endR % U64) phys pages)
        (NB c s pages phys addr endR) (Room s (nChunks addr endR))
        (fun s2 => Post c s s2 pages phys addr endR (nChunks addr endR)) := by
  intro fuel
  induction fuel with
  | zero =>
    intro s addr phys _ _ _ _ _ h1 _ _ _ h2 _
    unfold nChunks at h2
    omega
  | succ fuel ih =>
    intro s addr phys hinv hprot hw ha he h1 hslot hp hpu hfuel hr
    have hw2 := hw
    unfold InWindow VMALLOC_START U64 at hw2
    have hU : endR ≤ U64 := by
      unfold U64
      omega
    rw [alloc_init_pmd_loop]
    simp only []
    rw [pmd_addr_end_eq hw.2 h1 hU]
    by_cases hlast : endR ≤ cb addr + 2097152
    · have emin : min (cb addr + 2097152) endR = endR := by omega
      have en : nChunks addr endR = 1 := by
        unfold cb at hlast
        unfold nChunks
        omega
      rw [emin, en]
      have step := pmd_body_spec hinv hprot pages hw ha he h1 hlast hp hpu hr
      cases hb : alloc_init_pmd_body c s (pmd_off_k c s addr) addr (endR % U64) phys pages with
      | error e =>
        rw [hb] at step
        exact step
      | ok s1 =>
        rw [hb] at step
        simp only [ne_eq, not_true_eq_false, if_false]
        exact step
    · have hlt : cb addr + 2097152 < endR := by omega
      have emin : min (cb addr + 2097152) endR = cb addr + 2097152 := by omega
      have hmid : (cb addr + 2097152) % 2097152 = 0 := by
        unfold cb
        omega
      have hmid4 : (cb addr + 2097152) % 4096 = 0 := by
        unfold cb
        omega
      have hamid : addr < cb addr + 2097152 := by
        unfold cb
        omega
      have en : nChunks addr endR = 1 + nChunks (cb addr + 2097152) endR := by
        unfold cb at *
        unfold nChunks
        omega
      have emod : (cb addr + 2097152) % U64 = cb addr + 2097152 := by
        unfold U64 at *
        omega
      rw [emin, en]
      have step := pmd_body_spec hinv hprot pages hw ha hmid4 hamid (le_refl _) hp
        (by omega) hr
      rw [emod] at step ⊢
      cases hb : alloc_init_pmd_body c s (pmd_off_k c s addr) addr (cb addr + 2097152) phys
          pages with
      | error e =>
        rw [hb] at step
        exact ⟨step.1, fun h => step.2.1 (h.nb_left hlt hmid), fun h => step.2.2 h.room_left⟩
      | ok s1 =>
        rw [hb] at step
        have P1 : Post c s s1 pages phys addr (cb addr + 2097152) 1 := step
        have hne : cb addr + 2097152 ≠ endR % U64 := by
          unfold U64 at *
          omega
        simp only [ne_eq, hne, not_false_eq_true, if_true]
        have hw1 : InWindow (cb addr + 2097152) := by
          unfold InWindow VMALLOC_START U64 at *
          omega
        have hv : is_table (pgd_entry c s (pgd_index addr)) := by
          by_contra hc
          exact hr (read_nopud.2 hc)
        have eidx : pgd_index (cb addr + 2097152) = pgd_index addr := by
          rw [pgd_index_eq, pgd_index_eq]
          unfold cb at *
          omega
        have eptr : pmd_off_k c s addr + 8 = pmd_off_k c s1 (cb addr + 2097152) := by
          rw [pmd_off_k_eq, pmd_off_k_eq, eidx]
          unfold pmd_table
          rw [P1.pgd_keep _ (pgd_index_lt addr) hv, pmd_index_eq, pmd_index_eq]
          unfold cb at *
          omega
        have hr1 : read c s1 (cb addr + 2097152) ≠ Read.nopud := by
          intro hc
          have := read_nopud.1 hc
          rw [eidx, P1.pgd_keep _ (pgd_index_lt addr) hv] at this
          exact this hv
        have ephys : wrap (phys + usub (cb addr + 2097152) addr) =
            phys + (cb addr + 2097152 - addr) := by
          unfold wrap usub U64 at *
          omega
        rw [eptr, ephys]
        have rec := ih s1 (cb addr + 2097152) (phys + (cb addr + 2097152 - addr)) P1.inv
          (P1.same.protOk hprot) hw1 hmid4 he hlt (by unfold cb at *; omega) (by omega)
          (by omega) (by omega) hr1
        refine Good.good_mono rec (fun h => h.nb_right hw hamid hU hmid P1)
          (fun h => h.room_right P1) ?_
        intro s2 P2
        exact Post.append hw hamid hlt hU hmid P1 P2

/-! ## One top-level slot -/

/-- A step before the build that at most turns missing middle tables into empty
ones can be absorbed into the build. -/
theorem Post.post_after_pre {c : Config} {s s1 s2 : State} {pages : Bool}
    {phys addr endR k n : Nat} (hw : InWindow addr) (hU : endR ≤ U64)
    (hsame : Same s s1) (hb1 : s.brk ≤ s1.brk)
    (hb2 : s1.brk ≤ s.brk + 4096 * k)
    (hkeep : ∀ i, i < 512 → is_table (pgd_entry c s i) → pgd_entry c s1 i = pgd_entry c s i)
    (hrd : ∀ a, InWindow a →
      read c s1 a = read c s a ∨ (read c s a = Read.nopud ∧ read c s1 a = Read.pmd 0))
    (htab : s1.pte_tables = s.pte_tables) (hcalls : s1.pte_calls = s.pte_calls)
    (P : Post c s1 s2 pages phys addr endR n) : Post c s s2 pages phys addr endR (k + n) := by
  have hs2 := P.same
  refine ⟨P.inv, hsame.same_trans hs2, ?_, ?_, ?_, ?_, ?_, ?_, ?_, ?_, ?_⟩
  · have := P.brk_le
    omega
  · have := P.brk_ub
    omega
  · intro i hi hv
    rw [P.pgd_keep i hi (by rw [hkeep i hi hv]; exact hv), hkeep i hi hv]
  · intro a g1 g2 hel
    rw [P.in_blk a g1 g2 hel]
    unfold blk
    rw [hsame.prot]
  · intro a g1 g2 hel
    obtain ⟨e, r⟩ := P.in_pte a g1 g2 hel
    refine ⟨e, ?_⟩
    rw [r]
    unfold val
    rw [hsame.same_pke]
  · intro a haw hd
    rcases hrd a haw with h | h <;> rcases P.f1 a haw hd with k | k
    · left
      rw [k, h]
    · right
      rw [h] at k
      exact k
    · right
      rw [k]
      exact h
    · rw [h.2] at k
      cases k.1
  · intro a haw hd
    rcases hrd a haw with h | h <;> rcases P.f2 a haw hd with k | k
    · left
      rw [k, h]
    · right
      rw [h] at k
      exact k
    · right
      rw [k, h.1, h.2]
      exact ⟨trivial, rfl⟩
    · right
      rw [h.1]
      exact ⟨trivial, k.2⟩
  · intro a e v haw hr
    rcases P.orig a e v haw hr with ⟨v0, h⟩ | h
    · left
      rcases hrd a haw with k | k
      · rw [k] at h
        exact ⟨v0, h⟩
      · rw [k.2] at h
        cases h
    · right
      omega
  · intro hpg hcong h0
    have := P.cnt hpg hcong (by
      intro a g1 g2 g3
      have haw : InWindow a := by
        unfold InWindow VMALLOC_START U64 at *
        omega
      rcases hrd a haw with h | h
      · rw [h]
        exact h0 a g1 g2 g3
      · right
        exact h.2)
    rw [this.1, this.2, htab, hcalls]
    exact ⟨rfl, rfl⟩

theorem NB.nb_after_pre {c : Config} {s s1 : State} {pages : Bool} {phys addr endR : Nat}
    (h : NB c s pages phys addr endR) (hw : InWindow addr) (hU : endR ≤ U64)
    (hrd : ∀ a, InWindow a →
      read c s1 a = read c s a ∨ (read c s a = Read.nopud ∧ read c s1 a = Read.pmd 0)) :
    NB c s1 pages phys addr endR := by
  intro a g1 g2 g3 b hb
  have haw : InWindow a := by
    unfold InWindow VMALLOC_START U64 at *
    omega
  rcases hrd a haw with k | k
  · rw [k] at hb
    exact h a g1 g2 g3 b hb
  · rw [k.2] at hb
    injection hb with hb
    exact hb.symm

theorem Post.mono_n {c : Config} {s s2 : State} {pages : Bool} {phys addr endR n m : Nat}
    (P : Post c s s2 pages phys addr endR n) (h : n ≤ m) :
    Post c s s2 pages phys addr endR m := by
  refine ⟨P.inv, P.same, P.brk_le, ?_, P.pgd_keep, P.in_blk, P.in_pte, P.f1, P.f2, P.orig, P.cnt⟩
  have := P.brk_ub
  omega

theorem Room.room_mono {s : State} {n m : Nat} (h : Room s m) (hnm : n ≤ m) : Room s n := by
  unfold Room at *
  omega

/-- The table part of `alloc_init_pmd` on a top entry that is not a table
reference. -/
theorem alloc_init_pmd_table_new {s : State} {p : Nat} (hal : s.brk % 4096 = 0)
    (hmem : ¬ is_table (s.mem p)) (hroom : Room s 1) :
    ∃ s1, alloc_init_pmd_table s p = .ok s1 ∧
      (∀ q, s1.mem q = if q = p then s.brk ||| 3
        else if s.brk ≤ q ∧ q < s.brk + 4096 then 0 else s.mem q) ∧
      s1.brk = s.brk + 4096 ∧ Same s s1 ∧ s1.pte_tables = s.pte_tables ∧
      s1.pte_calls = s.pte_calls := by
  have hsz : PTRS_PER_PMD * 8 = 4096 := rfl
  have hpb : pud_bad (s.mem p) = true := by
    unfold pud_bad
    unfold is_table at hmem
    simpa using hmem
  unfold alloc_init_pmd_table
  simp only [hpb, Bool.or_true, if_true, hsz, early_alloc_ok hal hroom]
  exact ⟨_, rfl, fun q => rfl, rfl, ⟨rfl, rfl, rfl, rfl⟩, rfl, rfl⟩

theorem alloc_init_pmd_table_oom {s : State} {p : Nat} (hal : s.brk % 4096 = 0)
    (hmem : ¬ is_table (s.mem p)) (hroom : ¬ Room s 1) :
    alloc_init_pmd_table s p = .error Halt.oom := by
  have hsz : PTRS_PER_PMD * 8 = 4096 := rfl
  have hpb : pud_bad (s.mem p) = true := by
    unfold pud_bad
    unfold is_table at hmem
    simpa using hmem
  unfold alloc_init_pmd_table
  simp only [hpb, Bool.or_true, if_true, hsz, early_alloc_oom hal hroom]

theorem alloc_init_pmd_table_old {s : State} {p : Nat} (hmem : is_table (s.mem p)) :
    alloc_init_pmd_table s p = .ok s := by
  have hpb : pud_bad (s.mem p) = false := by
    unfold pud_bad
    unfold is_table at hmem
    simpa using hmem
  have hpn : pud_none (s.mem p) = false := by
    unfold pud_none
    have : s.mem p ≠ 0 := by
      intro h0
      rw [h0] at hmem
      exact not_is_table_zero hmem
    simpa using this
  unfold alloc_init_pmd_table
  simp only [hpb, hpn, Bool.or_false, Bool.false_eq_true, if_false]

/-- `alloc_init_pmd` on the part `[addr, next)` of one top-level slot. -/
theorem alloc_init_pmd_spec {c : Config} {s : State} (hinv : Inv c s) (hprot : ProtOk s)
    {addr next phys : Nat} (pages : Bool) (hw : InWindow addr) (ha : addr % 4096 = 0)
    (hn : next % 4096 = 0) (h1 : addr < next)
    (h2 : next ≤ addr / 1073741824 * 1073741824 + 1073741824)
    (hp : phys % 4096 = 0) (hpu : phys + (next - addr) ≤ U64) :
    Good (alloc_init_pmd c s (pgd_offset_k c addr) addr (next % U64) phys pages)
      (NB c s pages phys addr next) (Room s (1 + nChunks addr next))
      (fun s2 => Post c s s2 pages phys addr next (1 + nChunks addr next)) := by
  have hw2 := hw
  unfold InWindow VMALLOC_START U64 at hw2
  have hU : next ≤ U64 := by
    unfold U64
    omega
  have hfuel : nChunks addr next ≤ FUEL := by
    unfold nChunks FUEL U64
    omega
  unfold alloc_init_pmd
  by_cases hv : is_table (pgd_entry c s (pgd_index addr))
  · have hr : read c s addr ≠ Read.nopud := fun hc => read_nopud.1 hc hv
    rw [alloc_init_pmd_table_old (s := s) (p := pgd_offset_k c addr) hv]
    simp only []
    have rec := @pmd_loop_spec c pages next FUEL s addr phys hinv hprot hw ha hn h1 h2 hp
      hpu hfuel hr
    exact Good.good_mono rec (fun h => h) (fun h => h.room_mono (by omega))
      (fun s2 P => P.mono_n (by omega))
  · have hr : read c s addr = Read.nopud := read_nopud.2 hv
    by_cases hroom : Room s 1
    · obtain ⟨s1, hs1, hm1, hbrk1, hsame1, htab1, hcall1⟩ :=
        alloc_init_pmd_table_new (s := s) (p := pgd_offset_k c addr) hinv.brk_al hv hroom
      have hroom1 : s.brk + 4096 ≤ s.pool_end := by
        unfold Room at hroom
        omega
      obtain ⟨hinv1, hkeep1, hread1⟩ := populate_pud_read hinv hw hr hroom1 hm1
        hbrk1 hsame1.1
      rw [hs1]
      simp only []
      have hr1 : read c s1 addr ≠ Read.nopud := by
        rw [hread1 addr hw, if_pos rfl]
        intro hc
        cases hc
      have hrd : ∀ a, InWindow a →
          read c s1 a = read c s a ∨ (read c s a = Read.nopud ∧ read c s1 a = Read.pmd 0) := by
        intro a haw
        rw [hread1 a haw]
        by_cases hc : a / 1073741824 = addr / 1073741824
        · right
          rw [if_pos hc]
          refine ⟨read_nopud.2 ?_, rfl⟩
          rw [(idx_slot haw hw).2 hc]
          exact hv
        · left
          rw [if_neg hc]
      have rec := @pmd_loop_spec c pages next FUEL s1 addr phys hinv1 (hsame1.protOk hprot)
        hw ha hn h1 h2 hp hpu hfuel hr1
      have eptr : pmd_offset (s1.mem (pgd_offset_k c addr)) addr = pmd_off_k c s1 addr := rfl
      rw [eptr]
      refine Good.good_mono rec (fun h => h.nb_after_pre hw hU hrd) ?_ ?_
      · intro h
        unfold Room Same at *
        omega
      · intro s2 P
        exact P.post_after_pre hw hU hsame1 (by omega) (by omega) hkeep1 hrd htab1 hcall1
    · rw [alloc_init_pmd_table_oom (s := s) (p := pgd_offset_k c addr) hinv.brk_al hv hroom]
      exact Good.oom (fun h => hroom (h.room_mono (by omega)))

/-! ## The whole request -/

/-- With the upper directory folded the loop of `alloc_init_pud` makes one pass. -/
theorem alloc_init_pud_eq (c : Config) (s : State) (pgd addr end_ phys : Nat)
    (force_pages : Bool) :
    alloc_init_pud c s pgd addr end_ phys force_pages =
      alloc_init_pmd c s pgd addr end_ phys force_pages := by
  have hF : FUEL = 18446744073709551615 + 1 := rfl
  unfold alloc_init_pud
  rw [hF, alloc_init_pud_loop]
  unfold pud_addr_end pud_offset
  cases alloc_init_pmd c s pgd addr end_ phys force_pages with
  | error e => rfl
  | ok s1 => simp

theorem nSlots_split {addr mid endR : Nat} (h1 : addr < mid) (h2 : mid < endR)
    (hmid : mid % 1073741824 = 0) : nSlots addr endR = nSlots addr mid + nSlots mid endR := by
  unfold nSlots
  omega

theorem create_mapping_loop_spec {c : Config} {pages : Bool} {endR : Nat} :
    ∀ (fuel : Nat) (s : State) (addr phys : Nat), Inv c s → ProtOk s → InWindow addr →
      addr % 4096 = 0 → endR % 4096 = 0 → addr < endR → endR ≤ U64 → phys % 4096 = 0 →
      phys + (endR - addr) ≤ U64 → nSlots addr endR ≤ fuel →
      Good (create_mapping_loop c fuel s (pgd_offset_k c addr) addr (endR % U64) phys pages)
        (NB c s pages phys addr endR) (Room s (nSlots addr endR + nChunks addr endR))
        (fun s2 => Post c s s2 pages phys addr endR (nSlots addr endR + nChunks addr endR)) := by
  intro fuel
  induction fuel with
  | zero =>
    intro s addr phys _ _ _ _ _ h1 _ _ _ h2
    unfold nSlots at h2
    omega
  | succ fuel ih =>
    intro s addr phys hinv hprot hw ha he h1 hU hp hpu hfuel
    have hw2 := hw
    unfold InWindow VMALLOC_START U64 at hw2
    rw [create_mapping_loop]
    simp only []
    rw [pgd_addr_end_eq hw.2 h1 hU, alloc_init_pud_eq]
    by_cases hlast : endR ≤ addr / 1073741824 * 1073741824 + 1073741824
    · have emin : min (addr / 1073741824 * 1073741824 + 1073741824) endR = endR := by omega
      have en : nSlots addr endR = 1 := by
        unfold nSlots
        omega
      rw [emin, en]
      have step := alloc_init_pmd_spec hinv hprot pages hw ha he h1 hlast hp hpu
      cases hb : alloc_init_pmd c s (pgd_offset_k c addr) addr (endR % U64) phys pages with
      | error e =>
        rw [hb] at step
        exact step
      | ok s1 =>
        rw [hb] at step
        simp only [ne_eq, not_true_eq_false, if_false]
        exact step
    · generalize hmidd : addr / 1073741824 * 1073741824 + 1073741824 = mid at *
      have hlt : mid < endR := by omega
      have emin : min mid endR = mid := by omega
      have hmid : mid % 2097152 = 0 := by omega
      have hmidG : mid % 1073741824 = 0 := by omega
      have hmid4 : mid % 4096 = 0 := by omega
      have hamid : addr < mid := by omega
      have en : nSlots addr endR = 1 + nSlots mid endR := by
        unfold nSlots
        omega
      have emod : mid % U64 = mid := by
        unfold U64 at *
        omega
      rw [emin, en]
      have step := alloc_init_pmd_spec hinv hprot pages hw ha hmid4 hamid (by omega) hp
        (by omega)
      rw [emod] at step ⊢
      cases hb : alloc_init_pmd c s (pgd_offset_k c addr) addr mid phys pages with
      | error e =>
        rw [hb] at step
        exact ⟨step.1, fun h => step.2.1 (h.nb_left hlt hmid),
          fun h => step.2.2 (h.room_mono (by
            rw [nChunks_split hamid hlt hmid]
            omega))⟩
      | ok s1 =>
        rw [hb] at step
        have P1 : Post c s s1 pages phys addr mid (1 + nChunks addr mid) := step
        have hne : mid ≠ endR % U64 := by
          unfold U64 at *
          omega
        simp only [ne_eq, hne, not_false_eq_true, if_true]
        have hw1 : InWindow mid := by
          unfold InWindow VMALLOC_START U64 at *
          omega
        have eptr : pgd_offset_k c addr + 8 = pgd_offset_k c mid := by
          unfold pgd_offset_k
          rw [pgd_index_eq, pgd_index_eq]
          unfold U64 at hU
          omega
        have ephys : wrap (phys + usub mid addr) = phys + (mid - addr) := by
          unfold wrap usub U64 at *
          omega
        rw [eptr, ephys]
        have rec := ih s1 mid (phys + (mid - addr)) P1.inv (P1.same.protOk hprot) hw1 hmid4 he
          hlt hU (by omega) (by omega) (by omega)
        have ebud : 1 + nSlots mid endR + nChunks addr endR =
            (1 + nChunks addr mid) + (nSlots mid endR + nChunks mid endR) := by
          rw [nChunks_split hamid hlt hmid]
          omega
        rw [ebud]
        refine Good.good_mono rec (fun h => h.nb_right hw hamid hU hmid P1)
          (fun h => h.room_right P1) ?_
        intro s2 P2
        exact Post.append hw hamid hlt hU hmid P1 P2

/-- The page-aligned range `create_mapping` works on. -/
theorem create_mapping_range {virt size : Nat} (hv : VMALLOC_START ≤ virt)
    (hsz : virt + size ≤ U64) (h0 : 0 < size) :
    virt &&& PAGE_MASK = pb virt ∧
    wrap ((virt &&& PAGE_MASK) + PAGE_ALIGN (wrap (size + (virt &&& not64 PAGE_MASK)))) =
      pb (virt + size + 4095) % U64 := by
  have hvu : virt < U64 := by omega
  unfold VMALLOC_START at hv
  have e1 : virt &&& PAGE_MASK = pb virt := land_PAGE_MASK virt hvu
  rw [e1, land_not_PAGE_MASK]
  refine ⟨rfl, ?_⟩
  unfold PAGE_ALIGN ALIGN
  have hx : wrap (wrap (size + virt % 4096) + PAGE_SIZE - 1) < U64 := Nat.mod_lt _ (by decide)
  have e2 : not64 (PAGE_SIZE - 1) = PAGE_MASK := rfl
  rw [e2, land_PAGE_MASK _ hx]
  have e3 : wrap (wrap (size + virt % 4096) + PAGE_SIZE - 1) = size + virt % 4096 + 4095 := by
    unfold wrap PAGE_SIZE U64 at *
    omega
  rw [e3]
  have e4 : pb virt + (size + virt % 4096 + 4095) / 4096 * 4096 = pb (virt + size + 4095) := by
    unfold pb
    omega
  rw [e4]
  rfl

/-- What `create_mapping` does with a request inside the window on a well-formed
hierarchy: it returns a state as described by `Post`, or halts for want of pool
memory or on a block mapping in the way of the page path. -/
theorem create_mapping_spec {c : Config} {s : State} (hinv : Inv c s) (hprot : ProtOk s)
    {phys virt size : Nat} (pages : Bool) (hv : VMALLOC_START ≤ virt) (hsz : virt + size ≤ U64)
    (h0 : 0 < size) (hp : phys % 4096 = 0)
    (hpu : phys + (pb (virt + size + 4095) - pb virt) ≤ U64) :
    Good (create_mapping c s phys virt size pages)
      (NB c s pages phys (pb virt) (pb (virt + size + 4095)))
      (Room s (nSlots (pb virt) (pb (virt + size + 4095)) +
        nChunks (pb virt) (pb (virt + size + 4095))))
      (fun s2 => Post c s s2 pages phys (pb virt) (pb (virt + size + 4095))
        (nSlots (pb virt) (pb (virt + size + 4095)) +
          nChunks (pb virt) (pb (virt + size + 4095)))) := by
  obtain ⟨e1, e2⟩ := create_mapping_range hv hsz h0
  unfold create_mapping
  rw [if_neg (by omega)]
  simp only []
  rw [e2, e1]
  have hv2 := hv
  unfold VMALLOC_START at hv2
  have hw : InWindow (pb virt) := by
    unfold InWindow VMALLOC_START pb U64 at *
    omega
  refine create_mapping_loop_spec FUEL s (pb virt) phys hinv hprot hw ?_ ?_ ?_ ?_ hp hpu ?_
  · unfold pb
    omega
  · unfold pb
    omega
  · unfold pb
    omega
  · unfold pb U64 at *
    omega
  · unfold nSlots FUEL pb U64 at *
    omega

/-! ## Requests outside the kernel window -/

/-- C1: a request whose virtual address lies below `VMALLOC_START` returns at
once; the state after the call, page tables and allocator included, is the state
before it. -/
theorem create_mapping_outside_window (c : Config) (s : State) (phys virt size : Nat)
    (force_pages : Bool) (h : virt < VMALLOC_START) :
    create_mapping c s phys virt size force_pages = .ok s := by
  unfold create_mapping
  rw [if_pos h]

theorem create_mapping_outside_window_witness :
    (0x1000 : Nat) < VMALLOC_START ∧
      create_mapping demo_config demo_state 0x80000000 0x1000 0x200000 false = .ok demo_state :=
  ⟨by decide, create_mapping_outside_window demo_config demo_state 0x80000000 0x1000 0x200000
    false (by decide)⟩

/-! ## Block and page granularity -/

theorem mem_of_read_pmd {c : Config} {s : State} {a e : Nat} (h : read c s a = Read.pmd e) :
    s.mem (pmd_off_k c s a) = e :=
  (read_pmd.1 h).2.1

theorem mem_of_read_pte {c : Config} {s : State} {a e v : Nat} (h : read c s a = Read.pte e v) :
    s.mem (pmd_off_k c s a) = e ∧ is_table e ∧ s.mem (pte_offset_kernel e a) = v := by
  obtain ⟨_, h2, h3, h4⟩ := read_pte.1 h
  subst h2
  exact ⟨rfl, h3, h4⟩

/-- A run that is `Good` with its `BUG_ON` precondition met returns or runs out of
pool memory. -/
theorem Good.cases {r : Except Halt State} {nb room : Prop} {P : State → Prop}
    (h : Good r nb room P) (hnb : nb) :
    (∃ s2, r = .ok s2 ∧ P s2) ∨ (r = .error Halt.oom ∧ ¬ room) := by
  cases r with
  | ok s2 => exact Or.inl ⟨s2, rfl, h⟩
  | error e =>
    right
    cases e with
    | bug => exact absurd rfl (h.2.1 hnb)
    | oom => exact ⟨rfl, fun hr => h.2.2 hr rfl⟩
    | hang => exact absurd rfl h.1

theorem pfn_pte_ne_zero (pfn : Nat) (s : State) : pfn_pte pfn (PAGE_KERNEL_EXEC s) ≠ 0 := by
  unfold pfn_pte PAGE_KERNEL_EXEC
  intro h
  have h1 := ((or_eq_zero_iff _ _).1 h).2
  have h2 := ((or_eq_zero_iff _ _).1 h1).2
  revert h2
  decide

theorem demo_inv : Inv demo_config demo_state := by
  have hz : ∀ i, ¬ is_table (pgd_entry demo_config demo_state i) := fun i => not_is_table_zero
  refine ⟨by decide, by decide, by decide, Or.inl (by decide), ?_, ?_, ?_, ?_, ?_⟩
  · intro i _ h
    exact absurd h (hz i)
  · intro i _ _ _ h
    exact absurd h (hz i)
  · intro i _ _ _ h
    exact absurd h (hz i)
  · intro i _ _ _ _ _ h
    exact absurd h (hz i)
  · intro i _ _ _ _ _ _ _ h
    exact absurd h (hz i)

theorem demo_prot : ProtOk demo_state := by decide

/-- C2: for a request inside the window with `phys`, `virt` and `size` multiples
of `SECTION_SIZE` and `force_pages` false, on a well-formed hierarchy,
`create_mapping` returns (or the allocator runs out of pool memory for the middle
tables); after the call the PMD entry of every chunk `[a, a + SECTION_SIZE)` of the
range is the Block Mapping `(phys + (a - virt)) | get_pmd_prot_sect_kernel(a)`, no
leaf table has been allocated and `alloc_init_pte` has not been called. -/
theorem create_mapping_block_aligned {c : Config} {s : State} (hinv : Inv c s)
    (hprot : ProtOk s) {phys virt size : Nat} (hv : VMALLOC_START ≤ virt)
    (hsz : virt + size ≤ U64) (h0 : 0 < size) (hp : phys % SECTION_SIZE = 0)
    (hva : virt % SECTION_SIZE = 0) (hsa : size % SECTION_SIZE = 0) (hpu : phys + size ≤ U64) :
    (∃ s2, create_mapping c s phys virt size false = .ok s2 ∧
      (∀ a, virt ≤ a → a < virt + size → a % SECTION_SIZE = 0 →
        s2.mem (pmd_off_k c s2 a) = (phys + (a - virt)) ||| get_pmd_prot_sect_kernel c s2 a) ∧
      s2.pte_tables = s.pte_tables ∧ s2.pte_calls = s.pte_calls) ∨
    (create_mapping c s phys virt size false = .error Halt.oom ∧
      ¬ Room s (nSlots virt (virt + size) + nChunks virt (virt + size))) := by
  unfold SECTION_SIZE at hp hva hsa
  have e1 : pb virt = virt := by
    unfold pb
    omega
  have e2 : pb (virt + size + 4095) = virt + size := by
    unfold pb
    omega
  have G := @create_mapping_spec c s hinv hprot phys virt size false hv hsz h0 (by omega)
    (by rw [e1, e2]; omega)
  rw [e1, e2] at G
  have hel : ∀ a, virt ≤ a → a < virt + size → Elig false phys virt (virt + size) a := by
    intro a g1 g2
    unfold Elig cb
    exact ⟨rfl, by omega, by omega, by omega⟩
  have hnb : NB c s false phys virt (virt + size) := fun a g1 g2 g3 => absurd (hel a g1 g2) g3
  rcases G.cases hnb with ⟨s2, hrun, P⟩ | h
  · left
    refine ⟨s2, hrun, ?_, ?_⟩
    · intro a g1 g2 g3
      unfold SECTION_SIZE at g3
      have := mem_of_read_pmd (P.in_blk a g1 g2 (hel a g1 g2))
      rw [this]
      unfold blk
      have : cb a = a := by
        unfold cb
        omega
      rw [this, P.same.prot]
    · have := P.cnt rfl (by omega) (by
        intro a g1 g2 g3
        exfalso
        apply g3
        unfold cb
        exact ⟨by omega, by omega⟩)
      have hn : nPartial virt (virt + size) = 0 := by
        unfold nPartial
        rw [if_neg (by omega), if_neg (by omega)]
      rw [hn] at this
      exact this
  · exact Or.inr h

theorem create_mapping_block_aligned_witness :
    (∃ s2, create_mapping demo_config demo_state 0x80200000 0xffffffc000200000 0x400000 false =
        .ok s2 ∧
      (∀ a, 0xffffffc000200000 ≤ a → a < 0xffffffc000200000 + 0x400000 →
        a % SECTION_SIZE = 0 →
        s2.mem (pmd_off_k demo_config s2 a) =
          (0x80200000 + (a - 0xffffffc000200000)) |||
            get_pmd_prot_sect_kernel demo_config s2 a) ∧
      s2.pte_tables = demo_state.pte_tables ∧ s2.pte_calls = demo_state.pte_calls) ∨
    (create_mapping demo_config demo_state 0x80200000 0xffffffc000200000 0x400000 false =
        .error Halt.oom ∧
      ¬ Room demo_state (nSlots 0xffffffc000200000 (0xffffffc000200000 + 0x400000) +
        nChunks 0xffffffc000200000 (0xffffffc000200000 + 0x400000))) :=
  create_mapping_block_aligned demo_inv demo_prot (by decide) (by decide) (by decide)
    (by decide) (by decide) (by decide) (by decide)

/-- C3: on an empty hierarchy, for a page-aligned request inside the window with
`force_pages` false and `phys` congruent to `virt` modulo `SECTION_SIZE` (a range
that starts or ends one page off a block boundary is such a request),
`create_mapping` returns (or the pool runs out); after the call the PMD entry of
every chunk that holds a misaligned edge of the range is a Table Reference to a
leaf table allocated during the call, the PMD entry of every chunk covered as a
whole is the Block Mapping of the chunk, and the number of leaf tables allocated is
the number of chunks holding a misaligned edge, at most two. -/
theorem create_mapping_misaligned_edges {c : Config} {s : State} (hinv : Inv c s)
    (hprot : ProtOk s) (hempty : ∀ i, i < 512 → pgd_entry c s i = 0)
    {phys virt size : Nat} (hv : VMALLOC_START ≤ virt)
    (hsz : virt + size ≤ U64) (h0 : 0 < size) (hp : phys % PAGE_SIZE = 0)
    (hva : virt % PAGE_SIZE = 0) (hsa : size % PAGE_SIZE = 0)
    (hcong : phys % SECTION_SIZE = virt % SECTION_SIZE) (hpu : phys + size ≤ U64) :
    (∃ s2, create_mapping c s phys virt size false = .ok s2 ∧
      (∀ a, virt ≤ a → a < virt + size →
        ¬ (virt ≤ cb a ∧ cb a + SECTION_SIZE ≤ virt + size) →
        is_table (s2.mem (pmd_off_k c s2 a)) ∧
        s.brk ≤ pmd_page_vaddr (s2.mem (pmd_off_k c s2 a)) ∧
        pmd_page_vaddr (s2.mem (pmd_off_k c s2 a)) + PAGE_SIZE ≤ s2.brk) ∧
      (∀ a, virt ≤ a → a < virt + size → virt ≤ cb a → cb a + SECTION_SIZE ≤ virt + size →
        s2.mem (pmd_off_k c s2 a) =
          (phys + (cb a - virt)) ||| get_pmd_prot_sect_kernel c s2 (cb a)) ∧
      s2.pte_tables = s.pte_tables + nPartial virt (virt + size) ∧
      nPartial virt (virt + size) ≤ 2) ∨
    (create_mapping c s phys virt size false = .error Halt.oom ∧
      ¬ Room s (nSlots virt (virt + size) + nChunks virt (virt + size))) := by
  unfold SECTION_SIZE PAGE_SIZE at *
  have e1 : pb virt = virt := by
    unfold pb
    omega
  have e2 : pb (virt + size + 4095) = virt + size := by
    unfold pb
    omega
  have G := @create_mapping_spec c s hinv hprot phys virt size false hv hsz h0 hp
    (by rw [e1, e2]; omega)
  rw [e1, e2] at G
  have hv2 := hv
  unfold VMALLOC_START at hv2
  have hno : ∀ a, read c s a = Read.nopud := by
    intro a
    apply read_nopud.2
    rw [hempty _ (pgd_index_lt a)]
    exact not_is_table_zero
  have hnb : NB c s false phys virt (virt + size) := by
    intro a _ _ _ b hb
    rw [hno a] at hb
    cases hb
  have helig : ∀ a, virt ≤ a → a < virt + size →
      (Elig false phys virt (virt + size) a ↔ (virt ≤ cb a ∧ cb a + 2097152 ≤ virt + size)) := by
    intro a g1 g2
    unfold Elig cb
    constructor
    · rintro ⟨_, k2, k3, _⟩
      exact ⟨k2, k3⟩
    · rintro ⟨k2, k3⟩
      exact ⟨rfl, k2, k3, by omega⟩
  rcases G.cases hnb with ⟨s2, hrun, P⟩ | h
  · left
    refine ⟨s2, hrun, ?_, ?_, ?_, ?_⟩
    · intro a g1 g2 g3
      have haw : InWindow a := by
        unfold InWindow VMALLOC_START U64 at *
        omega
      obtain ⟨e, he⟩ := P.in_pte a g1 g2 (fun h => g3 ((helig a g1 g2).1 h))
      obtain ⟨k1, k2, _⟩ := mem_of_read_pte he
      rw [k1]
      refine ⟨k2, ?_⟩
      rcases P.orig a e _ haw he with ⟨v0, hv0⟩ | hfresh
      · rw [hno a] at hv0
        cases hv0
      · exact hfresh
    · intro a g1 g2 g3 g4
      have := mem_of_read_pmd (P.in_blk a g1 g2 ((helig a g1 g2).2 ⟨g3, g4⟩))
      rw [this]
      unfold blk
      rw [P.same.prot]
    · exact (P.cnt rfl hcong (fun a _ _ _ => Or.inl (hno a))).1
    · unfold nPartial
      split_ifs <;> omega
  · exact Or.inr h

theorem create_mapping_misaligned_edges_witness :
    (∃ s2, create_mapping demo_config demo_state 0x801ff000 0xffffffc0001ff000 0x402000 false =
        .ok s2 ∧
      (∀ a, 0xffffffc0001ff000 ≤ a → a < 0xffffffc0001ff000 + 0x402000 →
        ¬ (0xffffffc0001ff000 ≤ cb a ∧ cb a + SECTION_SIZE ≤ 0xffffffc0001ff000 + 0x402000) →
        is_table (s2.mem (pmd_off_k demo_config s2 a)) ∧
        demo_state.brk ≤ pmd_page_vaddr (s2.mem (pmd_off_k demo_config s2 a)) ∧
        pmd_page_vaddr (s2.mem (pmd_off_k demo_config s2 a)) + PAGE_SIZE ≤ s2.brk) ∧
      (∀ a, 0xffffffc0001ff000 ≤ a → a < 0xffffffc0001ff000 + 0x402000 →
        0xffffffc0001ff000 ≤ cb a → cb a + SECTION_SIZE ≤ 0xffffffc0001ff000 + 0x402000 →
        s2.mem (pmd_off_k demo_config s2 a) =
          (0x801ff000 + (cb a - 0xffffffc0001ff000)) |||
            get_pmd_prot_sect_kernel demo_config s2 (cb a)) ∧
      s2.pte_tables =
        demo_state.pte_tables + nPartial 0xffffffc0001ff000 (0xffffffc0001ff000 + 0x402000) ∧
      nPartial 0xffffffc0001ff000 (0xffffffc0001ff000 + 0x402000) ≤ 2) ∨
    (create_mapping demo_config demo_state 0x801ff000 0xffffffc0001ff000 0x402000 false =
        .error Halt.oom ∧
      ¬ Room demo_state (nSlots 0xffffffc0001ff000 (0xffffffc0001ff000 + 0x402000) +
        nChunks 0xffffffc0001ff000 (0xffffffc0001ff000 + 0x402000))) :=
  create_mapping_misaligned_edges demo_inv demo_prot (fun _ _ => rfl) (by decide) (by decide)
    (by decide) (by decide) (by decide) (by decide) (by decide) (by decide)

/-- C5: for a request inside the window with `force_pages` true, on a
well-formed hierarchy whose PMD entries in the range are empty or Table
References, `create_mapping` returns (or the pool runs out) without installing a
Block Mapping: after the call the PMD entry of every address of the range is a
Table Reference and the leaf entry of its page is the Page Mapping of the frame
at the same offset, whatever the alignment of `phys`, `virt` and `size`. -/
theorem create_mapping_force_pages {c : Config} {s : State} (hinv : Inv c s)
    (hprot : ProtOk s) {phys virt size : Nat} (hv : VMALLOC_START ≤ virt)
    (hsz : virt + size ≤ U64) (h0 : 0 < size) (hp : phys % PAGE_SIZE = 0)
    (hpu : phys + (pb (virt + size + 4095) - pb virt) ≤ U64)
    (hpmd : ∀ a, pb virt ≤ a → a < pb (virt + size + 4095) →
      is_table (s.mem (pgd_offset_k c a)) →
      s.mem (pmd_off_k c s a) = 0 ∨ is_table (s.mem (pmd_off_k c s a))) :
    (∃ s2, create_mapping c s phys virt size true = .ok s2 ∧
      ∀ a, virt ≤ a → a < virt + size →
        is_table (s2.mem (pmd_off_k c s2 a)) ∧
        s2.mem (pte_offset_kernel (s2.mem (pmd_off_k c s2 a)) a) =
          pfn_pte ((phys + (pb a - pb virt)) / PAGE_SIZE) (PAGE_KERNEL_EXEC s2) ∧
        s2.mem (pte_offset_kernel (s2.mem (pmd_off_k c s2 a)) a) ≠ 0) ∨
    (create_mapping c s phys virt size true = .error Halt.oom ∧
      ¬ Room s (nSlots (pb virt) (pb (virt + size + 4095)) +
        nChunks (pb virt) (pb (virt + size + 4095)))) := by
  unfold PAGE_SIZE at *
  have G := @create_mapping_spec c s hinv hprot phys virt size true hv hsz h0 hp hpu
  have hnb : NB c s true phys (pb virt) (pb (virt + size + 4095)) := by
    intro a g1 g2 _ b hb
    obtain ⟨k1, k2, k3⟩ := read_pmd.1 hb
    rcases hpmd a g1 g2 k1 with h | h
    · rw [← k2]
      exact h
    · have : s.mem (pmd_off_k c s a) = b := k2
      rw [this] at h
      exact absurd h k3
  have hne : ∀ a, ¬ Elig true phys (pb virt) (pb (virt + size + 4095)) a := by
    intro a h
    cases h.1
  rcases G.cases hnb with ⟨s2, hrun, P⟩ | h
  · left
    refine ⟨s2, hrun, ?_⟩
    intro a g1 g2
    obtain ⟨e, he⟩ := P.in_pte a (by unfold pb; omega) (by unfold pb; omega) (hne a)
    obtain ⟨k1, k2, k3⟩ := mem_of_read_pte he
    rw [k1, k3]
    refine ⟨k2, ?_, pfn_pte_ne_zero _ _⟩
    unfold val
    rw [P.same.same_pke]
  · exact Or.inr h

theorem create_mapping_force_pages_witness :
    (∃ s2, create_mapping demo_config demo_state 0x80200000 0xffffffc000200000 0x200000 true =
        .ok s2 ∧
      ∀ a, 0xffffffc000200000 ≤ a → a < 0xffffffc000200000 + 0x200000 →
        is_table (s2.mem (pmd_off_k demo_config s2 a)) ∧
        s2.mem (pte_offset_kernel (s2.mem (pmd_off_k demo_config s2 a)) a) =
          pfn_pte ((0x80200000 + (pb a - pb 0xffffffc000200000)) / PAGE_SIZE)
            (PAGE_KERNEL_EXEC s2) ∧
        s2.mem (pte_offset_kernel (s2.mem (pmd_off_k demo_config s2 a)) a) ≠ 0) ∨
    (create_mapping demo_config demo_state 0x80200000 0xffffffc000200000 0x200000 true =
        .error Halt.oom ∧
      ¬ Room demo_state (nSlots (pb 0xffffffc000200000) (pb (0xffffffc000200000 + 0x200000 + 4095)) +
        nChunks (pb 0xffffffc000200000) (pb (0xffffffc000200000 + 0x200000 + 4095)))) :=
  create_mapping_force_pages demo_inv demo_prot (by decide) (by decide) (by decide) (by decide)
    (by decide) (fun _ _ _ _ => Or.inl rfl)

/-! ## The page loop, word by word -/

/-- The loop of `alloc_init_pte`, run for `n` pages from the entry `pte`, writes
the `n` consecutive entries from `pte` on and no other word. -/
theorem pte_loop_mem :
    ∀ (fuel : Nat) (s : State) (pte addr pfn n : Nat), 0 < n → n ≤ fuel →
      addr + 4096 * n ≤ U64 → pfn < U64 →
      ∃ s2, alloc_init_pte_loop fuel s pte addr ((addr + 4096 * n) % U64) pfn = .ok s2 ∧
        MemOnly s s2 ∧
        ∀ q, s2.mem q =
          if pte ≤ q ∧ q < pte + 8 * n ∧ (q - pte) % 8 = 0 then
            pfn_pte (wrap (pfn + (q - pte) / 8)) (PAGE_KERNEL_EXEC s)
          else s.mem q := by
  intro fuel
  induction fuel with
  | zero =>
    intro s pte addr pfn n h1 h2 _ _
    omega
  | succ fuel ih =>
    intro s pte addr pfn n h1 h2 h3 hpfn
    rw [alloc_init_pte_loop]
    by_cases hn : n = 1
    · subst hn
      have e1 : wrap (addr + PAGE_SIZE) = (addr + 4096 * 1) % U64 := rfl
      simp only [e1, ne_eq, not_true_eq_false, if_false]
      refine ⟨_, rfl, MemOnly.store _ _ _, ?_⟩
      intro q
      show (if q = pte then _ else _) = _
      by_cases hq : q = pte
      · subst hq
        rw [if_pos rfl, if_pos (by omega), Nat.sub_self]
        unfold wrap
        rw [Nat.zero_div, Nat.add_zero, Nat.mod_eq_of_lt hpfn]
      · rw [if_neg hq, if_neg (by omega)]
    · have e1 : wrap (addr + PAGE_SIZE) = addr + 4096 := by
        unfold wrap PAGE_SIZE U64 at *
        omega
      have e2 : addr + 4096 ≠ (addr + 4096 * n) % U64 := by
        unfold U64 at *
        omega
      simp only [e1, ne_eq, e2, not_false_eq_true, if_true]
      have hpfn1 : wrap (pfn + 1) < U64 := Nat.mod_lt _ (by decide)
      obtain ⟨s2, hrun, hmo, hmem⟩ := ih (set_pte s pte (pfn_pte pfn (PAGE_KERNEL_EXEC s)))
        (pte + 8) (addr + 4096) (wrap (pfn + 1)) (n - 1) (by omega) (by omega) (by omega) hpfn1
      have e3 : addr + 4096 + 4096 * (n - 1) = addr + 4096 * n := by omega
      rw [e3] at hrun
      refine ⟨s2, hrun, (MemOnly.store _ _ _).mo_trans hmo, ?_⟩
      intro q
      rw [hmem q]
      have hpke : PAGE_KERNEL_EXEC (set_pte s pte (pfn_pte pfn (PAGE_KERNEL_EXEC s))) =
          PAGE_KERNEL_EXEC s := rfl
      rw [hpke]
      by_cases hq1 : pte + 8 ≤ q ∧ q < pte + 8 + 8 * (n - 1) ∧ (q - (pte + 8)) % 8 = 0
      · rw [if_pos hq1, if_pos (by omega)]
        have : wrap (wrap (pfn + 1) + (q - (pte + 8)) / 8) = wrap (pfn + (q - pte) / 8) := by
          unfold wrap U64
          omega
        rw [this]
      · rw [if_neg hq1]
        show (if q = pte then _ else _) = _
        by_cases hq : q = pte
        · subst hq
          rw [if_pos rfl, if_pos (by omega), Nat.sub_self]
          unfold wrap
          rw [Nat.zero_div, Nat.add_zero, Nat.mod_eq_of_lt hpfn]
        · rw [if_neg hq, if_neg (by omega)]

/-- C4: `alloc_init_pte` on a page-aligned range `[addr, endR)` inside one chunk
whose PMD entry is empty (with a page of pool memory left) or a Table Reference
returns with the PMD entry a Table Reference; the leaf entry of every page `a` of
the range is `pfn_pte(pfn + (a - addr) / PAGE_SIZE, PAGE_KERNEL_EXEC)`, distinct
pages have distinct leaf entries, and the leaf entries of the chunk's pages
outside the range keep their value (in a table allocated by the call they are
empty). -/
theorem alloc_init_pte_entries {s : State} {pmd addr endR pfn : Nat}
    (ha : addr % PAGE_SIZE = 0) (he : endR % PAGE_SIZE = 0) (h1 : addr < endR)
    (h2 : endR ≤ cb addr + PMD_SIZE) (hau : addr < U64) (hpfn : pfn < U64)
    (hent : (s.mem pmd = 0 ∧ s.brk % PAGE_SIZE = 0 ∧ s.pool_end ≤ 1099511627776 ∧ Room s 1 ∧
        (pmd + 8 ≤ s.brk ∨ s.pool_end ≤ pmd)) ∨
      (is_table (s.mem pmd) ∧
        (pmd + 8 ≤ pmd_page_vaddr (s.mem pmd) ∨ pmd_page_vaddr (s.mem pmd) + PAGE_SIZE ≤ pmd))) :
    ∃ s2, alloc_init_pte s pmd addr (endR % U64) pfn = .ok s2 ∧ is_table (s2.mem pmd) ∧
      (∀ a, addr ≤ a → a < endR →
        s2.mem (pte_offset_kernel (s2.mem pmd) a) =
          pfn_pte (wrap (pfn + (a - addr) / PAGE_SIZE)) (PAGE_KERNEL_EXEC s)) ∧
      (∀ a b, addr ≤ a → a < endR → addr ≤ b → b < endR →
        pte_offset_kernel (s2.mem pmd) a = pte_offset_kernel (s2.mem pmd) b →
        a / PAGE_SIZE = b / PAGE_SIZE) ∧
      (∀ a, cb addr ≤ a → a < cb addr + PMD_SIZE → (a < addr ∨ endR ≤ a) →
        s2.mem (pte_offset_kernel (s2.mem pmd) a) =
          if s.mem pmd = 0 then 0 else s.mem (pte_offset_kernel (s.mem pmd) a)) := by
  unfold PAGE_SIZE PMD_SIZE at *
  unfold cb at h2
  have hn : addr + 4096 * ((endR - addr) / 4096) = endR := by omega
  have hfuel : (endR - addr) / 4096 ≤ FUEL := by
    unfold FUEL U64 at *
    omega
  have hidx : ∀ a, addr / 2097152 * 2097152 ≤ a → a < addr / 2097152 * 2097152 + 2097152 →
      pte_index a + addr / 4096 = pte_index addr + a / 4096 := by
    intro a g1 g2
    rw [pte_index_eq, pte_index_eq]
    omega
  have hU : endR ≤ U64 := by
    unfold U64 at *
    omega
  have hlo : pte_index addr + (endR - addr) / 4096 ≤ 512 := by
    rw [pte_index_eq]
    omega
  have key : ∀ (s1 : State) (e : Nat), is_table e → s1.mem pmd = e →
      (pmd + 8 ≤ pmd_page_vaddr e ∨ pmd_page_vaddr e + 4096 ≤ pmd) →
      PAGE_KERNEL_EXEC s1 = PAGE_KERNEL_EXEC s →
      ∃ s2, alloc_init_pte_loop FUEL s1 (pte_offset_kernel e addr) addr (endR % U64) pfn =
          .ok s2 ∧ is_table (s2.mem pmd) ∧
        (∀ a, addr ≤ a → a < endR →
          s2.mem (pte_offset_kernel (s2.mem pmd) a) =
            pfn_pte (wrap (pfn + (a - addr) / 4096)) (PAGE_KERNEL_EXEC s)) ∧
        (∀ a b, addr ≤ a → a < endR → addr ≤ b → b < endR →
          pte_offset_kernel (s2.mem pmd) a = pte_offset_kernel (s2.mem pmd) b →
          a / 4096 = b / 4096) ∧
        (∀ a, addr / 2097152 * 2097152 ≤ a → a < addr / 2097152 * 2097152 + 2097152 →
          (a < addr ∨ endR ≤ a) →
          s2.mem (pte_offset_kernel (s2.mem pmd) a) = s1.mem (pte_offset_kernel e a)) := by
    intro s1 e het hm hself hpke
    obtain ⟨s2, hrun, _, hmem⟩ := pte_loop_mem FUEL s1 (pte_offset_kernel e addr) addr pfn
      ((endR - addr) / 4096) (by omega) hfuel (by rw [hn]; exact hU) hpfn
    rw [hn] at hrun
    have hpm : s2.mem pmd = e := by
      rw [hmem pmd, if_neg, hm]
      unfold pte_offset_kernel
      omega
    refine ⟨s2, hrun, by rw [hpm]; exact het, ?_, ?_, ?_⟩
    · intro a g1 g2
      have := hidx a (by omega) (by omega)
      have e4 : (pte_offset_kernel e a - pte_offset_kernel e addr) / 8 = (a - addr) / 4096 := by
        unfold pte_offset_kernel
        omega
      rw [hpm, hmem, if_pos, hpke, e4]
      unfold pte_offset_kernel
      omega
    · intro a b g1 g2 g3 g4 hab
      rw [hpm] at hab
      unfold pte_offset_kernel at hab
      have := hidx a (by omega) (by omega)
      have := hidx b (by omega) (by omega)
      omega
    · intro a g1 g2 g3
      have := hidx a g1 g2
      have := pte_index_lt a
      rw [hpm, hmem, if_neg]
      unfold pte_offset_kernel
      omega
  rcases hent with ⟨hz, hal, hpool, hroom, hout⟩ | ⟨het, hself⟩
  · obtain ⟨s1, hs1, hm1, hbrk1, hsame1, _, _⟩ :=
      alloc_init_pte_table_new (s := { s with pte_calls := s.pte_calls + 1 }) (p := pmd) hal hz
        hroom
    have hroom2 := hroom
    unfold Room at hroom2
    have hb : s.brk < 1099511627776 := by omega
    have hpv : pmd_page_vaddr (s.brk ||| 3) = s.brk := page_vaddr_or_three _ hal hb
    have hm1p : s1.mem pmd = s.brk ||| 3 := by
      rw [hm1, if_pos rfl]
    have hnb : pmd_bad (s.brk ||| 3) = false := by
      have := is_table_or_three _ hal
      unfold pmd_bad
      unfold is_table at this
      simpa using this
    obtain ⟨s2, hrun, k1, k2, k3, k4⟩ := key s1 (s.brk ||| 3) (is_table_or_three _ hal) hm1p
      (by
        rw [hpv]
        have : s.brk + 4096 ≤ s.pool_end := by omega
        omega)
      (Same.same_pke (s := s) hsame1)
    refine ⟨s2, ?_, k1, k2, k3, ?_⟩
    · unfold alloc_init_pte
      simp only [hs1, hm1p, hnb, Bool.false_eq_true, if_false]
      exact hrun
    · intro a g1 g2 g3
      rw [k4 a g1 g2 g3, if_pos hz, hm1, if_neg, if_pos]
      · have := pte_index_lt a
        unfold pte_offset_kernel
        rw [hpv]
        show s.brk ≤ s.brk + 8 * pte_index a ∧ s.brk + 8 * pte_index a < s.brk + 4096
        omega
      · have := pte_index_lt a
        unfold pte_offset_kernel
        rw [hpv]
        omega
  · have hne0 : s.mem pmd ≠ 0 := by
      intro h
      rw [h] at het
      exact not_is_table_zero het
    have hpn : pmd_none (s.mem pmd) = false := by
      unfold pmd_none
      simpa using hne0
    have hpb : pmd_bad (s.mem pmd) = false := by
      unfold pmd_bad
      unfold is_table at het
      simpa using het
    obtain ⟨s2, hrun, k1, k2, k3, k4⟩ := key { s with pte_calls := s.pte_calls + 1 } (s.mem pmd)
      het rfl hself rfl
    refine ⟨s2, ?_, k1, k2, k3, ?_⟩
    · unfold alloc_init_pte alloc_init_pte_table
      simp only [hpn, hpb, Bool.false_eq_true, if_false]
      exact hrun
    · intro a g1 g2 g3
      rw [k4 a g1 g2 g3, if_neg hne0]

theorem alloc_init_pte_entries_witness :
    ∃ s2, alloc_init_pte demo_state 0x80000800 0xffffffc000200000 (0xffffffc000202000 % U64)
        0x80200 = .ok s2 ∧ is_table (s2.mem 0x80000800) ∧
      (∀ a, 0xffffffc000200000 ≤ a → a < 0xffffffc000202000 →
        s2.mem (pte_offset_kernel (s2.mem 0x80000800) a) =
          pfn_pte (wrap (0x80200 + (a - 0xffffffc000200000) / PAGE_SIZE))
            (PAGE_KERNEL_EXEC demo_state)) ∧
      (∀ a b, 0xffffffc000200000 ≤ a → a < 0xffffffc000202000 → 0xffffffc000200000 ≤ b →
        b < 0xffffffc000202000 →
        pte_offset_kernel (s2.mem 0x80000800) a = pte_offset_kernel (s2.mem 0x80000800) b →
        a / PAGE_SIZE = b / PAGE_SIZE) ∧
      (∀ a, cb 0xffffffc000200000 ≤ a → a < cb 0xffffffc000200000 + PMD_SIZE →
        (a < 0xffffffc000200000 ∨ 0xffffffc000202000 ≤ a) →
        s2.mem (pte_offset_kernel (s2.mem 0x80000800) a) =
          if demo_state.mem 0x80000800 = 0 then 0
          else demo_state.mem (pte_offset_kernel (demo_state.mem 0x80000800) a)) :=
  alloc_init_pte_entries (by decide) (by decide) (by decide) (by decide) (by decide)
    (by decide) (Or.inl ⟨rfl, by decide, by decide, by decide, Or.inl (by decide)⟩)

/-! ## Translation through the hierarchy -/

theorem land_SECTION_MASK (a : Nat) (ha : a < U64) :
    a &&& SECTION_MASK = a / 2097152 * 2097152 :=
  land_PMD_MASK a ha

theorem land_PHYS_MASK (a : Nat) : a &&& PHYS_MASK = a % 1099511627776 :=
  Nat.and_pow_two_sub_one_eq_mod a 40

/-- An attribute word without output-address bits does not disturb the address
of a block entry. -/
theorem block_addr {x p : Nat} (hx : x % 2097152 = 0) (hx2 : x < 1099511627776)
    (hp : p &&& 0xfffffff000 = 0) : (x ||| p) &&& PHYS_MASK &&& SECTION_MASK = x := by
  have hm : PHYS_MASK &&& SECTION_MASK = 0xfffffff000 &&& 0xffffe00000 := by decide
  rw [Nat.and_assoc, hm, ← Nat.and_assoc, Nat.and_distrib_right, hp, Nat.or_zero]
  have h1 : x &&& 0xfffffff000 = x := by
    have e : (0xfffffff000 : Nat) = PHYS_MASK &&& PAGE_MASK := by decide
    rw [e, ← Nat.and_assoc, land_PHYS_MASK, Nat.mod_eq_of_lt hx2,
      land_PAGE_MASK _ (by unfold U64; omega)]
    omega
  have e2 : (0xffffe00000 : Nat) = PHYS_MASK &&& SECTION_MASK := by decide
  rw [h1, e2, Nat.and_comm PHYS_MASK, ← Nat.and_assoc,
    land_SECTION_MASK _ (by unfold U64; omega), land_PHYS_MASK]
  omega

theorem page_addr {x p : Nat} (hx : x % 4096 = 0) (hx2 : x < 1099511627776)
    (hp : p &&& 0xfffffff000 = 0) : (x ||| p) &&& PHYS_MASK &&& PAGE_MASK = x := by
  have hm : PHYS_MASK &&& PAGE_MASK = 0xfffffff000 := by decide
  rw [Nat.and_assoc, hm, Nat.and_distrib_right, hp, Nat.or_zero, ← hm, ← Nat.and_assoc,
    land_PHYS_MASK, Nat.mod_eq_of_lt hx2, land_PAGE_MASK _ (by unfold U64; omega)]
  omega

theorem attr_prot (c : Config) {s : State} (h : AttrOk s) (x : Nat) :
    get_pmd_prot_sect_kernel c s x &&& 0xfffffff000 = 0 := by
  have h0 := h.1
  have h1 : PMD_SECT_PXN &&& 0xfffffff000 = 0 := by decide
  have h2 : PMD_SECT_RDONLY &&& 0xfffffff000 = 0 := by decide
  unfold get_pmd_prot_sect_kernel
  split_ifs
  all_goals simp only [Nat.and_distrib_right, h0, h1, h2, Nat.or_zero]

theorem attr_pke {s : State} (h : AttrOk s) : PAGE_KERNEL_EXEC s &&& 0xfffffff000 = 0 := by
  have h0 := h.2
  have h1 : (PTE_UXN ||| PTE_DIRTY) &&& 0xfffffff000 = 0 := by decide
  unfold PAGE_KERNEL_EXEC
  rw [Nat.and_distrib_right, h0, h1]
  rfl

theorem prot_ne_zero (c : Config) {s : State} (h : ProtOk s) (x y : Nat) :
    (y ||| get_pmd_prot_sect_kernel c s x) ≠ 0 := by
  unfold ProtOk at h
  have h0 : s.prot_sect_kernel ≠ 0 := by
    intro hz
    rw [hz] at h
    revert h
    decide
  intro hc
  have h1 := ((or_eq_zero_iff _ _).1 hc).2
  unfold get_pmd_prot_sect_kernel at h1
  split_ifs at h1
  · exact h0 ((or_eq_zero_iff _ _).1 h1).1
  · exact h0 ((or_eq_zero_iff _ _).1 h1).1
  · exact h0 ((or_eq_zero_iff _ _).1 ((or_eq_zero_iff _ _).1 h1).1).1
  · exact h0 ((or_eq_zero_iff _ _).1 h1).1
  · exact h0 ((or_eq_zero_iff _ _).1 h1).1
  · exact h0 h1

theorem translate_unmapped {c : Config} {s : State} {a : Nat} (h : Unmapped (read c s a)) :
    translate c s a = none := by
  unfold translate
  cases hr : read c s a with
  | nopud => rfl
  | pmd e =>
    rw [hr] at h
    have h0 : e = 0 := h
    simp only []
    rw [if_pos h0]
  | pte e v =>
    rw [hr] at h
    have h0 : v = 0 := h
    simp only []
    rw [if_pos h0]

/-- After a build every address of the range translates to the physical address
at the same offset. -/
theorem Post.translate_in {c : Config} {s s2 : State} {pages : Bool}
    {phys addr endR n : Nat} (P : Post c s s2 pages phys addr endR n) (hprot : ProtOk s)
    (hattr : AttrOk s) (hp : phys % 4096 = 0) (ha : addr % 4096 = 0)
    (hpu : phys + (endR - addr) ≤ 1099511627776) {a : Nat}
    (h1 : addr ≤ a) (h2 : a < endR) : translate c s2 a = some (phys + (a - addr)) := by
  unfold translate
  by_cases hel : Elig pages phys addr endR a
  · rw [P.in_blk a h1 h2 hel]
    simp only []
    unfold blk
    rw [if_neg (prot_ne_zero c hprot _ _)]
    obtain ⟨_, g2, g3, g4⟩ := hel
    unfold cb at *
    rw [block_addr g4 (by omega) (attr_prot c hattr _), land_not_SECTION_MASK]
    congr 1
    omega
  · obtain ⟨e, he⟩ := P.in_pte a h1 h2 hel
    rw [he]
    simp only []
    have hv0 : val s phys addr a ≠ 0 := pfn_pte_ne_zero _ _
    rw [if_neg hv0]
    unfold val pfn_pte PAGE_SHIFT pb
    have e1 : wrap (((phys + (a / 4096 * 4096 - addr)) / 4096) <<< 12) =
        phys + (a / 4096 * 4096 - addr) := by
      rw [Nat.shiftLeft_eq]
      unfold wrap U64
      omega
    rw [e1, page_addr (by omega) (by omega) (attr_pke hattr), land_not_PAGE_MASK]
    congr 1
    omega

/-- A build leaves the translation of the addresses outside its range alone. -/
theorem Post.translate_out {c : Config} {s s2 : State} {pages : Bool}
    {phys addr endR n : Nat} (P : Post c s s2 pages phys addr endR n) {a : Nat}
    (haw : InWindow a) (h : a < addr ∨ endR ≤ a) : translate c s2 a = translate c s a := by
  rcases P.f2 a haw h with k | k
  · unfold translate
    rw [k]
  · rw [translate_unmapped k.1, translate_unmapped k.2]

/-! ## Mapping the memory banks -/

theorem ALIGN_PMD_eq {x : Nat} (h : x + 2097152 ≤ U64) :
    ALIGN x PMD_SIZE = (x + 2097151) / 2097152 * 2097152 := by
  unfold ALIGN
  have e : not64 (PMD_SIZE - 1) = PMD_MASK := rfl
  have hw : wrap (x + PMD_SIZE - 1) < U64 := Nat.mod_lt _ (by decide)
  rw [e, land_PMD_MASK _ hw]
  unfold wrap PMD_SIZE U64 at *
  omega

theorem phys_to_virt_eq {c : Config} {x : Nat} (h1 : c.PHYS_OFFSET ≤ x)
    (h2 : x < c.PHYS_OFFSET + 274877906944) :
    __phys_to_virt c x = x - c.PHYS_OFFSET + PAGE_OFFSET := by
  unfold __phys_to_virt wrap usub PAGE_OFFSET U64 at *
  omega

theorem virt_to_phys_eq {c : Config} {a : Nat} (h1 : PAGE_OFFSET ≤ a) (h2 : a < U64)
    (h3 : c.PHYS_OFFSET ≤ 1099511627776) :
    __virt_to_phys c a = a - PAGE_OFFSET + c.PHYS_OFFSET := by
  unfold __virt_to_phys wrap usub PAGE_OFFSET U64 at *
  omega

theorem Inv.inv_limit {c : Config} {s : State} (h : Inv c s) (l : Nat) :
    Inv c (memblock_set_current_limit s l) :=
  h.transfer rfl rfl (fun _ _ _ => rfl) (fun _ _ _ _ _ _ => rfl)

theorem bind_ok {α : Type} (x : α) (f : α → Except Halt α) : (Except.ok x).bind f = f x := rfl

theorem bind_error {α : Type} (e : Halt) (f : α → Except Halt α) :
    (Except.error e : Except Halt α).bind f = .error e := rfl

/-- The loop of `map_mem` never exhausts its iterations, and when it returns
every address it has mapped translates to the physical address the linear map
assigns to it. -/
theorem map_mem_loop_spec {c : Config} (hoff : c.PHYS_OFFSET % 4096 = 0) :
    ∀ (regs : List (Nat × Nat)) (s : State) (limit : Nat), Inv c s → ProtOk s → AttrOk s →
      (∀ reg, reg ∈ regs → RegionOk c reg) →
      map_mem_loop c regs s limit ≠ .error Halt.hang ∧
      ∀ s2, map_mem_loop c regs s limit = .ok s2 →
        (∀ a, InWindow a → translate c s a = some (__virt_to_phys c a) →
          translate c s2 a = some (__virt_to_phys c a)) ∧
        (∀ reg, reg ∈ regs → ∀ p, (reg.1 + 2097151) / 2097152 * 2097152 ≤ p →
          p < reg.1 + reg.2 → translate c s2 (__phys_to_virt c p) = some p) := by
  intro regs
  induction regs with
  | nil =>
    intro s limit _ _ _ _
    refine ⟨by simp [map_mem_loop], ?_⟩
    intro s2 h
    simp only [map_mem_loop, Except.ok.injEq] at h
    subst h
    exact ⟨fun _ _ h => h, fun _ hm => absurd hm (List.not_mem_nil _)⟩
  | cons reg regs ih =>
    intro s limit hinv hprot hattr hregs
    obtain ⟨r1, r2, r3, r4, r5, r6⟩ := hregs reg (List.mem_cons_self _ _)
    have hend : wrap (reg.1 + reg.2) = reg.1 + reg.2 := by
      unfold wrap U64
      omega
    have hal := ALIGN_PMD_eq (x := reg.1) (by unfold U64; omega)
    rw [map_mem_loop]
    simp only [hend]
    rw [if_neg (by omega)]
    generalize hst : (if reg.1 < limit then ALIGN reg.1 PMD_SIZE else reg.1) = start1
    generalize hl1 : (if reg.1 + reg.2 < limit then (reg.1 + reg.2) &&& PMD_MASK else limit)
      = limit1
    generalize hs1 : (if reg.1 + reg.2 < limit then memblock_set_current_limit s limit1 else s)
      = s1
    have hb1 : reg.1 ≤ start1 ∧ start1 ≤ (reg.1 + 2097151) / 2097152 * 2097152 ∧
        start1 % 4096 = 0 := by
      rw [← hst]
      split_ifs
      · rw [hal]
        omega
      · omega
    have hinv1 : Inv c s1 := by
      rw [← hs1]
      split_ifs
      · exact hinv.inv_limit _
      · exact hinv
    have hprot1 : ProtOk s1 := by
      rw [← hs1]
      split_ifs
      · exact hprot
      · exact hprot
    have hattr1 : AttrOk s1 := by
      rw [← hs1]
      split_ifs
      · exact hattr
      · exact hattr
    have htr1 : ∀ a, translate c s1 a = translate c s a := by
      intro a
      rw [← hs1]
      split_ifs
      · rfl
      · rfl
    have hsz : usub (reg.1 + reg.2) start1 = reg.1 + reg.2 - start1 := by
      unfold usub U64
      omega
    have hvirt : __phys_to_virt c start1 = start1 - c.PHYS_OFFSET + PAGE_OFFSET :=
      phys_to_virt_eq (by omega) (by omega)
    rw [hsz, hvirt]
    generalize hvv : start1 - c.PHYS_OFFSET + PAGE_OFFSET = virt
    have hv1 : PAGE_OFFSET ≤ virt := by omega
    have hv2 : virt + (reg.1 + reg.2 - start1) ≤ U64 := by
      unfold PAGE_OFFSET U64 at *
      omega
    have hv3 : virt % 4096 = 0 := by
      unfold PAGE_OFFSET at *
      omega
    have e1 : pb virt = virt := by
      unfold pb
      omega
    have e2 : pb (virt + (reg.1 + reg.2 - start1) + 4095) = virt + (reg.1 + reg.2 - start1) := by
      unfold pb
      omega
    have G := @create_mapping_spec c s1 hinv1 hprot1 start1 virt (reg.1 + reg.2 - start1) false
      (by unfold VMALLOC_START PAGE_OFFSET at *; omega) hv2 (by omega) hb1.2.2
      (by rw [e1, e2]; unfold U64; omega)
    rw [e1, e2] at G
    cases hcm : create_mapping c s1 start1 virt (reg.1 + reg.2 - start1) false with
    | error e =>
      rw [hcm] at G
      rw [bind_error]
      refine ⟨?_, ?_⟩
      · intro h
        injection h with h
        exact G.1 h
      · intro s2 h
        cases h
    | ok s3 =>
      rw [hcm] at G
      have P : Post c s1 s3 false start1 virt (virt + (reg.1 + reg.2 - start1)) _ := G
      rw [bind_ok]
      obtain ⟨ih1, ih2⟩ := ih s3 limit1 P.inv (P.same.protOk hprot1)
        (by
          have := P.same
          unfold AttrOk Same at *
          rw [this.2.2.1, this.2.2.2]
          exact hattr1)
        (fun r hr => hregs r (List.mem_cons_of_mem _ hr))
      refine ⟨ih1, ?_⟩
      intro s2 hrun
      obtain ⟨k1, k2⟩ := ih2 s2 hrun
      have hin : ∀ a, virt ≤ a → a < virt + (reg.1 + reg.2 - start1) →
          translate c s3 a = some (__virt_to_phys c a) := by
        intro a g1 g2
        rw [P.translate_in hprot1 hattr1 hb1.2.2 hv3 (by omega) g1 g2,
          virt_to_phys_eq (by omega) (by omega) (by omega)]
        exact congrArg some (by omega)
      refine ⟨?_, ?_⟩
      · intro a haw ht
        apply k1 a haw
        by_cases hc : virt ≤ a ∧ a < virt + (reg.1 + reg.2 - start1)
        · exact hin a hc.1 hc.2
        · rw [P.translate_out haw (by omega), htr1]
          exact ht
      · intro r hr p g1 g2
        rcases List.mem_cons.1 hr with h | h
        · subst h
          have hvp : __phys_to_virt c p = p - c.PHYS_OFFSET + PAGE_OFFSET :=
            phys_to_virt_eq (by omega) (by omega)
          have haw : InWindow (__phys_to_virt c p) := by
            rw [hvp]
            unfold InWindow VMALLOC_START PAGE_OFFSET U64 at *
            omega
          have := k1 _ haw (hin _ (by rw [hvp]; omega) (by rw [hvp]; omega))
          rw [this, hvp, virt_to_phys_eq (by omega) (by unfold PAGE_OFFSET U64 at *; omega)
            (by omega)]
          exact congrArg some (by omega)
        · exact k2 r h p g1 g2

theorem ProtOk.prot_limit {s : State} (h : ProtOk s) (l : Nat) :
    ProtOk (memblock_set_current_limit s l) := h

theorem AttrOk.attr_limit {s : State} (h : AttrOk s) (l : Nat) :
    AttrOk (memblock_set_current_limit s l) := h

theorem translate_limit (c : Config) (s : State) (l a : Nat) :
    translate c (memblock_set_current_limit s l) a = translate c s a := rfl

/-- C6, as the code has it: for page-aligned memory banks that lie inside the
part of physical memory the linear map covers, `map_mem` does not run out of loop
iterations, and when it returns every physical address `p` of a bank, from the
first block boundary at or after the base of the bank up to its end, is
translated by the hierarchy: the address `__phys_to_virt p` translates to `p`.
The pages of a bank below `ALIGN(base, PMD_SIZE)` are left out: `map_mem` rounds
the start of a bank below the allocator limit up to a block boundary. -/
theorem map_mem_translates {c : Config} {s : State} (hinv : Inv c s) (hprot : ProtOk s)
    (hattr : AttrOk s) (hoff : c.PHYS_OFFSET % 4096 = 0) {regs : List (Nat × Nat)}
    (hregs : ∀ reg, reg ∈ regs → RegionOk c reg) :
    map_mem c s regs ≠ .error Halt.hang ∧
    ∀ s2, map_mem c s regs = .ok s2 →
      ∀ reg, reg ∈ regs → ∀ p, ALIGN reg.1 PMD_SIZE ≤ p → p < reg.1 + reg.2 →
        translate c s2 (__phys_to_virt c p) = some p := by
  unfold map_mem
  obtain ⟨h1, h2⟩ := map_mem_loop_spec hoff regs
    (memblock_set_current_limit s (wrap (c.PHYS_OFFSET + PGDIR_SIZE)))
    (wrap (c.PHYS_OFFSET + PGDIR_SIZE)) (hinv.inv_limit _) (hprot.prot_limit _) (hattr.attr_limit _) hregs
  simp only []
  cases hrun : map_mem_loop c regs
      (memblock_set_current_limit s (wrap (c.PHYS_OFFSET + PGDIR_SIZE)))
      (wrap (c.PHYS_OFFSET + PGDIR_SIZE)) with
  | error e =>
    refine ⟨?_, ?_⟩
    · intro h
      injection h with h
      subst h
      exact h1 hrun
    · intro s2 h
      cases h
  | ok s1 =>
    refine ⟨fun h => (by cases h), ?_⟩
    intro s2 h reg hreg p g1 g2
    injection h with h
    subst h
    obtain ⟨r1, r2, r3, r4, r5, r6⟩ := hregs reg hreg
    rw [ALIGN_PMD_eq (by unfold U64; omega)] at g1
    rw [translate_limit]
    exact (h2 s1 hrun).2 reg hreg p g1 g2

theorem map_mem_translates_witness :
    map_mem demo_config demo_state [(0x80200000, 0x400000)] ≠ .error Halt.hang ∧
    ∀ s2, map_mem demo_config demo_state [(0x80200000, 0x400000)] = .ok s2 →
      ∀ reg, reg ∈ [((0x80200000 : Nat), (0x400000 : Nat))] →
        ∀ p, ALIGN reg.1 PMD_SIZE ≤ p → p < reg.1 + reg.2 →
          translate demo_config s2 (__phys_to_virt demo_config p) = some p :=
  map_mem_translates demo_inv demo_prot (by decide) (by decide)
    (fun reg h => by
      simp only [List.mem_singleton] at h
      subst h
      decide)

/-- C6 as stated fails: mapping the single bank `[0x80201000, 0x80601000)` on an
empty hierarchy returns, and afterwards the page-aligned address of the first page
of the bank is neither reported by `kern_addr_valid` nor translated, because
`map_mem` starts the bank at the next block boundary; and the address of
`0x80400000`, which a Block Mapping translates, is not reported by
`kern_addr_valid` either. -/
theorem map_mem_unaligned_bank_unmapped :
    Returns (map_mem demo_config demo_state [(0x80201000, 0x400000)]) (fun s2 =>
      kern_addr_valid demo_config s2 (__phys_to_virt demo_config 0x80201000) = 0 ∧
      translate demo_config s2 (__phys_to_virt demo_config 0x80201000) = none ∧
      translate demo_config s2 (__phys_to_virt demo_config 0x80400000) = some 0x80400000 ∧
      kern_addr_valid demo_config s2 (__phys_to_virt demo_config 0x80400000) = 0) := by
  decide

/-! ## Splitting a block entry -/

theorem split_pmd_loop_eq : ∀ (fuel : Nat) (s : State) (pte addr end_ pfn : Nat),
    split_pmd_loop fuel s pte addr end_ pfn = alloc_init_pte_loop fuel s pte addr end_ pfn := by
  intro fuel
  induction fuel with
  | zero =>
    intro s pte addr end_ pfn
    rfl
  | succ fuel ih =>
    intro s pte addr end_ pfn
    rw [split_pmd_loop, alloc_init_pte_loop]
    simp only [ih]

theorem early_alloc_inv {s sa : State} {p : Nat} (h : early_alloc s 4096 = .ok (p, sa)) :
    p % 4096 = 0 ∧ s.brk ≤ p ∧ p + 4096 ≤ s.pool_end ∧
      sa = memset { s with brk := p + 4096 } p 0 4096 := by
  unfold early_alloc memblock_alloc at h
  simp only [] at h
  split_ifs at h with hc
  · simp only [Except.ok.injEq, Prod.mk.injEq] at h
    obtain ⟨h1, h2⟩ := h
    subst h1
    refine ⟨by omega, by omega, hc.1, h2.symm⟩

theorem skip_iff (v : Nat) : (pmd_none v || pmd_bad v) = true ↔ ¬ is_table v := by
  unfold pmd_none pmd_bad is_table
  simp only [Bool.or_eq_true, beq_iff_eq, ne_eq, not_not]
  constructor
  · rintro (h | h)
    · subst h
      rfl
    · exact h
  · intro h
    exact Or.inr h

/-- A split of the chunk `[addr, addr + 4096 * n)` takes one page `p` from the pool
and, outside that page, changes the entry `pmd` only, into the reference to `p`. -/
theorem split_pmd_spec {s s1 : State} {pmd addr pfn n : Nat} (hn : 0 < n) (hn2 : n ≤ 512)
    (ha : addr + 4096 * n < U64) (hpfn : pfn < U64)
    (h : split_pmd s pmd addr (addr + 4096 * n) pfn = .ok s1) :
    ∃ p, p % 4096 = 0 ∧ s.brk ≤ p ∧ p + 4096 ≤ s.pool_end ∧ s1.brk = p + 4096 ∧
      s1.pool_end = s.pool_end ∧
      ∀ q, q < p ∨ p + 4096 ≤ q → s1.mem q = if q = pmd then p ||| 3 else s.mem q := by
  unfold split_pmd at h
  have e0 : PTRS_PER_PTE * 8 = 4096 := rfl
  rw [e0] at h
  cases hea : early_alloc s 4096 with
  | error e =>
    rw [hea] at h
    cases h
  | ok r =>
    obtain ⟨p, sa⟩ := r
    rw [hea] at h
    simp only [] at h
    obtain ⟨g1, g2, g3, g4⟩ := early_alloc_inv hea
    have hF : n ≤ FUEL := by
      unfold FUEL U64
      omega
    obtain ⟨s2, hrun, hmo, hmem⟩ := pte_loop_mem FUEL sa p addr pfn n hn hF (by omega) hpfn
    rw [Nat.mod_eq_of_lt ha] at hrun
    rw [split_pmd_loop_eq, hrun] at h
    simp only [Except.ok.injEq] at h
    subst h
    refine ⟨p, g1, g2, g3, ?_, ?_, ?_⟩
    · show s2.brk = p + 4096
      rw [hmo.brk, g4]
      rfl
    · show s2.pool_end = s.pool_end
      rw [hmo.pool_end, g4]
      rfl
    · intro q hq
      show (if q = pmd then p ||| PMD_TYPE_TABLE else s2.mem q) = _
      by_cases hqp : q = pmd
      · rw [if_pos hqp, if_pos hqp]
        rfl
      · rw [if_neg hqp, if_neg hqp, hmem q, if_neg (by omega), g4]
        show (if p ≤ q ∧ q < p + 4096 then 0 else s.mem q) = s.mem q
        rw [if_neg (by omega)]

/-! ## A second run of `remap_pages` -/

theorem Ext.ext_refl (c : Config) (B E : Nat) (s : State) : Ext c B E s s :=
  ⟨fun _ _ => rfl, fun _ _ h => h⟩

theorem Ext.ext_trans {c : Config} {B E : Nat} {s s1 s2 : State} (h1 : Ext c B E s s1)
    (h2 : Ext c B E s1 s2) : Ext c B E s s2 :=
  ⟨fun i hi => (h2.1 i hi).trans (h1.1 i hi), fun q hq h => h2.2 q hq (h1.2 q hq h)⟩

/-- The loop over the middle entries of one top-level slot: a run that returns
leaves a table reference in every entry it has visited, so that a run from any
later state finds nothing to split and returns that state. -/
theorem remap_pmd_loop_idem {c : Config} {B E T : Nat} (hpg : c.swapper_pg_dir % 4096 = 0)
    (hP : Out B E c.swapper_pg_dir) (hT : T % 4096 = 0) (hTo : Out B E T)
    (hTp : T ≠ c.swapper_pg_dir) :
    ∀ (fuel : Nat) (s : State) (addr endR phys : Nat) (s1 : State),
      addr % 4096 = 0 → endR % 4096 = 0 → addr < endR →
      endR ≤ addr / 1073741824 * 1073741824 + 1073741824 → endR < U64 → phys < U64 →
      B ≤ s.brk → s.pool_end ≤ E →
      remap_pages_pmd_loop fuel s (T + 8 * pmd_index addr) addr endR phys = .ok s1 →
      Ext c B E s s1 ∧ B ≤ s1.brk ∧ s1.pool_end ≤ E ∧
      ∀ s3, (∀ q, q < B ∨ E ≤ q → is_table (s1.mem q) → is_table (s3.mem q)) →
        remap_pages_pmd_loop fuel s3 (T + 8 * pmd_index addr) addr endR phys = .ok s3 := by
  intro fuel
  induction fuel with
  | zero =>
    intro s addr endR phys s1 _ _ _ _ _ _ _ _ h
    cases h
  | succ fuel ih =>
    intro s addr endR phys s1 ha he hlt hch hU hph hB hE h
    have hU2 : endR < 18446744073709551616 := hU
    have hidx : pmd_index addr < 512 := by
      rw [pmd_index_eq]
      omega
    have hout : T + 8 * pmd_index addr < B ∨ E ≤ T + 8 * pmd_index addr := by
      rcases hTo with k | k
      · exact Or.inl (by omega)
      · exact Or.inr (by omega)
    have hnx : pmd_addr_end addr endR = min (cb addr + 2097152) endR := by
      have := @pmd_addr_end_eq addr endR (by unfold U64; omega) hlt
        (by unfold U64; omega)
      rw [Nat.mod_eq_of_lt hU, Nat.mod_eq_of_lt (lt_of_le_of_lt (min_le_right _ _) hU)] at this
      exact this
    generalize hnxv : min (cb addr + 2097152) endR = nx at hnx
    have hnx1 : addr < nx ∧ nx ≤ endR ∧ nx % 4096 = 0 ∧ nx ≤ cb addr + 2097152 ∧
        (nx < endR → nx = cb addr + 2097152) := by
      unfold cb at *
      omega
    obtain ⟨n1, n2, n3, n4, n5⟩ := hnx1
    have hn : nx = addr + 4096 * ((nx - addr) / 4096) := by omega
    have hpfn : __phys_to_pfn phys < U64 := by
      unfold __phys_to_pfn PAGE_SHIFT
      rw [Nat.shiftRight_eq_div_pow]
      exact lt_of_le_of_lt (Nat.div_le_self _ _) hph
    rw [remap_pages_pmd_loop] at h
    simp only [hnx] at h
    cases hstep : (if (pmd_none (s.mem (T + 8 * pmd_index addr)) ||
        pmd_bad (s.mem (T + 8 * pmd_index addr))) = true then
        split_pmd s (T + 8 * pmd_index addr) addr nx (__phys_to_pfn phys) else Except.ok s) with
    | error e =>
      rw [hstep] at h
      cases h
    | ok sa =>
      rw [hstep] at h
      simp only [] at h
      have key : Ext c B E s sa ∧ B ≤ sa.brk ∧ sa.pool_end ≤ E ∧
          is_table (sa.mem (T + 8 * pmd_index addr)) := by
        by_cases ht : is_table (s.mem (T + 8 * pmd_index addr))
        · rw [if_neg (fun hc => (skip_iff _).1 hc ht)] at hstep
          injection hstep with hstep
          subst hstep
          exact ⟨Ext.ext_refl c B E s, hB, hE, ht⟩
        · rw [if_pos ((skip_iff _).2 ht), hn] at hstep
          obtain ⟨p, p1, p2, p3, p4, p5, p6⟩ := split_pmd_spec (by unfold cb at *; omega)
            (by unfold cb at *; omega) (by rw [← hn]; omega) hpfn hstep
          refine ⟨⟨?_, ?_⟩, by omega, by omega, ?_⟩
          · intro i hi
            unfold pgd_entry
            rw [p6 _ (by rcases hP with k | k <;> omega), if_neg (by omega)]
          · intro q hq hq2
            rw [p6 q (by omega)]
            by_cases hqp : q = T + 8 * pmd_index addr
            · rw [if_pos hqp]
              exact is_table_or_three p p1
            · rw [if_neg hqp]
              exact hq2
          · rw [p6 _ (by omega), if_pos rfl]
            exact is_table_or_three p p1
      obtain ⟨k1, k2, k3, k4⟩ := key
      by_cases hc : nx < endR
      · rw [if_pos hc] at h
        have hnxe := n5 hc
        have hidx2 : T + 8 * pmd_index addr + 8 = T + 8 * pmd_index nx := by
          rw [pmd_index_eq, pmd_index_eq]
          unfold cb at *
          omega
        rw [hidx2] at h
        have hw : wrap (phys + usub nx addr) < U64 := Nat.mod_lt _ (by decide)
        obtain ⟨r1, r2, r3, r4⟩ := ih sa nx endR _ s1 n3 he hc
          (by unfold cb at *; omega) hU hw k2 k3 h
        refine ⟨k1.ext_trans r1, r2, r3, ?_⟩
        intro s3 h3
        rw [remap_pages_pmd_loop]
        simp only [hnx]
        rw [if_neg (fun hcc => (skip_iff _).1 hcc (h3 _ hout (r1.2 _ hout k4)))]
        simp only []
        rw [if_pos hc, hidx2]
        exact r4 s3 h3
      · rw [if_neg hc] at h
        injection h with h
        subst h
        refine ⟨k1, k2, k3, ?_⟩
        intro s3 h3
        rw [remap_pages_pmd_loop]
        simp only [hnx]
        rw [if_neg (fun hcc => (skip_iff _).1 hcc (h3 _ hout k4))]
        simp only []
        rw [if_neg hc]

theorem TopOk.ext {c : Config} {B E : Nat} {s s1 : State} {i : Nat} (h : TopOk c B E s i)
    (hi : i < 512) (he : Ext c B E s s1) : TopOk c B E s1 i := by
  unfold TopOk pmd_table at *
  rw [he.1 i hi]
  exact h

/-- The loop over the upper entries of one top-level slot; with the upper
directory folded it makes one pass, over the middle table of the slot. -/
theorem remap_pud_loop_idem {c : Config} {B E : Nat} (hpg : c.swapper_pg_dir % 4096 = 0)
    (hP : Out B E c.swapper_pg_dir) :
    ∀ (fuel : Nat) (s : State) (addr endR phys : Nat) (s1 : State), 0 < fuel →
      addr % 4096 = 0 → endR % 4096 = 0 → addr < endR →
      endR ≤ addr / 1073741824 * 1073741824 + 1073741824 → endR < U64 → phys < U64 →
      B ≤ s.brk → s.pool_end ≤ E → TopOk c B E s (pgd_index addr) →
      remap_pages_pud_loop fuel s (c.swapper_pg_dir + 8 * pgd_index addr) addr endR phys =
        .ok s1 →
      Ext c B E s s1 ∧ B ≤ s1.brk ∧ s1.pool_end ≤ E ∧
      ∀ s3, Ext c B E s1 s3 →
        remap_pages_pud_loop fuel s3 (c.swapper_pg_dir + 8 * pgd_index addr) addr endR phys =
          .ok s3 := by
  intro fuel s addr endR phys s1 hf ha he hlt hch hU hph hB hE htop h
  cases fuel with
  | zero => omega
  | succ fuel =>
    rw [remap_pages_pud_loop] at h
    have e1 : ∀ s0 : State, pmd_offset (s0.mem (c.swapper_pg_dir + 8 * pgd_index addr)) addr =
        pmd_table c s0 (pgd_index addr) + 8 * pmd_index addr := fun _ => rfl
    have e2 : pud_addr_end addr endR = endR := rfl
    simp only [e1, e2] at h
    have hTa : pmd_table c s (pgd_index addr) % 4096 = 0 := page_vaddr_aligned _
    cases hrun : remap_pages_pmd_loop FUEL s (pmd_table c s (pgd_index addr) + 8 * pmd_index addr)
        addr endR phys with
    | error e =>
      rw [hrun] at h
      cases h
    | ok sa =>
      rw [hrun] at h
      simp only [] at h
      rw [if_neg (Nat.lt_irrefl _)] at h
      injection h with h
      subst h
      obtain ⟨r1, r2, r3, r4⟩ := remap_pmd_loop_idem hpg hP hTa htop.1 htop.2 FUEL s addr endR
        phys sa ha he hlt hch hU hph hB hE hrun
      refine ⟨r1, r2, r3, ?_⟩
      intro s3 h3
      rw [remap_pages_pud_loop]
      simp only [e1, e2]
      have e3 : pmd_table c s3 (pgd_index addr) = pmd_table c s (pgd_index addr) := by
        unfold pmd_table
        rw [h3.1 _ (pgd_index_lt _), r1.1 _ (pgd_index_lt _)]
      rw [e3, r4 s3 h3.2]
      simp only []
      rw [if_neg (Nat.lt_irrefl _)]

/-- The loop over the top-level slots of one memory bank. -/
theorem remap_pgd_loop_idem {c : Config} {B E : Nat} (hpg : c.swapper_pg_dir % 4096 = 0)
    (hP : Out B E c.swapper_pg_dir) :
    ∀ (fuel : Nat) (s : State) (addr endR phys : Nat) (s1 : State),
      PAGE_OFFSET ≤ addr → addr % 4096 = 0 → endR % 4096 = 0 → addr < endR →
      endR < U64 → phys < U64 → B ≤ s.brk → s.pool_end ≤ E →
      (∀ a, addr ≤ a → a < endR → TopOk c B E s (pgd_index a)) →
      remap_pages_pgd_loop fuel s (c.swapper_pg_dir + 8 * pgd_index addr) addr endR phys =
        .ok s1 →
      Ext c B E s s1 ∧ B ≤ s1.brk ∧ s1.pool_end ≤ E ∧
      ∀ s3, Ext c B E s1 s3 →
        remap_pages_pgd_loop fuel s3 (c.swapper_pg_dir + 8 * pgd_index addr) addr endR phys =
          .ok s3 := by
  intro fuel
  induction fuel with
  | zero =>
    intro s addr endR phys s1 _ _ _ _ _ _ _ _ _ h
    cases h
  | succ fuel ih =>
    intro s addr endR phys s1 hpo ha he hlt hU hph hB hE htop h
    have hU2 : endR < 18446744073709551616 := hU
    have hnx : pgd_addr_end addr endR = min (addr / 1073741824 * 1073741824 + 1073741824) endR := by
      have := @pgd_addr_end_eq addr endR (by unfold U64; omega) hlt
        (by unfold U64; omega)
      rw [Nat.mod_eq_of_lt hU, Nat.mod_eq_of_lt (lt_of_le_of_lt (min_le_right _ _) hU)] at this
      exact this
    generalize hnxv : min (addr / 1073741824 * 1073741824 + 1073741824) endR = nx at hnx
    have hnx1 : addr < nx ∧ nx ≤ endR ∧ nx % 4096 = 0 ∧
        nx ≤ addr / 1073741824 * 1073741824 + 1073741824 ∧
        (nx < endR → nx = addr / 1073741824 * 1073741824 + 1073741824) := by
      omega
    obtain ⟨n1, n2, n3, n4, n5⟩ := hnx1
    have e1 : pud_offset (c.swapper_pg_dir + 8 * pgd_index addr) addr =
        c.swapper_pg_dir + 8 * pgd_index addr := rfl
    rw [remap_pages_pgd_loop] at h
    simp only [hnx, e1] at h
    have hF : 0 < FUEL := by decide
    cases hrun : remap_pages_pud_loop FUEL s (c.swapper_pg_dir + 8 * pgd_index addr) addr nx
        phys with
    | error e =>
      rw [hrun] at h
      cases h
    | ok sa =>
      rw [hrun] at h
      simp only [] at h
      obtain ⟨k1, k2, k3, k4⟩ := remap_pud_loop_idem hpg hP FUEL s addr nx phys sa hF ha n3 n1
        n4 (by omega) hph hB hE (htop addr (le_refl _) hlt) hrun
      by_cases hc : nx < endR
      · rw [if_pos hc] at h
        have hnxe := n5 hc
        have hidx2 : c.swapper_pg_dir + 8 * pgd_index addr + 8 =
            c.swapper_pg_dir + 8 * pgd_index nx := by
          rw [pgd_index_eq, pgd_index_eq]
          unfold PAGE_OFFSET at hpo
          omega
        rw [hidx2] at h
        have hw : wrap (phys + usub nx addr) < U64 := Nat.mod_lt _ (by decide)
        obtain ⟨r1, r2, r3, r4⟩ := ih sa nx endR _ s1 (by omega) n3 he hc hU hw k2 k3
          (fun a g1 g2 => (htop a (by omega) g2).ext (pgd_index_lt _) k1) h
        refine ⟨k1.ext_trans r1, r2, r3, ?_⟩
        intro s3 h3
        rw [remap_pages_pgd_loop]
        simp only [hnx, e1]
        rw [k4 s3 (r1.ext_trans h3)]
        simp only []
        rw [if_pos hc, hidx2]
        exact r4 s3 h3
      · rw [if_neg hc] at h
        injection h with h
        subst h
        refine ⟨k1, k2, k3, ?_⟩
        intro s3 h3
        rw [remap_pages_pgd_loop]
        simp only [hnx, e1]
        rw [k4 s3 h3]
        simp only []
        rw [if_neg hc]

/-- The loop over the memory banks. -/
theorem remap_regions_idem {c : Config} {B E : Nat} (hpg : c.swapper_pg_dir % 4096 = 0)
    (hP : Out B E c.swapper_pg_dir) (hoff : c.PHYS_OFFSET % 4096 = 0) :
    ∀ (regs : List (Nat × Nat)) (s s1 : State), B ≤ s.brk → s.pool_end ≤ E →
      (∀ reg, reg ∈ regs → reg.1 % 4096 = 0 ∧ reg.2 % 4096 = 0 ∧ c.PHYS_OFFSET ≤ reg.1 ∧
        reg.1 + reg.2 < c.PHYS_OFFSET + 274877906944 ∧ reg.1 + reg.2 ≤ 1099511627776 ∧
        ∀ a, __phys_to_virt c reg.1 ≤ a → a < __phys_to_virt c (reg.1 + reg.2) →
          TopOk c B E s (pgd_index a)) →
      remap_pages_regions c regs s = .ok s1 →
      Ext c B E s s1 ∧ ∀ s3, Ext c B E s1 s3 → remap_pages_regions c regs s3 = .ok s3 := by
  intro regs
  induction regs with
  | nil =>
    intro s s1 _ _ _ h
    rw [remap_pages_regions] at h
    injection h with h
    subst h
    exact ⟨Ext.ext_refl c B E s, fun s3 _ => by rw [remap_pages_regions]⟩
  | cons reg regs ih =>
    intro s s1 hB hE hregs h
    obtain ⟨r1, r2, r3, r4, r5, r6⟩ := hregs reg (List.mem_cons_self _ _)
    have hend : wrap (reg.1 + reg.2) = reg.1 + reg.2 := by
      unfold wrap U64
      omega
    have hv1 : __phys_to_virt c reg.1 = reg.1 - c.PHYS_OFFSET + PAGE_OFFSET :=
      phys_to_virt_eq r3 (by omega)
    have hv2 : __phys_to_virt c (reg.1 + reg.2) = reg.1 + reg.2 - c.PHYS_OFFSET + PAGE_OFFSET :=
      phys_to_virt_eq (by omega) r4
    have e1 : ∀ a, pgd_offset_k c a = c.swapper_pg_dir + 8 * pgd_index a := fun _ => rfl
    rw [hv1, hv2] at r6
    rw [remap_pages_regions] at h
    simp only [hend, hv1, hv2, e1] at h
    generalize hg1 : reg.1 - c.PHYS_OFFSET + PAGE_OFFSET = v1 at h r6
    generalize hg2 : reg.1 + reg.2 - c.PHYS_OFFSET + PAGE_OFFSET = v2 at h r6
    have hsecond : ∀ s3 sa, (reg.1 ≥ reg.1 + reg.2 → sa = s3) →
        (¬ reg.1 ≥ reg.1 + reg.2 →
          remap_pages_pgd_loop FUEL s3 (c.swapper_pg_dir + 8 * pgd_index v1) v1 v2 reg.1 =
            .ok s3 ∧ remap_pages_regions c regs s3 = .ok s3 ∧ sa = s3) →
        remap_pages_regions c (reg :: regs) s3 = .ok sa := by
      intro s3 sa g1 g2
      rw [remap_pages_regions]
      simp only [hend, hv1, hv2, e1, hg1, hg2]
      by_cases hc : reg.1 ≥ reg.1 + reg.2
      · rw [if_pos hc, g1 hc]
      · rw [if_neg hc, (g2 hc).1]
        simp only []
        rw [(g2 hc).2.1, (g2 hc).2.2]
    by_cases hc : reg.1 ≥ reg.1 + reg.2
    · rw [if_pos hc] at h
      injection h with h
      subst h
      exact ⟨Ext.ext_refl c B E s, fun s3 _ => hsecond s3 s3 (fun _ => rfl)
        (fun g => absurd hc g)⟩
    · rw [if_neg hc] at h
      cases hrun : remap_pages_pgd_loop FUEL s (c.swapper_pg_dir + 8 * pgd_index v1) v1 v2
          reg.1 with
      | error e =>
        rw [hrun] at h
        cases h
      | ok sa =>
        rw [hrun] at h
        simp only [] at h
        obtain ⟨k1, k2, k3, k4⟩ := remap_pgd_loop_idem hpg hP FUEL s v1 v2 reg.1 sa
          (by omega) (by unfold PAGE_OFFSET at *; omega) (by unfold PAGE_OFFSET at *; omega)
          (by omega) (by unfold PAGE_OFFSET U64 at *; omega) (by unfold U64; omega) hB hE r6 hrun
        obtain ⟨m1, m2⟩ := ih sa s1 k2 k3
          (fun r hr => by
            obtain ⟨q1, q2, q3, q4, q5, q6⟩ := hregs r (List.mem_cons_of_mem _ hr)
            exact ⟨q1, q2, q3, q4, q5, fun a g1 g2 => (q6 a g1 g2).ext (pgd_index_lt _) k1⟩) h
        refine ⟨k1.ext_trans m1, ?_⟩
        intro s3 h3
        exact hsecond s3 s3 (fun _ => rfl)
          (fun _ => ⟨k4 s3 (m1.ext_trans h3), m2 s3 h3, rfl⟩)

/-- C7: on a well-formed hierarchy, for page-aligned memory banks inside the linear
map whose top-level entries are populated, `remap_pages` is idempotent: when a
run returns the state `s1`, a second run from `s1` returns `s1` itself, so it
changes no page-table entry and takes nothing from the allocator. -/
theorem remap_pages_idempotent {c : Config} {s s1 : State} (hinv : Inv c s)
    (hoff : c.PHYS_OFFSET % 4096 = 0) {regs : List (Nat × Nat)}
    (hregs : ∀ reg, reg ∈ regs → RemapOk c s reg)
    (h : remap_pages c s regs = .ok s1) : remap_pages c s1 regs = .ok s1 := by
  unfold remap_pages at *
  by_cases hf : c.force_pages = true
  · rw [if_pos hf] at h ⊢
    have hP : Out s.brk s.pool_end c.swapper_pg_dir := hinv.pgd_safe
    obtain ⟨k1, k2⟩ := remap_regions_idem hinv.pgd_al hP hoff regs s s1 (le_refl _) (le_refl _)
      (fun r hr => by
        obtain ⟨q1, q2, q3, q4, q5, q6⟩ := hregs r hr
        exact ⟨q1, q2, q3, q4, q5, fun a g1 g2 =>
          hinv.pmd_safe _ (pgd_index_lt _) (q6 a g1 g2)⟩) h
    exact k2 s1 (Ext.ext_refl c _ _ s1)
  · rw [if_neg hf]

theorem demo_blocks_top {i : Nat} (hi : i < 512)
    (h : is_table (pgd_entry demo_config demo_blocks i)) :
    i = 256 ∧ pgd_entry demo_config demo_blocks i = 0x80001003 := by
  by_cases hc : i = 256
  · subst hc
    exact ⟨rfl, rfl⟩
  · have e : pgd_entry demo_config demo_blocks i = 0 := by
      show (if 0x80000000 + 8 * i = 0x80000800 then 0x80001003
        else if 0x80000000 + 8 * i = 0x80001008 then 0x80200711 else 0) = 0
      rw [if_neg (by omega), if_neg (by omega)]
    rw [e] at h
    exact absurd h not_is_table_zero

theorem demo_blocks_mid {j : Nat} (hj : j < 512) :
    ¬ is_table (pmd_entry demo_config demo_blocks 256 j) := by
  have e : pmd_entry demo_config demo_blocks 256 j =
      if 0x80001000 + 8 * j = 0x80000800 then 0x80001003
        else if 0x80001000 + 8 * j = 0x80001008 then 0x80200711 else 0 := rfl
  rw [e, if_neg (by omega)]
  split_ifs
  · decide
  · exact not_is_table_zero

theorem demo_blocks_inv : Inv demo_config demo_blocks := by
  refine ⟨by decide, by decide, by decide, Or.inl (by decide), ?_, ?_, ?_, ?_, ?_⟩
  · intro i hi h
    obtain ⟨rfl, _⟩ := demo_blocks_top hi h
    exact ⟨Or.inl (by decide), by decide⟩
  · intro i i2 hi hi2 h h2 _
    rw [(demo_blocks_top hi h).1, (demo_blocks_top hi2 h2).1]
  · intro i j hi hj h h2
    obtain ⟨rfl, _⟩ := demo_blocks_top hi h
    exact absurd h2 (demo_blocks_mid hj)
  · intro i j i2 hi hj _ h h2 _
    obtain ⟨rfl, _⟩ := demo_blocks_top hi h
    exact absurd h2 (demo_blocks_mid hj)
  · intro i j i2 j2 hi hj _ _ h h2 _ _
    obtain ⟨rfl, _⟩ := demo_blocks_top hi h
    exact absurd h2 (demo_blocks_mid hj)

theorem demo_blocks_remap : RemapOk demo_config demo_blocks (0x80200000, 0x2000) := by
  refine ⟨by decide, by decide, by decide, by decide, by decide, ?_⟩
  intro a h1 h2
  have e1 : __phys_to_virt demo_config (0x80200000, 0x2000).1 = 0xffffffc000200000 := by decide
  have e2 : __phys_to_virt demo_config ((0x80200000, 0x2000).1 + (0x80200000, 0x2000).2) =
      0xffffffc000202000 := by decide
  rw [e1] at h1
  rw [e2] at h2
  have e3 : pgd_index a = 256 := by
    rw [pgd_index_eq]
    omega
  rw [e3]
  decide

set_option maxRecDepth 100000 in
theorem remap_pages_idempotent_witness :
    ∃ s1, remap_pages demo_config demo_blocks [(0x80200000, 0x2000)] = .ok s1 ∧
      remap_pages demo_config s1 [(0x80200000, 0x2000)] = .ok s1 :=
  ⟨_, rfl, remap_pages_idempotent demo_blocks_inv (by decide)
    (fun reg h => by
      simp only [List.mem_singleton] at h
      subst h
      exact demo_blocks_remap) rfl⟩

/-! ## The attributes of split entries -/

theorem early_alloc_cases (s : State) :
    early_alloc s 4096 = .error Halt.oom ∨
    ∃ p, p % 4096 = 0 ∧ s.brk ≤ p ∧ p + 4096 ≤ s.pool_end ∧
      early_alloc s 4096 = .ok (p, memset { s with brk := p + 4096 } p 0 4096) := by
  unfold early_alloc memblock_alloc
  simp only []
  split_ifs with hc
  · exact Or.inr ⟨_, by omega, by omega, hc.1, rfl⟩
  · exact Or.inl rfl

/-- A split either finds the pool exhausted or returns; it then has taken one page
`p` from the pool, and the memory after it is the memory before it with the page
zeroed, `n` leaf entries written from its start and the entry `pmd` replaced. -/
theorem split_pmd_total (s : State) (pmd : Nat) {addr pfn n : Nat} (hn : 0 < n)
    (ha : addr + 4096 * n < U64) (hpfn : pfn < U64) :
    split_pmd s pmd addr (addr + 4096 * n) pfn = .error Halt.oom ∨
    ∃ s1 p, split_pmd s pmd addr (addr + 4096 * n) pfn = .ok s1 ∧ p % 4096 = 0 ∧
      s.brk ≤ p ∧ p + 4096 ≤ s.pool_end ∧
      ∀ q, s1.mem q =
        if q = pmd then p ||| PMD_TYPE_TABLE
        else if p ≤ q ∧ q < p + 8 * n ∧ (q - p) % 8 = 0 then
          pfn_pte (wrap (pfn + (q - p) / 8)) (PAGE_KERNEL_EXEC s)
        else if p ≤ q ∧ q < p + 4096 then 0 else s.mem q := by
  unfold split_pmd
  have e0 : PTRS_PER_PTE * 8 = 4096 := rfl
  rw [e0]
  rcases early_alloc_cases s with h | ⟨p, g1, g2, g3, h⟩
  · rw [h]
    exact Or.inl rfl
  · rw [h]
    simp only []
    have hF : n ≤ FUEL := by
      unfold FUEL U64 at *
      omega
    obtain ⟨s2, hrun, _, hmem⟩ := pte_loop_mem FUEL
      (memset { s with brk := p + 4096 } p 0 4096) p addr pfn n hn hF (by omega) hpfn
    rw [Nat.mod_eq_of_lt ha] at hrun
    rw [split_pmd_loop_eq, hrun]
    refine Or.inr ⟨_, p, rfl, g1, g2, g3, ?_⟩
    intro q
    show (if q = pmd then p ||| PMD_TYPE_TABLE else s2.mem q) = _
    by_cases hqp : q = pmd
    · rw [if_pos hqp, if_pos hqp]
    · rw [if_neg hqp, if_neg hqp, hmem q]
      rfl

/-- C8, as the code has it: a split that returns turns the entry `pmd` into a
table reference and gives every leaf Page Mapping it writes the fixed attribute
set `PAGE_KERNEL_EXEC`: the entry of page `k` of the chunk is
`pfn_pte(pfn + k, PAGE_KERNEL_EXEC)`, whatever the entry `pmd` held before, so the
read-only and no-execute bits of a Block Mapping are not carried over. -/
theorem split_pmd_fixed_attributes {s : State} {pmd addr pfn n : Nat} (hn : 0 < n)
    (hn2 : n ≤ 512) (ha : addr + 4096 * n < U64) (hpfn : pfn < U64)
    (hpmd : pmd < s.brk ∨ s.pool_end ≤ pmd) (hpool : s.pool_end ≤ 1099511627776) :
    split_pmd s pmd addr (addr + 4096 * n) pfn = .error Halt.oom ∨
    ∃ s1, split_pmd s pmd addr (addr + 4096 * n) pfn = .ok s1 ∧ is_table (s1.mem pmd) ∧
      ∀ k, k < n → s1.mem (pmd_page_vaddr (s1.mem pmd) + 8 * k) =
        pfn_pte (wrap (pfn + k)) (PAGE_KERNEL_EXEC s) := by
  rcases split_pmd_total s pmd hn ha hpfn with h | ⟨s1, p, h, g1, g2, g3, hmem⟩
  · exact Or.inl h
  · refine Or.inr ⟨s1, h, ?_, ?_⟩
    · rw [hmem pmd, if_pos rfl]
      exact is_table_or_three p g1
    · intro k hk
      have e1 : s1.mem pmd = p ||| 3 := by
        rw [hmem pmd, if_pos rfl]
        rfl
      rw [e1, page_vaddr_or_three p g1 (by omega), hmem, if_neg (by omega),
        if_pos (by omega)]
      have e2 : (p + 8 * k - p) / 8 = k := by omega
      rw [e2]

theorem split_pmd_fixed_attributes_witness :
    split_pmd demo_blocks 0x80001008 0xffffffc000200000 (0xffffffc000200000 + 4096 * 512)
        0x80200 = .error Halt.oom ∨
    ∃ s1, split_pmd demo_blocks 0x80001008 0xffffffc000200000
        (0xffffffc000200000 + 4096 * 512) 0x80200 = .ok s1 ∧
      is_table (s1.mem 0x80001008) ∧
      ∀ k, k < 512 → s1.mem (pmd_page_vaddr (s1.mem 0x80001008) + 8 * k) =
        pfn_pte (wrap (0x80200 + k)) (PAGE_KERNEL_EXEC demo_blocks) :=
  split_pmd_fixed_attributes (by decide) (by decide) (by decide) (by decide)
    (Or.inl (by decide)) (by decide)

set_option maxRecDepth 1000000 in
set_option maxHeartbeats 4000000 in
/-- C8 as stated fails: `map_mem` maps the bank at `0x80400000`, which holds the
read-only data of the kernel, by a Block Mapping with the read-only and the
privileged-no-execute bit set; after `remap_pages` has split it, the leaf Page
Mapping of the first page of the bank has neither bit. -/
theorem remap_pages_drops_block_attributes :
    Returns (map_mem demo_config demo_state [(0x80400000, 0x200000)]) (fun s1 =>
      s1.mem (pmd_off_k demo_config s1 0xffffffc000400000) =
        0x80400000 ||| get_pmd_prot_sect_kernel demo_config s1 0xffffffc000400000 ∧
      s1.mem (pmd_off_k demo_config s1 0xffffffc000400000) &&& PMD_SECT_RDONLY ≠ 0 ∧
      s1.mem (pmd_off_k demo_config s1 0xffffffc000400000) &&& PMD_SECT_PXN ≠ 0 ∧
      Returns (remap_pages demo_config s1 [(0x80400000, 0x200000)]) (fun s2 =>
        is_table (s2.mem (pmd_off_k demo_config s2 0xffffffc000400000)) ∧
        s2.mem (pte_offset_kernel (s2.mem (pmd_off_k demo_config s2 0xffffffc000400000))
          0xffffffc000400000) &&& PTE_RDONLY = 0 ∧
        s2.mem (pte_offset_kernel (s2.mem (pmd_off_k demo_config s2 0xffffffc000400000))
          0xffffffc000400000) &&& PTE_PXN = 0)) := by
  decide

/-! ## Splitting a chunk that starts inside a block -/

set_option maxRecDepth 1000000 in
set_option maxHeartbeats 4000000 in
/-- C9 fails on a bank that does not start on a block boundary. `map_mem` leaves
the chunk `[0xffffffc000201000, 0xffffffc000400000)` of the bank at `0x80201000`
without a mapping; `remap_pages` then splits its empty PMD entry, and `split_pmd`
writes the frames `0x80201, 0x80202, ...` from leaf index 0 on, not from the leaf
index of the first page. So the leaf entry of the address of `0x80201000` maps
frame `0x80202`, the address one page below the bank is mapped to the first frame
of the bank, and the last page of the chunk has no mapping. The chunk that
`map_mem` mapped by a Block Mapping starts on a block boundary and keeps its
translation. -/
theorem split_pmd_unaligned_misindexed :
    Returns (map_mem demo_config demo_state [(0x80201000, 0x400000)]) (fun s1 =>
      s1.mem (pmd_off_k demo_config s1 0xffffffc000201000) = 0 ∧
      Returns (remap_pages demo_config s1 [(0x80201000, 0x400000)]) (fun s2 =>
        is_table (s2.mem (pmd_off_k demo_config s2 0xffffffc000201000)) ∧
        pte_pfn (s2.mem (pte_offset_kernel
          (s2.mem (pmd_off_k demo_config s2 0xffffffc000201000)) 0xffffffc000201000)) =
            0x80202 ∧
        translate demo_config s2 (__phys_to_virt demo_config 0x80201000) = some 0x80202000 ∧
        translate demo_config s2 0xffffffc000200000 = some 0x80201000 ∧
        translate demo_config s2 (__phys_to_virt demo_config 0x803ff000) = none ∧
        translate demo_config s2 (__phys_to_virt demo_config 0x80400000) =
          some 0x80400000)) := by
  decide

/-! ## The clearing loop of `remap_as_pages` -/

theorem pmd_off_k_same {c : Config} {s s0 : State} (a : Nat)
    (h : pgd_entry c s (pgd_index a) = pgd_entry c s0 (pgd_index a)) :
    pmd_off_k c s a = pmd_off_k c s0 a := by
  rw [pmd_off_k_eq, pmd_off_k_eq]
  unfold pmd_table
  rw [h]

/-- The clearing loop from a block boundary `addr` on: it returns, leaves the top
directory alone and leaves every middle entry of `[v0, vend)` empty, given that
those of `[v0, addr)` are empty already. -/
theorem clear_loop_spec {c : Config} {s0 : State} {v0 vend : Nat}
    (hpg : c.swapper_pg_dir % 4096 = 0) (hve : vend + 2097152 ≤ U64)
    (htop : ∀ a, v0 ≤ a → a < vend → pmd_table c s0 (pgd_index a) ≠ c.swapper_pg_dir) :
    ∀ (n fuel : Nat) (s : State) (addr : Nat), n < fuel → addr % 2097152 = 0 → v0 ≤ addr →
      vend ≤ addr + 2097152 * n →
      (∀ i, i < 512 → pgd_entry c s i = pgd_entry c s0 i) →
      (∀ a, v0 ≤ a → a < addr → a < vend → s.mem (pmd_off_k c s0 a) = 0) →
      ∃ s1, remap_as_pages_clear c fuel s addr vend = .ok s1 ∧
        (∀ i, i < 512 → pgd_entry c s1 i = pgd_entry c s0 i) ∧
        ∀ a, v0 ≤ a → a < vend → s1.mem (pmd_off_k c s0 a) = 0 := by
  intro n
  induction n with
  | zero =>
    intro fuel s addr hf _ _ hn hpgd hz
    cases fuel with
    | zero => omega
    | succ fuel =>
      rw [remap_as_pages_clear, if_neg (by omega)]
      exact ⟨s, rfl, hpgd, fun a g1 g2 => hz a g1 (by omega) g2⟩
  | succ n ih =>
    intro fuel s addr hf hal hge hn hpgd hz
    cases fuel with
    | zero => omega
    | succ fuel =>
      rw [remap_as_pages_clear]
      by_cases hc : addr < vend
      · rw [if_pos hc]
        have hw : wrap (addr + PMD_SIZE) = addr + 2097152 := by
          unfold wrap PMD_SIZE U64 at *
          omega
        rw [hw, pmd_off_k_same addr (hpgd _ (pgd_index_lt _))]
        have hptr := pmd_off_k_eq c s0 addr
        have hT : pmd_table c s0 (pgd_index addr) % 4096 = 0 := page_vaddr_aligned _
        have hTn := htop addr hge hc
        have hj : pmd_index addr < 512 := pmd_index_lt _
        have hmem : ∀ q, (pmd_clear s (pmd_off_k c s0 addr)).mem q =
            if q = pmd_off_k c s0 addr then 0 else s.mem q := fun _ => rfl
        apply ih fuel (pmd_clear s (pmd_off_k c s0 addr)) (addr + 2097152) (by omega)
          (by omega) (by omega) (by omega)
        · intro i hi
          unfold pgd_entry
          rw [hmem, if_neg (by rw [hptr]; omega)]
          exact hpgd i hi
        · intro a g1 g2 g3
          rw [hmem]
          by_cases hq : pmd_off_k c s0 a = pmd_off_k c s0 addr
          · rw [if_pos hq]
          · rw [if_neg hq]
            apply hz a g1 ?_ g3
            by_contra hna
            apply hq
            have e1 : pgd_index a = pgd_index addr := by
              rw [pgd_index_eq, pgd_index_eq]
              omega
            have e2 : pmd_index a = pmd_index addr := by
              rw [pmd_index_eq, pmd_index_eq]
              omega
            rw [pmd_off_k_eq, pmd_off_k_eq, e1, e2]
      · rw [if_neg hc]
        exact ⟨s, rfl, hpgd, fun a g1 g2 => hz a g1 (by omega) g2⟩

/-- C10, as the code has it: on a well-formed hierarchy, for a physical range
`[start, start + size)` with `size > 0` whose virtual alias starts on a
`SECTION_SIZE` boundary, lies inside the linear map and has its top-level entries
populated, the clearing loop of `remap_as_pages` returns, and in the state it
returns the PMD entry of every address of the alias is Invalid; `remap_as_pages`
then is the call of `create_mapping` with `force_pages = true` on the alias from
that state. -/
theorem remap_as_pages_clears_aligned {c : Config} {s : State} (hinv : Inv c s)
    {start size : Nat} (hoff : c.PHYS_OFFSET % SECTION_SIZE = 0)
    (hs : start % SECTION_SIZE = 0) (h0 : 0 < size) (h1 : c.PHYS_OFFSET ≤ start)
    (h2 : start + size + SECTION_SIZE ≤ c.PHYS_OFFSET + 274877906944)
    (h3 : start + size ≤ 1099511627776)
    (htop : ∀ a, __phys_to_virt c start ≤ a → a < __phys_to_virt c (start + size) →
      is_table (pgd_entry c s (pgd_index a))) :
    ∃ s1, remap_as_pages_clear c FUEL s (__phys_to_virt c start)
        (__phys_to_virt c (wrap (start + size))) = .ok s1 ∧
      (∀ a, __phys_to_virt c start ≤ a → a < __phys_to_virt c (start + size) →
        s1.mem (pmd_off_k c s1 a) = 0) ∧
      remap_as_pages c s start size =
        create_mapping c s1 start (__phys_to_virt c start) size true := by
  unfold SECTION_SIZE at *
  have hw : wrap (start + size) = start + size := by
    unfold wrap U64
    omega
  have hv1 : __phys_to_virt c start = start - c.PHYS_OFFSET + PAGE_OFFSET :=
    phys_to_virt_eq h1 (by omega)
  have hv2 : __phys_to_virt c (start + size) = start + size - c.PHYS_OFFSET + PAGE_OFFSET :=
    phys_to_virt_eq (by omega) (by omega)
  have hF : (start + size - c.PHYS_OFFSET + PAGE_OFFSET) / 2097152 + 1 < FUEL := by
    unfold FUEL U64 PAGE_OFFSET
    omega
  obtain ⟨s1, k1, k2, k3⟩ := @clear_loop_spec c s (__phys_to_virt c start)
    (__phys_to_virt c (start + size)) hinv.pgd_al
    (by rw [hv2]; unfold PAGE_OFFSET U64; omega)
    (fun a g1 g2 => (hinv.pmd_safe _ (pgd_index_lt _) (htop a g1 g2)).2)
    ((start + size - c.PHYS_OFFSET + PAGE_OFFSET) / 2097152 + 1) FUEL s
    (__phys_to_virt c start) hF (by rw [hv1]; unfold PAGE_OFFSET; omega) (le_refl _)
    (by rw [hv1, hv2]; omega) (fun _ _ => rfl) (fun a g1 g2 _ => by omega)
  refine ⟨s1, by rw [hw]; exact k1, ?_, ?_⟩
  · intro a g1 g2
    rw [pmd_off_k_same a (k2 _ (pgd_index_lt _))]
    exact k3 a g1 g2
  · unfold remap_as_pages
    simp only [hw]
    rw [k1, bind_ok]

theorem demo_blocks_alias {a : Nat}
    (h1 : __phys_to_virt demo_config 0x80200000 ≤ a)
    (h2 : a < __phys_to_virt demo_config (0x80200000 + 0x200000)) :
    is_table (pgd_entry demo_config demo_blocks (pgd_index a)) := by
  have e1 : __phys_to_virt demo_config 0x80200000 = 0xffffffc000200000 := by decide
  have e2 : __phys_to_virt demo_config (0x80200000 + 0x200000) = 0xffffffc000400000 := by
    decide
  rw [e1] at h1
  rw [e2] at h2
  have e3 : pgd_index a = 256 := by
    rw [pgd_index_eq]
    omega
  rw [e3]
  decide

theorem remap_as_pages_clears_aligned_witness :
    ∃ s1, remap_as_pages_clear demo_config FUEL demo_blocks
        (__phys_to_virt demo_config 0x80200000)
        (__phys_to_virt demo_config (wrap (0x80200000 + 0x200000))) = .ok s1 ∧
      (∀ a, __phys_to_virt demo_config 0x80200000 ≤ a →
        a < __phys_to_virt demo_config (0x80200000 + 0x200000) →
        s1.mem (pmd_off_k demo_config s1 a) = 0) ∧
      remap_as_pages demo_config demo_blocks 0x80200000 0x200000 =
        create_mapping demo_config s1 0x80200000 (__phys_to_virt demo_config 0x80200000)
          0x200000 true :=
  remap_as_pages_clears_aligned demo_blocks_inv (by decide) (by decide) (by decide)
    (by decide) (by decide) (by decide) (fun _ g1 g2 => demo_blocks_alias g1 g2)

set_option maxRecDepth 1000000 in
/-- C10 as stated fails for a range that starts inside a block: with the two blocks
at `0x80200000` and `0x80400000` mapped, the clearing loop for the two pages
`[0x803ff000, 0x80401000)` starts at the virtual address of `0x803ff000` and steps
by `PMD_SIZE` past the end of the alias, so it clears the entry of the first
block only; the entry of the block at `0x80400000`, which overlaps the alias, still
holds its Block Mapping, and `create_mapping` halts on it. -/
theorem remap_as_pages_unaligned_not_cleared :
    Returns (map_mem demo_config demo_state [(0x80200000, 0x400000)]) (fun s =>
      Returns (remap_as_pages_clear demo_config FUEL s (__phys_to_virt demo_config 0x803ff000)
          (__phys_to_virt demo_config (wrap (0x803ff000 + 0x2000)))) (fun s1 =>
        s1.mem (pmd_off_k demo_config s1 (__phys_to_virt demo_config 0x803ff000)) = 0 ∧
        s1.mem (pmd_off_k demo_config s1 (__phys_to_virt demo_config 0x80400000)) =
          0x80400000 ||| get_pmd_prot_sect_kernel demo_config s1 0xffffffc000400000 ∧
        s1.mem (pmd_off_k demo_config s1 (__phys_to_virt demo_config 0x80400000)) ≠ 0) ∧
      Halts (remap_as_pages demo_config s 0x803ff000 0x2000) Halt.bug) := by
  decide

/-! ## Remapping a range with pages -/

theorem MemOnly.room {s s2 : State} (h : MemOnly s s2) (n : Nat) : Room s2 n ↔ Room s n := by
  unfold Room
  rw [h]

/-- The clearing loop from a block boundary `addr` on, on a well-formed hierarchy
with populated top-level entries: it returns a well-formed hierarchy that differs
in memory only, in which every address of `[v0, vend)` reads as an empty middle
entry, given that those of `[v0, addr)` did already; the blocks below `addr` and
from `vend` on read as before. -/
theorem clear_loop_read {c : Config} {v0 vend : Nat} (hv0 : VMALLOC_START ≤ v0)
    (hve : vend + 2097152 ≤ U64) :
    ∀ (n fuel : Nat) (s : State) (addr : Nat), n < fuel → addr % 2097152 = 0 → v0 ≤ addr →
      vend ≤ addr + 2097152 * n → Inv c s →
      (∀ a, v0 ≤ a → a < vend → read c s a ≠ Read.nopud) →
      (∀ a, v0 ≤ a → a < addr → a < vend → read c s a = Read.pmd 0) →
      ∃ s1, remap_as_pages_clear c fuel s addr vend = .ok s1 ∧ Inv c s1 ∧ MemOnly s s1 ∧
        (∀ a, v0 ≤ a → a < vend → read c s1 a = Read.pmd 0) ∧
        (∀ a, InWindow a → (a / 2097152 < addr / 2097152 ∨ vend ≤ a / 2097152 * 2097152) →
          read c s1 a = read c s a) := by
  intro n
  induction n with
  | zero =>
    intro fuel s addr hf _ _ hn hinv _ hz
    cases fuel with
    | zero => omega
    | succ fuel =>
      rw [remap_as_pages_clear, if_neg (by omega)]
      exact ⟨s, rfl, hinv, MemOnly.mo_refl s, fun a g1 g2 => hz a g1 (by omega) g2,
        fun _ _ _ => rfl⟩
  | succ n ih =>
    intro fuel s addr hf hal hge hn hinv hnp hz
    cases fuel with
    | zero => omega
    | succ fuel =>
      rw [remap_as_pages_clear]
      by_cases hc : addr < vend
      · rw [if_pos hc]
        have hw : wrap (addr + PMD_SIZE) = addr + 2097152 := by
          unfold wrap PMD_SIZE U64 at *
          omega
        rw [hw]
        have haw : InWindow addr := by
          unfold InWindow U64 at *
          omega
        obtain ⟨k1, _, k3⟩ := set_pmd_read hinv haw (hnp addr hge hc) 0 not_is_table_zero
          (fun q => (rfl : (pmd_clear s (pmd_off_k c s addr)).mem q =
            if q = pmd_off_k c s addr then 0 else s.mem q)) rfl rfl
        have hin : ∀ a, v0 ≤ a → a < vend → InWindow a := by
          intro a g1 g2
          unfold InWindow U64 at *
          omega
        obtain ⟨s1, r1, r2, r3, r4, r5⟩ := ih fuel (pmd_clear s (pmd_off_k c s addr))
          (addr + 2097152) (by omega) (by omega) (by omega) (by omega) k1
          (fun a g1 g2 => by
            rw [k3 a (hin a g1 g2)]
            split_ifs
            · exact fun h => by cases h
            · exact hnp a g1 g2)
          (fun a g1 g2 g3 => by
            rw [k3 a (hin a g1 g3)]
            by_cases hq : a / 2097152 = addr / 2097152
            · rw [if_pos hq]
            · rw [if_neg hq]
              exact hz a g1 (by omega) g3)
        refine ⟨s1, r1, r2, (MemOnly.store _ _ _).mo_trans r3, r4, ?_⟩
        intro a ha g
        rw [r5 a ha (by omega), k3 a ha, if_neg (by omega)]
      · rw [if_neg hc]
        exact ⟨s, rfl, hinv, MemOnly.mo_refl s, fun a g1 g2 => hz a g1 (by omega) g2,
          fun _ _ _ => rfl⟩

/-- C11: on a well-formed hierarchy, for a `SECTION_SIZE`-aligned `start` and
`size > 0` whose virtual alias lies inside the linear map and has its top-level
entries populated (as it has when the alias is block-mapped), `remap_as_pages`
returns, or the pool runs out; after the call the PMD entry of every address `v` of
the alias is a Table Reference, not a Block Mapping, and the leaf entry of `v` is
the Page Mapping of the frame `(start + (v - __phys_to_virt(start))) >> PAGE_SHIFT`. -/
theorem remap_as_pages_page_mapped {c : Config} {s : State} (hinv : Inv c s)
    (hprot : ProtOk s) {start size : Nat} (hoff : c.PHYS_OFFSET % SECTION_SIZE = 0)
    (hs : start % SECTION_SIZE = 0) (h0 : 0 < size) (h1 : c.PHYS_OFFSET ≤ start)
    (h2 : start + size + SECTION_SIZE ≤ c.PHYS_OFFSET + 274877906944)
    (h3 : start + size ≤ 1099511627776)
    (htop : ∀ a, __phys_to_virt c start ≤ a → a < __phys_to_virt c (start + size) →
      is_table (pgd_entry c s (pgd_index a))) :
    (∃ s2, remap_as_pages c s start size = .ok s2 ∧
      ∀ v, __phys_to_virt c start ≤ v → v < __phys_to_virt c (start + size) →
        is_table (s2.mem (pmd_off_k c s2 v)) ∧
        s2.mem (pte_offset_kernel (s2.mem (pmd_off_k c s2 v)) v) =
          pfn_pte ((start + (v - __phys_to_virt c start)) >>> PAGE_SHIFT)
            (PAGE_KERNEL_EXEC s) ∧
        s2.mem (pte_offset_kernel (s2.mem (pmd_off_k c s2 v)) v) ≠ 0) ∨
    (remap_as_pages c s start size = .error Halt.oom ∧
      ¬ Room s (nSlots (pb (__phys_to_virt c start))
          (pb (__phys_to_virt c start + size + 4095)) +
        nChunks (pb (__phys_to_virt c start)) (pb (__phys_to_virt c start + size + 4095)))) := by
  unfold SECTION_SIZE at *
  have hw : wrap (start + size) = start + size := by
    unfold wrap U64
    omega
  have hv1 : __phys_to_virt c start = start - c.PHYS_OFFSET + PAGE_OFFSET :=
    phys_to_virt_eq h1 (by omega)
  have hv2 : __phys_to_virt c (start + size) = start + size - c.PHYS_OFFSET + PAGE_OFFSET :=
    phys_to_virt_eq (by omega) (by omega)
  unfold remap_as_pages
  simp only [hw]
  rw [hv1, hv2] at htop
  rw [hv1, hv2]
  generalize hg : start - c.PHYS_OFFSET + PAGE_OFFSET = v0 at htop
  have hg2 : start + size - c.PHYS_OFFSET + PAGE_OFFSET = v0 + size := by omega
  rw [hg2] at htop
  rw [hg2]
  have hv0 : VMALLOC_START ≤ v0 ∧ v0 % 2097152 = 0 ∧ v0 + size + 2097152 ≤ U64 := by
    unfold VMALLOC_START PAGE_OFFSET U64 at *
    omega
  obtain ⟨q1, q2, q3⟩ := hv0
  have hF : (v0 + size) / 2097152 + 1 < FUEL := by
    unfold FUEL U64 at *
    omega
  obtain ⟨s1, k1, k2, k3, k4, _⟩ := @clear_loop_read c v0 (v0 + size) q1 q3
    ((v0 + size) / 2097152 + 1) FUEL s v0 hF q2 (le_refl _) (by omega) hinv
    (fun a g1 g2 => fun h => read_nopud.1 h (htop a g1 g2)) (fun a g1 g2 _ => by omega)
  rw [k1, bind_ok]
  have e1 : pb v0 = v0 := by
    unfold pb
    omega
  have hprot1 : ProtOk s1 := k3.same.protOk hprot
  have G := @create_mapping_spec c s1 k2 hprot1 start v0 size true q1
    (by unfold U64 at *; omega) h0 (by omega)
    (by rw [e1]; unfold pb U64 at *; omega)
  rw [e1] at G ⊢
  have hnb : NB c s1 true start v0 (pb (v0 + size + 4095)) := by
    intro a g1 g2 _ b hb
    by_cases ha : a < v0 + size
    · rw [k4 a g1 ha] at hb
      exact (Read.pmd.inj hb).symm
    · have hlast := k4 (v0 + size - 1) (by omega) (by omega)
      have hsame := read_same_chunk_pmd (a := v0 + size - 1) (b := a)
        (by unfold InWindow VMALLOC_START U64 at *; omega)
        (by unfold InWindow VMALLOC_START U64 pb at *; omega)
        (by unfold pb at g2; omega) hlast
      rw [hsame] at hb
      exact (Read.pmd.inj hb).symm
  have hne : ∀ a, ¬ Elig true start v0 (pb (v0 + size + 4095)) a := by
    intro a h
    cases h.1
  rcases G.cases hnb with ⟨s2, hrun, P⟩ | h
  · left
    refine ⟨s2, hrun, ?_⟩
    intro a g1 g2
    obtain ⟨e, he⟩ := P.in_pte a g1 (by unfold pb; omega) (hne a)
    obtain ⟨m1, m2, m3⟩ := mem_of_read_pte he
    rw [m1, m3]
    refine ⟨m2, ?_, pfn_pte_ne_zero _ _⟩
    unfold val PAGE_SHIFT pb
    rw [k3.mo_pke, Nat.shiftRight_eq_div_pow]
    have e3 : (start + (a / 4096 * 4096 - v0)) / 4096 = (start + (a - v0)) / 2 ^ 12 := by
      omega
    rw [e3]
  · right
    refine ⟨h.1, fun hr => h.2 ((k3.room _).2 hr)⟩

theorem demo_blocks_prot : ProtOk demo_blocks := by decide

theorem remap_as_pages_page_mapped_witness :
    (∃ s2, remap_as_pages demo_config demo_blocks 0x80200000 0x200000 = .ok s2 ∧
      ∀ v, __phys_to_virt demo_config 0x80200000 ≤ v →
        v < __phys_to_virt demo_config (0x80200000 + 0x200000) →
        is_table (s2.mem (pmd_off_k demo_config s2 v)) ∧
        s2.mem (pte_offset_kernel (s2.mem (pmd_off_k demo_config s2 v)) v) =
          pfn_pte ((0x80200000 + (v - __phys_to_virt demo_config 0x80200000)) >>> PAGE_SHIFT)
            (PAGE_KERNEL_EXEC demo_blocks) ∧
        s2.mem (pte_offset_kernel (s2.mem (pmd_off_k demo_config s2 v)) v) ≠ 0) ∨
    (remap_as_pages demo_config demo_blocks 0x80200000 0x200000 = .error Halt.oom ∧
      ¬ Room demo_blocks (nSlots (pb (__phys_to_virt demo_config 0x80200000))
          (pb (__phys_to_virt demo_config 0x80200000 + 0x200000 + 4095)) +
        nChunks (pb (__phys_to_virt demo_config 0x80200000))
          (pb (__phys_to_virt demo_config 0x80200000 + 0x200000 + 4095)))) :=
  remap_as_pages_page_mapped demo_blocks_inv demo_blocks_prot (by decide) (by decide)
    (by decide) (by decide) (by decide) (by decide) (fun _ g1 g2 => demo_blocks_alias g1 g2)

/-! ## The protection policy -/

theorem init_prot_cases (c : Config) (s0 : State) :
    (init_mem_pgprot c s0).prot_sect_kernel = 0x711 ∨
      (init_mem_pgprot c s0).prot_sect_kernel = 0x411 := by
  unfold init_mem_pgprot
  cases c.smp
  · exact Or.inr rfl
  · exact Or.inl rfl

/-- The three bit tests on the four values a strict classification can take. -/
theorem prot_bits {p : Nat} (h : p = 0x711 ∨ p = 0x411) :
    (p ||| PMD_SECT_RDONLY) &&& PMD_SECT_RDONLY = PMD_SECT_RDONLY ∧
    (p ||| PMD_SECT_RDONLY) &&& PMD_SECT_PXN = 0 ∧
    (p ||| PMD_SECT_RDONLY ||| PMD_SECT_PXN) &&& PMD_SECT_RDONLY = PMD_SECT_RDONLY ∧
    (p ||| PMD_SECT_RDONLY ||| PMD_SECT_PXN) &&& PMD_SECT_PXN = PMD_SECT_PXN ∧
    (p ||| PMD_SECT_PXN) &&& PMD_SECT_PXN = PMD_SECT_PXN ∧
    (p ||| PMD_SECT_PXN) &&& PMD_SECT_RDONLY = 0 ∧
    p &&& PMD_SECT_RDONLY = 0 ∧ p &&& PMD_SECT_PXN = 0 ∧ p &&& PTE_UXN = 0 := by
  rcases h with h | h <;> subst h <;> decide

/-- C12: with strict protection enabled and the zone boundaries in ascending order,
on the attribute word `init_mem_pgprot` computes, `get_pmd_prot_sect_kernel`
returns read-only with execution permitted (RDONLY set, PXN clear) for every
address in `[_stext, __start_rodata)`, read-only and no-execute (both set) for
every address in `[__start_rodata, __init_begin)`, and writable and no-execute
(PXN set, RDONLY clear) for every address from `__init_data_begin` on. -/
theorem get_pmd_prot_sect_kernel_zones (c : Config) (s0 : State) (addr : Nat)
    (hs : c.strict_rwx = true) (h2 : c.start_rodata ≤ c.init_begin)
    (h3 : c.init_begin ≤ c.init_data_begin) :
    (c.stext ≤ addr → addr < c.start_rodata →
      get_pmd_prot_sect_kernel c (init_mem_pgprot c s0) addr &&& PMD_SECT_RDONLY =
        PMD_SECT_RDONLY ∧
      get_pmd_prot_sect_kernel c (init_mem_pgprot c s0) addr &&& PMD_SECT_PXN = 0) ∧
    (c.start_rodata ≤ addr → addr < c.init_begin →
      get_pmd_prot_sect_kernel c (init_mem_pgprot c s0) addr &&& PMD_SECT_RDONLY =
        PMD_SECT_RDONLY ∧
      get_pmd_prot_sect_kernel c (init_mem_pgprot c s0) addr &&& PMD_SECT_PXN =
        PMD_SECT_PXN) ∧
    (c.init_data_begin ≤ addr →
      get_pmd_prot_sect_kernel c (init_mem_pgprot c s0) addr &&& PMD_SECT_PXN =
        PMD_SECT_PXN ∧
      get_pmd_prot_sect_kernel c (init_mem_pgprot c s0) addr &&& PMD_SECT_RDONLY = 0) := by
  obtain ⟨b1, b2, b3, b4, b5, b6, _⟩ := prot_bits (init_prot_cases c s0)
  unfold get_pmd_prot_sect_kernel
  rw [if_pos hs]
  refine ⟨?_, ?_, ?_⟩
  · intro g1 g2
    rw [if_neg (by omega), if_neg (by omega), if_neg (by omega), if_pos (by omega)]
    exact ⟨b1, b2⟩
  · intro g1 g2
    rw [if_neg (by omega), if_neg (by omega), if_pos (by omega)]
    exact ⟨b3, b4⟩
  · intro g1
    rw [if_pos (by omega)]
    exact ⟨b5, b6⟩

theorem get_pmd_prot_sect_kernel_zones_witness :
    (get_pmd_prot_sect_kernel zones_config (init_mem_pgprot zones_config demo_state) 50 &&&
        PMD_SECT_RDONLY = PMD_SECT_RDONLY ∧
      get_pmd_prot_sect_kernel zones_config (init_mem_pgprot zones_config demo_state) 50 &&&
        PMD_SECT_PXN = 0) ∧
    (get_pmd_prot_sect_kernel zones_config (init_mem_pgprot zones_config demo_state) 120 &&&
        PMD_SECT_RDONLY = PMD_SECT_RDONLY ∧
      get_pmd_prot_sect_kernel zones_config (init_mem_pgprot zones_config demo_state) 120 &&&
        PMD_SECT_PXN = PMD_SECT_PXN) ∧
    (get_pmd_prot_sect_kernel zones_config (init_mem_pgprot zones_config demo_state) 300 &&&
        PMD_SECT_PXN = PMD_SECT_PXN ∧
      get_pmd_prot_sect_kernel zones_config (init_mem_pgprot zones_config demo_state) 300 &&&
        PMD_SECT_RDONLY = 0) :=
  ⟨(get_pmd_prot_sect_kernel_zones zones_config demo_state 50 rfl (by decide) (by decide)).1
      (by decide) (by decide),
    (get_pmd_prot_sect_kernel_zones zones_config demo_state 120 rfl (by decide)
      (by decide)).2.1 (by decide) (by decide),
    (get_pmd_prot_sect_kernel_zones zones_config demo_state 300 rfl (by decide)
      (by decide)).2.2 (by decide)⟩

/-- C13, as the code has it: with strict protection enabled, for every address in
the initialization zone `[__init_begin, __init_data_begin)` the attribute set
returned is `prot_sect_kernel | PMD_SECT_RDONLY`: on the attribute word
`init_mem_pgprot` computes it is read-only with execution permitted (RDONLY set,
PXN clear). -/
theorem get_pmd_prot_sect_kernel_init_zone (c : Config) (s0 : State) (addr : Nat)
    (hs : c.strict_rwx = true) (h1 : c.init_begin ≤ addr) (h2 : addr < c.init_data_begin) :
    (∀ s : State, get_pmd_prot_sect_kernel c s addr = s.prot_sect_kernel ||| PMD_SECT_RDONLY) ∧
    get_pmd_prot_sect_kernel c (init_mem_pgprot c s0) addr &&& PMD_SECT_RDONLY =
      PMD_SECT_RDONLY ∧
    get_pmd_prot_sect_kernel c (init_mem_pgprot c s0) addr &&& PMD_SECT_PXN = 0 := by
  obtain ⟨b1, b2, _⟩ := prot_bits (init_prot_cases c s0)
  have e : ∀ s : State,
      get_pmd_prot_sect_kernel c s addr = s.prot_sect_kernel ||| PMD_SECT_RDONLY := by
    intro s
    unfold get_pmd_prot_sect_kernel
    rw [if_pos hs, if_neg (by omega), if_pos (by omega)]
  rw [e]
  exact ⟨e, b1, b2⟩

theorem get_pmd_prot_sect_kernel_init_zone_witness :
    (∀ s : State, get_pmd_prot_sect_kernel zones_config s 170 =
      s.prot_sect_kernel ||| PMD_SECT_RDONLY) ∧
    get_pmd_prot_sect_kernel zones_config (init_mem_pgprot zones_config demo_state) 170 &&&
      PMD_SECT_RDONLY = PMD_SECT_RDONLY ∧
    get_pmd_prot_sect_kernel zones_config (init_mem_pgprot zones_config demo_state) 170 &&&
      PMD_SECT_PXN = 0 :=
  get_pmd_prot_sect_kernel_init_zone zones_config demo_state 170 rfl (by decide) (by decide)

/-- C13 as stated fails: in the synthetic image with the initialization zone
`[150, 200)`, the attribute set returned for the address 170 has the no-execute bit
clear. -/
theorem init_zone_executable :
    zones_config.strict_rwx = true ∧ zones_config.init_begin ≤ 170 ∧
    170 < zones_config.init_data_begin ∧
    get_pmd_prot_sect_kernel zones_config (init_mem_pgprot zones_config demo_state) 170 &&&
      PMD_SECT_PXN = 0 := by
  decide

/-- C14, as the code has it: with strict protection disabled
`get_pmd_prot_sect_kernel` returns `prot_sect_kernel` for every address, and as
`init_mem_pgprot` computes it that set marks the mapping kernel read/write
(RDONLY clear) and leaves execution permitted (neither no-execute bit is set). -/
theorem get_pmd_prot_sect_kernel_lax (c : Config) (s0 : State) (addr : Nat)
    (hs : c.strict_rwx = false) :
    (∀ s : State, get_pmd_prot_sect_kernel c s addr = s.prot_sect_kernel) ∧
    (init_mem_pgprot c s0).prot_sect_kernel &&& PMD_SECT_RDONLY = 0 ∧
    (init_mem_pgprot c s0).prot_sect_kernel &&& PMD_SECT_PXN = 0 ∧
    (init_mem_pgprot c s0).prot_sect_kernel &&& PTE_UXN = 0 := by
  obtain ⟨_, _, _, _, _, _, b7, b8, b9⟩ := prot_bits (init_prot_cases c s0)
  refine ⟨?_, b7, b8, b9⟩
  intro s
  unfold get_pmd_prot_sect_kernel
  rw [hs]
  rfl

theorem get_pmd_prot_sect_kernel_lax_witness :
    (∀ s : State, get_pmd_prot_sect_kernel { zones_config with strict_rwx := false } s 300 =
      s.prot_sect_kernel) ∧
    (init_mem_pgprot { zones_config with strict_rwx := false } demo_state).prot_sect_kernel &&&
      PMD_SECT_RDONLY = 0 ∧
    (init_mem_pgprot { zones_config with strict_rwx := false } demo_state).prot_sect_kernel &&&
      PMD_SECT_PXN = 0 ∧
    (init_mem_pgprot { zones_config with strict_rwx := false } demo_state).prot_sect_kernel &&&
      PTE_UXN = 0 :=
  get_pmd_prot_sect_kernel_lax { zones_config with strict_rwx := false } demo_state 300 rfl

/-- C14 as stated fails: with strict protection disabled, the attribute set
returned for an address (here 300, in the data of the synthetic image) after
`init_mem_pgprot` has the no-execute bits clear, so it does not mark the mapping
no-execute. -/
theorem lax_set_executable :
    get_pmd_prot_sect_kernel { zones_config with strict_rwx := false }
        (init_mem_pgprot { zones_config with strict_rwx := false } demo_state) 300 &&&
      PMD_SECT_PXN = 0 ∧
    get_pmd_prot_sect_kernel { zones_config with strict_rwx := false }
        (init_mem_pgprot { zones_config with strict_rwx := false } demo_state) 300 &&&
      PTE_UXN = 0 := by
  decide

/-! ## The bootstrap allocator -/

theorem early_alloc_fits {s : State} {sz : Nat} (hf : Fits s sz) :
    early_alloc s sz = .ok ((s.brk + sz - 1) / sz * sz,
      memset { s with brk := (s.brk + sz - 1) / sz * sz + sz } ((s.brk + sz - 1) / sz * sz) 0 sz) := by
  unfold Fits at hf
  unfold early_alloc memblock_alloc
  simp only []
  rw [if_pos hf]

theorem early_alloc_unfit {s : State} {sz : Nat} (hf : ¬ Fits s sz) :
    early_alloc s sz = .error Halt.oom := by
  unfold Fits at hf
  unfold early_alloc memblock_alloc
  simp only []
  rw [if_neg hf]

theorem round_up_ge (b : Nat) {sz : Nat} (h : 0 < sz) : b ≤ (b + sz - 1) / sz * sz := by
  have h1 := Nat.div_add_mod (b + sz - 1) sz
  have h2 := Nat.mod_lt (b + sz - 1) h
  rw [Nat.mul_comm] at h1
  omega

/-- A call that returns hands out `sz` bytes at or above the break and moves the
break to their end. -/
theorem early_alloc_bounds {s s1 : State} {sz p : Nat} (h0 : 0 < sz)
    (h : early_alloc s sz = .ok (p, s1)) :
    s.brk ≤ p ∧ s1.brk = p + sz ∧ p % sz = 0 ∧ ∀ q, p ≤ q → q < p + sz → s1.mem q = 0 := by
  by_cases hf : Fits s sz
  · rw [early_alloc_fits hf] at h
    simp only [Except.ok.injEq, Prod.mk.injEq] at h
    obtain ⟨h1, h2⟩ := h
    subst h1
    subst h2
    refine ⟨round_up_ge _ h0, rfl, Nat.mul_mod_left _ _, ?_⟩
    intro q g1 g2
    show (if (s.brk + sz - 1) / sz * sz ≤ q ∧ q < (s.brk + sz - 1) / sz * sz + sz then 0
      else s.mem q) = 0
    rw [if_pos ⟨g1, g2⟩]
  · rw [early_alloc_unfit hf] at h
    cases h

/-- The buffers of a run of successive calls lie between the break before the run
and the break after it. -/
theorem early_allocs_bounds : ∀ (szs : List Nat) (s0 s : State) (bs : List (Nat × Nat)),
    (∀ n, n ∈ szs → 0 < n) → early_allocs szs s0 = .ok (bs, s) →
    s0.brk ≤ s.brk ∧ ∀ b, b ∈ bs → s0.brk ≤ b.1 ∧ b.1 + b.2 ≤ s.brk := by
  intro szs
  induction szs with
  | nil =>
    intro s0 s bs _ h
    rw [early_allocs] at h
    simp only [Except.ok.injEq, Prod.mk.injEq] at h
    obtain ⟨h1, h2⟩ := h
    subst h1
    subst h2
    exact ⟨le_refl _, fun b hb => absurd hb (List.not_mem_nil _)⟩
  | cons sz szs ih =>
    intro s0 s bs hpos h
    rw [early_allocs] at h
    cases h1 : early_alloc s0 sz with
    | error e =>
      rw [h1] at h
      cases h
    | ok r =>
      obtain ⟨p, s1⟩ := r
      rw [h1] at h
      simp only [] at h
      cases h2 : early_allocs szs s1 with
      | error e =>
        rw [h2] at h
        cases h
      | ok r2 =>
        obtain ⟨bs2, s2⟩ := r2
        rw [h2] at h
        simp only [Except.ok.injEq, Prod.mk.injEq] at h
        obtain ⟨h3, h4⟩ := h
        subst h3
        subst h4
        obtain ⟨k1, k2, _, _⟩ := early_alloc_bounds (hpos sz (List.mem_cons_self _ _)) h1
        obtain ⟨m1, m2⟩ := ih s1 s2 bs2 (fun n hn => hpos n (List.mem_cons_of_mem _ hn)) h2
        refine ⟨by omega, ?_⟩
        intro b hb
        rcases List.mem_cons.1 hb with hb | hb
        · subst hb
          exact ⟨k1, by simp only []; omega⟩
        · have := m2 b hb
          exact ⟨by omega, this.2⟩

/-- C15: for every size that is a positive multiple of the page size and that the
pool, cut at the current limit, can satisfy, `early_alloc` returns a buffer whose
bytes are all zero, whose address is a multiple of the size, and which lies after
every buffer returned by the earlier calls of a run of `early_alloc` calls. -/
theorem early_alloc_zeroed_aligned_fresh {s0 s : State} {szs : List Nat}
    {bs : List (Nat × Nat)} {k : Nat} (hszs : ∀ n, n ∈ szs → 0 < n)
    (hprev : early_allocs szs s0 = .ok (bs, s)) (hk : 0 < k)
    (hfit : Fits s (PAGE_SIZE * k)) :
    ∃ p s1, early_alloc s (PAGE_SIZE * k) = .ok (p, s1) ∧ p % (PAGE_SIZE * k) = 0 ∧
      (∀ q, p ≤ q → q < p + PAGE_SIZE * k → s1.mem q = 0) ∧
      ∀ b, b ∈ bs → b.1 + b.2 ≤ p := by
  have h0 : 0 < PAGE_SIZE * k := Nat.mul_pos (by decide) hk
  have h := early_alloc_fits hfit
  obtain ⟨k1, _, k3, k4⟩ := early_alloc_bounds h0 h
  refine ⟨_, _, h, k3, k4, ?_⟩
  intro b hb
  have := (early_allocs_bounds szs s0 s bs hszs hprev).2 b hb
  omega

theorem early_alloc_zeroed_aligned_fresh_witness :
    ∃ bs s, early_allocs [4096, 8192] demo_state = .ok (bs, s) ∧
      ∃ p s1, early_alloc s (PAGE_SIZE * 2) = .ok (p, s1) ∧ p % (PAGE_SIZE * 2) = 0 ∧
        (∀ q, p ≤ q → q < p + PAGE_SIZE * 2 → s1.mem q = 0) ∧
        ∀ b, b ∈ bs → b.1 + b.2 ≤ p :=
  ⟨_, _, rfl, @early_alloc_zeroed_aligned_fresh demo_state _ [4096, 8192] _ 2
    (fun n hn => by
      simp only [List.mem_cons, List.mem_singleton, List.not_mem_nil, or_false] at hn
      omega) rfl (by decide) (by decide)⟩

/-- C16: with a pool of exactly `N` pages, `N` successive calls of
`early_alloc(PAGE_SIZE)` return the `N` pages of the pool in ascending order, and
the call after them halts: it returns no address. -/
theorem early_alloc_exhaustion : ∀ (N : Nat) (s : State), s.brk % PAGE_SIZE = 0 →
    s.pool_end = s.brk + PAGE_SIZE * N → s.pool_end ≤ s.limit →
    ∃ s1, early_allocs (List.replicate N PAGE_SIZE) s =
        .ok ((List.range N).map (fun i => (s.brk + PAGE_SIZE * i, PAGE_SIZE)), s1) ∧
      early_alloc s1 PAGE_SIZE = .error Halt.oom := by
  intro N
  induction N with
  | zero =>
    intro s hal hpool hlim
    refine ⟨s, rfl, ?_⟩
    apply early_alloc_unfit
    unfold Fits PAGE_SIZE at *
    omega
  | succ N ih =>
    intro s hal hpool hlim
    unfold PAGE_SIZE at *
    have hf : Fits s 4096 := by
      unfold Fits
      omega
    have e : (s.brk + 4096 - 1) / 4096 * 4096 = s.brk := by omega
    have h1 := early_alloc_fits hf
    rw [e] at h1
    obtain ⟨s1, k1, k2⟩ := ih (memset { s with brk := s.brk + 4096 } s.brk 0 4096)
      (by show (s.brk + 4096) % 4096 = 0; omega)
      (by show s.pool_end = s.brk + 4096 + 4096 * N; omega) hlim
    refine ⟨s1, ?_, k2⟩
    rw [List.replicate_succ, early_allocs, h1]
    simp only []
    rw [k1]
    simp only []
    rw [List.range_succ_eq_map, List.map_cons, List.map_map]
    have e2 : (memset { s with brk := s.brk + 4096 } s.brk 0 4096).brk = s.brk + 4096 := rfl
    simp only [e2, Nat.mul_zero, Nat.add_zero]
    congr 3
    apply List.map_congr_left
    intro i _
    simp only [Function.comp, Nat.succ_eq_add_one]
    congr 1
    omega

theorem early_alloc_exhaustion_witness :
    ∃ s1, early_allocs (List.replicate 3 PAGE_SIZE) { demo_state with pool_end := 0x80004000 } =
        .ok ((List.range 3).map (fun i =>
          (({ demo_state with pool_end := 0x80004000 } : State).brk + PAGE_SIZE * i, PAGE_SIZE)),
          s1) ∧
      early_alloc s1 PAGE_SIZE = .error Halt.oom :=
  early_alloc_exhaustion 3 { demo_state with pool_end := 0x80004000 } (by decide) (by decide)
    (by decide)

/-! ## The address validator -/

theorem sar64_all_ones {addr : Nat} (h1 : addr < U64) :
    sar64 addr VA_BITS = U64 - 1 ↔ addr >>> VA_BITS = 2 ^ (64 - VA_BITS) - 1 := by
  unfold sar64 VA_BITS U64 at *
  simp only [Nat.shiftRight_eq_div_pow]
  norm_num
  split_ifs <;> omega

/-- C17: for every address whose bits `VA_BITS..63` are not all ones,
`kern_addr_valid` returns 0, whatever the hierarchy holds. -/
theorem kern_addr_valid_outside (c : Config) (s : State) {addr : Nat} (h1 : addr < U64)
    (h2 : addr >>> VA_BITS ≠ 2 ^ (64 - VA_BITS) - 1) : kern_addr_valid c s addr = 0 := by
  unfold kern_addr_valid
  rw [if_pos (fun h => h2 ((sar64_all_ones h1).1 h))]

theorem kern_addr_valid_outside_witness :
    (0xffffff7fffffffff : Nat) < U64 ∧
    (0xffffff7fffffffff : Nat) >>> VA_BITS ≠ 2 ^ (64 - VA_BITS) - 1 ∧
    0xffffff7fffffffff + 1 = VMALLOC_START ∧
    kern_addr_valid demo_config demo_blocks 0xffffff7fffffffff = 0 :=
  ⟨by decide, by decide, by decide,
    kern_addr_valid_outside demo_config demo_blocks (by decide) (by decide)⟩

/-- What `kern_addr_valid` computes for an address whose bits `VA_BITS..63` are all
ones: it is nonzero exactly when the top, the middle and the leaf word it reads are
nonzero and `pfn_valid` holds of the frame of the leaf word. The middle word is
followed as a table reference whatever it is. -/
theorem kern_addr_valid_iff (c : Config) (s : State) {addr : Nat} (h1 : addr < U64)
    (h2 : addr >>> VA_BITS = 2 ^ (64 - VA_BITS) - 1) :
    kern_addr_valid c s addr ≠ 0 ↔
      s.mem (pgd_offset_k c addr) ≠ 0 ∧ s.mem (pmd_off_k c s addr) ≠ 0 ∧
      s.mem (pte_offset_kernel (s.mem (pmd_off_k c s addr)) addr) ≠ 0 ∧
      c.pfn_valid (pte_pfn (s.mem (pte_offset_kernel (s.mem (pmd_off_k c s addr)) addr))) =
        true := by
  unfold kern_addr_valid
  rw [if_neg (fun h => h ((sar64_all_ones h1).2 h2))]
  unfold pgd_none pud_none pmd_none pte_none pmd_off_k pud_offset
  simp only [Bool.false_eq_true, if_false, beq_iff_eq]
  by_cases k1 : s.mem (pgd_offset_k c addr) = 0
  · simp [k1]
  · by_cases k2 : s.mem (pmd_offset (s.mem (pgd_offset_k c addr)) addr) = 0
    · simp [k1, k2]
    · by_cases k3 : s.mem (pte_offset_kernel
          (s.mem (pmd_offset (s.mem (pgd_offset_k c addr)) addr)) addr) = 0
      · simp [k1, k2, k3]
      · by_cases k4 : c.pfn_valid (pte_pfn (s.mem (pte_offset_kernel
            (s.mem (pmd_offset (s.mem (pgd_offset_k c addr)) addr)) addr))) = true
        · simp [k1, k2, k3, k4]
        · simp [k1, k2, k3, k4]

/-- C18 fails on a Block Mapping: `kern_addr_valid` has no case for a middle entry
that is a Block Mapping and follows it as a table reference. In the hierarchy
`demo_blocks` the address `0xffffffc000200000` is mapped by the block of
`0x80200000` and has no leaf entry; `kern_addr_valid` reads the first word of the
mapped frame as the leaf entry, so it returns 0 while that word is zero and 1 once
the word holds data, the hierarchy being the same. -/
theorem kern_addr_valid_follows_block :
    demo_blocks.mem (pmd_off_k demo_config demo_blocks 0xffffffc000200000) = 0x80200711 ∧
    ¬ is_table (demo_blocks.mem (pmd_off_k demo_config demo_blocks 0xffffffc000200000)) ∧
    translate demo_config demo_blocks 0xffffffc000200000 = some 0x80200000 ∧
    kern_addr_valid demo_config demo_blocks 0xffffffc000200000 = 0 ∧
    (store demo_blocks 0x80200000 0x1234).mem
      (pmd_off_k demo_config (store demo_blocks 0x80200000 0x1234) 0xffffffc000200000) =
        0x80200711 ∧
    pte_offset_kernel 0x80200711 0xffffffc000200000 = 0x80200000 ∧
    kern_addr_valid demo_config (store demo_blocks 0x80200000 0x1234) 0xffffffc000200000 = 1 := by
  decide

/-! ## The early I/O window -/

/-- C19: when the top-level entry for `virt` is empty (or, in the branch for 64K
pages, the middle entry is), `early_io_map` returns `NULL` and leaves the state as
it is; and in every case the state it leaves has the break, the end and the limit
of the pool it started with: it allocates nothing. -/
theorem early_io_map_no_alloc (c : Config) (s : State) (page64k : Bool) (phys virt : Nat) :
    (pud_none (s.mem (pud_offset (pgd_offset_k c virt) virt)) = true →
      early_io_map c s page64k phys virt = (none, s)) ∧
    (page64k = true → pmd_none (s.mem (pmd_off_k c s virt)) = true →
      early_io_map c s page64k phys virt = (none, s)) ∧
    (early_io_map c s page64k phys virt).2.brk = s.brk ∧
    (early_io_map c s page64k phys virt).2.pool_end = s.pool_end ∧
    (early_io_map c s page64k phys virt).2.limit = s.limit := by
  unfold early_io_map pmd_off_k
  simp only []
  cases hb : pud_none (s.mem (pud_offset (pgd_offset_k c virt) virt)) with
  | true => simp
  | false =>
    cases page64k with
    | false => simp [set_pmd, store]
    | true =>
      cases hb2 : pmd_none
          (s.mem (pmd_offset (s.mem (pud_offset (pgd_offset_k c virt) virt)) virt)) with
      | true => simp
      | false => simp [set_pte, store]

theorem early_io_map_no_alloc_witness :
    (pud_none (demo_state.mem (pud_offset (pgd_offset_k demo_config 0xffffffbffbc00000)
        0xffffffbffbc00000)) = true →
      early_io_map demo_config demo_state false 0x9000000 0xffffffbffbc00000 =
        (none, demo_state)) ∧
    (false = true → pmd_none (demo_state.mem
        (pmd_off_k demo_config demo_state 0xffffffbffbc00000)) = true →
      early_io_map demo_config demo_state false 0x9000000 0xffffffbffbc00000 =
        (none, demo_state)) ∧
    (early_io_map demo_config demo_state false 0x9000000 0xffffffbffbc00000).2.brk =
      demo_state.brk ∧
    (early_io_map demo_config demo_state false 0x9000000 0xffffffbffbc00000).2.pool_end =
      demo_state.pool_end ∧
    (early_io_map demo_config demo_state false 0x9000000 0xffffffbffbc00000).2.limit =
      demo_state.limit :=
  early_io_map_no_alloc demo_config demo_state false 0x9000000 0xffffffbffbc00000

theorem is_table_ne_zero {e : Nat} (h : is_table e) : e ≠ 0 := by
  intro h0
  rw [h0] at h
  exact not_is_table_zero h

theorem dev_sect_bits : PROT_SECT_DEVICE_nGnRE &&& 0xfffffff000 = 0 ∧
    ¬ is_table PROT_SECT_DEVICE_nGnRE ∧ PROT_SECT_DEVICE_nGnRE ≠ 0 ∧
    PROT_DEVICE_nGnRE &&& 0xfffffff000 = 0 ∧ PROT_DEVICE_nGnRE ≠ 0 := by
  decide

theorem pud_none_of_table {e : Nat} (h : is_table e) : pud_none e = false := by
  unfold pud_none
  simpa using is_table_ne_zero h

/-- The block branch of `early_io_map`. -/
theorem early_io_map_block {c : Config} {s s2 : State} (hinv : Inv c s) {phys virt p : Nat}
    (hv : InWindow virt) (hphys : phys ≤ PHYS_MASK)
    (htop : is_table (pgd_entry c s (pgd_index virt)))
    (h : early_io_map c s false phys virt = (some p, s2)) :
    (∀ q, q ≠ pmd_off_k c s virt → s2.mem q = s.mem q) ∧
    s2.mem (pmd_off_k c s virt) = (phys &&& SECTION_MASK) ||| PROT_SECT_DEVICE_nGnRE ∧
    p = (virt &&& SECTION_MASK) + (phys &&& not64 SECTION_MASK) ∧
    (virt &&& SECTION_MASK) ≤ p ∧ p < (virt &&& SECTION_MASK) + SECTION_SIZE ∧
    (virt &&& SECTION_MASK) ≤ virt ∧ virt < (virt &&& SECTION_MASK) + SECTION_SIZE ∧
    translate c s2 p = some phys := by
  have hvU : virt < U64 := hv.2
  have hpU : phys < U64 := by
    unfold PHYS_MASK U64 at *
    omega
  unfold early_io_map at h
  have e0 : s.mem (pud_offset (pgd_offset_k c virt) virt) = pgd_entry c s (pgd_index virt) := rfl
  have e1 : not64 (SECTION_SIZE - 1) = SECTION_MASK := rfl
  simp only [e0, pud_none_of_table htop, Bool.false_eq_true, if_false, e1, Prod.mk.injEq,
    Option.some.injEq] at h
  obtain ⟨h1, h2⟩ := h
  have e2 : pmd_offset (pgd_entry c s (pgd_index virt)) virt = pmd_off_k c s virt := rfl
  rw [e2] at h2
  have ev := land_SECTION_MASK virt hvU
  have ep := land_SECTION_MASK phys hpU
  have ep2 := land_not_SECTION_MASK phys
  have hw : wrap ((virt &&& SECTION_MASK) + (phys &&& not64 SECTION_MASK)) =
      (virt &&& SECTION_MASK) + (phys &&& not64 SECTION_MASK) := by
    rw [ev, ep2]
    unfold wrap U64 at *
    omega
  rw [hw] at h1
  have hmem : ∀ q, s2.mem q =
      if q = pmd_off_k c s virt then (phys &&& SECTION_MASK) ||| PROT_SECT_DEVICE_nGnRE
      else s.mem q := by
    intro q
    rw [← h2]
    rfl
  obtain ⟨b1, b2, b3, _, _⟩ := dev_sect_bits
  have hnt : ¬ is_table ((phys &&& SECTION_MASK) ||| PROT_SECT_DEVICE_nGnRE) := by
    rw [is_table_or, ep, is_table_iff]
    intro hc
    rcases hc with hc | hc
    · omega
    · exact b2 hc
  obtain ⟨_, _, k3⟩ := set_pmd_read hinv hv (fun hr => read_nopud.1 hr htop) _ hnt hmem
    (by rw [← h2]; rfl) (by rw [← h2]; rfl)
  have hpw : InWindow p := by
    rw [← h1, ev, ep2]
    unfold InWindow VMALLOC_START U64 at *
    omega
  refine ⟨fun q hq => by rw [hmem, if_neg hq], by rw [hmem, if_pos rfl], h1.symm,
    by rw [← h1]; omega, by rw [← h1, ep2]; unfold SECTION_SIZE; omega,
    by rw [ev]; omega, by rw [ev]; unfold SECTION_SIZE; omega, ?_⟩
  unfold translate
  rw [k3 p hpw, if_pos (by rw [← h1, ev, ep2]; omega)]
  simp only []
  rw [if_neg (fun hz => b3 ((or_eq_zero_iff _ _).1 hz).2),
    block_addr (by rw [ep]; omega) (by rw [ep]; unfold PHYS_MASK at hphys; omega) b1,
    ← h1, land_not_SECTION_MASK, ev, ep, ep2]
  exact congrArg some (by omega)

theorem pmd_none_of_table {e : Nat} (h : is_table e) : pmd_none e = false := by
  unfold pmd_none
  simpa using is_table_ne_zero h

/-- The page branch of `early_io_map`. -/
theorem early_io_map_page {c : Config} {s s2 : State} (hinv : Inv c s) {phys virt p : Nat}
    (hv : InWindow virt) (hphys : phys ≤ PHYS_MASK)
    (htop : is_table (pgd_entry c s (pgd_index virt)))
    (hmid : is_table (s.mem (pmd_off_k c s virt)))
    (h : early_io_map c s true phys virt = (some p, s2)) :
    (∀ q, q ≠ pte_offset_kernel (s.mem (pmd_off_k c s virt)) virt → s2.mem q = s.mem q) ∧
    s2.mem (pte_offset_kernel (s.mem (pmd_off_k c s virt)) virt) =
      (phys &&& PAGE_MASK) ||| PROT_DEVICE_nGnRE ∧
    p = (virt &&& PAGE_MASK) + (phys &&& not64 PAGE_MASK) ∧
    (virt &&& PAGE_MASK) ≤ p ∧ p < (virt &&& PAGE_MASK) + PAGE_SIZE ∧
    (virt &&& PAGE_MASK) ≤ virt ∧ virt < (virt &&& PAGE_MASK) + PAGE_SIZE ∧
    translate c s2 p = some phys := by
  have hvU : virt < U64 := hv.2
  have hpU : phys < U64 := by
    unfold PHYS_MASK U64 at *
    omega
  unfold early_io_map at h
  have e0 : s.mem (pud_offset (pgd_offset_k c virt) virt) = pgd_entry c s (pgd_index virt) := rfl
  have e1 : not64 (PAGE_SIZE - 1) = PAGE_MASK := rfl
  have e2 : pmd_offset (pgd_entry c s (pgd_index virt)) virt = pmd_off_k c s virt := rfl
  simp only [e0, pud_none_of_table htop, Bool.false_eq_true, if_false, if_true, e1, e2,
    pmd_none_of_table hmid, Prod.mk.injEq, Option.some.injEq] at h
  obtain ⟨h1, h2⟩ := h
  have ev := land_PAGE_MASK virt hvU
  have ep := land_PAGE_MASK phys hpU
  have ep2 := land_not_PAGE_MASK phys
  have hw : wrap ((virt &&& PAGE_MASK) + (phys &&& not64 PAGE_MASK)) =
      (virt &&& PAGE_MASK) + (phys &&& not64 PAGE_MASK) := by
    rw [ev, ep2]
    unfold wrap U64 at *
    omega
  rw [hw] at h1
  have hmem : ∀ q, s2.mem q =
      if q = pte_offset_kernel (s.mem (pmd_off_k c s virt)) virt then
        (phys &&& PAGE_MASK) ||| PROT_DEVICE_nGnRE
      else s.mem q := by
    intro q
    rw [← h2]
    rfl
  obtain ⟨_, _, _, b4, b5⟩ := dev_sect_bits
  have hr : read c s virt = Read.pte (s.mem (pmd_off_k c s virt))
      (s.mem (pte_offset_kernel (s.mem (pmd_off_k c s virt)) virt)) :=
    read_pte.2 ⟨htop, rfl, hmid, rfl⟩
  obtain ⟨_, _, k3⟩ := set_pte_read hinv hv hr _ hmem (by rw [← h2]; rfl) (by rw [← h2]; rfl)
  have hpw : InWindow p := by
    rw [← h1, ev, ep2]
    unfold InWindow VMALLOC_START U64 at *
    omega
  refine ⟨fun q hq => by rw [hmem, if_neg hq], by rw [hmem, if_pos rfl], h1.symm,
    by rw [← h1]; omega, by rw [← h1, ep2]; unfold PAGE_SIZE; omega,
    by rw [ev]; omega, by rw [ev]; unfold PAGE_SIZE; omega, ?_⟩
  unfold translate
  rw [k3 p hpw, if_pos (by rw [← h1, ev, ep2]; omega)]
  simp only []
  rw [if_neg (fun hz => b5 ((or_eq_zero_iff _ _).1 hz).2),
    page_addr (by rw [ep]; omega) (by rw [ep]; unfold PHYS_MASK at hphys; omega) b4,
    ← h1, land_not_PAGE_MASK, ev, ep, ep2]
  exact congrArg some (by omega)

/-- C20: on a well-formed hierarchy in which the directories `early_io_map`
descends through are Table References, for `virt` inside the window and `phys`
within the output-address range, a call that succeeds writes one entry and no
other word; the entry is `(phys & mask) | PROT_SECT_DEVICE_nGnRE` for a block
(`PROT_DEVICE_nGnRE` in the branch for 64K pages) with `mask = ~(size - 1)`; the
pointer returned is `(virt & mask) + (phys & ~mask)`, lies in the window of `size`
bytes that contains `virt`, and is translated by the hierarchy to `phys`. -/
theorem early_io_map_installs {c : Config} {s s2 : State} (hinv : Inv c s) {page64k : Bool}
    {phys virt p size : Nat} (hsize : size = if page64k then PAGE_SIZE else SECTION_SIZE)
    (hv : InWindow virt) (hphys : phys ≤ PHYS_MASK)
    (htop : is_table (pgd_entry c s (pgd_index virt)))
    (hmid : page64k = true → is_table (s.mem (pmd_off_k c s virt)))
    (h : early_io_map c s page64k phys virt = (some p, s2)) :
    (∀ q, q ≠ (if page64k then pte_offset_kernel (s.mem (pmd_off_k c s virt)) virt
        else pmd_off_k c s virt) → s2.mem q = s.mem q) ∧
    s2.mem (if page64k then pte_offset_kernel (s.mem (pmd_off_k c s virt)) virt
        else pmd_off_k c s virt) =
      (phys &&& not64 (size - 1)) |||
        (if page64k then PROT_DEVICE_nGnRE else PROT_SECT_DEVICE_nGnRE) ∧
    p = (virt &&& not64 (size - 1)) + (phys &&& not64 (not64 (size - 1))) ∧
    (virt &&& not64 (size - 1)) ≤ p ∧ p < (virt &&& not64 (size - 1)) + size ∧
    (virt &&& not64 (size - 1)) ≤ virt ∧ virt < (virt &&& not64 (size - 1)) + size ∧
    translate c s2 p = some phys := by
  cases page64k with
  | false =>
    simp only [Bool.false_eq_true, if_false] at hsize ⊢
    subst hsize
    exact early_io_map_block hinv hv hphys htop h
  | true =>
    simp only [if_true] at hsize ⊢
    subst hsize
    exact early_io_map_page hinv hv hphys htop (hmid rfl) h

theorem early_io_map_installs_witness :
    ∃ p s2, early_io_map demo_config demo_blocks false 0x9000123 0xffffffc03bc00456 =
        (some p, s2) ∧
      (∀ q, q ≠ (if false = true then
          pte_offset_kernel (demo_blocks.mem (pmd_off_k demo_config demo_blocks
            0xffffffc03bc00456)) 0xffffffc03bc00456
          else pmd_off_k demo_config demo_blocks 0xffffffc03bc00456) →
        s2.mem q = demo_blocks.mem q) ∧
      s2.mem (if false = true then
          pte_offset_kernel (demo_blocks.mem (pmd_off_k demo_config demo_blocks
            0xffffffc03bc00456)) 0xffffffc03bc00456
          else pmd_off_k demo_config demo_blocks 0xffffffc03bc00456) =
        (0x9000123 &&& not64 (SECTION_SIZE - 1)) |||
          (if false = true then PROT_DEVICE_nGnRE else PROT_SECT_DEVICE_nGnRE) ∧
      p = (0xffffffc03bc00456 &&& not64 (SECTION_SIZE - 1)) +
        (0x9000123 &&& not64 (not64 (SECTION_SIZE - 1))) ∧
      (0xffffffc03bc00456 &&& not64 (SECTION_SIZE - 1)) ≤ p ∧
      p < (0xffffffc03bc00456 &&& not64 (SECTION_SIZE - 1)) + SECTION_SIZE ∧
      (0xffffffc03bc00456 &&& not64 (SECTION_SIZE - 1)) ≤ 0xffffffc03bc00456 ∧
      0xffffffc03bc00456 < (0xffffffc03bc00456 &&& not64 (SECTION_SIZE - 1)) + SECTION_SIZE ∧
      translate demo_config s2 p = some 0x9000123 :=
  ⟨_, _, rfl, early_io_map_installs demo_blocks_inv rfl (by unfold InWindow; decide)
    (by decide) (by decide) (fun h => by cases h) rfl⟩

/-! ## The flush of the block path -/

/-- C25: in the block path of `alloc_init_pmd` (the test `!pages && ((addr | next |
phys) & ~SECTION_MASK) == 0` holds) the pass first writes the new Block Mapping
with `set_pmd` and then, exactly when the entry it overwrote was non-empty, calls
`flush_tlb_all` once, after the write; with an empty old entry the pass makes no
flush. In the state it returns the entry holds the new Block Mapping and the
count of flushes has grown by one or not at all; an old Table Reference is
non-empty, so it is flushed. -/
theorem alloc_init_pmd_block_flush (c : Config) (s : State) (pmd addr next phys : Nat)
    (h : (addr ||| next ||| phys) &&& not64 SECTION_MASK = 0) :
    alloc_init_pmd_body_steps c s pmd addr next phys false =
      Step.set_pmd pmd (phys ||| get_pmd_prot_sect_kernel c s addr) ::
        (if s.mem pmd = 0 then [] else [Step.flush_tlb_all]) ∧
    ∃ s2, alloc_init_pmd_body c s pmd addr next phys false = .ok s2 ∧
      s2.mem pmd = phys ||| get_pmd_prot_sect_kernel c s addr ∧
      s2.tlb_flushes = s.tlb_flushes + (if s.mem pmd = 0 then 0 else 1) ∧
      (is_table (s.mem pmd) → s2.tlb_flushes = s.tlb_flushes + 1) := by
  unfold alloc_init_pmd_body_steps alloc_init_pmd_body
  by_cases hz : s.mem pmd = 0
  · refine ⟨by simp [h, hz, pmd_none], ?_⟩
    refine ⟨set_pmd s pmd (phys ||| get_pmd_prot_sect_kernel c s addr), by simp [h, hz, pmd_none],
      by simp [set_pmd, store], by simp [hz, set_pmd, store], ?_⟩
    intro ht
    rw [hz] at ht
    exact absurd ht not_is_table_zero
  · refine ⟨by simp [h, hz, pmd_none], ?_⟩
    refine ⟨flush_tlb_all (set_pmd s pmd (phys ||| get_pmd_prot_sect_kernel c s addr)),
      by simp [h, hz, pmd_none], by simp [set_pmd, store, flush_tlb_all],
      by simp [hz, set_pmd, store, flush_tlb_all], ?_⟩
    intro _
    simp [set_pmd, store, flush_tlb_all]

theorem alloc_init_pmd_block_flush_witness :
    alloc_init_pmd_body_steps demo_config demo_blocks 0x80001008 0xffffffc000200000
        0xffffffc000400000 0x80200000 false =
      Step.set_pmd 0x80001008
          (0x80200000 ||| get_pmd_prot_sect_kernel demo_config demo_blocks 0xffffffc000200000) ::
        (if demo_blocks.mem 0x80001008 = 0 then [] else [Step.flush_tlb_all]) ∧
    ∃ s2, alloc_init_pmd_body demo_config demo_blocks 0x80001008 0xffffffc000200000
        0xffffffc000400000 0x80200000 false = .ok s2 ∧
      s2.mem 0x80001008 =
        0x80200000 ||| get_pmd_prot_sect_kernel demo_config demo_blocks 0xffffffc000200000 ∧
      s2.tlb_flushes = demo_blocks.tlb_flushes + (if demo_blocks.mem 0x80001008 = 0 then 0 else 1) ∧
      (is_table (demo_blocks.mem 0x80001008) → s2.tlb_flushes = demo_blocks.tlb_flushes + 1) :=
  alloc_init_pmd_block_flush demo_config demo_blocks 0x80001008 0xffffffc000200000
    0xffffffc000400000 0x80200000 (by decide)

/-! ## The assertion of `alloc_init_pte` -/

/-- C26: given a PMD entry that is non-empty and not a Table Reference (in the
kernel's test `pmd_bad`: bit 1 clear), `alloc_init_pte` allocates no leaf table and
leaves the entry alone (the part before the assertion returns the state it was
given), and then halts in `BUG_ON`: it never reaches the loop that writes the leaf
entries. A Block Mapping written by the builder, `phys | get_pmd_prot_sect_kernel(a)`
with `phys` aligned to `SECTION_SIZE` and `prot_sect_kernel` of section type, is
such an entry. -/
theorem alloc_init_pte_bug_on (s : State) (pmd addr end_ pfn : Nat)
    (h : (s.mem pmd ≠ 0 ∧ ¬ is_table (s.mem pmd)) ∨
      ∃ (c : Config) (phys a : Nat), ProtOk s ∧ phys % SECTION_SIZE = 0 ∧
        s.mem pmd = phys ||| get_pmd_prot_sect_kernel c s a) :
    s.mem pmd ≠ 0 ∧ ¬ is_table (s.mem pmd) ∧
    alloc_init_pte_table { s with pte_calls := s.pte_calls + 1 } pmd =
      .ok { s with pte_calls := s.pte_calls + 1 } ∧
    alloc_init_pte s pmd addr end_ pfn = .error Halt.bug := by
  have hbad : s.mem pmd ≠ 0 ∧ ¬ is_table (s.mem pmd) := by
    rcases h with h | ⟨c, phys, a, hprot, hp, he⟩
    · exact h
    · rw [he]
      exact ⟨prot_ne_zero c hprot a phys, not_is_table_blk c hprot a hp⟩
  obtain ⟨h1, h2⟩ := hbad
  have e1 : alloc_init_pte_table { s with pte_calls := s.pte_calls + 1 } pmd =
      .ok { s with pte_calls := s.pte_calls + 1 } := by
    unfold alloc_init_pte_table
    simp [pmd_none, h1]
  refine ⟨h1, h2, e1, ?_⟩
  unfold alloc_init_pte
  rw [e1]
  have hb : pmd_bad (s.mem pmd) = true := by
    unfold is_table at h2
    unfold pmd_bad
    simpa using h2
  simp [hb]

theorem alloc_init_pte_bug_on_witness :
    demo_blocks.mem 0x80001008 ≠ 0 ∧ ¬ is_table (demo_blocks.mem 0x80001008) ∧
    alloc_init_pte_table { demo_blocks with pte_calls := demo_blocks.pte_calls + 1 } 0x80001008 =
      .ok { demo_blocks with pte_calls := demo_blocks.pte_calls + 1 } ∧
    alloc_init_pte demo_blocks 0x80001008 0xffffffc000200000 0xffffffc000201000 0x80200 =
      .error Halt.bug :=
  alloc_init_pte_bug_on demo_blocks 0x80001008 0xffffffc000200000 0xffffffc000201000 0x80200
    (Or.inr ⟨{ demo_config with strict_rwx := false }, 0x80200000, 0xffffffc000200000, by decide,
      by decide, by decide⟩)

/-! ## The attributes of leaf entries -/

/-- The attribute bits of a leaf entry made by `pfn_pte` are the attribute word it
was made with, whatever the frame. -/
theorem attr_bits_pfn_pte {f P : Nat} (hf : f < 268435456) (hP : P &&& 0xfffffff000 = 0)
    (hP2 : P < U64) : attr_bits (pfn_pte f P) = P := by
  unfold attr_bits pfn_pte
  have e1 : wrap (f <<< PAGE_SHIFT) = f * 4096 := by
    unfold wrap PAGE_SHIFT
    rw [Nat.shiftLeft_eq]
    apply Nat.mod_eq_of_lt
    unfold U64
    omega
  rw [e1, Nat.and_distrib_right]
  have hx : f * 4096 &&& 0xfffffff000 = f * 4096 := by
    have e : (0xfffffff000 : Nat) = PHYS_MASK &&& PAGE_MASK := by decide
    rw [e, ← Nat.and_assoc, land_PHYS_MASK, Nat.mod_eq_of_lt (by omega),
      land_PAGE_MASK _ (by unfold U64; omega)]
    omega
  have hz : (0xfffffff000 : Nat) &&& not64 0xfffffff000 = 0 := by decide
  have h1 : f * 4096 &&& not64 0xfffffff000 = 0 := by
    rw [← hx, Nat.and_assoc, hz, Nat.and_zero]
  have hall : (0xfffffff000 : Nat) ||| not64 0xfffffff000 = 2 ^ 64 - 1 := by decide
  have h2 : P &&& not64 0xfffffff000 = P := by
    have e : P &&& (2 ^ 64 - 1) = P := by
      rw [Nat.and_pow_two_sub_one_eq_mod]
      exact Nat.mod_eq_of_lt hP2
    rw [← hall, Nat.and_comm, Nat.and_distrib_right, Nat.and_comm _ P, hP, Nat.zero_or,
      Nat.and_comm] at e
    exact e
  rw [h1, h2, Nat.zero_or]

theorem pke_lt {s : State} (h : s.pgprot_default < U64) : PAGE_KERNEL_EXEC s < U64 := by
  unfold PAGE_KERNEL_EXEC
  have e : U64 = 2 ^ 64 := rfl
  rw [e] at h ⊢
  exact Nat.or_lt_two_pow h (by decide)

/-- In the demo image the pages at `0xffffffc0001ff000` and `0xffffffc000600000` lie
in different protection zones. -/
theorem demo_zones_differ :
    get_pmd_prot_sect_kernel demo_config demo_state 0xffffffc0001ff000 ≠
      get_pmd_prot_sect_kernel demo_config demo_state 0xffffffc000600000 := by
  decide

/-- C29: every leaf Page Mapping the builder writes through the page path of
`create_mapping` (in `alloc_init_pte`) is `pfn_pte(frame, PAGE_KERNEL_EXEC)`, and so
is every leaf Page Mapping `split_pmd` writes: its attribute bits are the fixed set
`PAGE_KERNEL_EXEC`, whatever the virtual address, so any two pages mapped through
the page path carry the same attribute bits; `get_pmd_prot_sect_kernel` and the
zone of the address do not enter. Stated for a request inside the window on a
well-formed hierarchy without block mappings in the range, with frames below
`2^28` (output addresses below `2^40`) and attribute words without address bits. -/
theorem page_mappings_fixed_attributes {c : Config} {s : State} (hinv : Inv c s)
    (hprot : ProtOk s) (hattr : AttrOk s) (hpd : s.pgprot_default < U64)
    {phys virt size : Nat} (pages : Bool) (hv : VMALLOC_START ≤ virt)
    (hsz : virt + size ≤ U64) (h0 : 0 < size) (hp : phys % PAGE_SIZE = 0)
    (hpu : phys + (pb (virt + size + 4095) - pb virt) ≤ 1099511627776)
    (hpmd : ∀ a, pb virt ≤ a → a < pb (virt + size + 4095) →
      is_table (s.mem (pgd_offset_k c a)) →
      s.mem (pmd_off_k c s a) = 0 ∨ is_table (s.mem (pmd_off_k c s a)))
    {pmd addr pfn n : Nat} (hn : 0 < n) (hn2 : n ≤ 512) (ha : addr + 4096 * n < U64)
    (hpfn : pfn + n ≤ 268435456) (hpmd2 : pmd < s.brk ∨ s.pool_end ≤ pmd) :
    ((∃ s2, create_mapping c s phys virt size pages = .ok s2 ∧
        (∀ a, pb virt ≤ a → a < pb (virt + size + 4095) →
          ¬ Elig pages phys (pb virt) (pb (virt + size + 4095)) a →
          is_table (s2.mem (pmd_off_k c s2 a)) ∧
          s2.mem (pte_offset_kernel (s2.mem (pmd_off_k c s2 a)) a) =
            pfn_pte ((phys + (pb a - pb virt)) / PAGE_SIZE) (PAGE_KERNEL_EXEC s2) ∧
          attr_bits (s2.mem (pte_offset_kernel (s2.mem (pmd_off_k c s2 a)) a)) =
            PAGE_KERNEL_EXEC s2) ∧
        ∀ a b, pb virt ≤ a → a < pb (virt + size + 4095) →
          ¬ Elig pages phys (pb virt) (pb (virt + size + 4095)) a →
          pb virt ≤ b → b < pb (virt + size + 4095) →
          ¬ Elig pages phys (pb virt) (pb (virt + size + 4095)) b →
          attr_bits (s2.mem (pte_offset_kernel (s2.mem (pmd_off_k c s2 a)) a)) =
            attr_bits (s2.mem (pte_offset_kernel (s2.mem (pmd_off_k c s2 b)) b))) ∨
      (create_mapping c s phys virt size pages = .error Halt.oom ∧
        ¬ Room s (nSlots (pb virt) (pb (virt + size + 4095)) +
          nChunks (pb virt) (pb (virt + size + 4095))))) ∧
    (split_pmd s pmd addr (addr + 4096 * n) pfn = .error Halt.oom ∨
      ∃ s1, split_pmd s pmd addr (addr + 4096 * n) pfn = .ok s1 ∧ is_table (s1.mem pmd) ∧
        ∀ k, k < n →
          s1.mem (pmd_page_vaddr (s1.mem pmd) + 8 * k) =
            pfn_pte (wrap (pfn + k)) (PAGE_KERNEL_EXEC s) ∧
          attr_bits (s1.mem (pmd_page_vaddr (s1.mem pmd) + 8 * k)) = PAGE_KERNEL_EXEC s) := by
  unfold PAGE_SIZE at *
  have hpool := hinv.pool_le
  constructor
  · have G := @create_mapping_spec c s hinv hprot phys virt size pages hv hsz h0 hp
      (by unfold U64; omega)
    have hnb : NB c s pages phys (pb virt) (pb (virt + size + 4095)) := by
      intro a g1 g2 _ b hb
      obtain ⟨k1, k2, k3⟩ := read_pmd.1 hb
      rcases hpmd a g1 g2 k1 with h | h
      · rw [← k2]
        exact h
      · have : s.mem (pmd_off_k c s a) = b := k2
        rw [this] at h
        exact absurd h k3
    rcases G.cases hnb with ⟨s2, hrun, P⟩ | h
    · left
      have key : ∀ a, pb virt ≤ a → a < pb (virt + size + 4095) →
          ¬ Elig pages phys (pb virt) (pb (virt + size + 4095)) a →
          is_table (s2.mem (pmd_off_k c s2 a)) ∧
          s2.mem (pte_offset_kernel (s2.mem (pmd_off_k c s2 a)) a) =
            pfn_pte ((phys + (pb a - pb virt)) / 4096) (PAGE_KERNEL_EXEC s2) ∧
          attr_bits (s2.mem (pte_offset_kernel (s2.mem (pmd_off_k c s2 a)) a)) =
            PAGE_KERNEL_EXEC s2 := by
        intro a g1 g2 g3
        obtain ⟨e, he⟩ := P.in_pte a g1 g2 g3
        obtain ⟨k1, k2, k3⟩ := mem_of_read_pte he
        rw [k1, k3]
        have ev : val s phys (pb virt) a =
            pfn_pte ((phys + (pb a - pb virt)) / 4096) (PAGE_KERNEL_EXEC s2) := by
          unfold val
          rw [P.same.same_pke]
        rw [ev]
        refine ⟨k2, rfl, ?_⟩
        rw [P.same.same_pke]
        apply attr_bits_pfn_pte _ (attr_pke hattr) (pke_lt hpd)
        have : pb a < pb (virt + size + 4095) := by
          unfold pb at *
          omega
        omega
      refine ⟨s2, hrun, key, ?_⟩
      intro a b g1 g2 g3 g4 g5 g6
      rw [(key a g1 g2 g3).2.2, (key b g4 g5 g6).2.2]
    · exact Or.inr h
  · have hpfnU : pfn < U64 := by
      unfold U64
      omega
    rcases split_pmd_total s pmd hn ha hpfnU with h | ⟨s1, p, h, g1, g2, g3, hmem⟩
    · exact Or.inl h
    · refine Or.inr ⟨s1, h, ?_, ?_⟩
      · rw [hmem pmd, if_pos rfl]
        exact is_table_or_three p g1
      · intro k hk
        have e1 : s1.mem pmd = p ||| 3 := by
          rw [hmem pmd, if_pos rfl]
          rfl
        have e2 : (p + 8 * k - p) / 8 = k := by omega
        have e3 : s1.mem (pmd_page_vaddr (s1.mem pmd) + 8 * k) =
            pfn_pte (wrap (pfn + k)) (PAGE_KERNEL_EXEC s) := by
          rw [e1, page_vaddr_or_three p g1 (by omega), hmem, if_neg (by omega),
            if_pos (by omega), e2]
        rw [e3]
        refine ⟨rfl, ?_⟩
        apply attr_bits_pfn_pte _ (attr_pke hattr) (pke_lt hpd)
        unfold wrap U64
        omega

theorem demo_attr : AttrOk demo_state := by decide

theorem page_mappings_fixed_attributes_witness :
    ((∃ s2, create_mapping demo_config demo_state 0x801ff000 0xffffffc0001ff000 0x402000 false = .ok s2 ∧
        (∀ a, pb 0xffffffc0001ff000 ≤ a → a < pb (0xffffffc0001ff000 + 0x402000 + 4095) →
          ¬ Elig false 0x801ff000 (pb 0xffffffc0001ff000) (pb (0xffffffc0001ff000 + 0x402000 + 4095)) a →
          is_table (s2.mem (pmd_off_k demo_config s2 a)) ∧
          s2.mem (pte_offset_kernel (s2.mem (pmd_off_k demo_config s2 a)) a) =
            pfn_pte ((0x801ff000 + (pb a - pb 0xffffffc0001ff000)) / PAGE_SIZE) (PAGE_KERNEL_EXEC s2) ∧
          attr_bits (s2.mem (pte_offset_kernel (s2.mem (pmd_off_k demo_config s2 a)) a)) =
            PAGE_KERNEL_EXEC s2) ∧
        ∀ a b, pb 0xffffffc0001ff000 ≤ a → a < pb (0xffffffc0001ff000 + 0x402000 + 4095) →
          ¬ Elig false 0x801ff000 (pb 0xffffffc0001ff000) (pb (0xffffffc0001ff000 + 0x402000 + 4095)) a →
          pb 0xffffffc0001ff000 ≤ b → b < pb (0xffffffc0001ff000 + 0x402000 + 4095) →
          ¬ Elig false 0x801ff000 (pb 0xffffffc0001ff000) (pb (0xffffffc0001ff000 + 0x402000 + 4095)) b →
          attr_bits (s2.mem (pte_offset_kernel (s2.mem (pmd_off_k demo_config s2 a)) a)) =
            attr_bits (s2.mem (pte_offset_kernel (s2.mem (pmd_off_k demo_config s2 b)) b))) ∨
      (create_mapping demo_config demo_state 0x801ff000 0xffffffc0001ff000 0x402000 false = .error Halt.oom ∧
        ¬ Room demo_state (nSlots (pb 0xffffffc0001ff000) (pb (0xffffffc0001ff000 + 0x402000 + 4095)) +
          nChunks (pb 0xffffffc0001ff000) (pb (0xffffffc0001ff000 + 0x402000 + 4095))))) ∧
    (split_pmd demo_state 0x80000800 0xffffffc000200000 (0xffffffc000200000 + 4096 * 512) 0x80200 = .error Halt.oom ∨
      ∃ s1, split_pmd demo_state 0x80000800 0xffffffc000200000 (0xffffffc000200000 + 4096 * 512) 0x80200 = .ok s1 ∧ is_table (s1.mem 0x80000800) ∧
        ∀ k, k < 512 →
          s1.mem (pmd_page_vaddr (s1.mem 0x80000800) + 8 * k) =
            pfn_pte (wrap (0x80200 + k)) (PAGE_KERNEL_EXEC demo_state) ∧
          attr_bits (s1.mem (pmd_page_vaddr (s1.mem 0x80000800) + 8 * k)) = PAGE_KERNEL_EXEC demo_state) :=
  page_mappings_fixed_attributes demo_inv demo_prot demo_attr (by decide) false (by decide)
    (by decide) (by decide) (by decide) (by decide) (fun _ _ _ _ => Or.inl rfl) (by decide)
    (by decide) (by decide) (by decide) (Or.inl (by decide))

/-! ## Termination of the builder -/

theorem early_alloc_error {s : State} {sz : Nat} {e : Halt} (h : early_alloc s sz = .error e) :
    e = Halt.oom := by
  unfold early_alloc memblock_alloc at h
  simp only [] at h
  split_ifs at h
  cases h
  rfl

theorem alloc_init_pte_table_error {s : State} {pmd : Nat} {e : Halt}
    (h : alloc_init_pte_table s pmd = .error e) : e = Halt.oom := by
  unfold alloc_init_pte_table at h
  split_ifs at h
  cases ha : early_alloc s (PTRS_PER_PTE * 8) with
  | error e2 =>
    rw [ha] at h
    cases h
    exact early_alloc_error ha
  | ok r =>
    rw [ha] at h
    cases h

theorem alloc_init_pmd_table_error {s : State} {pud : Nat} {e : Halt}
    (h : alloc_init_pmd_table s pud = .error e) : e = Halt.oom := by
  unfold alloc_init_pmd_table at h
  split_ifs at h
  cases ha : early_alloc s (PTRS_PER_PMD * 8) with
  | error e2 =>
    rw [ha] at h
    cases h
    exact early_alloc_error ha
  | ok r =>
    rw [ha] at h
    cases h

/-- The page loop leaves through its exit test, in any state. -/
theorem alloc_init_pte_no_hang (s : State) (pmd : Nat) {addr endR pfn : Nat}
    (ha : addr % 4096 = 0) (he : endR % 4096 = 0) (h1 : addr < endR) (hU : endR ≤ U64)
    (hpfn : pfn < U64) : alloc_init_pte s pmd addr (endR % U64) pfn ≠ .error Halt.hang := by
  unfold alloc_init_pte
  cases hb : alloc_init_pte_table { s with pte_calls := s.pte_calls + 1 } pmd with
  | error e =>
    have := alloc_init_pte_table_error hb
    subst this
    simp
  | ok s1 =>
    simp only []
    split_ifs
    · simp
    · have hn : 0 < (endR - addr) / 4096 := by omega
      have hF : (endR - addr) / 4096 ≤ FUEL := by
        unfold FUEL U64 at *
        omega
      have e : addr + 4096 * ((endR - addr) / 4096) = endR := by omega
      obtain ⟨s2, hrun, _⟩ := pte_loop_mem FUEL s1 (pte_offset_kernel (s1.mem pmd) addr) addr pfn
        ((endR - addr) / 4096) hn hF (by omega) hpfn
      rw [e] at hrun
      rw [hrun]
      simp

theorem alloc_init_pmd_body_no_hang (c : Config) (s : State) (pmd : Nat) {addr next phys : Nat}
    (pages : Bool) (ha : addr % 4096 = 0) (hn : next % 4096 = 0) (h1 : addr < next)
    (hU : next ≤ U64) (hp : phys < U64) :
    alloc_init_pmd_body c s pmd addr (next % U64) phys pages ≠ .error Halt.hang := by
  unfold alloc_init_pmd_body
  split_ifs
  · simp only []
    split_ifs
    · intro h
      cases h
    · intro h
      cases h
  · refine alloc_init_pte_no_hang s pmd ha hn h1 hU ?_
    unfold __phys_to_pfn
    rw [Nat.shiftRight_eq_div_pow]
    exact lt_of_le_of_lt (Nat.div_le_self _ _) hp

/-- The loop over the middle entries leaves through its exit test, in any state. -/
theorem alloc_init_pmd_loop_no_hang (c : Config) (pages : Bool) {endR : Nat} :
    ∀ (fuel : Nat) (s : State) (pmd addr phys : Nat), addr % 4096 = 0 → endR % 4096 = 0 →
      addr < endR → endR ≤ U64 → phys < U64 → nChunks addr endR ≤ fuel →
      alloc_init_pmd_loop c fuel s pmd addr (endR % U64) phys pages ≠ .error Halt.hang := by
  intro fuel
  induction fuel with
  | zero =>
    intro s pmd addr phys _ _ h1 _ _ h2
    unfold nChunks at h2
    omega
  | succ fuel ih =>
    intro s pmd addr phys ha he h1 hU hp hfuel
    have hau : addr < U64 := by omega
    rw [alloc_init_pmd_loop]
    simp only []
    rw [pmd_addr_end_eq hau h1 hU]
    by_cases hlast : endR ≤ cb addr + 2097152
    · have emin : min (cb addr + 2097152) endR = endR := by omega
      rw [emin]
      have step := alloc_init_pmd_body_no_hang c s pmd pages ha he h1 hU hp
      cases hb : alloc_init_pmd_body c s pmd addr (endR % U64) phys pages with
      | error e =>
        rw [hb] at step
        exact step
      | ok s1 => simp
    · have hlt : cb addr + 2097152 < endR := by omega
      have emin : min (cb addr + 2097152) endR = cb addr + 2097152 := by omega
      have hmid4 : (cb addr + 2097152) % 4096 = 0 := by
        unfold cb
        omega
      have hamid : addr < cb addr + 2097152 := by
        unfold cb
        omega
      have en : nChunks addr endR = 1 + nChunks (cb addr + 2097152) endR := by
        unfold cb at *
        unfold nChunks
        omega
      have emod : (cb addr + 2097152) % U64 = cb addr + 2097152 := by
        unfold U64 at *
        omega
      rw [emin]
      have step := alloc_init_pmd_body_no_hang c s pmd pages ha hmid4 hamid (by omega) hp
      rw [emod] at step ⊢
      cases hb : alloc_init_pmd_body c s pmd addr (cb addr + 2097152) phys pages with
      | error e =>
        rw [hb] at step
        exact step
      | ok s1 =>
        have hne : cb addr + 2097152 ≠ endR % U64 := by
          unfold U64 at *
          omega
        simp only [ne_eq, hne, not_false_eq_true, if_true]
        exact ih s1 (pmd + 8) (cb addr + 2097152) _ hmid4 he hlt hU
          (Nat.mod_lt _ (by decide)) (by omega)

theorem alloc_init_pmd_no_hang (c : Config) (s : State) (pud : Nat) {addr endR phys : Nat}
    (pages : Bool) (ha : addr % 4096 = 0) (he : endR % 4096 = 0) (h1 : addr < endR)
    (hU : endR ≤ U64) (hp : phys < U64) :
    alloc_init_pmd c s pud addr (endR % U64) phys pages ≠ .error Halt.hang := by
  unfold alloc_init_pmd
  cases hb : alloc_init_pmd_table s pud with
  | error e =>
    have := alloc_init_pmd_table_error hb
    subst this
    simp
  | ok s1 =>
    simp only []
    refine alloc_init_pmd_loop_no_hang c pages FUEL s1 _ addr phys ha he h1 hU hp ?_
    unfold nChunks FUEL U64 at *
    omega

/-- The loop over the top entries leaves through its exit test, in any state. -/
theorem create_mapping_loop_no_hang (c : Config) (pages : Bool) {endR : Nat} :
    ∀ (fuel : Nat) (s : State) (pgd addr phys : Nat), addr % 4096 = 0 → endR % 4096 = 0 →
      addr < endR → endR ≤ U64 → phys < U64 → nSlots addr endR ≤ fuel →
      create_mapping_loop c fuel s pgd addr (endR % U64) phys pages ≠ .error Halt.hang := by
  intro fuel
  induction fuel with
  | zero =>
    intro s pgd addr phys _ _ h1 _ _ h2
    unfold nSlots at h2
    omega
  | succ fuel ih =>
    intro s pgd addr phys ha he h1 hU hp hfuel
    have hau : addr < U64 := by omega
    rw [create_mapping_loop]
    simp only []
    rw [pgd_addr_end_eq hau h1 hU, alloc_init_pud_eq]
    by_cases hlast : endR ≤ addr / 1073741824 * 1073741824 + 1073741824
    · have emin : min (addr / 1073741824 * 1073741824 + 1073741824) endR = endR := by omega
      rw [emin]
      have step := alloc_init_pmd_no_hang c s pgd pages ha he h1 hU hp
      cases hb : alloc_init_pmd c s pgd addr (endR % U64) phys pages with
      | error e =>
        rw [hb] at step
        exact step
      | ok s1 => simp
    · generalize hmidd : addr / 1073741824 * 1073741824 + 1073741824 = mid at *
      have hlt : mid < endR := by omega
      have emin : min mid endR = mid := by omega
      have hmid4 : mid % 4096 = 0 := by omega
      have hamid : addr < mid := by omega
      have en : nSlots addr endR = 1 + nSlots mid endR := by
        unfold nSlots
        omega
      have emod : mid % U64 = mid := by
        unfold U64 at *
        omega
      rw [emin]
      have step := alloc_init_pmd_no_hang c s pgd pages ha hmid4 hamid (by omega) hp
      rw [emod] at step ⊢
      cases hb : alloc_init_pmd c s pgd addr mid phys pages with
      | error e =>
        rw [hb] at step
        exact step
      | ok s1 =>
        have hne : mid ≠ endR % U64 := by
          unfold U64 at *
          omega
        simp only [ne_eq, hne, not_false_eq_true, if_true]
        exact ih s1 (pgd + 8) mid _ hmid4 he hlt hU (Nat.mod_lt _ (by decide)) (by omega)

/-- C30: for every request with `virt >= VMALLOC_START`, `size > 0` and `virt + size`
not beyond the top of the address space, in every state, `create_mapping` does not
run on for ever: it returns, or halts in the allocator or in `BUG_ON`. It works on
`[virt & PAGE_MASK, PAGE_ALIGN(virt + size))`; in each of its loops the step
(`pgd_addr_end`, `pud_addr_end`, `pmd_addr_end`, `addr += PAGE_SIZE`) takes `addr` to a
value that is larger and at most `end`, so each pass covers new addresses only and
the exit test `addr != end` is met; and on a well-formed hierarchy a run that
returns has given every page of the range an entry. -/
theorem create_mapping_terminates (c : Config) (s : State) {phys virt size : Nat}
    (pages : Bool) (hv : VMALLOC_START ≤ virt) (h0 : 0 < size) (hsz : virt + size ≤ U64)
    (hphys : phys < U64) :
    create_mapping c s phys virt size pages ≠ .error Halt.hang ∧
    (virt &&& PAGE_MASK = pb virt ∧
      wrap ((virt &&& PAGE_MASK) + PAGE_ALIGN (wrap (size + (virt &&& not64 PAGE_MASK)))) =
        pb (virt + size + 4095) % U64) ∧
    (∀ addr endR, addr < U64 → addr < endR → endR ≤ U64 →
      (∃ next, addr < next ∧ next ≤ endR ∧ pgd_addr_end addr (endR % U64) = next % U64) ∧
      pud_addr_end addr (endR % U64) = endR % U64 ∧
      (∃ next, addr < next ∧ next ≤ endR ∧ pmd_addr_end addr (endR % U64) = next % U64) ∧
      (addr % PAGE_SIZE = 0 → endR % PAGE_SIZE = 0 → addr + PAGE_SIZE ≤ endR)) ∧
    (Inv c s → ProtOk s → phys % PAGE_SIZE = 0 →
      phys + (pb (virt + size + 4095) - pb virt) ≤ U64 →
      ∀ s2, create_mapping c s phys virt size pages = .ok s2 →
        ∀ a, pb virt ≤ a → a < pb (virt + size + 4095) → ¬ Unmapped (read c s2 a)) := by
  obtain ⟨e1, e2⟩ := create_mapping_range hv hsz h0
  have hv2 := hv
  unfold VMALLOC_START at hv2
  refine ⟨?_, ⟨e1, e2⟩, ?_, ?_⟩
  · unfold create_mapping
    rw [if_neg (by omega)]
    simp only []
    rw [e2, e1]
    refine create_mapping_loop_no_hang c pages FUEL s _ (pb virt) phys ?_ ?_ ?_ ?_ hphys ?_
    · unfold pb
      omega
    · unfold pb
      omega
    · unfold pb
      omega
    · unfold pb U64 at *
      omega
    · unfold nSlots FUEL pb U64 at *
      omega
  · intro addr endR hau h1 hU
    refine ⟨⟨min (addr / 1073741824 * 1073741824 + 1073741824) endR, by omega, by omega,
      pgd_addr_end_eq hau h1 hU⟩, rfl,
      ⟨min (cb addr + 2097152) endR, ?_, by omega, pmd_addr_end_eq hau h1 hU⟩, ?_⟩
    · unfold cb
      omega
    · unfold PAGE_SIZE
      omega
  · intro hinv hprot hp hpu s2 hrun a g1 g2
    unfold PAGE_SIZE at hp
    have G := @create_mapping_spec c s hinv hprot phys virt size pages hv hsz h0 hp hpu
    rw [hrun] at G
    have P : Post c s s2 pages phys (pb virt) (pb (virt + size + 4095)) _ := G
    by_cases hE : Elig pages phys (pb virt) (pb (virt + size + 4095)) a
    · rw [P.in_blk a g1 g2 hE]
      unfold Unmapped blk
      exact prot_ne_zero c hprot _ _
    · obtain ⟨e, he⟩ := P.in_pte a g1 g2 hE
      rw [he]
      unfold Unmapped val
      exact pfn_pte_ne_zero _ _

theorem create_mapping_terminates_witness :
    create_mapping demo_config demo_state 0x80200000 0xffffffc000200000 0x400000 false ≠ .error Halt.hang ∧
    (0xffffffc000200000 &&& PAGE_MASK = pb 0xffffffc000200000 ∧
      wrap ((0xffffffc000200000 &&& PAGE_MASK) + PAGE_ALIGN (wrap (0x400000 + (0xffffffc000200000 &&& not64 PAGE_MASK)))) =
        pb (0xffffffc000200000 + 0x400000 + 4095) % U64) ∧
    (∀ addr endR, addr < U64 → addr < endR → endR ≤ U64 →
      (∃ next, addr < next ∧ next ≤ endR ∧ pgd_addr_end addr (endR % U64) = next % U64) ∧
      pud_addr_end addr (endR % U64) = endR % U64 ∧
      (∃ next, addr < next ∧ next ≤ endR ∧ pmd_addr_end addr (endR % U64) = next % U64) ∧
      (addr % PAGE_SIZE = 0 → endR % PAGE_SIZE = 0 → addr + PAGE_SIZE ≤ endR)) ∧
    (Inv demo_config demo_state → ProtOk demo_state → 0x80200000 % PAGE_SIZE = 0 →
      0x80200000 + (pb (0xffffffc000200000 + 0x400000 + 4095) - pb 0xffffffc000200000) ≤ U64 →
      ∀ s2, create_mapping demo_config demo_state 0x80200000 0xffffffc000200000 0x400000 false = .ok s2 →
        ∀ a, pb 0xffffffc000200000 ≤ a → a < pb (0xffffffc000200000 + 0x400000 + 4095) → ¬ Unmapped (read demo_config s2 a)) :=
  create_mapping_terminates demo_config demo_state false (by decide) (by decide) (by decide)
    (by decide)

/-! ## What `create_mapping` leaves alone -/

/-- C27, for a non-empty range: for a request inside the window with `size > 0` and
a page-aligned `phys`, on a well-formed hierarchy, `create_mapping` returns (or
halts, in the allocator for want of pool memory or in `BUG_ON` on a block mapping
in the way of the page path) and then has changed the translation of no address
outside `[virt & PAGE_MASK, PAGE_ALIGN(virt + size))`: every PMD entry that was
there and whose chunk lies outside the range has kept its value, and so has every
leaf Page Mapping of a page outside the range. -/
theorem create_mapping_frame {c : Config} {s : State} (hinv : Inv c s) (hprot : ProtOk s)
    {phys virt size : Nat} (pages : Bool) (hv : VMALLOC_START ≤ virt)
    (hsz : virt + size ≤ U64) (h0 : 0 < size) (hp : phys % PAGE_SIZE = 0)
    (hpu : phys + (pb (virt + size + 4095) - pb virt) ≤ U64) :
    (∃ s2, create_mapping c s phys virt size pages = .ok s2 ∧
      (∀ a, InWindow a → (a < pb virt ∨ pb (virt + size + 4095) ≤ a) →
        translate c s2 a = translate c s a) ∧
      (∀ a, InWindow a → (cb a + PMD_SIZE ≤ pb virt ∨ pb (virt + size + 4095) ≤ cb a) →
        is_table (s.mem (pgd_offset_k c a)) →
        s2.mem (pmd_off_k c s2 a) = s.mem (pmd_off_k c s a)) ∧
      (∀ a, InWindow a → (a < pb virt ∨ pb (virt + size + 4095) ≤ a) →
        is_table (s.mem (pgd_offset_k c a)) → is_table (s.mem (pmd_off_k c s a)) →
        s.mem (pte_offset_kernel (s.mem (pmd_off_k c s a)) a) ≠ 0 →
        s2.mem (pmd_off_k c s2 a) = s.mem (pmd_off_k c s a) ∧
        s2.mem (pte_offset_kernel (s2.mem (pmd_off_k c s2 a)) a) =
          s.mem (pte_offset_kernel (s.mem (pmd_off_k c s a)) a))) ∨
    (create_mapping c s phys virt size pages = .error Halt.oom ∧
      ¬ Room s (nSlots (pb virt) (pb (virt + size + 4095)) +
        nChunks (pb virt) (pb (virt + size + 4095)))) ∨
    (create_mapping c s phys virt size pages = .error Halt.bug ∧
      ¬ NB c s pages phys (pb virt) (pb (virt + size + 4095))) := by
  unfold PAGE_SIZE at hp
  unfold PMD_SIZE
  have G := @create_mapping_spec c s hinv hprot phys virt size pages hv hsz h0 hp hpu
  cases hrun : create_mapping c s phys virt size pages with
  | error e =>
    rw [hrun] at G
    right
    cases e with
    | hang => exact absurd rfl G.1
    | oom => exact Or.inl ⟨rfl, fun h => G.2.2 h rfl⟩
    | bug => exact Or.inr ⟨rfl, fun h => G.2.1 h rfl⟩
  | ok s2 =>
    rw [hrun] at G
    have P : Post c s s2 pages phys (pb virt) (pb (virt + size + 4095)) _ := G
    left
    refine ⟨s2, rfl, ?_, ?_, ?_⟩
    · intro a haw hout
      exact P.translate_out haw hout
    · intro a haw hout htop
      have hne : read c s a ≠ Read.nopud := fun h => (read_nopud.1 h) htop
      have heq : read c s2 a = read c s a := by
        rcases P.f1 a haw hout with h | h
        · exact h
        · exact absurd h.1 hne
      cases hr : read c s a with
      | nopud => exact absurd hr hne
      | pmd e =>
        rw [hr] at heq
        rw [mem_of_read_pmd heq, mem_of_read_pmd hr]
      | pte e v =>
        rw [hr] at heq
        rw [(mem_of_read_pte heq).1, (mem_of_read_pte hr).1]
    · intro a haw hout htop hmid hleaf
      have hr : read c s a = Read.pte (s.mem (pmd_off_k c s a))
          (s.mem (pte_offset_kernel (s.mem (pmd_off_k c s a)) a)) :=
        read_pte.2 ⟨htop, rfl, hmid, rfl⟩
      have heq : read c s2 a = read c s a := by
        rcases P.f2 a haw hout with h | h
        · exact h
        · rw [hr] at h
          exact absurd h.1 hleaf
      rw [hr] at heq
      obtain ⟨k1, _, k3⟩ := mem_of_read_pte heq
      rw [k1]
      exact ⟨rfl, k3⟩

theorem create_mapping_frame_witness :
    (∃ s2, create_mapping demo_config demo_blocks 0x80400000 0xffffffc000400000 0x201000 false = .ok s2 ∧
      (∀ a, InWindow a → (a < pb 0xffffffc000400000 ∨ pb (0xffffffc000400000 + 0x201000 + 4095) ≤ a) →
        translate demo_config s2 a = translate demo_config demo_blocks a) ∧
      (∀ a, InWindow a → (cb a + PMD_SIZE ≤ pb 0xffffffc000400000 ∨ pb (0xffffffc000400000 + 0x201000 + 4095) ≤ cb a) →
        is_table (demo_blocks.mem (pgd_offset_k demo_config a)) →
        s2.mem (pmd_off_k demo_config s2 a) = demo_blocks.mem (pmd_off_k demo_config demo_blocks a)) ∧
      (∀ a, InWindow a → (a < pb 0xffffffc000400000 ∨ pb (0xffffffc000400000 + 0x201000 + 4095) ≤ a) →
        is_table (demo_blocks.mem (pgd_offset_k demo_config a)) → is_table (demo_blocks.mem (pmd_off_k demo_config demo_blocks a)) →
        demo_blocks.mem (pte_offset_kernel (demo_blocks.mem (pmd_off_k demo_config demo_blocks a)) a) ≠ 0 →
        s2.mem (pmd_off_k demo_config s2 a) = demo_blocks.mem (pmd_off_k demo_config demo_blocks a) ∧
        s2.mem (pte_offset_kernel (s2.mem (pmd_off_k demo_config s2 a)) a) =
          demo_blocks.mem (pte_offset_kernel (demo_blocks.mem (pmd_off_k demo_config demo_blocks a)) a))) ∨
    (create_mapping demo_config demo_blocks 0x80400000 0xffffffc000400000 0x201000 false = .error Halt.oom ∧
      ¬ Room demo_blocks (nSlots (pb 0xffffffc000400000) (pb (0xffffffc000400000 + 0x201000 + 4095)) +
        nChunks (pb 0xffffffc000400000) (pb (0xffffffc000400000 + 0x201000 + 4095)))) ∨
    (create_mapping demo_config demo_blocks 0x80400000 0xffffffc000400000 0x201000 false = .error Halt.bug ∧
      ¬ NB demo_config demo_blocks false 0x80400000 (pb 0xffffffc000400000) (pb (0xffffffc000400000 + 0x201000 + 4095))) :=
  create_mapping_frame demo_blocks_inv demo_blocks_prot false (by decide) (by decide) (by decide)
    (by decide) (by decide)

/-- C27 as stated fails for `size = 0`: the loops of `create_mapping` are `do-while`
loops, so for the empty range at `0xffffffc000000000` the bodies run once, and
with `phys` and `virt` aligned to `SECTION_SIZE` the block path writes the Block
Mapping of the whole chunk: every address of that chunk, all of them outside the
empty range, had no translation before the call and has one after it. -/
theorem create_mapping_empty_range_writes :
    (0xffffffc000000000 &&& PAGE_MASK = 0xffffffc000000000 ∧
      PAGE_ALIGN (wrap (0xffffffc000000000 + 0)) = 0xffffffc000000000) ∧
    translate demo_config demo_state 0xffffffc000000000 = none ∧
    Returns (create_mapping demo_config demo_state 0x80000000 0xffffffc000000000 0 false)
      (fun s2 => translate demo_config s2 0xffffffc000000000 = some 0x80000000 ∧
        translate demo_config s2 0xffffffc0001ff000 = some 0x801ff000 ∧
        s2.mem (pmd_off_k demo_config s2 0xffffffc000000000) ≠ 0) := by
  decide

set_option maxRecDepth 1000000 in
/-- The empty request is one `map_mem` makes: for the bank `[0x80100000, 0x80200000)`
the start is rounded up to the end of the bank, `create_mapping` is called with
`size = 0`, and the block after the bank is mapped while the bank is not. -/
theorem map_mem_passes_empty_range :
    Returns (map_mem demo_config demo_state [(0x80100000, 0x100000)]) (fun s2 =>
      translate demo_config s2 0xffffffc000200000 = some 0x80200000 ∧
      translate demo_config s2 0xffffffc000100000 = none) := by
  decide

/-! ## What `remap_as_pages` leaves alone -/

/-- C28, for a range of whole blocks: on a well-formed hierarchy, for `start` and
`size > 0` both multiples of `SECTION_SIZE` whose virtual alias lies inside the
linear map and has its top-level entries populated, `remap_as_pages` returns, or the
pool runs out; after the call every virtual address outside the alias
`[__phys_to_virt(start), __phys_to_virt(start + size))` has the translation it had
before the call. -/
theorem remap_as_pages_frame {c : Config} {s : State} (hinv : Inv c s)
    (hprot : ProtOk s) {start size : Nat} (hoff : c.PHYS_OFFSET % SECTION_SIZE = 0)
    (hs : start % SECTION_SIZE = 0) (hsize : size % SECTION_SIZE = 0) (h0 : 0 < size)
    (h1 : c.PHYS_OFFSET ≤ start)
    (h2 : start + size + SECTION_SIZE ≤ c.PHYS_OFFSET + 274877906944)
    (h3 : start + size ≤ 1099511627776)
    (htop : ∀ a, __phys_to_virt c start ≤ a → a < __phys_to_virt c (start + size) →
      is_table (pgd_entry c s (pgd_index a))) :
    (∃ s2, remap_as_pages c s start size = .ok s2 ∧
      ∀ a, InWindow a →
        (a < __phys_to_virt c start ∨ __phys_to_virt c (start + size) ≤ a) →
        translate c s2 a = translate c s a) ∨
    (remap_as_pages c s start size = .error Halt.oom ∧
      ¬ Room s (nSlots (pb (__phys_to_virt c start))
          (pb (__phys_to_virt c start + size + 4095)) +
        nChunks (pb (__phys_to_virt c start)) (pb (__phys_to_virt c start + size + 4095)))) := by
  unfold SECTION_SIZE at *
  have hw : wrap (start + size) = start + size := by
    unfold wrap U64
    omega
  have hv1 : __phys_to_virt c start = start - c.PHYS_OFFSET + PAGE_OFFSET :=
    phys_to_virt_eq h1 (by omega)
  have hv2 : __phys_to_virt c (start + size) = start + size - c.PHYS_OFFSET + PAGE_OFFSET :=
    phys_to_virt_eq (by omega) (by omega)
  unfold remap_as_pages
  simp only [hw]
  rw [hv1, hv2] at htop
  rw [hv1, hv2]
  generalize hg : start - c.PHYS_OFFSET + PAGE_OFFSET = v0 at htop
  have hg2 : start + size - c.PHYS_OFFSET + PAGE_OFFSET = v0 + size := by omega
  rw [hg2] at htop
  rw [hg2]
  have hv0 : VMALLOC_START ≤ v0 ∧ v0 % 2097152 = 0 ∧ v0 + size + 2097152 ≤ U64 := by
    unfold VMALLOC_START PAGE_OFFSET U64 at *
    omega
  obtain ⟨q1, q2, q3⟩ := hv0
  have hF : (v0 + size) / 2097152 + 1 < FUEL := by
    unfold FUEL U64 at *
    omega
  obtain ⟨s1, k1, k2, k3, k4, k5⟩ := @clear_loop_read c v0 (v0 + size) q1 q3
    ((v0 + size) / 2097152 + 1) FUEL s v0 hF q2 (le_refl _) (by omega) hinv
    (fun a g1 g2 => fun h => read_nopud.1 h (htop a g1 g2)) (fun a g1 g2 _ => by omega)
  rw [k1, bind_ok]
  have e1 : pb v0 = v0 := by
    unfold pb
    omega
  have e2 : pb (v0 + size + 4095) = v0 + size := by
    unfold pb
    omega
  have hprot1 : ProtOk s1 := k3.same.protOk hprot
  have G := @create_mapping_spec c s1 k2 hprot1 start v0 size true q1
    (by unfold U64 at *; omega) h0 (by omega)
    (by rw [e1, e2]; unfold U64 at *; omega)
  rw [e1, e2] at G ⊢
  have hnb : NB c s1 true start v0 (v0 + size) := by
    intro a g1 g2 _ b hb
    rw [k4 a g1 g2] at hb
    exact (Read.pmd.inj hb).symm
  rcases G.cases hnb with ⟨s2, hrun, P⟩ | h
  · left
    refine ⟨s2, hrun, ?_⟩
    intro a haw hout
    rw [P.translate_out haw hout]
    have hr : read c s1 a = read c s a := k5 a haw (by omega)
    unfold translate
    rw [hr]
  · right
    refine ⟨h.1, fun hr => h.2 ((k3.room _).2 hr)⟩

theorem remap_as_pages_frame_witness :
    (∃ s2, remap_as_pages demo_config demo_blocks 0x80200000 0x200000 = .ok s2 ∧
      ∀ a, InWindow a →
        (a < __phys_to_virt demo_config 0x80200000 ∨
          __phys_to_virt demo_config (0x80200000 + 0x200000) ≤ a) →
        translate demo_config s2 a = translate demo_config demo_blocks a) ∨
    (remap_as_pages demo_config demo_blocks 0x80200000 0x200000 = .error Halt.oom ∧
      ¬ Room demo_blocks (nSlots (pb (__phys_to_virt demo_config 0x80200000))
          (pb (__phys_to_virt demo_config 0x80200000 + 0x200000 + 4095)) +
        nChunks (pb (__phys_to_virt demo_config 0x80200000))
          (pb (__phys_to_virt demo_config 0x80200000 + 0x200000 + 4095)))) :=
  remap_as_pages_frame demo_blocks_inv demo_blocks_prot (by decide) (by decide) (by decide)
    (by decide) (by decide) (by decide) (by decide) (fun _ g1 g2 => demo_blocks_alias g1 g2)

set_option maxRecDepth 1000000 in
/-- C28 as stated fails for a range that is not a whole number of blocks: the
clearing loop empties the PMD entry of every block the alias starts in, and
`create_mapping` then maps the pages of the alias only. For the first page of the
block at `0x80200000`, the second page of that block, which lies outside the alias
and was mapped to `0x80201000` by the Block Mapping, has no translation after the
call. -/
theorem remap_as_pages_unmaps_neighbours :
    __phys_to_virt demo_config (0x80200000 + 0x1000) ≤ 0xffffffc000201000 ∧
    translate demo_config demo_blocks 0xffffffc000201000 = some 0x80201000 ∧
    Returns (remap_as_pages demo_config demo_blocks 0x80200000 0x1000) (fun s2 =>
      translate demo_config s2 0xffffffc000200000 = some 0x80200000 ∧
      translate demo_config s2 0xffffffc000201000 = none) := by
  decide

/-! ## The allocator limit under the builder -/

theorem Below.below_refl (s : State) : Below s s := ⟨rfl, le_refl _, Or.inl rfl⟩

theorem Below.below_trans {s s1 s2 : State} (h1 : Below s s1) (h2 : Below s1 s2) :
    Below s s2 := by
  unfold Below at *
  obtain ⟨a1, a2, a3⟩ := h1
  obtain ⟨b1, b2, b3⟩ := h2
  refine ⟨by rw [b1, a1], by omega, ?_⟩
  omega

theorem MemOnly.below {s s2 : State} (h : MemOnly s s2) : Below s s2 := by
  unfold MemOnly at h
  rw [h]
  exact ⟨rfl, le_refl _, Or.inl rfl⟩

theorem early_alloc_below {s s1 : State} {p : Nat} (h : early_alloc s 4096 = .ok (p, s1)) :
    Below s s1 := by
  unfold early_alloc memblock_alloc at h
  simp only [] at h
  split_ifs at h with hc
  cases h
  refine ⟨rfl, ?_, Or.inr hc.2⟩
  show s.brk ≤ (s.brk + 4096 - 1) / 4096 * 4096 + 4096
  omega

/-- The page loop changes memory only, whatever its arguments. -/
theorem alloc_init_pte_loop_memonly : ∀ (fuel : Nat) (s s2 : State) (pte addr end_ pfn : Nat),
    alloc_init_pte_loop fuel s pte addr end_ pfn = .ok s2 → MemOnly s s2 := by
  intro fuel
  induction fuel with
  | zero =>
    intro s s2 pte addr end_ pfn h
    rw [alloc_init_pte_loop] at h
    cases h
  | succ fuel ih =>
    intro s s2 pte addr end_ pfn h
    rw [alloc_init_pte_loop] at h
    split_ifs at h
    · exact (MemOnly.store s _ _).mo_trans (ih _ _ _ _ _ _ h)
    · cases h
      exact MemOnly.store s _ _

theorem alloc_init_pte_below {s s2 : State} {pmd addr end_ pfn : Nat}
    (h : alloc_init_pte s pmd addr end_ pfn = .ok s2) : Below s s2 := by
  unfold alloc_init_pte at h
  cases hb : alloc_init_pte_table { s with pte_calls := s.pte_calls + 1 } pmd with
  | error e =>
    rw [hb] at h
    cases h
  | ok s1 =>
    rw [hb] at h
    simp only [] at h
    split_ifs at h
    have h1 : Below s s1 := by
      unfold alloc_init_pte_table at hb
      split_ifs at hb
      · cases ha : early_alloc { s with pte_calls := s.pte_calls + 1 } (PTRS_PER_PTE * 8) with
        | error e =>
          rw [ha] at hb
          cases hb
        | ok r =>
          obtain ⟨p, sa⟩ := r
          rw [ha] at hb
          cases hb
          have h0 : Below { s with pte_calls := s.pte_calls + 1 } sa := early_alloc_below ha
          have h1 : Below s sa := h0
          exact h1.below_trans ⟨rfl, le_refl _, Or.inl rfl⟩
      · cases hb
        exact Below.below_refl _
    exact h1.below_trans (alloc_init_pte_loop_memonly _ _ _ _ _ _ _ h).below

theorem alloc_init_pmd_body_below {c : Config} {s s2 : State} {pmd addr next phys : Nat}
    {pages : Bool} (h : alloc_init_pmd_body c s pmd addr next phys pages = .ok s2) :
    Below s s2 := by
  unfold alloc_init_pmd_body at h
  split_ifs at h
  · simp only [] at h
    split_ifs at h
    · cases h
      exact ⟨rfl, le_refl _, Or.inl rfl⟩
    · cases h
      exact ⟨rfl, le_refl _, Or.inl rfl⟩
  · exact alloc_init_pte_below h

theorem alloc_init_pmd_loop_below (c : Config) (pages : Bool) :
    ∀ (fuel : Nat) (s s2 : State) (pmd addr end_ phys : Nat),
      alloc_init_pmd_loop c fuel s pmd addr end_ phys pages = .ok s2 → Below s s2 := by
  intro fuel
  induction fuel with
  | zero =>
    intro s s2 pmd addr end_ phys h
    rw [alloc_init_pmd_loop] at h
    cases h
  | succ fuel ih =>
    intro s s2 pmd addr end_ phys h
    rw [alloc_init_pmd_loop] at h
    simp only [] at h
    cases hb : alloc_init_pmd_body c s pmd addr (pmd_addr_end addr end_) phys pages with
    | error e =>
      rw [hb] at h
      cases h
    | ok s1 =>
      rw [hb] at h
      simp only [] at h
      have h1 := alloc_init_pmd_body_below hb
      split_ifs at h
      · exact h1.below_trans (ih _ _ _ _ _ _ h)
      · cases h
        exact h1

theorem alloc_init_pmd_below {c : Config} {s s2 : State} {pud addr end_ phys : Nat}
    {pages : Bool} (h : alloc_init_pmd c s pud addr end_ phys pages = .ok s2) : Below s s2 := by
  unfold alloc_init_pmd at h
  cases hb : alloc_init_pmd_table s pud with
  | error e =>
    rw [hb] at h
    cases h
  | ok s1 =>
    rw [hb] at h
    simp only [] at h
    have h1 : Below s s1 := by
      unfold alloc_init_pmd_table at hb
      split_ifs at hb
      · cases ha : early_alloc s (PTRS_PER_PMD * 8) with
        | error e =>
          rw [ha] at hb
          cases hb
        | ok r =>
          obtain ⟨p, sa⟩ := r
          rw [ha] at hb
          cases hb
          have h0 : Below s sa := early_alloc_below ha
          exact h0.below_trans ⟨rfl, le_refl _, Or.inl rfl⟩
      · cases hb
        exact Below.below_refl _
    exact h1.below_trans (alloc_init_pmd_loop_below c pages _ _ _ _ _ _ _ h)

theorem create_mapping_loop_below (c : Config) (pages : Bool) :
    ∀ (fuel : Nat) (s s2 : State) (pgd addr end_ phys : Nat),
      create_mapping_loop c fuel s pgd addr end_ phys pages = .ok s2 → Below s s2 := by
  intro fuel
  induction fuel with
  | zero =>
    intro s s2 pgd addr end_ phys h
    rw [create_mapping_loop] at h
    cases h
  | succ fuel ih =>
    intro s s2 pgd addr end_ phys h
    rw [create_mapping_loop] at h
    simp only [] at h
    rw [alloc_init_pud_eq] at h
    cases hb : alloc_init_pmd c s pgd addr (pgd_addr_end addr end_) phys pages with
    | error e =>
      rw [hb] at h
      cases h
    | ok s1 =>
      rw [hb] at h
      simp only [] at h
      have h1 := alloc_init_pmd_below hb
      split_ifs at h
      · exact h1.below_trans (ih _ _ _ _ _ _ h)
      · cases h
        exact h1

/-- In any state and for any request, `create_mapping` leaves the allocator limit
alone and takes memory from the pool below that limit only. -/
theorem create_mapping_below {c : Config} {s s2 : State} {phys virt size : Nat} {pages : Bool}
    (h : create_mapping c s phys virt size pages = .ok s2) : Below s s2 := by
  unfold create_mapping at h
  split_ifs at h
  · cases h
    exact Below.below_refl _
  · exact create_mapping_loop_below c pages _ _ _ _ _ _ _ h

/-! ## The allocator limit in `map_mem` -/

theorem after_ok (s : State) (f : State → List Nat) : after (.ok s) f = f s := rfl

theorem after_error (e : Halt) (f : State → List Nat) : after (.error e) f = [] := rfl

/-- With the limit of the state equal to the local `limit`, every limit in force
at a later call is at most `limit`, and the limits never increase along the
calls. -/
theorem map_mem_limits_le (c : Config) :
    ∀ (regs : List (Nat × Nat)) (s : State) (limit : Nat), s.limit = limit →
      (∀ l, l ∈ map_mem_limits c regs s limit → l ≤ limit) ∧
      List.Pairwise (fun a b => b ≤ a) (map_mem_limits c regs s limit) := by
  intro regs
  induction regs with
  | nil =>
    intro s limit _
    simp [map_mem_limits]
  | cons reg regs ih =>
    intro s limit hs
    rw [map_mem_limits]
    simp only []
    by_cases hemp : reg.1 ≥ wrap (reg.1 + reg.2)
    · rw [if_pos hemp]
      simp
    · rw [if_neg hemp]
      generalize (if reg.1 < limit then ALIGN reg.1 PMD_SIZE else reg.1) = start1
      generalize hl1 : (if wrap (reg.1 + reg.2) < limit then wrap (reg.1 + reg.2) &&& PMD_MASK
        else limit) = limit1
      generalize hs1 : (if wrap (reg.1 + reg.2) < limit then memblock_set_current_limit s limit1
        else s) = s1
      generalize __phys_to_virt c start1 = virt
      generalize usub (wrap (reg.1 + reg.2)) start1 = size
      have h1 : limit1 ≤ limit := by
        rw [← hl1]
        split_ifs with hlt
        · exact le_trans Nat.and_le_left (le_of_lt hlt)
        · exact le_refl _
      have h2 : s1.limit = limit1 := by
        rw [← hs1]
        split_ifs with hlt
        · rfl
        · rw [hs, ← hl1, if_neg hlt]
      rw [h2]
      cases hcm : create_mapping c s1 start1 virt size false with
      | error e =>
        rw [after_error]
        refine ⟨?_, ?_⟩
        · intro l hl
          rw [List.mem_singleton] at hl
          omega
        · exact List.pairwise_singleton _ _
      | ok s2 =>
        rw [after_ok]
        have hb := create_mapping_below hcm
        obtain ⟨i1, i2⟩ := ih s2 limit1 (by rw [hb.1, h2])
        refine ⟨?_, ?_⟩
        · intro l hl
          rcases List.mem_cons.1 hl with h | h
          · omega
          · exact le_trans (i1 l h) h1
        · exact List.pairwise_cons.2 ⟨i1, i2⟩

/-- What the loop of `map_mem` does to the allocator: with the limit of the state
at most `L`, so is the limit of the state it returns, and the memory it has taken
from the pool lies below `L`. -/
theorem map_mem_loop_below (c : Config) {L : Nat} :
    ∀ (regs : List (Nat × Nat)) (s s2 : State) (limit : Nat), s.limit = limit → limit ≤ L →
      map_mem_loop c regs s limit = .ok s2 →
      s2.limit ≤ L ∧ s.brk ≤ s2.brk ∧ (s2.brk = s.brk ∨ s2.brk ≤ L) := by
  intro regs
  induction regs with
  | nil =>
    intro s s2 limit hs hL h
    simp only [map_mem_loop, Except.ok.injEq] at h
    subst h
    exact ⟨by omega, le_refl _, Or.inl rfl⟩
  | cons reg regs ih =>
    intro s s2 limit hs hL h
    rw [map_mem_loop] at h
    simp only [] at h
    by_cases hemp : reg.1 ≥ wrap (reg.1 + reg.2)
    · rw [if_pos hemp] at h
      cases h
      exact ⟨by omega, le_refl _, Or.inl rfl⟩
    · rw [if_neg hemp] at h
      revert h
      generalize (if reg.1 < limit then ALIGN reg.1 PMD_SIZE else reg.1) = start1
      generalize hl1 : (if wrap (reg.1 + reg.2) < limit then wrap (reg.1 + reg.2) &&& PMD_MASK
        else limit) = limit1
      generalize hs1 : (if wrap (reg.1 + reg.2) < limit then memblock_set_current_limit s limit1
        else s) = s1
      generalize __phys_to_virt c start1 = virt
      generalize usub (wrap (reg.1 + reg.2)) start1 = size
      intro h
      have h1 : limit1 ≤ limit := by
        rw [← hl1]
        split_ifs with hlt
        · exact le_trans Nat.and_le_left (le_of_lt hlt)
        · exact le_refl _
      have h2 : s1.limit = limit1 ∧ s1.brk = s.brk := by
        rw [← hs1]
        split_ifs with hlt
        · exact ⟨rfl, rfl⟩
        · rw [hs, ← hl1, if_neg hlt]
          exact ⟨rfl, rfl⟩
      cases hcm : create_mapping c s1 start1 virt size false with
      | error e =>
        rw [hcm, bind_error] at h
        cases h
      | ok s3 =>
        rw [hcm, bind_ok] at h
        obtain ⟨b1, b2, b3⟩ := create_mapping_below hcm
        obtain ⟨i1, i2, i3⟩ := ih s3 s2 limit1 (by rw [b1, h2.1]) (by omega) h
        refine ⟨i1, by omega, ?_⟩
        rw [h2.1, h2.2] at b3
        rw [h2.2] at b2
        omega

/-- C23, as the code has it: once `map_mem` has processed the first memory region,
the allocator limit is not raised while the following regions are mapped. The
limit in force at the first call of `create_mapping` is at most `PHYS_OFFSET +
PGDIR_SIZE` (it is that value, or `end & PMD_MASK` of a first region that ends below
it), the limit in force at every later call is at most the limit of the first; the
limit is raised, to `MEMBLOCK_ALLOC_ANYWHERE`, after the loop. -/
theorem map_mem_limit_not_raised (c : Config) (s : State) (regs : List (Nat × Nat))
    {l1 : Nat} {ls : List Nat}
    (h : map_mem_limits c regs
      (memblock_set_current_limit s (wrap (c.PHYS_OFFSET + PGDIR_SIZE)))
      (wrap (c.PHYS_OFFSET + PGDIR_SIZE)) = l1 :: ls) :
    l1 ≤ c.PHYS_OFFSET + PGDIR_SIZE ∧ (∀ l, l ∈ ls → l ≤ l1) ∧
    ∀ s2, map_mem c s regs = .ok s2 → s2.limit = MEMBLOCK_ALLOC_ANYWHERE := by
  obtain ⟨k1, k2⟩ := map_mem_limits_le c regs
    (memblock_set_current_limit s (wrap (c.PHYS_OFFSET + PGDIR_SIZE)))
    (wrap (c.PHYS_OFFSET + PGDIR_SIZE)) rfl
  rw [h] at k1 k2
  refine ⟨?_, ?_, ?_⟩
  · have := k1 l1 (List.mem_cons_self _ _)
    unfold wrap at this
    exact le_trans this (Nat.mod_le _ _)
  · exact (List.pairwise_cons.1 k2).1
  · intro s2 hrun
    unfold map_mem at hrun
    simp only [] at hrun
    cases hb : map_mem_loop c regs
        (memblock_set_current_limit s (wrap (c.PHYS_OFFSET + PGDIR_SIZE)))
        (wrap (c.PHYS_OFFSET + PGDIR_SIZE)) with
    | error e =>
      rw [hb] at hrun
      cases hrun
    | ok s1 =>
      rw [hb] at hrun
      cases hrun
      rfl

set_option maxRecDepth 1000000 in
theorem map_mem_limit_not_raised_witness :
    0x80400000 ≤ demo_config.PHYS_OFFSET + PGDIR_SIZE ∧
    (∀ l, l ∈ [0x80400000] → l ≤ 0x80400000) ∧
    ∀ s2, map_mem demo_config { demo_state with brk := 0x803fe000, pool_end := 0x80402000 }
        [(0x80000000, 0x402000), (0xc0000000, 0x200000)] = .ok s2 →
      s2.limit = MEMBLOCK_ALLOC_ANYWHERE :=
  map_mem_limit_not_raised demo_config
    { demo_state with brk := 0x803fe000, pool_end := 0x80402000 }
    [(0x80000000, 0x402000), (0xc0000000, 0x200000)] (by decide)

set_option maxRecDepth 1000000 in
/-- C23 as stated fails: with the regions `[0x80000000, 0x80402000)` and
`[0xc0000000, 0xc0200000)` the limit is lowered to `0x80400000` for the first region
and is still `0x80400000` when the second is mapped. The pool has two pages left
at `0x80400000`, inside the first region, which is mapped by then, but the middle
table the second region needs is not drawn from them: the allocator refuses and
halts. With the limit at the end of the first region the same call returns. -/
theorem map_mem_limit_stays_low :
    map_mem_limits demo_config [(0x80000000, 0x402000), (0xc0000000, 0x200000)]
      (memblock_set_current_limit { demo_state with brk := 0x803fe000, pool_end := 0x80402000 }
        (wrap (demo_config.PHYS_OFFSET + PGDIR_SIZE)))
      (wrap (demo_config.PHYS_OFFSET + PGDIR_SIZE)) = [0x80400000, 0x80400000] ∧
    Halts (map_mem demo_config { demo_state with brk := 0x803fe000, pool_end := 0x80402000 }
      [(0x80000000, 0x402000), (0xc0000000, 0x200000)]) Halt.oom ∧
    Returns (map_mem_loop demo_config [(0x80000000, 0x402000)]
      (memblock_set_current_limit { demo_state with brk := 0x803fe000, pool_end := 0x80402000 }
        (wrap (demo_config.PHYS_OFFSET + PGDIR_SIZE)))
      (wrap (demo_config.PHYS_OFFSET + PGDIR_SIZE))) (fun s1 =>
        s1.limit = 0x80400000 ∧ s1.brk = 0x80400000 ∧ s1.pool_end = 0x80402000 ∧
        translate demo_config s1 0xffffffc000400000 = some 0x80400000 ∧
        Halts (create_mapping demo_config s1 0xc0000000
          (__phys_to_virt demo_config 0xc0000000) 0x200000 false) Halt.oom ∧
        Returns (create_mapping demo_config (memblock_set_current_limit s1 0x80402000)
          0xc0000000 (__phys_to_virt demo_config 0xc0000000) 0x200000 false)
          (fun s2 => s2.brk = 0x80401000)) := by
  decide

/-- C24: for every region list and every state, at every call of `create_mapping`
that `map_mem` makes the allocator limit is at most `PHYS_OFFSET + PGDIR_SIZE`, and
the limits in force at successive calls never increase; when `map_mem` returns, the
limit is `MEMBLOCK_ALLOC_ANYWHERE`, set after the loop, and the break of the pool has
not moved or lies at or below `PHYS_OFFSET + PGDIR_SIZE`: whatever was handed out
while `map_mem` ran lies below that bound. -/
theorem map_mem_limit_bounded (c : Config) (s : State) (regs : List (Nat × Nat)) :
    (∀ l, l ∈ map_mem_limits c regs
        (memblock_set_current_limit s (wrap (c.PHYS_OFFSET + PGDIR_SIZE)))
        (wrap (c.PHYS_OFFSET + PGDIR_SIZE)) → l ≤ c.PHYS_OFFSET + PGDIR_SIZE) ∧
    List.Pairwise (fun a b => b ≤ a) (map_mem_limits c regs
      (memblock_set_current_limit s (wrap (c.PHYS_OFFSET + PGDIR_SIZE)))
      (wrap (c.PHYS_OFFSET + PGDIR_SIZE))) ∧
    (∀ s1, map_mem_loop c regs
        (memblock_set_current_limit s (wrap (c.PHYS_OFFSET + PGDIR_SIZE)))
        (wrap (c.PHYS_OFFSET + PGDIR_SIZE)) = .ok s1 →
      s1.limit ≤ c.PHYS_OFFSET + PGDIR_SIZE ∧
      map_mem c s regs = .ok (memblock_set_current_limit s1 MEMBLOCK_ALLOC_ANYWHERE)) ∧
    ∀ s2, map_mem c s regs = .ok s2 →
      s2.limit = MEMBLOCK_ALLOC_ANYWHERE ∧ s.brk ≤ s2.brk ∧
      (s2.brk = s.brk ∨ s2.brk ≤ c.PHYS_OFFSET + PGDIR_SIZE) := by
  have hL : wrap (c.PHYS_OFFSET + PGDIR_SIZE) ≤ c.PHYS_OFFSET + PGDIR_SIZE := Nat.mod_le _ _
  obtain ⟨k1, k2⟩ := map_mem_limits_le c regs
    (memblock_set_current_limit s (wrap (c.PHYS_OFFSET + PGDIR_SIZE)))
    (wrap (c.PHYS_OFFSET + PGDIR_SIZE)) rfl
  refine ⟨fun l hl => le_trans (k1 l hl) hL, k2, ?_, ?_⟩
  · intro s1 hb
    refine ⟨(@map_mem_loop_below c (c.PHYS_OFFSET + PGDIR_SIZE) regs
      (memblock_set_current_limit s (wrap (c.PHYS_OFFSET + PGDIR_SIZE))) s1
      (wrap (c.PHYS_OFFSET + PGDIR_SIZE)) rfl hL hb).1, ?_⟩
    unfold map_mem
    simp only []
    rw [hb]
  · intro s2 hrun
    unfold map_mem at hrun
    simp only [] at hrun
    cases hb : map_mem_loop c regs
        (memblock_set_current_limit s (wrap (c.PHYS_OFFSET + PGDIR_SIZE)))
        (wrap (c.PHYS_OFFSET + PGDIR_SIZE)) with
    | error e =>
      rw [hb] at hrun
      cases hrun
    | ok s1 =>
      rw [hb] at hrun
      cases hrun
      obtain ⟨_, i2, i3⟩ := @map_mem_loop_below c (c.PHYS_OFFSET + PGDIR_SIZE) regs
        (memblock_set_current_limit s (wrap (c.PHYS_OFFSET + PGDIR_SIZE))) s1
        (wrap (c.PHYS_OFFSET + PGDIR_SIZE)) rfl hL hb
      have e0 : ∀ x, (memblock_set_current_limit s x).brk = s.brk := fun _ => rfl
      rw [e0] at i2 i3
      have i2b : s.brk ≤ s1.brk := i2
      have i3b : s1.brk = s.brk ∨ s1.brk ≤ c.PHYS_OFFSET + PGDIR_SIZE := i3
      exact ⟨rfl, i2b, i3b⟩

/-! ## The sparse-metadata mapper -/

/-- Taking memory from the pool (and writing to it) leaves a well-formed hierarchy
as it is: no table lies in the free part of the pool. -/
theorem Inv.fresh {c : Config} {s s2 : State} (h : Inv c s) (hb : s.brk ≤ s2.brk)
    (hal : s2.brk % 4096 = 0) (hpool : s2.pool_end = s.pool_end)
    (hm : ∀ q, q < s.brk ∨ s.pool_end ≤ q → s2.mem q = s.mem q) :
    Inv c s2 ∧ (∀ i, i < 512 → pgd_entry c s2 i = pgd_entry c s i) ∧
      ∀ a, read c s2 a = read c s a := by
  have word : ∀ T k, Safe s T → k < 512 → s2.mem (T + 8 * k) = s.mem (T + 8 * k) := by
    intro T k hT hk
    apply hm
    unfold Safe at hT
    omega
  have safe : ∀ T, Safe s T → Safe s2 T := by
    intro T hT
    unfold Safe at *
    omega
  have A : ∀ i, i < 512 → pgd_entry c s2 i = pgd_entry c s i := fun i hi =>
    word _ i h.pgd_safe hi
  have A2 : ∀ i, i < 512 → pmd_table c s2 i = pmd_table c s i := by
    intro i hi
    unfold pmd_table
    rw [A i hi]
  have B : ∀ i j, i < 512 → j < 512 → is_table (pgd_entry c s i) →
      pmd_entry c s2 i j = pmd_entry c s i j := by
    intro i j hi hj hv
    unfold pmd_entry
    rw [A2 i hi]
    exact word _ j (h.pmd_safe i hi hv).1 hj
  have B2 : ∀ i j, i < 512 → j < 512 → is_table (pgd_entry c s i) →
      pte_table c s2 i j = pte_table c s i j := by
    intro i j hi hj hv
    unfold pte_table
    rw [B i j hi hj hv]
  have C : ∀ i j k, i < 512 → j < 512 → k < 512 → is_table (pgd_entry c s i) →
      is_table (pmd_entry c s i j) → pte_entry c s2 i j k = pte_entry c s i j k := by
    intro i j k hi hj hk hv hw
    unfold pte_entry
    rw [B2 i j hi hj hv]
    exact word _ k (h.pte_safe i j hi hj hv hw).1 hk
  have hinv : Inv c s2 := by
    refine Inv.transfer (s := { s with brk := s2.brk }) ?_ rfl hpool ?_ ?_
    · refine ⟨h.pgd_al, hal, h.pool_le, ?_, ?_, h.pmd_inj, ?_, h.pte_pmd, h.pte_inj⟩
      · have := h.pgd_safe
        unfold Safe at *
        show c.swapper_pg_dir + 4096 ≤ s2.brk ∨ s.pool_end ≤ c.swapper_pg_dir
        omega
      · intro i hi hv
        have := h.pmd_safe i hi hv
        refine ⟨?_, this.2⟩
        have := this.1
        unfold Safe at *
        show pmd_table c s i + 4096 ≤ s2.brk ∨ s.pool_end ≤ pmd_table c s i
        omega
      · intro i j hi hj hv hw
        have := h.pte_safe i j hi hj hv hw
        refine ⟨?_, this.2⟩
        have := this.1
        unfold Safe at *
        show pte_table c s i j + 4096 ≤ s2.brk ∨ s.pool_end ≤ pte_table c s i j
        omega
    · intro i hi _
      exact A i hi
    · intro i j hi hj hv _
      rw [A i hi] at hv
      exact B i j hi hj hv
  refine ⟨hinv, A, ?_⟩
  intro a
  unfold read readI
  rw [A _ (pgd_index_lt a)]
  by_cases hv : is_table (pgd_entry c s (pgd_index a))
  · rw [if_pos hv, if_pos hv, B _ _ (pgd_index_lt a) (pmd_index_lt a) hv]
    by_cases hw : is_table (pmd_entry c s (pgd_index a) (pmd_index a))
    · rw [if_pos hw, if_pos hw, C _ _ _ (pgd_index_lt a) (pmd_index_lt a) (pte_index_lt a) hv hw]
    · rw [if_neg hw, if_neg hw]
  · rw [if_neg hv, if_neg hv]

theorem vmemmap_pgd_populate_eq (c : Config) (s : State) (addr : Nat) :
    vmemmap_pgd_populate c s addr = (some (pgd_offset_k c addr), s) := by
  unfold vmemmap_pgd_populate pgd_none
  simp

theorem vmemmap_alloc_block_ok {s : State} (hal : s.brk % 4096 = 0) (hroom : Room s 1) :
    vmemmap_alloc_block s PAGE_SIZE =
      (some s.brk, memset { s with brk := s.brk + 4096 } s.brk 0 4096) := by
  unfold vmemmap_alloc_block PAGE_SIZE
  rw [early_alloc_ok hal hroom]

theorem vmemmap_alloc_block_fail {s : State} (hal : s.brk % 4096 = 0) (hroom : ¬ Room s 1) :
    vmemmap_alloc_block s PAGE_SIZE = (none, s) := by
  unfold vmemmap_alloc_block PAGE_SIZE
  rw [early_alloc_oom hal hroom]

/-- The first half of a pass of `vmemmap_populate`: afterwards the top entry of
`addr` refers to a middle table, or the allocator has refused the page for one. -/
theorem vmemmap_pud_stage {c : Config} {s : State} (hinv : Inv c s) (htop : TopClean c s)
    {addr : Nat} (hw : InWindow addr) :
    (vmemmap_pud_populate s (pgd_offset_k c addr) addr = (none, s) ∧
      (vmemmap_alloc_block s PAGE_SIZE).1 = none) ∨
    ∃ s1, vmemmap_pud_populate s (pgd_offset_k c addr) addr = (some (pgd_offset_k c addr), s1) ∧
      Inv c s1 ∧ Same s s1 ∧ s.brk ≤ s1.brk ∧ TopClean c s1 ∧
      is_table (pgd_entry c s1 (pgd_index addr)) ∧
      (is_table (pgd_entry c s (pgd_index addr)) → s1 = s) ∧
      ∀ a, InWindow a →
        read c s1 a = read c s a ∨ (read c s a = Read.nopud ∧ read c s1 a = Read.pmd 0) := by
  have hidx := pgd_index_lt addr
  unfold vmemmap_pud_populate pud_offset
  simp only []
  rcases htop _ hidx with hz | ht
  · have hz2 : s.mem (pgd_offset_k c addr) = 0 := hz
    have hn : pud_none (s.mem (pgd_offset_k c addr)) = true := by
      rw [hz2]
      rfl
    rw [if_pos hn]
    have hr : read c s addr = Read.nopud := by
      apply read_nopud.2
      rw [hz]
      exact not_is_table_zero
    by_cases hroom : Room s 1
    · right
      rw [vmemmap_alloc_block_ok hinv.brk_al hroom]
      simp only []
      refine ⟨_, rfl, ?_⟩
      have hm : ∀ q, (pud_populate (memset { s with brk := s.brk + 4096 } s.brk 0 4096)
          (pgd_offset_k c addr) s.brk).mem q =
          if q = pgd_offset_k c addr then s.brk ||| 3
          else if s.brk ≤ q ∧ q < s.brk + 4096 then 0 else s.mem q := fun q => rfl
      obtain ⟨k1, k2, k3⟩ := populate_pud_read hinv hw hr hroom.1 hm rfl rfl
      have hnew : pgd_entry c (pud_populate (memset { s with brk := s.brk + 4096 } s.brk 0 4096)
          (pgd_offset_k c addr) s.brk) (pgd_index addr) = s.brk ||| 3 := by
        unfold pgd_entry
        rw [hm]
        exact if_pos rfl
      refine ⟨k1, ⟨rfl, rfl, rfl, rfl⟩, Nat.le_add_right _ _, ?_, ?_, ?_, ?_⟩
      · intro i hi
        by_cases hii : i = pgd_index addr
        · right
          rw [hii, hnew]
          exact is_table_or_three _ hinv.brk_al
        · rcases htop i hi with h0 | h1
          · left
            unfold pgd_entry at h0 ⊢
            rw [hm, if_neg, if_neg (hinv.pgd_safe.not_fresh hroom.1 hi)]
            · exact h0
            · unfold pgd_offset_k
              omega
          · right
            rw [k2 i hi h1]
            exact h1
      · rw [hnew]
        exact is_table_or_three _ hinv.brk_al
      · intro h
        rw [hz] at h
        exact absurd h not_is_table_zero
      · intro a ha
        rw [k3 a ha]
        by_cases hs : a / 1073741824 = addr / 1073741824
        · right
          rw [if_pos hs]
          refine ⟨?_, rfl⟩
          apply read_nopud.2
          rw [(idx_slot ha hw).2 hs, hz]
          exact not_is_table_zero
        · left
          rw [if_neg hs]
    · left
      rw [vmemmap_alloc_block_fail hinv.brk_al hroom]
      exact ⟨rfl, rfl⟩
  · have ht2 : is_table (s.mem (pgd_offset_k c addr)) := ht
    have hn : pud_none (s.mem (pgd_offset_k c addr)) = false := by
      unfold pud_none
      have : s.mem (pgd_offset_k c addr) ≠ 0 := by
        intro h0
        rw [h0] at ht2
        exact not_is_table_zero ht2
      simpa using this
    rw [hn]
    right
    refine ⟨s, rfl, hinv, Same.same_refl s, le_refl _, htop, ht, fun _ => rfl, fun a _ => Or.inl rfl⟩

theorem not_is_table_buf {s : State} (hprot : ProtOk s) {p : Nat} (hp : p % 2097152 = 0) :
    ¬ is_table (p ||| s.prot_sect_kernel) := by
  intro h
  rcases (is_table_or _ _).1 h with h1 | h1
  · rw [is_table_iff] at h1
    omega
  · exact hprot.not_table h1

theorem memset_prot (s : State) (p v n : Nat) :
    (memset s p v n).prot_sect_kernel = s.prot_sect_kernel := rfl

theorem brk_prot (s : State) (b : Nat) :
    ({ s with brk := b } : State).prot_sect_kernel = s.prot_sect_kernel := rfl

/-- Installing the Block Mapping of a buffer taken from the pool in an empty middle
entry. -/
theorem vmemmap_install {c : Config} {s : State} (hinv : Inv c s) (hprot : ProtOk s)
    {addr : Nat} (hw : InWindow addr) (ht : is_table (pgd_entry c s (pgd_index addr)))
    {p b n : Nat} (hp1 : p % 2097152 = 0) (hp2 : s.brk ≤ p) (hb : b = p + n)
    (hn : n = 2097152) (hpool : b ≤ s.pool_end) :
    Inv c (set_pmd (memset { s with brk := b } p 0 n) (pmd_off_k c s addr)
      (p ||| s.prot_sect_kernel)) ∧
    Same s (set_pmd (memset { s with brk := b } p 0 n) (pmd_off_k c s addr)
      (p ||| s.prot_sect_kernel)) ∧
    (set_pmd (memset { s with brk := b } p 0 n) (pmd_off_k c s addr)
      (p ||| s.prot_sect_kernel)).brk = b ∧
    (∀ i, i < 512 → pgd_entry c (set_pmd (memset { s with brk := b } p 0 n) (pmd_off_k c s addr)
      (p ||| s.prot_sect_kernel)) i = pgd_entry c s i) ∧
    ∀ a, InWindow a → read c (set_pmd (memset { s with brk := b } p 0 n) (pmd_off_k c s addr)
      (p ||| s.prot_sect_kernel)) a =
        if a / 2097152 = addr / 2097152 then Read.pmd (p ||| s.prot_sect_kernel)
        else read c s a := by
  have hne : read c s addr ≠ Read.nopud := fun h => read_nopud.1 h ht
  have hal := hinv.brk_al
  obtain ⟨f1, f2, f3⟩ := @Inv.fresh c s (memset { s with brk := b } p 0 n)
    hinv (by show s.brk ≤ b; omega) (by show b % 4096 = 0; omega) rfl
    (by
      intro q hq
      show (if p ≤ q ∧ q < p + n then 0 else s.mem q) = s.mem q
      rw [if_neg]
      omega)
  have eoff : pmd_off_k c (memset { s with brk := b } p 0 n) addr = pmd_off_k c s addr :=
    pmd_off_k_same addr (f2 _ (pgd_index_lt addr))
  have hr3 : read c (memset { s with brk := b } p 0 n) addr ≠ Read.nopud := by
    rw [f3]
    exact hne
  have hv : ¬ is_table (p ||| s.prot_sect_kernel) := not_is_table_buf hprot hp1
  obtain ⟨g1, g2, g3⟩ := @set_pmd_read c (memset { s with brk := b } p 0 n)
    f1 addr hw hr3 (p ||| s.prot_sect_kernel) hv
    (set_pmd (memset { s with brk := b } p 0 n) (pmd_off_k c s addr) (p ||| s.prot_sect_kernel))
    (by
      intro q
      rw [eoff]
      rfl) rfl rfl
  refine ⟨g1, ⟨rfl, rfl, rfl, rfl⟩, rfl, ?_, ?_⟩
  · intro i hi
    rw [← f2 i hi]
    unfold pgd_entry
    show (if c.swapper_pg_dir + 8 * i = pmd_off_k c s addr then _ else _) = _
    rw [if_neg]
    rw [pmd_off_k_eq]
    exact (slot_ne (pmd_table_aligned c s _) hinv.pgd_al
      (hinv.pmd_safe _ (pgd_index_lt addr) ht).2 (pmd_index_lt addr) hi).symm
  · intro a ha
    rw [g3 a ha, f3]

/-- The second half of a pass of `vmemmap_populate`, in a state whose top entry for
`addr` refers to a middle table. -/
theorem vmemmap_pmd_stage {c : Config} {s : State} {check : Nat → Int → Nat → Nat → Bool}
    (hck : ∀ e n a b, check e n a b = true) (node : Int) (hinv : Inv c s) (hprot : ProtOk s)
    {addr : Nat} (hw : InWindow addr) (ht : is_table (pgd_entry c s (pgd_index addr)))
    (next : Nat) :
    ∃ b s1, vmemmap_populate_pmd check node s (pgd_offset_k c addr) addr next = .ok (b, s1) ∧
      Inv c s1 ∧ Same s s1 ∧ s.brk ≤ s1.brk ∧
      (∀ i, i < 512 → pgd_entry c s1 i = pgd_entry c s i) ∧
      (b = false → s1 = s ∧ (vmemmap_alloc_block_buf s PMD_SIZE).1 = none) ∧
      (b = true →
        (read c s addr = Read.pmd 0 →
          ∃ p, p % 2097152 = 0 ∧ s.brk ≤ p ∧ p + 2097152 ≤ s1.brk ∧
            ∀ a, InWindow a → read c s1 a =
              if a / 2097152 = addr / 2097152 then Read.pmd (p ||| s.prot_sect_kernel)
              else read c s a) ∧
        (read c s addr ≠ Read.pmd 0 → s1 = s)) := by
  unfold vmemmap_populate_pmd
  have epmd : pmd_offset (s.mem (pgd_offset_k c addr)) addr = pmd_off_k c s addr := rfl
  simp only [epmd]
  by_cases he : s.mem (pmd_off_k c s addr) = 0
  · have hn : pmd_none (s.mem (pmd_off_k c s addr)) = true := by
      rw [he]
      rfl
    rw [if_pos hn]
    have hr0 : read c s addr = Read.pmd 0 := read_pmd.2 ⟨ht, he, not_is_table_zero⟩
    unfold vmemmap_alloc_block_buf vmemmap_alloc_block PMD_SIZE
    by_cases hf : Fits s 2097152
    · rw [early_alloc_fits hf]
      simp only []
      rw [memset_prot, brk_prot]
      have hf2 := hf
      unfold Fits at hf2
      have hp2 : s.brk ≤ (s.brk + 2097152 - 1) / 2097152 * 2097152 := round_up_ge _ (by decide)
      have hp1 : (s.brk + 2097152 - 1) / 2097152 * 2097152 % 2097152 = 0 := by omega
      generalize (s.brk + 2097152 - 1) / 2097152 * 2097152 = p at hf2 hp1 hp2 ⊢
      obtain ⟨k1, k2, k3, k4, k5⟩ := @vmemmap_install c s hinv hprot addr hw ht p
        (p + 2097152) 2097152 hp1 hp2 rfl rfl hf2.1
      refine ⟨true, _, rfl, k1, k2, ?_, k4, ?_, ?_⟩
      · rw [k3]
        omega
      · intro h
        cases h
      · intro _
        refine ⟨fun _ => ⟨p, hp1, hp2, ?_, k5⟩, fun h => absurd hr0 h⟩
        rw [k3]
    · rw [early_alloc_unfit hf]
      simp only []
      refine ⟨false, s, rfl, hinv, Same.same_refl s, le_refl _, fun _ _ => rfl,
        fun _ => ⟨rfl, by trivial⟩, (fun h => by cases h)⟩
  · have hn : pmd_none (s.mem (pmd_off_k c s addr)) = false := by
      unfold pmd_none
      simpa using he
    rw [hn]
    simp only [Bool.false_eq_true, if_false]
    unfold vmemmap_verify
    rw [hck]
    simp only [if_true]
    refine ⟨true, s, rfl, hinv, Same.same_refl s, le_refl _, fun _ _ => rfl,
      (fun h => by cases h), fun _ => ⟨fun h => ?_, fun _ => rfl⟩⟩
    exact absurd (mem_of_read_pmd h) he

theorem VPost.vrefl {c : Config} {s : State} (hinv : Inv c s) (lo : Nat) : VPost c s s lo lo :=
  ⟨hinv, Same.same_refl s, le_refl _, fun a _ h1 h2 _ => by omega, fun a _ h1 h2 _ => by omega,
    fun _ _ _ => Or.inl rfl⟩

theorem VPost.vtrans {c : Config} {s s1 s2 : State} {lo mid hi : Nat}
    (P1 : VPost c s s1 lo mid) (P2 : VPost c s1 s2 mid hi) (h1 : lo ≤ mid) (h2 : mid ≤ hi) :
    VPost c s s2 lo hi := by
  have eprot : s1.prot_sect_kernel = s.prot_sect_kernel := P1.same.2.2.1
  have hb1 := P1.brk_le
  have hb2 := P2.brk_le
  refine ⟨P2.inv, P1.same.same_trans P2.same, by omega, ?_, ?_, ?_⟩
  · intro a ha g1 g2 hc
    by_cases hm : a / 2097152 < mid
    · obtain ⟨p, q1, q2, q3, q4⟩ := P1.fresh a ha g1 hm hc
      refine ⟨p, q1, q2, by omega, ?_⟩
      rcases P2.out a ha (Or.inl hm) with h | h
      · rw [h, q4]
      · rw [q4] at h
        cases h.1
    · have hc1 : read c s1 a = Read.nopud ∨ read c s1 a = Read.pmd 0 := by
        rcases P1.out a ha (Or.inr (by omega)) with h | h
        · rw [h]
          exact hc
        · exact Or.inr h.2
      obtain ⟨p, q1, q2, q3, q4⟩ := P2.fresh a ha (by omega) g2 hc1
      refine ⟨p, q1, by omega, q3, ?_⟩
      rw [q4, eprot]
  · intro a ha g1 g2 hc
    by_cases hm : a / 2097152 < mid
    · have k := P1.kept a ha g1 hm hc
      rcases P2.out a ha (Or.inl hm) with h | h
      · rw [h, k]
      · rw [k] at h
        exact absurd (Or.inl h.1) hc
    · have k : read c s1 a = read c s a := by
        rcases P1.out a ha (Or.inr (by omega)) with h | h
        · exact h
        · exact absurd (Or.inl h.1) hc
      rw [← k] at hc
      rw [P2.kept a ha (by omega) g2 hc, k]
  · intro a ha hout
    have o1 := P1.out a ha (by omega)
    have o2 := P2.out a ha (by omega)
    rcases o2 with h | h
    · rw [h]
      exact o1
    · rcases o1 with k | k
      · rw [k] at h
        exact Or.inr h
      · rw [k.2] at h
        cases h.1

/-- One pass through the body of the loop of `vmemmap_populate` on a well-formed
hierarchy: it deals with the chunk of `addr`, or an allocation fails. -/
theorem vmemmap_body_spec {c : Config} {s : State} {check : Nat → Int → Nat → Nat → Bool}
    (hck : ∀ e n a b, check e n a b = true) (node : Int) (hinv : Inv c s) (hprot : ProtOk s)
    (htop : TopClean c s) {addr : Nat} (hw : InWindow addr) (next : Nat) :
    ∃ b s1, vmemmap_populate_body c check node s addr next = .ok (b, s1) ∧ TopClean c s1 ∧
      (b = true → VPost c s s1 (addr / 2097152) (addr / 2097152 + 1) ∧
        (¬ (read c s addr = Read.nopud ∨ read c s addr = Read.pmd 0) → s1 = s)) ∧
      (b = false → VPost c s s1 (addr / 2097152) (addr / 2097152) ∧
        ((vmemmap_alloc_block s1 PAGE_SIZE).1 = none ∨
          (vmemmap_alloc_block_buf s1 PMD_SIZE).1 = none)) := by
  unfold vmemmap_populate_body
  rw [vmemmap_pgd_populate_eq]
  simp only []
  rcases vmemmap_pud_stage hinv htop hw with ⟨h1, h2⟩ | ⟨s1, h1, i1, sm1, b1, tc1, t1, same1, rd1⟩
  · rw [h1]
    simp only []
    exact ⟨false, s, rfl, htop, (fun h => by cases h), fun _ => ⟨VPost.vrefl hinv _, Or.inl h2⟩⟩
  · rw [h1]
    simp only []
    obtain ⟨b, s2, h2, i2, sm2, b2, pg2, hfalse, htrue⟩ :=
      vmemmap_pmd_stage hck node i1 (sm1.protOk hprot) hw t1 next
    have eprot : s1.prot_sect_kernel = s.prot_sect_kernel := sm1.2.2.1
    have tc2 : TopClean c s2 := by
      intro i hi
      rw [pg2 i hi]
      exact tc1 i hi
    refine ⟨b, s2, h2, tc2, ?_, ?_⟩
    · intro hb
      obtain ⟨ht1, ht2⟩ := htrue hb
      have hidx : ∀ a, InWindow a → a / 2097152 = addr / 2097152 →
          pgd_index a = pgd_index addr := fun a ha h => ((idx_chunk ha hw).2 h).1
      -- the reads of the chunk of `addr` in `s1`
      have hin1 : ∀ a, InWindow a → a / 2097152 = addr / 2097152 →
          (read c s a = Read.nopud ∨ read c s a = Read.pmd 0) → read c s1 a = Read.pmd 0 := by
        intro a ha hch hc
        rcases rd1 a ha with h | h
        · rcases hc with hc | hc
          · rw [hc] at h
            have := read_nopud.1 h
            rw [hidx a ha hch] at this
            exact absurd t1 this
          · rw [h, hc]
        · exact h.2
      have hin2 : ∀ a, InWindow a → a / 2097152 = addr / 2097152 →
          ¬ (read c s a = Read.nopud ∨ read c s a = Read.pmd 0) →
          read c s1 a = read c s a ∧ s1 = s := by
        intro a ha hch hc
        have k : read c s1 a = read c s a := by
          rcases rd1 a ha with h | h
          · exact h
          · exact absurd (Or.inl h.1) hc
        refine ⟨k, same1 ?_⟩
        have : read c s a ≠ Read.nopud := fun h => hc (Or.inl h)
        have ht : is_table (pgd_entry c s (pgd_index a)) := by
          by_contra hx
          exact this (read_nopud.2 hx)
        rw [hidx a ha hch] at ht
        exact ht
      by_cases hz : read c s1 addr = Read.pmd 0
      · obtain ⟨p, q1, q2, q3, q4⟩ := ht1 hz
        refine ⟨⟨i2, sm1.same_trans sm2, by omega, ?_, ?_, ?_⟩, ?_⟩
        · intro a ha g1 g2 hc
          have hch : a / 2097152 = addr / 2097152 := by omega
          refine ⟨p, q1, by omega, q3, ?_⟩
          rw [q4 a ha, if_pos hch, eprot]
        · intro a ha g1 g2 hc
          have hch : a / 2097152 = addr / 2097152 := by omega
          obtain ⟨k1, k2⟩ := hin2 a ha hch hc
          have hz2 : read c s1 a = Read.pmd 0 :=
            read_same_chunk_pmd hw ha hch.symm hz
          rw [k1] at hz2
          exact absurd (Or.inr hz2) hc
        · intro a ha hout
          have hch : ¬ a / 2097152 = addr / 2097152 := by omega
          rw [q4 a ha, if_neg hch]
          exact rd1 a ha
        · intro hc
          obtain ⟨k1, k2⟩ := hin2 addr hw rfl hc
          rw [k1] at hz
          exact absurd (Or.inr hz) hc
      · have e2 : s2 = s1 := ht2 hz
        subst e2
        refine ⟨⟨i2, sm1, b1, ?_, ?_, ?_⟩, ?_⟩
        · intro a ha g1 g2 hc
          have hch : a / 2097152 = addr / 2097152 := by omega
          have := hin1 a ha hch hc
          exact absurd (read_same_chunk_pmd ha hw hch this) hz
        · intro a ha g1 g2 hc
          have hch : a / 2097152 = addr / 2097152 := by omega
          exact (hin2 a ha hch hc).1
        · intro a ha _
          exact rd1 a ha
        · intro hc
          exact (hin2 addr hw rfl hc).2
    · intro hb
      obtain ⟨e2, hfail⟩ := hfalse hb
      subst e2
      exact ⟨⟨i1, sm1, b1, fun a _ h1 h2 _ => by omega, fun a _ h1 h2 _ => by omega,
        fun a ha _ => rd1 a ha⟩, Or.inr hfail⟩

/-- The loop of `vmemmap_populate` on a well-formed hierarchy: it leaves through its
exit test with every chunk dealt with and returns 0, or an allocation fails at the
chunk of `stop`, the chunks before it are dealt with, and it returns `-ENOMEM`. -/
theorem vmemmap_loop_spec {c : Config} {check : Nat → Int → Nat → Nat → Bool}
    (hck : ∀ e n a b, check e n a b = true) (node : Int) {endR : Nat} :
    ∀ (fuel : Nat) (s : State) (addr : Nat), Inv c s → ProtOk s → TopClean c s →
      InWindow addr → addr < endR → endR ≤ U64 → nChunks addr endR ≤ fuel →
      (∃ s2, vmemmap_populate_loop c check node fuel s addr (endR % U64) = .ok (0, s2) ∧
        VPost c s s2 (addr / 2097152) ((endR + 2097151) / 2097152)) ∨
      (∃ s2 stop, vmemmap_populate_loop c check node fuel s addr (endR % U64) =
          .ok (-ENOMEM, s2) ∧ addr ≤ stop ∧ stop < endR ∧
        VPost c s s2 (addr / 2097152) (stop / 2097152) ∧
        ((vmemmap_alloc_block s2 PAGE_SIZE).1 = none ∨
          (vmemmap_alloc_block_buf s2 PMD_SIZE).1 = none)) := by
  intro fuel
  induction fuel with
  | zero =>
    intro s addr _ _ _ _ h1 _ h2
    unfold nChunks at h2
    omega
  | succ fuel ih =>
    intro s addr hinv hprot htop hw h1 hU hfuel
    have hw2 := hw
    unfold InWindow VMALLOC_START U64 at hw2
    rw [vmemmap_populate_loop, pmd_addr_end_eq hw.2 h1 hU]
    obtain ⟨b, s1, hbody, tc1, htrue, hfalse⟩ := vmemmap_body_spec hck node hinv hprot htop hw
      (min (cb addr + 2097152) endR % U64)
    rw [hbody]
    cases b with
    | false =>
      simp only []
      obtain ⟨P, hf⟩ := hfalse rfl
      exact Or.inr ⟨s1, addr, rfl, le_refl _, h1, P, hf⟩
    | true =>
      simp only []
      obtain ⟨P, _⟩ := htrue rfl
      by_cases hlast : endR ≤ cb addr + 2097152
      · have emin : min (cb addr + 2097152) endR = endR := by omega
        rw [emin]
        simp only [ne_eq, not_true_eq_false, if_false]
        left
        refine ⟨s1, rfl, ?_⟩
        have e : (endR + 2097151) / 2097152 = addr / 2097152 + 1 := by
          unfold cb at hlast
          omega
        rw [e]
        exact P
      · have hlt : cb addr + 2097152 < endR := by omega
        have emin : min (cb addr + 2097152) endR = cb addr + 2097152 := by omega
        have hamid : addr < cb addr + 2097152 := by
          unfold cb
          omega
        have emod : (cb addr + 2097152) % U64 = cb addr + 2097152 := by
          unfold U64 at *
          omega
        have hne : cb addr + 2097152 ≠ endR % U64 := by
          unfold U64 at *
          omega
        rw [emin, emod]
        simp only [ne_eq, hne, not_false_eq_true, if_true]
        have hw1 : InWindow (cb addr + 2097152) := by
          unfold InWindow VMALLOC_START U64 at *
          omega
        have emid : (cb addr + 2097152) / 2097152 = addr / 2097152 + 1 := by
          unfold cb
          omega
        have hch : nChunks (cb addr + 2097152) endR ≤ fuel := by
          unfold cb at *
          unfold nChunks at *
          omega
        rcases ih s1 (cb addr + 2097152) P.inv (P.same.protOk hprot) tc1 hw1 hlt hU hch with
          ⟨s2, hrun, P2⟩ | ⟨s2, stop, hrun, g1, g2, P2, hf⟩
        · left
          refine ⟨s2, hrun, ?_⟩
          rw [emid] at P2
          exact P.vtrans P2 (by omega) (by unfold cb at hlt; omega)
        · right
          refine ⟨s2, stop, hrun, by omega, g2, ?_, hf⟩
          rw [emid] at P2
          exact P.vtrans P2 (by omega) (by unfold cb at g1; omega)

theorem cond_read {c : Config} {s : State} {a : Nat}
    (h : ¬ is_table (s.mem (pgd_offset_k c a)) ∨ s.mem (pmd_off_k c s a) = 0) :
    read c s a = Read.nopud ∨ read c s a = Read.pmd 0 := by
  by_cases ht : is_table (s.mem (pgd_offset_k c a))
  · rcases h with h | h
    · exact absurd ht h
    · exact Or.inr (read_pmd.2 ⟨ht, h, not_is_table_zero⟩)
  · exact Or.inl (read_nopud.2 ht)

theorem read_cond {c : Config} {s : State} {a : Nat}
    (h : read c s a = Read.nopud ∨ read c s a = Read.pmd 0) :
    ¬ is_table (s.mem (pgd_offset_k c a)) ∨ s.mem (pmd_off_k c s a) = 0 := by
  rcases h with h | h
  · exact Or.inl (read_nopud.1 h)
  · exact Or.inr (mem_of_read_pmd h)

theorem buf_ne_zero {s : State} (hprot : ProtOk s) (p : Nat) : p ||| s.prot_sect_kernel ≠ 0 := by
  intro h
  have h1 := ((or_eq_zero_iff _ _).1 h).2
  unfold ProtOk at hprot
  rw [h1] at hprot
  revert hprot
  decide

/-- C21: on a well-formed hierarchy whose top entries are empty or Table References,
with a check (`vmemmap_verify`) that reports no mismatch, `vmemmap_populate` on a range
`[start, end)` with `start < end` inside the window returns, and it returns 0 or
`-ENOMEM`. When it returns 0 every chunk of the range has its top entry and a
non-empty PMD entry: no allocation was refused. When it returns `-ENOMEM` an
allocation has failed at the chunk of some `stop` in the range (the allocator
refuses a page or a `PMD_SIZE` buffer in the state returned), and every chunk before
it whose entry was missing or empty still holds the Block Mapping of the buffer
taken for it: nothing is rolled back. -/
theorem vmemmap_populate_enomem {c : Config} {s : State}
    {check : Nat → Int → Nat → Nat → Bool} (hck : ∀ e n a b, check e n a b = true) (node : Int)
    (hinv : Inv c s) (hprot : ProtOk s) (htop : TopClean c s) {start end_ : Nat}
    (hv : VMALLOC_START ≤ start) (h1 : start < end_) (hU : end_ ≤ U64) :
    (∃ s2, vmemmap_populate c check s start (end_ % U64) node = .ok (0, s2) ∧
      ∀ a, start ≤ a → a < end_ →
        is_table (s2.mem (pgd_offset_k c a)) ∧ s2.mem (pmd_off_k c s2 a) ≠ 0) ∨
    (∃ s2 stop, vmemmap_populate c check s start (end_ % U64) node = .ok (-ENOMEM, s2) ∧
      start ≤ stop ∧ stop < end_ ∧
      ((vmemmap_alloc_block s2 PAGE_SIZE).1 = none ∨
        (vmemmap_alloc_block_buf s2 PMD_SIZE).1 = none) ∧
      ∀ a, start ≤ a → a / PMD_SIZE < stop / PMD_SIZE →
        (¬ is_table (s.mem (pgd_offset_k c a)) ∨ s.mem (pmd_off_k c s a) = 0) →
        ∃ p, p % PMD_SIZE = 0 ∧ s.brk ≤ p ∧ p + PMD_SIZE ≤ s2.brk ∧
          is_table (s2.mem (pgd_offset_k c a)) ∧
          s2.mem (pmd_off_k c s2 a) = p ||| s2.prot_sect_kernel) := by
  unfold PMD_SIZE
  have hv2 := hv
  unfold VMALLOC_START at hv2
  have hw : InWindow start := by
    unfold InWindow VMALLOC_START U64 at *
    omega
  have hF : nChunks start end_ ≤ FUEL := by
    unfold nChunks FUEL U64 at *
    omega
  unfold vmemmap_populate
  rcases vmemmap_loop_spec hck node FUEL s start hinv hprot htop hw h1 hU hF with
    ⟨s2, hrun, P⟩ | ⟨s2, stop, hrun, g1, g2, P, hf⟩
  · left
    refine ⟨s2, hrun, ?_⟩
    intro a k1 k2
    have ha : InWindow a := by
      unfold InWindow VMALLOC_START U64 at *
      omega
    by_cases hc : read c s a = Read.nopud ∨ read c s a = Read.pmd 0
    · obtain ⟨p, _, _, _, q4⟩ := P.fresh a ha (by omega) (by omega) hc
      rw [mem_of_read_pmd q4]
      exact ⟨(read_pmd.1 q4).1, buf_ne_zero hprot p⟩
    · have k := P.kept a ha (by omega) (by omega) hc
      have hc2 : s.mem (pmd_off_k c s a) ≠ 0 := fun h => hc (cond_read (Or.inr h))
      cases hr : read c s a with
      | nopud => exact absurd (Or.inl hr) hc
      | pmd e =>
        rw [hr] at k
        rw [mem_of_read_pmd k, ← mem_of_read_pmd hr]
        exact ⟨(read_pmd.1 k).1, hc2⟩
      | pte e v =>
        rw [hr] at k
        rw [(mem_of_read_pte k).1, ← (mem_of_read_pte hr).1]
        exact ⟨(read_pte.1 k).1, hc2⟩
  · right
    refine ⟨s2, stop, hrun, g1, g2, hf, ?_⟩
    intro a k1 k2 hc
    have ha : InWindow a := by
      unfold InWindow VMALLOC_START U64 at *
      omega
    obtain ⟨p, q1, q2, q3, q4⟩ := P.fresh a ha (by omega) k2 (cond_read hc)
    refine ⟨p, q1, q2, q3, (read_pmd.1 q4).1, ?_⟩
    rw [mem_of_read_pmd q4, P.same.2.2.1]

/-- C22: under the same conditions, a run of `vmemmap_populate` that returns 0 has
given every chunk of `[start, end)` whose PMD entry was missing or empty the entry
`__pa(p) | prot_sect_kernel` of a `PMD_SIZE`-aligned buffer `p` taken from the pool
during the run, and has left every PMD entry that was non-empty as it was. A pass
for a chunk whose entry is non-empty returns the state it was given: it allocates
nothing and writes nothing, the entry is only passed to `vmemmap_verify`. -/
theorem vmemmap_populate_entries {c : Config} {s : State}
    {check : Nat → Int → Nat → Nat → Bool} (hck : ∀ e n a b, check e n a b = true) (node : Int)
    (hinv : Inv c s) (hprot : ProtOk s) (htop : TopClean c s) {start end_ : Nat}
    (hv : VMALLOC_START ≤ start) (h1 : start < end_) (hU : end_ ≤ U64) :
    ((∃ s2, vmemmap_populate c check s start (end_ % U64) node = .ok (0, s2) ∧
        (∀ a, start ≤ a → a < end_ →
          (¬ is_table (s.mem (pgd_offset_k c a)) ∨ s.mem (pmd_off_k c s a) = 0) →
          ∃ p, p % PMD_SIZE = 0 ∧ s.brk ≤ p ∧ p + PMD_SIZE ≤ s2.brk ∧
            s2.mem (pmd_off_k c s2 a) = p ||| s2.prot_sect_kernel) ∧
        (∀ a, start ≤ a → a < end_ → is_table (s.mem (pgd_offset_k c a)) →
          s.mem (pmd_off_k c s a) ≠ 0 →
          s2.mem (pmd_off_k c s2 a) = s.mem (pmd_off_k c s a))) ∨
      (∃ s2, vmemmap_populate c check s start (end_ % U64) node = .ok (-ENOMEM, s2))) ∧
    (∀ next, is_table (s.mem (pgd_offset_k c start)) → s.mem (pmd_off_k c s start) ≠ 0 →
      vmemmap_populate_body c check node s start next = .ok (true, s)) := by
  unfold PMD_SIZE
  have hv2 := hv
  unfold VMALLOC_START at hv2
  have hw : InWindow start := by
    unfold InWindow VMALLOC_START U64 at *
    omega
  have hF : nChunks start end_ ≤ FUEL := by
    unfold nChunks FUEL U64 at *
    omega
  constructor
  · unfold vmemmap_populate
    rcases vmemmap_loop_spec hck node FUEL s start hinv hprot htop hw h1 hU hF with
      ⟨s2, hrun, P⟩ | ⟨s2, stop, hrun, _⟩
    · left
      refine ⟨s2, hrun, ?_, ?_⟩
      · intro a k1 k2 hc
        have ha : InWindow a := by
          unfold InWindow VMALLOC_START U64 at *
          omega
        obtain ⟨p, q1, q2, q3, q4⟩ := P.fresh a ha (by omega) (by omega) (cond_read hc)
        refine ⟨p, q1, q2, q3, ?_⟩
        rw [mem_of_read_pmd q4, P.same.2.2.1]
      · intro a k1 k2 ht he
        have ha : InWindow a := by
          unfold InWindow VMALLOC_START U64 at *
          omega
        have hc : ¬ (read c s a = Read.nopud ∨ read c s a = Read.pmd 0) := by
          intro h
          rcases read_cond h with h | h
          · exact h ht
          · exact he h
        have k := P.kept a ha (by omega) (by omega) hc
        cases hr : read c s a with
        | nopud => exact absurd (Or.inl hr) hc
        | pmd e =>
          rw [hr] at k
          rw [mem_of_read_pmd k, mem_of_read_pmd hr]
        | pte e v =>
          rw [hr] at k
          rw [(mem_of_read_pte k).1, (mem_of_read_pte hr).1]
    · exact Or.inr ⟨s2, hrun⟩
  · intro next ht he
    unfold vmemmap_populate_body
    rw [vmemmap_pgd_populate_eq]
    simp only []
    have hn : pud_none (s.mem (pgd_offset_k c start)) = false := by
      unfold pud_none
      have : s.mem (pgd_offset_k c start) ≠ 0 := by
        intro h0
        rw [h0] at ht
        exact not_is_table_zero ht
      simpa using this
    have e1 : vmemmap_pud_populate s (pgd_offset_k c start) start =
        (some (pgd_offset_k c start), s) := by
      unfold vmemmap_pud_populate pud_offset
      simp only [hn, Bool.false_eq_true, if_false]
    rw [e1]
    simp only []
    unfold vmemmap_populate_pmd
    have epmd : pmd_offset (s.mem (pgd_offset_k c start)) start = pmd_off_k c s start := rfl
    have hn2 : pmd_none (s.mem (pmd_off_k c s start)) = false := by
      unfold pmd_none
      simpa using he
    simp only [epmd, hn2, Bool.false_eq_true, if_false]
    unfold vmemmap_verify
    rw [hck]
    simp only [if_true]

theorem demo_blocks_clean : TopClean demo_config demo_blocks := by
  intro i hi
  by_cases h : i = 256
  · right
    subst h
    decide
  · left
    show (if 0x80000000 + 8 * i = 0x80000800 then 0x80001003
      else if 0x80000000 + 8 * i = 0x80001008 then 0x80200711 else 0) = 0
    rw [if_neg (by omega), if_neg (by omega)]

theorem vmemmap_populate_enomem_witness :
    (∃ s2, vmemmap_populate demo_config (fun _ _ _ _ => true) demo_blocks 0xffffffc000200000 (0xffffffc000600000 % U64) 0 = .ok (0, s2) ∧
      ∀ a, 0xffffffc000200000 ≤ a → a < 0xffffffc000600000 →
        is_table (s2.mem (pgd_offset_k demo_config a)) ∧ s2.mem (pmd_off_k demo_config s2 a) ≠ 0) ∨
    (∃ s2 stop, vmemmap_populate demo_config (fun _ _ _ _ => true) demo_blocks 0xffffffc000200000 (0xffffffc000600000 % U64) 0 = .ok (-ENOMEM, s2) ∧
      0xffffffc000200000 ≤ stop ∧ stop < 0xffffffc000600000 ∧
      ((vmemmap_alloc_block s2 PAGE_SIZE).1 = none ∨
        (vmemmap_alloc_block_buf s2 PMD_SIZE).1 = none) ∧
      ∀ a, 0xffffffc000200000 ≤ a → a / PMD_SIZE < stop / PMD_SIZE →
        (¬ is_table (demo_blocks.mem (pgd_offset_k demo_config a)) ∨ demo_blocks.mem (pmd_off_k demo_config demo_blocks a) = 0) →
        ∃ p, p % PMD_SIZE = 0 ∧ demo_blocks.brk ≤ p ∧ p + PMD_SIZE ≤ s2.brk ∧
          is_table (s2.mem (pgd_offset_k demo_config a)) ∧
          s2.mem (pmd_off_k demo_config s2 a) = p ||| s2.prot_sect_kernel) :=
  vmemmap_populate_enomem (fun _ _ _ _ => rfl) 0 demo_blocks_inv demo_blocks_prot
    demo_blocks_clean (by decide) (by decide) (by decide)

theorem vmemmap_populate_entries_witness :
    ((∃ s2, vmemmap_populate demo_config (fun _ _ _ _ => true) demo_blocks 0xffffffc000200000 (0xffffffc000600000 % U64) 0 = .ok (0, s2) ∧
        (∀ a, 0xffffffc000200000 ≤ a → a < 0xffffffc000600000 →
          (¬ is_table (demo_blocks.mem (pgd_offset_k demo_config a)) ∨ demo_blocks.mem (pmd_off_k demo_config demo_blocks a) = 0) →
          ∃ p, p % PMD_SIZE = 0 ∧ demo_blocks.brk ≤ p ∧ p + PMD_SIZE ≤ s2.brk ∧
            s2.mem (pmd_off_k demo_config s2 a) = p ||| s2.prot_sect_kernel) ∧
        (∀ a, 0xffffffc000200000 ≤ a → a < 0xffffffc000600000 → is_table (demo_blocks.mem (pgd_offset_k demo_config a)) →
          demo_blocks.mem (pmd_off_k demo_config demo_blocks a) ≠ 0 →
          s2.mem (pmd_off_k demo_config s2 a) = demo_blocks.mem (pmd_off_k demo_config demo_blocks a))) ∨
      (∃ s2, vmemmap_populate demo_config (fun _ _ _ _ => true) demo_blocks 0xffffffc000200000 (0xffffffc000600000 % U64) 0 = .ok (-ENOMEM, s2))) ∧
    (∀ next, is_table (demo_blocks.mem (pgd_offset_k demo_config 0xffffffc000200000)) → demo_blocks.mem (pmd_off_k demo_config demo_blocks 0xffffffc000200000) ≠ 0 →
      vmemmap_populate_body demo_config (fun _ _ _ _ => true) 0 demo_blocks 0xffffffc000200000 next = .ok (true, demo_blocks)) :=
  vmemmap_populate_entries (fun _ _ _ _ => rfl) 0 demo_blocks_inv demo_blocks_prot
    demo_blocks_clean (by decide) (by decide) (by decide)

/-- A run on the demo hierarchy with a pool of one buffer: the chunk at
`0xffffffc000200000` has an entry and keeps it, the chunk at `0xffffffc000400000`
gets the Block Mapping of the buffer at `0x80400000`, the allocation for the chunk at
`0xffffffc000600000` fails; the run returns `-ENOMEM` and the Block Mapping installed
before is still there. -/
theorem vmemmap_populate_no_rollback :
    ReturnsV (vmemmap_populate demo_config (fun _ _ _ _ => true)
        { demo_blocks with brk := 0x80400000, pool_end := 0x80600000 }
        0xffffffc000200000 0xffffffc000800000 0) (-ENOMEM) (fun s2 =>
      s2.mem 0x80001008 = 0x80200711 ∧ s2.mem 0x80001010 = 0x80400711 ∧
      s2.mem 0x80001018 = 0 ∧ s2.brk = 0x80600000) := by
  decide

/-- The same run with a pool of two buffers returns 0. -/
theorem vmemmap_populate_returns_zero :
    ReturnsV (vmemmap_populate demo_config (fun _ _ _ _ => true)
        { demo_blocks with brk := 0x80400000, pool_end := 0x80800000 }
        0xffffffc000200000 0xffffffc000800000 0) 0 (fun s2 =>
      s2.mem 0x80001008 = 0x80200711 ∧ s2.mem 0x80001010 = 0x80400711 ∧
      s2.mem 0x80001018 = 0x80600711 ∧ s2.brk = 0x80800000) := by
  decide

end Mmu
